import Mathlib

/-!
# PolledOneWire: a verification development

A shallow embedding of `PolledOneWire.cpp` (the blocking 1-Wire primitives, the
ROM search, the checksums and the `poll`-driven engine) together with theorems
about it.

Conventions of the embedding:

* `uint8_t` / `uint16_t` values are natural numbers; every operation that can
  leave the range is followed by an explicit `% 256` / `% 65536`.
* The hardware register macros (`DIRECT_MODE_INPUT`, `DIRECT_WRITE_LOW`, ...),
  `delayMicroseconds`, `micros` and the interrupt switches are the fields of a
  `Platform`; every function of the source is parametric in it.
* Arrays (`ROM_NO`, `readWriteBuffer`) are functions from the index to the byte.
* The object carries one ghost field, `calls`, that records the calls of the
  bit and byte primitives and the indices used on `readWriteBuffer`.
* Loops whose iteration count is bounded by the width of a `uint8_t` mask are
  structural recursions on a fuel argument; lemmas show the result does not
  depend on the fuel once it reaches the bound used by the caller.
-/

namespace PolledOneWire

/-! ## Platform layer -/

/-- The line actions the source performs through the register macros, the delay
routine and the interrupt switches. -/
inductive Act
  | modeInput
  | modeOutput
  | writeLow
  | writeHigh
  | delay (us : Nat)
  | noInterrupts
  | interrupts
  deriving DecidableEq, Repr

/-- The host platform: how a line action changes the world, what `DIRECT_READ`
samples and what `micros()` returns. -/
structure Platform (σ : Type) where
  act : Act → σ → σ
  sample : σ → Bool × σ
  micros : σ → Nat × σ

/-- Ghost record of primitive calls and of buffer accesses. -/
inductive Call
  | write_bit (v : Nat)
  | read_bit (r : Nat)
  | polled_write (v : Nat)
  | polled_read
  | bufRead (i : Nat)
  | bufWrite (i : Nat)
  deriving DecidableEq, Repr

/-! ## Constants of the header

The header `PolledOneWire.h` is not part of the sources at hand. -/

/-- Modelled from the spec: the poll-status flag constants of the missing header,
five independent one-bit flags (`idle` is no flag at all). -/
def ONEWIRE_POLLSTAT_NONE : Nat := 0
/-- Modelled from the spec: flag of an outstanding polled reset. -/
def ONEWIRE_POLLSTAT_RESET : Nat := 1
/-- Modelled from the spec: flag of an outstanding polled byte write. -/
def ONEWIRE_POLLSTAT_WRITE : Nat := 2
/-- Modelled from the spec: flag of an outstanding polled byte read. -/
def ONEWIRE_POLLSTAT_READ : Nat := 4
/-- Modelled from the spec: flag of an outstanding polled multi-byte write. -/
def ONEWIRE_POLLSTAT_WRITE_BYTES : Nat := 8
/-- Modelled from the spec: flag of an outstanding polled multi-byte read. -/
def ONEWIRE_POLLSTAT_READ_BYTES : Nat := 16

/-- Modelled from the spec: reset sub-state `await_line_high` of the missing header. -/
def ONEWIRE_BITSTAT_RESET_WAIT_LINE_HIGH : Nat := 1
/-- Modelled from the spec: reset sub-state `await_low_hold` of the missing header. -/
def ONEWIRE_BITSTAT_RESET_WAIT_LOW : Nat := 2
/-- Modelled from the spec: reset sub-state `await_finish` of the missing header. -/
def ONEWIRE_BITSTAT_RESET_WAIT_FINISH : Nat := 3

/-! ## The object -/

/-- The member variables of `PolledOneWire` (declared in the missing header; the
widths are the ones the code relies on: 8-bit masks, bytes and counters, a
32-bit deadline), the platform state `hw` and the ghost call record. -/
structure OneWire (σ : Type) where
  hw : σ
  ROM_NO : Nat → Nat
  LastDiscrepancy : Nat
  LastFamilyDiscrepancy : Nat
  LastDeviceFlag : Bool
  poll_status : Nat
  bit_status : Nat
  bitNextTime : Nat
  reset_result : Bool
  readWriteByte : Nat
  readWriteBitMask : Nat
  writePower : Nat
  writeBytesPower : Bool
  readWriteBuffer : Nat → Nat
  byteIndex : Nat
  byteCount : Nat
  calls : List Call

variable {σ : Type}

/-- Run a list of line actions in program order. -/
def runActs (P : Platform σ) (as : List Act) (h : σ) : σ :=
  as.foldl (fun h a => P.act a h) h

/-! ## Synchronous primitives -/

/-- Source `reset_search`: zero the search state. -/
def reset_search (s : OneWire σ) : OneWire σ :=
  { s with
    LastDiscrepancy := 0
    LastDeviceFlag := false
    LastFamilyDiscrepancy := 0
    ROM_NO := fun i => if i < 8 then 0 else s.ROM_NO i }

/-- Source constructor: the pin is an input, no poll flag is set, the search
state is reset. (`pinMode(pin, INPUT)` is the line action `modeInput`.) -/
def construct (P : Platform σ) (h : σ) : OneWire σ :=
  reset_search
    { hw := P.act Act.modeInput h
      ROM_NO := fun _ => 0
      LastDiscrepancy := 0
      LastFamilyDiscrepancy := 0
      LastDeviceFlag := false
      poll_status := ONEWIRE_POLLSTAT_NONE
      bit_status := 0
      bitNextTime := 0
      reset_result := false
      readWriteByte := 0
      readWriteBitMask := 0
      writePower := 0
      writeBytesPower := false
      readWriteBuffer := fun _ => 0
      byteIndex := 0
      byteCount := 0
      calls := [] }

/-- The wait loop of `reset`: `do { if (--retries == 0) return 0;
delayMicroseconds(2); } while (!DIRECT_READ)`. The argument is the value of
`retries` before the decrement; it starts at 125, so the decrement never wraps.
The result is `false` when the loop returned 0. -/
def reset_wait (P : Platform σ) : Nat → σ → Bool × σ
  | 0, h => (false, h)
  | r + 1, h =>
    if r = 0 then (false, h)
    else
      let b := P.sample (P.act (Act.delay 2) h)
      if b.1 then (true, b.2) else reset_wait P r b.2

/-- Source `reset`: returns 1 when a device asserted a presence pulse. -/
def reset (P : Platform σ) (s : OneWire σ) : Nat × OneWire σ :=
  let h := runActs P [Act.noInterrupts, Act.modeInput, Act.interrupts] s.hw
  let w := reset_wait P 125 h
  if w.1 then
    let h := runActs P [Act.noInterrupts, Act.writeLow, Act.modeOutput, Act.interrupts,
      Act.delay 500, Act.noInterrupts, Act.modeInput, Act.delay 80] w.2
    let b := P.sample h
    let r := if b.1 then 0 else 1
    let h := runActs P [Act.interrupts, Act.delay 420] b.2
    (r, { s with hw := h })
  else (0, { s with hw := w.2 })

/-- Source `write_bit`. -/
def write_bit (P : Platform σ) (v : Nat) (s : OneWire σ) : OneWire σ :=
  if v &&& 1 ≠ 0 then
    { s with
      hw := runActs P [Act.noInterrupts, Act.writeLow, Act.modeOutput, Act.delay 10,
        Act.writeHigh, Act.interrupts, Act.delay 55] s.hw
      calls := s.calls ++ [Call.write_bit v] }
  else
    { s with
      hw := runActs P [Act.noInterrupts, Act.writeLow, Act.modeOutput, Act.delay 65,
        Act.writeHigh, Act.interrupts, Act.delay 5] s.hw
      calls := s.calls ++ [Call.write_bit v] }

/-- Source `read_bit`: the sampled level, 1 for high. -/
def read_bit (P : Platform σ) (s : OneWire σ) : Nat × OneWire σ :=
  let h := runActs P [Act.noInterrupts, Act.modeOutput, Act.writeLow, Act.delay 3,
    Act.modeInput, Act.delay 10] s.hw
  let b := P.sample h
  let r := if b.1 then 1 else 0
  let h := runActs P [Act.interrupts, Act.delay 53] b.2
  (r, { s with hw := h, calls := s.calls ++ [Call.read_bit r] })

/-- The two register writes that leave the line floating with the latch low
(`DIRECT_MODE_INPUT; DIRECT_WRITE_LOW` between the interrupt switches). -/
def release_line (P : Platform σ) (s : OneWire σ) : OneWire σ :=
  { s with hw := runActs P [Act.noInterrupts, Act.modeInput, Act.writeLow, Act.interrupts] s.hw }

/-- The loop of `write`: `for (bitMask = 0x01; bitMask; bitMask <<= 1)`. -/
def write_loop (P : Platform σ) (v : Nat) : Nat → Nat → OneWire σ → OneWire σ
  | 0, _, s => s
  | fuel + 1, bitMask, s =>
    if bitMask = 0 then s
    else
      write_loop P v fuel ((bitMask <<< 1) % 256)
        (write_bit P (if bitMask &&& v ≠ 0 then 1 else 0) s)

/-- Source `write`. -/
def write (P : Platform σ) (v : Nat) (power : Nat) (s : OneWire σ) : OneWire σ :=
  let s := write_loop P v 8 0x01 s
  if power = 0 then release_line P s else s

/-- The loop of `write_bytes`: `for (i = 0; i < count; i++) write(buf[i])`. -/
def write_bytes_loop (P : Platform σ) (buf : Nat → Nat) (count : Nat) :
    Nat → Nat → OneWire σ → OneWire σ
  | 0, _, s => s
  | fuel + 1, i, s =>
    if i < count then write_bytes_loop P buf count fuel (i + 1) (write P (buf i) 0 s)
    else s

/-- Source `write_bytes` (`count` is a `uint16_t`; the loop runs `count` times). -/
def write_bytes (P : Platform σ) (buf : Nat → Nat) (count : Nat) (power : Bool)
    (s : OneWire σ) : OneWire σ :=
  let s := write_bytes_loop P buf count count 0 s
  if !power then release_line P s else s

/-- The loop of `read`: `for (bitMask = 0x01; bitMask; bitMask <<= 1)`. -/
def read_loop (P : Platform σ) : Nat → Nat → Nat → OneWire σ → Nat × OneWire σ
  | 0, _, r, s => (r, s)
  | fuel + 1, bitMask, r, s =>
    if bitMask = 0 then (r, s)
    else
      let b := read_bit P s
      read_loop P fuel ((bitMask <<< 1) % 256) (if b.1 ≠ 0 then r ||| bitMask else r) b.2

/-- Source `read`. -/
def read (P : Platform σ) (s : OneWire σ) : Nat × OneWire σ :=
  read_loop P 8 0x01 0 s

/-- The loop of `read_bytes`; the bytes read are returned in order. -/
def read_bytes_loop (P : Platform σ) : Nat → OneWire σ → List Nat × OneWire σ
  | 0, s => ([], s)
  | n + 1, s =>
    let b := read P s
    let bs := read_bytes_loop P n b.2
    (b.1 :: bs.1, bs.2)

/-- Source `read_bytes`: `buf[i] = read()` for `i < count`. -/
def read_bytes (P : Platform σ) (count : Nat) (s : OneWire σ) : List Nat × OneWire σ :=
  read_bytes_loop P count s

/-- The loop of `select`: `for (i = 0; i < 8; i++) write(rom[i])`. -/
def select_loop (P : Platform σ) (rom : Nat → Nat) : Nat → Nat → OneWire σ → OneWire σ
  | 0, _, s => s
  | fuel + 1, i, s =>
    if i < 8 then select_loop P rom fuel (i + 1) (write P (rom i) 0 s) else s

/-- Source `select`. -/
def select (P : Platform σ) (rom : Nat → Nat) (s : OneWire σ) : OneWire σ :=
  select_loop P rom 8 0 (write P 0x55 0 s)

/-- Source `skip`. -/
def skip (P : Platform σ) (s : OneWire σ) : OneWire σ :=
  write P 0xCC 0 s

/-- Source `depower`. -/
def depower (P : Platform σ) (s : OneWire σ) : OneWire σ :=
  { s with hw := runActs P [Act.noInterrupts, Act.modeInput, Act.interrupts] s.hw }

/-! ## Search -/

/-- The local variables of `search` that live across loop iterations. -/
structure SearchLocals where
  id_bit_number : Nat
  last_zero : Nat
  rom_byte_number : Nat
  rom_byte_mask : Nat
  deriving DecidableEq, Repr

/-- The direction choice inside the loop of `search` (the code between the
`1, 1` test and the update of `ROM_NO`): the direction, and the locals and the
object after recording a chosen zero. -/
def search_choose (id_bit cmp_id_bit : Nat) (l : SearchLocals) (s : OneWire σ) :
    Nat × SearchLocals × OneWire σ :=
  if id_bit ≠ cmp_id_bit then (id_bit, l, s)
  else
    let search_direction :=
      if l.id_bit_number < s.LastDiscrepancy then
        (if s.ROM_NO l.rom_byte_number &&& l.rom_byte_mask > 0 then 1 else 0)
      else
        (if l.id_bit_number = s.LastDiscrepancy then 1 else 0)
    if search_direction = 0 then
      let l := { l with last_zero := l.id_bit_number }
      if l.last_zero < 9 then
        (search_direction, l, { s with LastFamilyDiscrepancy := l.last_zero })
      else (search_direction, l, s)
    else (search_direction, l, s)

/-- Set or clear the bit of `ROM_NO[rom_byte_number]` under `rom_byte_mask`. -/
def search_store (search_direction : Nat) (l : SearchLocals) (s : OneWire σ) : OneWire σ :=
  if search_direction = 1 then
    { s with
      ROM_NO := Function.update s.ROM_NO l.rom_byte_number
        (s.ROM_NO l.rom_byte_number ||| l.rom_byte_mask) }
  else
    { s with
      ROM_NO := Function.update s.ROM_NO l.rom_byte_number
        (s.ROM_NO l.rom_byte_number &&& (l.rom_byte_mask ^^^ 0xFF)) }

/-- The counter updates at the end of a round: `id_bit_number++`,
`rom_byte_mask <<= 1`, and the move to the next byte when the mask is 0. -/
def search_advance (l : SearchLocals) : SearchLocals :=
  let l := { l with
    id_bit_number := (l.id_bit_number + 1) % 256
    rom_byte_mask := (l.rom_byte_mask <<< 1) % 256 }
  if l.rom_byte_mask = 0 then
    { l with rom_byte_number := (l.rom_byte_number + 1) % 256, rom_byte_mask := 1 }
  else l

/-- The `do { ... } while (rom_byte_number < 8)` loop of `search`. Each round
reads a bit and its complement, leaves on `1, 1` (the `break`), and otherwise
chooses the direction, stores it in `ROM_NO`, writes it and advances. -/
def search_loop (P : Platform σ) : Nat → SearchLocals → OneWire σ → SearchLocals × OneWire σ
  | 0, l, s => (l, s)
  | fuel + 1, l, s =>
    let id_bit := read_bit P s
    let cmp_id_bit := read_bit P id_bit.2
    if id_bit.1 = 1 ∧ cmp_id_bit.1 = 1 then (l, cmp_id_bit.2)
    else
      let c := search_choose id_bit.1 cmp_id_bit.1 l cmp_id_bit.2
      let s := write_bit P c.1 (search_store c.1 c.2.1 c.2.2)
      let l := search_advance c.2.1
      if l.rom_byte_number < 8 then search_loop P fuel l s else (l, s)

/-- The epilogue of `search`: reset the counters when nothing was found, copy
`ROM_NO` to `newAddr`, return `search_result`. -/
def search_finish (search_result : Nat) (newAddr : Nat → Nat) (s : OneWire σ) :
    Nat × (Nat → Nat) × OneWire σ :=
  if search_result = 0 ∨ s.ROM_NO 0 = 0 then
    (0, (fun i => if i < 8 then s.ROM_NO i else newAddr i),
      { s with LastDiscrepancy := 0, LastDeviceFlag := false, LastFamilyDiscrepancy := 0 })
  else (search_result, (fun i => if i < 8 then s.ROM_NO i else newAddr i), s)

/-- Source `search`. The caller's buffer `newAddr` goes in and comes out; the
first component is the value returned. -/
def search (P : Platform σ) (newAddr : Nat → Nat) (s : OneWire σ) :
    Nat × (Nat → Nat) × OneWire σ :=
  let l : SearchLocals :=
    { id_bit_number := 1, last_zero := 0, rom_byte_number := 0, rom_byte_mask := 1 }
  if !s.LastDeviceFlag then
    let r := reset P s
    let s := r.2
    if r.1 = 0 then
      (0, newAddr,
        { s with LastDiscrepancy := 0, LastDeviceFlag := false, LastFamilyDiscrepancy := 0 })
    else
      let s := write P 0xF0 0 s
      let ls := search_loop P 64 l s
      let l := ls.1
      let s := ls.2
      if ¬ (l.id_bit_number < 65) then
        let s := { s with LastDiscrepancy := l.last_zero }
        let s := if s.LastDiscrepancy = 0 then { s with LastDeviceFlag := true } else s
        search_finish 1 newAddr s
      else search_finish 0 newAddr s
  else search_finish 0 newAddr s

/-! ## Checksums -/

/-- Source `dscrc_table`. -/
def dscrc_table : List Nat := [
      0, 94,188,226, 97, 63,221,131,194,156,126, 32,163,253, 31, 65,
    157,195, 33,127,252,162, 64, 30, 95,  1,227,189, 62, 96,130,220,
     35,125,159,193, 66, 28,254,160,225,191, 93,  3,128,222, 60, 98,
    190,224,  2, 92,223,129, 99, 61,124, 34,192,158, 29, 67,161,255,
     70, 24,250,164, 39,121,155,197,132,218, 56,102,229,187, 89,  7,
    219,133,103, 57,186,228,  6, 88, 25, 71,165,251,120, 38,196,154,
    101, 59,217,135,  4, 90,184,230,167,249, 27, 69,198,152,122, 36,
    248,166, 68, 26,153,199, 37,123, 58,100,134,216, 91,  5,231,185,
    140,210, 48,110,237,179, 81, 15, 78, 16,242,172, 47,113,147,205,
     17, 79,173,243,112, 46,204,146,211,141,111, 49,178,236, 14, 80,
    175,241, 19, 77,206,144,114, 44,109, 51,209,143, 12, 82,176,238,
     50,108,142,208, 83, 13,239,177,240,174, 76, 18,145,207, 45,115,
    202,148,118, 40,171,245, 23, 73,  8, 86,180,234,105, 55,213,139,
     87,  9,235,181, 54,104,138,212,149,203, 41,119,244,170, 72, 22,
    233,183, 85, 11,136,214, 52,106, 43,117,151,201, 74, 20,246,168,
    116, 42,200,150, 21, 75,169,247,182,232, 10, 84,215,137,107, 53]

/-- The loop of the table-driven `crc8`, over the bytes still to read. -/
def crc8_table_loop : List Nat → Nat → Nat
  | [], crc => crc
  | b :: rest, crc => crc8_table_loop rest (dscrc_table.getD (crc ^^^ b) 0)

/-- Source `crc8`, the `ONEWIRE_CRC8_TABLE` variant; `addr` holds the `len` bytes. -/
def crc8_table (addr : List Nat) : Nat :=
  crc8_table_loop addr 0

/-- The inner loop of the bitwise `crc8`: `for (i = 8; i; i--)`. -/
def crc8_bits : Nat → Nat → Nat → Nat
  | 0, crc, _ => crc
  | i + 1, crc, inbyte =>
    let mix := (crc ^^^ inbyte) &&& 0x01
    let crc := crc >>> 1
    let crc := if mix ≠ 0 then crc ^^^ 0x8C else crc
    crc8_bits i crc (inbyte >>> 1)

/-- The outer loop of the bitwise `crc8`. -/
def crc8_bitwise_loop : List Nat → Nat → Nat
  | [], crc => crc
  | inbyte :: rest, crc => crc8_bitwise_loop rest (crc8_bits 8 crc inbyte)

/-- Source `crc8`, the variant without table. -/
def crc8_bitwise (addr : List Nat) : Nat :=
  crc8_bitwise_loop addr 0

/-- Source table `oddparity` of `crc16`. -/
def oddparity : List Nat := [0, 1, 1, 0, 1, 0, 0, 1, 1, 0, 0, 1, 0, 1, 1, 0]

/-- One round of the loop of `crc16`. -/
def crc16_step (crc : Nat) (inp : Nat) : Nat :=
  let cdata := inp % 65536
  let cdata := (cdata ^^^ (crc &&& 0xff)) &&& 0xff
  let crc := crc >>> 8
  let crc :=
    if oddparity.getD (cdata &&& 0x0F) 0 ^^^ oddparity.getD (cdata >>> 4) 0 ≠ 0 then
      crc ^^^ 0xC001
    else crc
  let cdata := (cdata <<< 6) % 65536
  let crc := crc ^^^ cdata
  let cdata := (cdata <<< 1) % 65536
  let crc := crc ^^^ cdata
  crc

/-- Source `crc16`; `input` holds the `len` bytes. -/
def crc16 (input : List Nat) : Nat :=
  input.foldl crc16_step 0

/-- Source `check_crc16`; `inv0`, `inv1` are `inverted_crc[0]`, `inverted_crc[1]`. -/
def check_crc16 (input : List Nat) (inv0 inv1 : Nat) : Bool :=
  let crc := (crc16 input ^^^ 0xFFFF) % 65536
  (crc &&& 0xFF) == inv0 && (crc >>> 8) == inv1

/-! ## The poll-driven engine -/

/-- The test `(long)(micros() - bitNextTime) >= 0` on a 32-bit clock: the
difference is taken modulo 2^32 and read as a signed number. -/
def deadline_reached (now bitNextTime : Nat) : Bool :=
  (now % 2 ^ 32 + 2 ^ 32 - bitNextTime % 2 ^ 32) % 2 ^ 32 < 2 ^ 31

/-- Source `polled_reset`. -/
def polled_reset (P : Platform σ) (s : OneWire σ) : OneWire σ :=
  let s := { s with poll_status := s.poll_status ||| ONEWIRE_POLLSTAT_RESET }
  let h := runActs P [Act.noInterrupts, Act.modeInput, Act.interrupts] s.hw
  let r := P.sample h
  if r.1 then
    let h := runActs P [Act.noInterrupts, Act.writeLow, Act.modeOutput, Act.interrupts] r.2
    let t := P.micros h
    { s with
      hw := t.2
      bitNextTime := (t.1 % 2 ^ 32 + 500) % 2 ^ 32
      bit_status := ONEWIRE_BITSTAT_RESET_WAIT_LOW }
  else
    let t := P.micros r.2
    { s with
      hw := t.2
      bitNextTime := (t.1 % 2 ^ 32 + 250) % 2 ^ 32
      bit_status := ONEWIRE_BITSTAT_RESET_WAIT_LINE_HIGH }

/-- Source `polled_write`. -/
def polled_write (P : Platform σ) (v : Nat) (power : Nat) (s : OneWire σ) : OneWire σ :=
  let s := { s with
    readWriteByte := v
    writePower := power
    poll_status := s.poll_status ||| ONEWIRE_POLLSTAT_WRITE
    calls := s.calls ++ [Call.polled_write v] }
  let s := { s with readWriteBitMask := 0x01 }
  let s := write_bit P (if s.readWriteBitMask &&& s.readWriteByte ≠ 0 then 1 else 0) s
  { s with readWriteBitMask := (s.readWriteBitMask <<< 1) % 256 }

/-- Source `polled_read`. -/
def polled_read (P : Platform σ) (s : OneWire σ) : OneWire σ :=
  let s := { s with
    readWriteByte := 0
    poll_status := s.poll_status ||| ONEWIRE_POLLSTAT_READ
    readWriteBitMask := 0x01
    calls := s.calls ++ [Call.polled_read] }
  let r := read_bit P s
  let s := r.2
  let s := if r.1 ≠ 0 then { s with readWriteByte := s.readWriteByte ||| s.readWriteBitMask } else s
  { s with readWriteBitMask := (s.readWriteBitMask <<< 1) % 256 }

/-- Source `polled_skip`. -/
def polled_skip (P : Platform σ) (s : OneWire σ) : OneWire σ :=
  polled_write P 0xCC 0 s

/-- Source `polled_write_bytes`; `bufLen` is `ONEWIRE_MAX_READ_WRITE_BUFFER_LEN`,
the length of `readWriteBuffer`. `memcpy` writes the indices below `byteCount`. -/
def polled_write_bytes (P : Platform σ) (bufLen : Nat) (buf : Nat → Nat) (count : Nat)
    (power : Bool) (s : OneWire σ) : OneWire σ :=
  let s := { s with byteCount := (min count bufLen) % 256 }
  let s := { s with
    readWriteBuffer := fun i => if i < s.byteCount then buf i else s.readWriteBuffer i
    calls := s.calls ++ (List.range s.byteCount).map Call.bufWrite }
  let s := { s with
    byteIndex := 0
    writeBytesPower := power
    poll_status := s.poll_status ||| ONEWIRE_POLLSTAT_WRITE_BYTES }
  let s := polled_write P (s.readWriteBuffer s.byteIndex) 0
    { s with calls := s.calls ++ [Call.bufRead s.byteIndex] }
  { s with byteIndex := (s.byteIndex + 1) % 256 }

/-- Source `polled_read_bytes`; `bufLen` is `ONEWIRE_MAX_READ_WRITE_BUFFER_LEN`. -/
def polled_read_bytes (P : Platform σ) (bufLen : Nat) (count : Nat) (s : OneWire σ) :
    OneWire σ :=
  let s := { s with
    byteCount := (min count bufLen) % 256
    byteIndex := 0
    poll_status := s.poll_status ||| ONEWIRE_POLLSTAT_READ_BYTES }
  polled_read P s

/-- Source `polled_select`: a polled write of `0x55` and the 8 bytes of `rom`. -/
def polled_select (P : Platform σ) (bufLen : Nat) (rom : Nat → Nat) (s : OneWire σ) :
    OneWire σ :=
  let tmp : Nat → Nat := fun i => if i = 0 then 0x55 else rom (i - 1)
  polled_write_bytes P bufLen tmp 9 false s

/-- Clear a flag of `poll_status`: `poll_status &= ~flag`. -/
def clear_flag (status flag : Nat) : Nat :=
  status &&& (flag ^^^ 0xFF)

/-- The branch of `poll` for an outstanding reset. -/
def poll_reset (P : Platform σ) (s : OneWire σ) : OneWire σ :=
  if s.bit_status = ONEWIRE_BITSTAT_RESET_WAIT_LINE_HIGH then
    let r := P.sample s.hw
    if !r.1 then
      let t := P.micros r.2
      if deadline_reached t.1 s.bitNextTime then
        { s with
          hw := t.2
          poll_status := clear_flag s.poll_status ONEWIRE_POLLSTAT_RESET
          reset_result := false }
      else { s with hw := t.2 }
    else
      let h := runActs P [Act.noInterrupts, Act.writeLow, Act.modeOutput, Act.interrupts] r.2
      let t := P.micros h
      { s with
        hw := t.2
        bitNextTime := (t.1 % 2 ^ 32 + 500) % 2 ^ 32
        bit_status := ONEWIRE_BITSTAT_RESET_WAIT_LOW }
  else if s.bit_status = ONEWIRE_BITSTAT_RESET_WAIT_LOW then
    let t := P.micros s.hw
    if !deadline_reached t.1 s.bitNextTime then { s with hw := t.2 }
    else
      let h := runActs P [Act.noInterrupts, Act.modeInput, Act.delay 80] t.2
      let r := P.sample h
      let h := runActs P [Act.interrupts] r.2
      let t := P.micros h
      { s with
        hw := t.2
        reset_result := !r.1
        bitNextTime := (t.1 % 2 ^ 32 + 420) % 2 ^ 32
        bit_status := ONEWIRE_BITSTAT_RESET_WAIT_FINISH }
  else if s.bit_status = ONEWIRE_BITSTAT_RESET_WAIT_FINISH then
    let t := P.micros s.hw
    if !deadline_reached t.1 s.bitNextTime then { s with hw := t.2 }
    else
      { s with hw := t.2, poll_status := clear_flag s.poll_status ONEWIRE_POLLSTAT_RESET }
  else s

/-- The branch of `poll` for an outstanding byte write. -/
def poll_write (P : Platform σ) (s : OneWire σ) : OneWire σ :=
  let s := write_bit P (if s.readWriteBitMask &&& s.readWriteByte ≠ 0 then 1 else 0) s
  let s := { s with readWriteBitMask := (s.readWriteBitMask <<< 1) % 256 }
  if s.readWriteBitMask ≠ 0 then s
  else
    let s := if s.writePower = 0 then release_line P s else s
    { s with poll_status := clear_flag s.poll_status ONEWIRE_POLLSTAT_WRITE }

/-- The branch of `poll` for an outstanding byte read. -/
def poll_read (P : Platform σ) (s : OneWire σ) : OneWire σ :=
  let r := read_bit P s
  let s := r.2
  let s := if r.1 ≠ 0 then { s with readWriteByte := s.readWriteByte ||| s.readWriteBitMask } else s
  let s := { s with readWriteBitMask := (s.readWriteBitMask <<< 1) % 256 }
  if s.readWriteBitMask ≠ 0 then s
  else { s with poll_status := clear_flag s.poll_status ONEWIRE_POLLSTAT_READ }

/-- The branch of `poll` for an outstanding multi-byte write. -/
def poll_write_bytes (P : Platform σ) (s : OneWire σ) : OneWire σ :=
  let s := polled_write P (s.readWriteBuffer s.byteIndex) 0
    { s with calls := s.calls ++ [Call.bufRead s.byteIndex] }
  let s := { s with byteIndex := (s.byteIndex + 1) % 256 }
  if s.byteIndex < s.byteCount then s
  else
    let s := { s with poll_status := clear_flag s.poll_status ONEWIRE_POLLSTAT_WRITE_BYTES }
    if !s.writeBytesPower then release_line P s else s

/-- The branch of `poll` for an outstanding multi-byte read. -/
def poll_read_bytes (P : Platform σ) (s : OneWire σ) : OneWire σ :=
  let s := { s with
    readWriteBuffer := Function.update s.readWriteBuffer s.byteIndex s.readWriteByte
    calls := s.calls ++ [Call.bufWrite s.byteIndex] }
  let s := { s with byteIndex := (s.byteIndex + 1) % 256 }
  if s.byteIndex = s.byteCount then
    { s with poll_status := clear_flag s.poll_status ONEWIRE_POLLSTAT_READ_BYTES }
  else polled_read P s

/-- Source `poll`: the first branch whose flag is set runs, and only that one. -/
def poll (P : Platform σ) (s : OneWire σ) : OneWire σ :=
  if s.poll_status &&& ONEWIRE_POLLSTAT_RESET ≠ 0 then poll_reset P s
  else if s.poll_status &&& ONEWIRE_POLLSTAT_WRITE ≠ 0 then poll_write P s
  else if s.poll_status &&& ONEWIRE_POLLSTAT_READ ≠ 0 then poll_read P s
  else if s.poll_status &&& ONEWIRE_POLLSTAT_WRITE_BYTES ≠ 0 then poll_write_bytes P s
  else if s.poll_status &&& ONEWIRE_POLLSTAT_READ_BYTES ≠ 0 then poll_read_bytes P s
  else s

/-- Call `poll` a number of times. -/
def polls (P : Platform σ) : Nat → OneWire σ → OneWire σ
  | 0, s => s
  | n + 1, s => polls P n (poll P s)

/-! ## A simulated bus with devices

The test fixture of the search claims: a line with a pull-up, the master pin
and a set of slave devices that follow the 1-Wire protocol in lock step. The
devices see the low pulses of the master: a pulse of at least 480 us is a
reset, a pulse of at most 15 us is a read slot or a written 1, any other pulse
is a written 0. A device answers a reset with a presence pulse and, once the
command `0xF0` has arrived, sends in each round the current bit of its address,
then the complement, then reads the direction and leaves the search when its
bit differs. The line is low while the master or any device pulls it low. -/

/-- What the devices are doing: nothing, receiving the command byte, or in
round `pos` of a search at step `phase` (0: send bit, 1: send complement,
2: read the direction). -/
inductive Proto
  | idle
  | command (bits : List Bool)
  | search (pos : Nat) (phase : Nat)
  deriving DecidableEq, Repr

/-- The simulated bus: the connected device addresses (bit 0 of the number is
the first bit on the wire), the master pin, the time the master has held the
line low, the time some device still holds it low, and the device protocol
state with the devices still taking part in the search. -/
structure SimBus where
  devices : List Nat
  outMode : Bool
  latch : Bool
  lowTime : Nat
  pull : Nat
  clock : Nat
  active : List Nat
  proto : Proto
  deriving DecidableEq, Repr

/-- The master pulls the line low: the pin is an output and its latch is low. -/
def SimBus.drivingLow (b : SimBus) : Bool :=
  b.outMode && !b.latch

/-- The bits of the search command `0xF0`, first on the wire first. -/
def searchCommandBits : List Bool :=
  [false, false, false, false, true, true, true, true]

/-- The devices react to the end of a low pulse of the master that lasted `t` us. -/
def SimBus.slotEnd (t : Nat) (b : SimBus) : SimBus :=
  if 480 ≤ t then
    { b with
      active := b.devices
      proto := Proto.command []
      pull := if b.devices.isEmpty then 0 else 240 }
  else
    let one := decide (t ≤ 15)
    match b.proto with
    | Proto.idle => b
    | Proto.command bits =>
      if bits.length + 1 = 8 then
        if bits ++ [one] = searchCommandBits then
          { b with active := b.devices, proto := Proto.search 0 0 }
        else { b with proto := Proto.idle }
      else { b with proto := Proto.command (bits ++ [one]) }
    | Proto.search pos 0 =>
      { b with
        pull := if b.active.any (fun d => !d.testBit pos) then 45 else 0
        proto := Proto.search pos 1 }
    | Proto.search pos 1 =>
      { b with
        pull := if b.active.any (fun d => d.testBit pos) then 45 else 0
        proto := Proto.search pos 2 }
    | Proto.search pos _ =>
      { b with
        active := b.active.filter (fun d => d.testBit pos == one)
        proto := if pos + 1 < 64 then Proto.search (pos + 1) 0 else Proto.idle }

/-- A change of the master pin: a falling edge starts a pulse, a release ends it. -/
def SimBus.pinChange (b b' : SimBus) : SimBus :=
  if !b.drivingLow && b'.drivingLow then { b' with lowTime := 0 }
  else if b.drivingLow && !b'.drivingLow then SimBus.slotEnd b.lowTime b'
  else b'

/-- The simulated bus as a platform. -/
def SimBus.act (a : Act) (b : SimBus) : SimBus :=
  match a with
  | Act.modeInput => SimBus.pinChange b { b with outMode := false }
  | Act.modeOutput => SimBus.pinChange b { b with outMode := true }
  | Act.writeLow => SimBus.pinChange b { b with latch := false }
  | Act.writeHigh => SimBus.pinChange b { b with latch := true }
  | Act.delay us =>
    { b with
      lowTime := if b.drivingLow then b.lowTime + us else b.lowTime
      pull := b.pull - us
      clock := b.clock + us }
  | Act.noInterrupts => b
  | Act.interrupts => b

/-- The level of the simulated line: high unless the master or a device pulls it low. -/
def SimBus.sample (b : SimBus) : Bool × SimBus :=
  (!b.drivingLow && b.pull == 0, b)

/-- The platform of the simulated bus. -/
def simPlatform : Platform SimBus where
  act := SimBus.act
  sample := SimBus.sample
  micros := fun b => (b.clock, b)

/-- A quiet bus holding the devices `D`: nobody pulls the line low. -/
def simBus (D : List Nat) : SimBus :=
  { devices := D, outMode := false, latch := false, lowTime := 0, pull := 0, clock := 0,
    active := [], proto := Proto.idle }

/-- The number with the given little-endian bytes. -/
def bytesToNat : List Nat → Nat
  | [] => 0
  | b :: bs => b + 256 * bytesToNat bs

/-- The 64-bit number whose little-endian bytes are the 8 bytes of an address
buffer: bit 0 of byte 0, the first bit on the wire, is the least significant. -/
def addrToNat (a : Nat → Nat) : Nat :=
  bytesToNat [a 0, a 1, a 2, a 3, a 4, a 5, a 6, a 7]

/-- Call `search` a number of times on the same object, each time with a fresh
zeroed buffer; the list holds, per call and in order, the value returned and
the address copied out. -/
def searches (P : Platform σ) : Nat → OneWire σ → List (Nat × Nat)
  | 0, _ => []
  | n + 1, s =>
    let r := search P (fun _ => 0) s
    (r.1, addrToNat r.2.1) :: searches P n r.2.2

/-- The enumeration of the claims: a freshly constructed object on the
simulated bus with devices `D`, `reset_search()`, then `n` calls of `search`. -/
def enumerate (D : List Nat) (n : Nat) : List (Nat × Nat) :=
  searches simPlatform n (reset_search (construct simPlatform (simBus D)))

/-! ## A scripted, recording line

The test fixture of the framing claims: `DIRECT_READ` returns the scripted
levels in order (high, the idle level, once the script is exhausted), every
line action is recorded, and delays advance the clock. -/

/-- The scripted line. -/
structure Line where
  samples : List Bool
  trace : List Act
  clock : Nat
  deriving DecidableEq, Repr

/-- The scripted line as a platform. -/
def linePlatform : Platform Line where
  act := fun a l =>
    { l with
      trace := l.trace ++ [a]
      clock := match a with
        | Act.delay us => l.clock + us
        | _ => l.clock }
  sample := fun l => (l.samples.headD true, { l with samples := l.samples.tail })
  micros := fun l => (l.clock, l)

/-- The values passed to `write_bit`, in call order. -/
def writtenBits : List Call → List Nat
  | [] => []
  | Call.write_bit v :: cs => v :: writtenBits cs
  | _ :: cs => writtenBits cs

/-- The values returned by `read_bit`, in call order. -/
def sampledBits : List Call → List Nat
  | [] => []
  | Call.read_bit r :: cs => r :: sampledBits cs
  | _ :: cs => sampledBits cs

/-- A number of successive `read_bit` calls: the values returned, in order, and
the object afterwards. -/
def read_bits (P : Platform σ) : Nat → OneWire σ → List Nat × OneWire σ
  | 0, s => ([], s)
  | n + 1, s =>
    let r := read_bit P s
    let rs := read_bits P n r.2
    (r.1 :: rs.1, rs.2)

/-- The bytes passed to `polled_write`, in call order. -/
def polledWrites : List Call → List Nat
  | [] => []
  | Call.polled_write v :: cs => v :: polledWrites cs
  | _ :: cs => polledWrites cs

/-- The number of calls of `polled_read`. -/
def polledReads : List Call → Nat
  | [] => 0
  | Call.polled_read :: cs => polledReads cs + 1
  | _ :: cs => polledReads cs

/-- The indices used on `readWriteBuffer`, reads and writes, in order. -/
def bufIndices : List Call → List Nat
  | [] => []
  | Call.bufRead i :: cs => i :: bufIndices cs
  | Call.bufWrite i :: cs => i :: bufIndices cs
  | _ :: cs => bufIndices cs

/-- The 8 bits of a byte, least significant first. -/
def bitsLSB (b : Nat) : List Nat :=
  (List.range 8).map (fun i => b / 2 ^ i % 2)

/-- The byte assembled from bits given least significant first. -/
def assembleLSB : List Nat → Nat
  | [] => 0
  | x :: xs => x % 2 + 2 * assembleLSB xs

/-- The bits of the first `n` bytes of a buffer, each byte least significant
bit first. -/
def bytesBits (buf : Nat → Nat) : Nat → List Nat
  | 0 => []
  | n + 1 => bytesBits buf n ++ bitsLSB (buf n)

/-- The `n` bytes assembled from a bit sequence, eight bits per byte, each byte
least significant bit first. -/
def bytesOfBits : Nat → List Nat → List Nat
  | 0, _ => []
  | n + 1, bits => assembleLSB (bits.take 8) :: bytesOfBits n (bits.drop 8)

/-- The accumulation of `read`: the mask is ORed in for every bit that is set,
and shifted as an 8-bit value after every bit. -/
def orMasks : List Nat → Nat → Nat → Nat
  | [], _, r => r
  | b :: bs, mask, r => orMasks bs ((mask <<< 1) % 256) (if b ≠ 0 then r ||| mask else r)

/-- A line on which the given bit values will be sampled, in order. -/
def loopback (bits : List Nat) : Line :=
  { samples := bits.map (fun v => decide (v ≠ 0)), trace := [], clock := 0 }

/-! ## Derived definitions used by the proofs -/

/-- The line actions of `write_bit`, as a function of the platform state. -/
def write_bit_hw (P : Platform σ) (v : Nat) (h : σ) : σ :=
  if v &&& 1 ≠ 0 then
    runActs P [Act.noInterrupts, Act.writeLow, Act.modeOutput, Act.delay 10,
      Act.writeHigh, Act.interrupts, Act.delay 55] h
  else
    runActs P [Act.noInterrupts, Act.writeLow, Act.modeOutput, Act.delay 65,
      Act.writeHigh, Act.interrupts, Act.delay 5] h

/-- The line actions and the sample of `read_bit`, as a function of the platform state. -/
def read_bit_hw (P : Platform σ) (h : σ) : Nat × σ :=
  let b := P.sample (runActs P [Act.noInterrupts, Act.modeOutput, Act.writeLow, Act.delay 3,
    Act.modeInput, Act.delay 10] h)
  (if b.1 then 1 else 0, runActs P [Act.interrupts, Act.delay 53] b.2)

/-- The line actions of `release_line`, as a function of the platform state. -/
def release_hw (P : Platform σ) (h : σ) : σ :=
  runActs P [Act.noInterrupts, Act.modeInput, Act.writeLow, Act.interrupts] h

/-- The values `write` and the polled byte write pass to `write_bit` for the
byte `v`: the mask tests under the masks 1, 2, ..., 128. -/
def maskBits (v : Nat) : List Nat :=
  [1, 2, 4, 8, 16, 32, 64, 128].map (fun m => if m &&& v ≠ 0 then 1 else 0)

/-- A sequence of write slots, as a function of the platform state. -/
def write_bits_hw (P : Platform σ) : List Nat → σ → σ
  | [], h => h
  | b :: bs, h => write_bits_hw P bs (write_bit_hw P b h)

/-- The line actions of a whole byte write: eight write slots, then the release
of the line unless `power` is set. -/
def byte_hw (P : Platform σ) (v power : Nat) (h : σ) : σ :=
  if power = 0 then release_hw P (write_bits_hw P (maskBits v) h)
  else write_bits_hw P (maskBits v) h

/-- A number of read slots, as a function of the platform state: the sampled
values in order and the state afterwards. -/
def read_bits_hw (P : Platform σ) : Nat → σ → List Nat × σ
  | 0, h => ([], h)
  | n + 1, h =>
    let r := read_bit_hw P h
    let rs := read_bits_hw P n r.2
    (r.1 :: rs.1, rs.2)

/-- The line and the call record after the first `i` bytes of a polled
multi-byte write, none of them the last: per byte the buffer read, the
`polled_write` call and the eight write slots, and the release of the line. -/
def wbytes_run (P : Platform σ) (B : Nat → Nat) : Nat → σ × List Call → σ × List Call
  | 0, x => x
  | i + 1, x =>
    ((byte_hw P (B i) 0 (wbytes_run P B i x).1),
     (wbytes_run P B i x).2 ++ [Call.bufRead i, Call.polled_write (B i)] ++
       (maskBits (B i)).map Call.write_bit)

/-- The object between two bytes of a polled multi-byte write started from the
idle object `s`: `i` bytes are written, the multi-byte flag alone is set. -/
def wbytes_state (P : Platform σ) (s : OneWire σ) (N : Nat) (power : Bool) (B : Nat → Nat)
    (i : Nat) : OneWire σ :=
  { s with
    hw := (wbytes_run P B i (s.hw, s.calls ++ (List.range N).map Call.bufWrite)).1
    calls := (wbytes_run P B i (s.hw, s.calls ++ (List.range N).map Call.bufWrite)).2
    readWriteByte := B (i - 1)
    writePower := 0
    readWriteBitMask := 0
    poll_status := ONEWIRE_POLLSTAT_WRITE_BYTES
    byteCount := N
    byteIndex := i
    writeBytesPower := power
    readWriteBuffer := B }

/-- The line actions of the last byte of a polled multi-byte write: the release
of the line that ends the multi-byte operation comes right after the first
write slot, the release that ends the byte after the eighth. -/
def last_byte_hw (P : Platform σ) (v : Nat) (power : Bool) (h : σ) : σ :=
  release_hw P (write_bits_hw P (maskBits v).tail
    (if !power then release_hw P (write_bit_hw P (maskBits v).head! h)
     else write_bit_hw P (maskBits v).head! h))

/-- The object when a polled multi-byte write whose last byte has index `i` is
complete. -/
def wbytes_final (P : Platform σ) (s : OneWire σ) (N : Nat) (power : Bool) (B : Nat → Nat)
    (i : Nat) : OneWire σ :=
  { wbytes_state P s N power B (i + 1) with
    hw := last_byte_hw P (B i) power
      (wbytes_run P B i (s.hw, s.calls ++ (List.range N).map Call.bufWrite)).1
    poll_status := 0 }

/-- The line, the call record and the buffer after the first `i` bytes of a
polled multi-byte read are read and stored: per byte the `polled_read` call,
the eight read slots and the store into `readWriteBuffer[i]`. -/
def rbytes_run (P : Platform σ) :
    Nat → σ × List Call × (Nat → Nat) → σ × List Call × (Nat → Nat)
  | 0, x => x
  | i + 1, x =>
    ((read_bits_hw P 8 (rbytes_run P i x).1).2,
     (rbytes_run P i x).2.1 ++ [Call.polled_read] ++
       (read_bits_hw P 8 (rbytes_run P i x).1).1.map Call.read_bit ++ [Call.bufWrite i],
     Function.update (rbytes_run P i x).2.2 i
       (orMasks (read_bits_hw P 8 (rbytes_run P i x).1).1 1 0))

/-- The object during a polled multi-byte read started from the idle object
`s`, when `i` bytes are stored and the next byte is read but not yet stored:
the multi-byte flag alone is set. -/
def rbytes_state (P : Platform σ) (s : OneWire σ) (N : Nat) (i : Nat) : OneWire σ :=
  { s with
    hw := (read_bits_hw P 8 (rbytes_run P i (s.hw, s.calls, s.readWriteBuffer)).1).2
    calls := (rbytes_run P i (s.hw, s.calls, s.readWriteBuffer)).2.1 ++ [Call.polled_read] ++
      (read_bits_hw P 8 (rbytes_run P i (s.hw, s.calls, s.readWriteBuffer)).1).1.map
        Call.read_bit
    readWriteBuffer := (rbytes_run P i (s.hw, s.calls, s.readWriteBuffer)).2.2
    readWriteByte :=
      orMasks (read_bits_hw P 8 (rbytes_run P i (s.hw, s.calls, s.readWriteBuffer)).1).1 1 0
    readWriteBitMask := 0
    poll_status := ONEWIRE_POLLSTAT_READ_BYTES
    byteCount := N
    byteIndex := i }

/-- The object when a polled multi-byte read whose last byte has index `i` is
complete. -/
def rbytes_final (P : Platform σ) (s : OneWire σ) (N : Nat) (i : Nat) : OneWire σ :=
  { rbytes_state P s N i with
    hw := (rbytes_run P (i + 1) (s.hw, s.calls, s.readWriteBuffer)).1
    calls := (rbytes_run P (i + 1) (s.hw, s.calls, s.readWriteBuffer)).2.1
    readWriteBuffer := (rbytes_run P (i + 1) (s.hw, s.calls, s.readWriteBuffer)).2.2
    poll_status := 0
    byteIndex := i + 1 }

/-- The calls recorded for the first `i` bytes of a polled multi-byte write. -/
def wcalls (B : Nat → Nat) : Nat → List Call
  | 0 => []
  | i + 1 => wcalls B i ++ [Call.bufRead i, Call.polled_write (B i)] ++
      (maskBits (B i)).map Call.write_bit

/-- The calls recorded for the first `i` bytes of a polled multi-byte read that
starts with the platform state `h`. -/
def rcalls (P : Platform σ) (i : Nat) (h : σ) : List Call :=
  (rbytes_run P i (h, [], fun _ => 0)).2.1

/-- No poll status is 0 during the first `k` calls of `poll`. -/
def Busy (P : Platform σ) (k : Nat) (s : OneWire σ) : Prop :=
  ∀ j < k, (polls P j s).poll_status ≠ 0

/-- The caller's loop `while (poll_status != 0) poll();`, with fuel. -/
def poll_until_idle (P : Platform σ) : Nat → OneWire σ → OneWire σ
  | 0, s => s
  | fuel + 1, s => if s.poll_status = 0 then s else poll_until_idle P fuel (poll P s)

/-- A summary of the simulated bus: the connected devices, the devices still
taking part, the protocol state, and nobody pulling the line low. -/
def SimBus.At (b : SimBus) (D A : List Nat) (p : Proto) : Prop :=
  b.devices = D ∧ b.active = A ∧ b.proto = p ∧ (b.drivingLow = false ∧ b.pull = 0)

/-- Nobody pulls the simulated line low. -/
def SimBus.Quiet (b : SimBus) : Prop :=
  b.drivingLow = false ∧ b.pull = 0

/-- The simulated bus at the moment the master releases the line after having
held it low for `t` us; `pin` tells how the pin is left (`true`: output driven
high, `false`: input with the latch low). -/
def SimBus.released (t : Nat) (pin : Bool) (b : SimBus) : SimBus :=
  SimBus.slotEnd t
    { b with outMode := pin, latch := pin, lowTime := t, pull := b.pull - t, clock := b.clock + t }

/-- The simulated bus after `us` microseconds in which the master does not pull. -/
def SimBus.idleFor (us : Nat) (b : SimBus) : SimBus :=
  { b with pull := b.pull - us, clock := b.clock + us }

/-- Bit `k` (counted from the first bit on the wire) of an address buffer. -/
def romBit (rom : Nat → Nat) (k : Nat) : Bool :=
  (rom (k / 8)).testBit (k % 8)

/-- The device `d` has the bits `t` at all positions below `k`. -/
def AgreeBelow (k : Nat) (d : Nat) (t : Nat → Bool) : Prop :=
  ∀ j < k, d.testBit j = t j

/-- Position `j` is a branch point of the path `t` taken to the zero side: `t`
has a 0 there and some device with the same earlier bits has a 1. -/
def ZeroBranch (D : List Nat) (t : Nat → Bool) (j : Nat) : Prop :=
  t j = false ∧ ∃ d ∈ D, AgreeBelow j d t ∧ d.testBit j = true

/-- The number `z` is the 1-based position of the last zero branch of `t`
below position `k`, or 0 when there is none. -/
def LastZero (D : List Nat) (t : Nat → Bool) (k z : Nat) : Prop :=
  (z = 0 ∧ ∀ j < k, ¬ ZeroBranch D t j) ∨
  (1 ≤ z ∧ z ≤ k ∧ ZeroBranch D t (z - 1) ∧ ∀ j, z ≤ j → j < k → ¬ ZeroBranch D t j)

/-- What a pass of `search` starts from: `L` is the `LastDiscrepancy` and `r`
the bits of `ROM_NO` left by the previous pass. Either `L` is 0, or `r` is the
address of a device and position `L` is a zero branch of `r`. -/
def PassPre (D : List Nat) (L : Nat) (r : Nat → Bool) : Prop :=
  L = 0 ∨ (1 ≤ L ∧ L ≤ 64 ∧ (∃ d ∈ D, AgreeBelow 64 d r) ∧ ZeroBranch D r (L - 1))

/-- The invariant of the loop of `search` on the path `t` chosen so far, before
the round for position `k`; `z` is `last_zero`. -/
structure PathInv (D : List Nat) (L : Nat) (r : Nat → Bool) (k : Nat) (t : Nat → Bool)
    (z : Nat) : Prop where
  act_ne : ∃ d ∈ D, AgreeBelow k d t
  old : ∀ j, k ≤ j → t j = r j
  pre : ∀ j, j < k → j + 1 < L → t j = r j
  atL : 1 ≤ L → L ≤ k → t (L - 1) = true
  post : ∀ j, L ≤ j → j < k → ∀ d ∈ D, AgreeBelow j d t → t j = true → d.testBit j = true
  lz : LastZero D t k z

/-- The devices of `D` that have the bits of `rom` at all positions below `k`:
the devices still taking part before the round for position `k`. -/
def followers (D : List Nat) (rom : Nat → Nat) (k : Nat) : List Nat :=
  D.filter (fun d => decide (∀ j < k, d.testBit j = romBit rom j))

/-- The invariant of the loop of `search` on the simulated bus, before the
round for position `k`. -/
structure LoopInv (D : List Nat) (L : Nat) (r : Nat → Bool) (k : Nat) (l : SearchLocals)
    (s : OneWire SimBus) : Prop where
  idn : l.id_bit_number = k + 1
  byte : l.rom_byte_number = k / 8
  mask : l.rom_byte_mask = 2 ^ (k % 8)
  rom_lt : ∀ i, s.ROM_NO i < 256
  bus : s.hw.At D (followers D s.ROM_NO k)
    (if k < 64 then Proto.search k 0 else Proto.idle)
  LD : s.LastDiscrepancy = L
  LDF : s.LastDeviceFlag = false
  path : PathInv D L r k (romBit s.ROM_NO) l.last_zero

/-- The search state on the simulated bus with devices `D` after a call of
`search` that found the device `t`. -/
structure Found (D : List Nat) (s : OneWire SimBus) (t : Nat) : Prop where
  mem : t ∈ D
  bits : ∀ j < 64, t.testBit j = romBit s.ROM_NO j
  rom_lt : ∀ i, s.ROM_NO i < 256
  dev : s.hw.devices = D
  quiet : s.hw.Quiet
  lz : LastZero D t.testBit 64 s.LastDiscrepancy
  flag : s.LastDeviceFlag = decide (s.LastDiscrepancy = 0)

/-- The search state on the simulated bus with devices `D` from which an
enumeration starts: what `reset_search` leaves, with any bytes in `ROM_NO`. -/
structure Fresh (D : List Nat) (s : OneWire SimBus) : Prop where
  rom_lt : ∀ i, s.ROM_NO i < 256
  dev : s.hw.devices = D
  quiet : s.hw.Quiet
  LD : s.LastDiscrepancy = 0
  LDF : s.LastDeviceFlag = false

/-- The number whose 64 bits are those of `d` in reverse order: the first bit
on the wire becomes the most significant. -/
def revBits : Nat → Nat → Nat
  | 0, _ => 0
  | n + 1, d => d % 2 * 2 ^ n + revBits n (d / 2)

/-- The devices of `D` after `t` in the order of the enumeration. -/
def above (D : List Nat) (t : Nat) : List Nat :=
  D.filter (fun d => decide (revBits 64 t < revBits 64 d))

/-- Between two calls of `search` during an enumeration on the simulated bus:
either nothing was found yet and all of `D` remains, or the last call found
`t` and the devices above `t` remain. -/
def EnumInv (D : List Nat) (s : OneWire SimBus) (R : List Nat) : Prop :=
  (Fresh D s ∧ R = D) ∨ (∃ t, Found D s t ∧ R = above D t)

/-! ## A probe: scripted line and clock with an event log

The test fixture of the reset and timing claims. `DIRECT_READ` returns the
levels of a script in order, `micros()` returns the readings of a second
script, and every line action, sample and clock reading is logged in program
order. -/

/-- What the probe logs. -/
inductive Event
  | act (a : Act)
  | sampled (level : Bool)
  | clock (t : Nat)
  deriving DecidableEq, Repr

/-- The probe: the two scripts, how far each has been read, and the log. -/
structure Probe where
  line : Nat → Bool
  nsamples : Nat
  times : Nat → Nat
  nclock : Nat
  log : List Event

/-- The probe as a platform. -/
def probePlatform : Platform Probe where
  act := fun a p => { p with log := p.log ++ [Event.act a] }
  sample := fun p => (p.line p.nsamples,
    { p with
      nsamples := p.nsamples + 1
      log := p.log ++ [Event.sampled (p.line p.nsamples)] })
  micros := fun p => (p.times p.nclock,
    { p with
      nclock := p.nclock + 1
      log := p.log ++ [Event.clock (p.times p.nclock)] })

/-- A fresh probe with the given scripts; the line is high and the clock reads
0 once a script is exhausted. -/
def probe (samples : List Bool) (times : List Nat) : Probe :=
  { line := fun i => samples.getD i true
    nsamples := 0
    times := fun i => times.getD i 0
    nclock := 0
    log := [] }

/-- The programmed delay in a log: the sum of the `delayMicroseconds` arguments. -/
def delaySum : List Event → Nat
  | [] => 0
  | Event.act (Act.delay us) :: es => us + delaySum es
  | _ :: es => delaySum es

/-- The log of `k` rounds of the wait loop of `reset`: a delay of 2 us and a
sample each. -/
def waitEvents (line : Nat → Bool) (n0 : Nat) : Nat → List Event
  | 0 => []
  | k + 1 => waitEvents line n0 k ++ [Event.act (Act.delay 2), Event.sampled (line (n0 + k))]

/-- The log of `k` polls that wait for the line to go high: a sample and a
clock reading each. -/
def lineWaitEvents (line : Nat → Bool) (times : Nat → Nat) (n0 c0 : Nat) : Nat → List Event
  | 0 => []
  | k + 1 => lineWaitEvents line times n0 c0 k ++
      [Event.sampled (line (n0 + k)), Event.clock (times (c0 + k))]

/-- The log of `k` polls that wait for a deadline: a clock reading each. -/
def clockEvents (times : Nat → Nat) (c0 : Nat) : Nat → List Event
  | 0 => []
  | k + 1 => clockEvents times c0 k ++ [Event.clock (times (c0 + k))]

/-- The five top-level flags of `poll_status`. -/
def topFlags : List Nat :=
  [ONEWIRE_POLLSTAT_RESET, ONEWIRE_POLLSTAT_WRITE, ONEWIRE_POLLSTAT_READ,
    ONEWIRE_POLLSTAT_WRITE_BYTES, ONEWIRE_POLLSTAT_READ_BYTES]

/-- The number of top-level flags set in a poll status. -/
def flagCount (status : Nat) : Nat :=
  (topFlags.filter (fun f => decide (status &&& f ≠ 0))).length

/-- The probe after `dn` more samples and `dc` more clock readings, with the
events `ev` added to the log. -/
def probeAt (p : Probe) (dn dc : Nat) (ev : List Event) : Probe :=
  { p with
    nsamples := p.nsamples + dn
    nclock := p.nclock + dc
    log := p.log ++ ev }

/-- The object during a polled reset started from `s` on the probe: where the
probe is, and the four members the reset engine writes. -/
def resetState (s : OneWire Probe) (dn dc : Nat) (ev : List Event) (status bit deadline : Nat)
    (result : Bool) : OneWire Probe :=
  { s with
    hw := probeAt s.hw dn dc ev
    poll_status := status
    bit_status := bit
    bitNextTime := deadline
    reset_result := result }

/-- The deadline armed at the clock reading `t`, `d` microseconds ahead, as a
32-bit value. -/
def armed (t d : Nat) : Nat :=
  (t % 2 ^ 32 + d) % 2 ^ 32

/-- The log of the line actions that start the reset pulse. -/
def driveLowEvents : List Event :=
  [Event.act Act.noInterrupts, Event.act Act.writeLow, Event.act Act.modeOutput,
    Event.act Act.interrupts]

/-- The programmed delay between two states of the probe: the sum of the
`delayMicroseconds` arguments logged in between. -/
def programmedDelay (before after : Probe) : Nat :=
  delaySum after.log - delaySum before.log

/-- The scripts on which a polled reset started from `s` fails at its
`k + 1`-th poll: the line reads low at the entry and at these polls, and the
deadline of 250 us is first reached at the last of them. -/
def ResetFails (s : OneWire Probe) (k : Nat) : Prop :=
  (∀ i < k + 2, s.hw.line (s.hw.nsamples + i) = false) ∧
  (∀ i < k + 1, 1 ≤ i →
    deadline_reached (s.hw.times (s.hw.nclock + i)) (armed (s.hw.times s.hw.nclock) 250)
      = false) ∧
  deadline_reached (s.hw.times (s.hw.nclock + (k + 1)))
    (armed (s.hw.times s.hw.nclock) 250) = true

/-- The scripts on which a polled reset started from `s` recovers: the line
reads low `m` times before the deadline of 250 us and then high; `a` polls
come before the deadline of the low hold, 500 us after the clock reading taken
when the line was driven low, and the next poll is at or after it; `b` polls
come before the deadline of 420 us armed after the presence sample, and the
next poll is at or after it. -/
def ResetRecovers (s : OneWire Probe) (m a b : Nat) : Prop :=
  (∀ i < m, s.hw.line (s.hw.nsamples + i) = false) ∧
  s.hw.line (s.hw.nsamples + m) = true ∧
  (∀ i < m, 1 ≤ i →
    deadline_reached (s.hw.times (s.hw.nclock + i)) (armed (s.hw.times s.hw.nclock) 250)
      = false) ∧
  (∀ i < a, deadline_reached (s.hw.times (s.hw.nclock + (m + 1) + i))
    (armed (s.hw.times (s.hw.nclock + m)) 500) = false) ∧
  deadline_reached (s.hw.times (s.hw.nclock + (m + 1) + a))
    (armed (s.hw.times (s.hw.nclock + m)) 500) = true ∧
  (∀ i < b, deadline_reached (s.hw.times (s.hw.nclock + (m + 1 + a + 2) + i))
    (armed (s.hw.times (s.hw.nclock + (m + 1) + a + 1)) 420) = false) ∧
  deadline_reached (s.hw.times (s.hw.nclock + (m + 1 + a + 2) + b))
    (armed (s.hw.times (s.hw.nclock + (m + 1) + a + 1)) 420) = true

/-! ## The reference CRC-16 -/

/-- The reference CRC-16 in the words of the specification, for one input
byte: for each of its bits, least significant first, the 16-bit register is
shifted right by one and XORed with `0xA001` when the low bit of register XOR
input bit is 1. -/
def crc16_reference_bits : Nat → Nat → Nat → Nat
  | 0, crc, _ => crc
  | i + 1, crc, inbyte =>
    let mix := (crc ^^^ inbyte) &&& 0x01
    let crc := crc >>> 1
    let crc := if mix ≠ 0 then crc ^^^ 0xA001 else crc
    crc16_reference_bits i crc (inbyte >>> 1)

/-- The reference CRC-16 of a byte sequence, with seed 0. -/
def crc16_reference (input : List Nat) : Nat :=
  input.foldl (fun crc b => crc16_reference_bits 8 crc b) 0

/-- The object with another address buffer. -/
def setRom (rom : Nat → Nat) (s : OneWire σ) : OneWire σ :=
  { s with ROM_NO := rom }

/-! # Theorems -/

/-! ## Checksums -/

theorem shiftRight_xor_one (a b : Nat) : (a ^^^ b) >>> 1 = (a >>> 1) ^^^ (b >>> 1) := by
  apply Nat.eq_of_testBit_eq
  intro i
  simp [Nat.testBit_xor, Nat.testBit_shiftRight]

/-- Feeding the byte through the bit loop equals running the loop on `crc ^^^ b`
with an empty input byte, up to the input bits not yet consumed. -/
theorem crc8_bits_xor (i : Nat) : ∀ crc b : Nat,
    crc8_bits i (crc ^^^ b) 0 = crc8_bits i crc b ^^^ (b >>> i) := by
  induction i with
  | zero => intro crc b; simp [crc8_bits]
  | succ i ih =>
    intro crc b
    simp only [crc8_bits, Nat.xor_zero, Nat.zero_shiftRight]
    have hs : b >>> (i + 1) = (b >>> 1) >>> i := by
      rw [Nat.add_comm, Nat.shiftRight_add]
    rw [hs]
    by_cases hc : (crc ^^^ b) &&& 1 ≠ 0
    · rw [if_pos hc, if_pos hc, ← ih]
      congr 1
      rw [shiftRight_xor_one, Nat.xor_assoc, Nat.xor_comm (b >>> 1), ← Nat.xor_assoc]
    · rw [if_neg hc, if_neg hc, ← ih, shiftRight_xor_one]

set_option maxRecDepth 100000 in
/-- Every table entry is the bit loop run on its index, and is a byte. -/
theorem dscrc_table_eq : ∀ x < 256,
    dscrc_table.getD x 0 = crc8_bits 8 x 0 ∧ dscrc_table.getD x 0 < 256 := by
  decide

theorem crc8_table_step (crc b : Nat) (hc : crc < 256) (hb : b < 256) :
    dscrc_table.getD (crc ^^^ b) 0 = crc8_bits 8 crc b ∧ crc8_bits 8 crc b < 256 := by
  have hx : crc ^^^ b < 256 := Nat.xor_lt_two_pow (n := 8) hc hb
  have h1 := dscrc_table_eq (crc ^^^ b) hx
  have h2 := crc8_bits_xor 8 crc b
  have h3 : b >>> 8 = 0 := by
    rw [Nat.shiftRight_eq_div_pow]; exact Nat.div_eq_of_lt hb
  rw [h3, Nat.xor_zero] at h2
  rw [h2] at h1
  exact ⟨h1.1, h1.1 ▸ h1.2⟩

theorem crc8_loops_agree (addr : List Nat) : ∀ crc : Nat, crc < 256 →
    (∀ b ∈ addr, b < 256) → crc8_table_loop addr crc = crc8_bitwise_loop addr crc := by
  induction addr with
  | nil => intro crc _ _; rfl
  | cons b rest ih =>
    intro crc hc hb
    have hstep := crc8_table_step crc b hc (hb b (List.mem_cons_self _ _))
    simp only [crc8_table_loop, crc8_bitwise_loop]
    rw [hstep.1]
    exact ih _ hstep.2 (fun x hx => hb x (List.mem_cons_of_mem _ hx))

/-- C3. CRC-8 equivalence: on every sequence of bytes the table-driven `crc8`
and the bitwise `crc8` return the same value. -/
theorem crc8_table_eq_bitwise (addr : List Nat) (h : ∀ b ∈ addr, b < 256) :
    crc8_table addr = crc8_bitwise addr :=
  crc8_loops_agree addr 0 (by decide) h

/-- Witness of C3 on an 8-byte address buffer. -/
theorem crc8_table_eq_bitwise_witness :
    (∀ b ∈ [0x28, 0x01, 0x02, 0x03, 0x04, 0x05, 0x06, 0xA7], b < 256) ∧
    crc8_table [0x28, 0x01, 0x02, 0x03, 0x04, 0x05, 0x06, 0xA7]
      = crc8_bitwise [0x28, 0x01, 0x02, 0x03, 0x04, 0x05, 0x06, 0xA7] :=
  ⟨by decide, crc8_table_eq_bitwise _ (by decide)⟩

theorem crc16_step_lt (crc inp : Nat) (h : crc < 65536) : crc16_step crc inp < 65536 := by
  unfold crc16_step
  have h8 : crc >>> 8 < 2 ^ 16 := by
    rw [Nat.shiftRight_eq_div_pow]
    exact lt_of_le_of_lt (Nat.div_le_self _ _) h
  have hc : (if oddparity.getD ((inp % 65536 ^^^ crc &&& 0xff) &&& 0xff &&& 0x0F) 0 ^^^
        oddparity.getD (((inp % 65536 ^^^ crc &&& 0xff) &&& 0xff) >>> 4) 0 ≠ 0
      then crc >>> 8 ^^^ 0xC001 else crc >>> 8) < 2 ^ 16 := by
    split
    · exact Nat.xor_lt_two_pow h8 (by decide)
    · exact h8
  exact Nat.xor_lt_two_pow (Nat.xor_lt_two_pow hc (Nat.mod_lt _ (by decide)))
    (Nat.mod_lt _ (by decide))

theorem crc16_foldl_lt (input : List Nat) : ∀ crc : Nat, crc < 65536 →
    input.foldl crc16_step crc < 65536 := by
  induction input with
  | nil => intro crc h; exact h
  | cons b rest ih => intro crc h; exact ih _ (crc16_step_lt crc b h)

theorem crc16_lt (input : List Nat) : crc16 input < 65536 :=
  crc16_foldl_lt input 0 (by decide)

/-- On 16 bits, XOR with `0xFFFF` is the complement `65535 - x`. -/
theorem xor_ffff (x : Nat) (h : x < 65536) : x ^^^ 0xFFFF = 65535 - x := by
  apply Nat.eq_of_testBit_eq
  intro i
  have h1 := Nat.testBit_two_pow_sub_succ (x := x) (n := 16) h i
  have h2 := Nat.testBit_two_pow_sub_one 16 i
  have e1 : 2 ^ 16 - (x + 1) = 65535 - x := by omega
  have e2 : (2 : Nat) ^ 16 - 1 = 0xFFFF := by decide
  rw [e1] at h1
  rw [e2] at h2
  rw [h1, Nat.testBit_xor, h2]
  by_cases hi : i < 16
  · simp [hi]
  · have hx : x.testBit i = false :=
      Nat.testBit_lt_two_pow (lt_of_lt_of_le h
        (by rw [show (65536 : Nat) = 2 ^ 16 by decide]
            exact Nat.pow_le_pow_right (by decide) (by omega)))
    simp [hi, hx]

/-- C4. `check_crc16` accepts exactly when `inverted_crc[0]` is the low byte and
`inverted_crc[1]` the high byte of the 16-bit complement of `crc16`. -/
theorem check_crc16_iff (input : List Nat) (inv0 inv1 : Nat) :
    check_crc16 input inv0 inv1 = true ↔
      inv0 = (65535 - crc16 input) % 256 ∧ inv1 = (65535 - crc16 input) / 256 := by
  have hlt := crc16_lt input
  unfold check_crc16
  rw [xor_ffff _ hlt]
  have hm : (65535 - crc16 input) % 65536 = 65535 - crc16 input :=
    Nat.mod_eq_of_lt (by omega)
  have ha : ∀ y : Nat, y &&& 0xFF = y % 256 := fun y =>
    Nat.and_pow_two_sub_one_eq_mod y 8
  have hs : ∀ y : Nat, y >>> 8 = y / 256 := fun y => Nat.shiftRight_eq_div_pow y 8
  simp only [hm, ha, hs, Bool.and_eq_true, beq_iff_eq]
  constructor
  · rintro ⟨h0, h1⟩; exact ⟨h0.symm, h1.symm⟩
  · rintro ⟨h0, h1⟩; exact ⟨h0.symm, h1.symm⟩

/-! ## Byte framing -/

@[simp] theorem write_bit_calls (P : Platform σ) (v : Nat) (s : OneWire σ) :
    (write_bit P v s).calls = s.calls ++ [Call.write_bit v] := by
  unfold write_bit; split <;> rfl

@[simp] theorem release_line_calls (P : Platform σ) (s : OneWire σ) :
    (release_line P s).calls = s.calls := rfl

/-- The byte-write loop runs exactly eight rounds, with the masks 1, 2, ..., 128. -/
theorem write_loop_unroll (P : Platform σ) (v : Nat) (s : OneWire σ) :
    write_loop P v 8 1 s =
      write_bit P (if 128 &&& v ≠ 0 then 1 else 0)
      (write_bit P (if 64 &&& v ≠ 0 then 1 else 0)
      (write_bit P (if 32 &&& v ≠ 0 then 1 else 0)
      (write_bit P (if 16 &&& v ≠ 0 then 1 else 0)
      (write_bit P (if 8 &&& v ≠ 0 then 1 else 0)
      (write_bit P (if 4 &&& v ≠ 0 then 1 else 0)
      (write_bit P (if 2 &&& v ≠ 0 then 1 else 0)
      (write_bit P (if 1 &&& v ≠ 0 then 1 else 0) s))))))) := rfl

/-- More fuel than eight does not change the byte-write loop: it has left
through its own test, the mask being 0 after the eighth shift. -/
theorem write_loop_fuel (P : Platform σ) (v n : Nat) (s : OneWire σ) :
    write_loop P v (8 + n) 1 s = write_loop P v 8 1 s := by
  have e : 8 + n = n + 1 + 1 + 1 + 1 + 1 + 1 + 1 + 1 := by omega
  rw [e, write_loop_unroll]
  cases n <;> rfl

set_option maxRecDepth 100000 in
/-- The mask tests of `write` select the bits of the byte, least significant first. -/
theorem mask_bits_eq : ∀ b < 256,
    [1, 2, 4, 8, 16, 32, 64, 128].map (fun m => if m &&& b ≠ 0 then 1 else 0) = bitsLSB b := by
  decide

theorem write_calls (P : Platform σ) (s : OneWire σ) (b power : Nat) (hb : b < 256) :
    (write P b power s).calls = s.calls ++ (bitsLSB b).map Call.write_bit := by
  unfold write
  rw [write_loop_unroll, ← mask_bits_eq b hb]
  have h : ∀ t : OneWire σ, (if power = 0 then release_line P t else t).calls = t.calls := by
    intro t; split <;> rfl
  rw [h]
  simp only [write_bit_calls, List.append_assoc, List.map, List.cons_append, List.nil_append]

/-- The byte-read loop is eight `read_bit` calls whose values are accumulated
under the masks 1, 2, ..., 128. -/
theorem read_unroll (P : Platform σ) (s : OneWire σ) :
    read P s = (orMasks (read_bits P 8 s).1 1 0, (read_bits P 8 s).2) := rfl

/-- More fuel than eight does not change the byte-read loop. -/
theorem read_loop_fuel (P : Platform σ) (n : Nat) (s : OneWire σ) :
    read_loop P (8 + n) 1 0 s = read_loop P 8 1 0 s := by
  have e : 8 + n = n + 1 + 1 + 1 + 1 + 1 + 1 + 1 + 1 := by omega
  rw [e]
  cases n <;> rfl

theorem read_bit_val (P : Platform σ) (s : OneWire σ) :
    (read_bit P s).1 = 0 ∨ (read_bit P s).1 = 1 := by
  unfold read_bit
  simp only
  split <;> simp

theorem read_bits_spec (P : Platform σ) (n : Nat) : ∀ s : OneWire σ,
    (read_bits P n s).1.length = n ∧ ∀ b ∈ (read_bits P n s).1, b = 0 ∨ b = 1 := by
  induction n with
  | zero => intro s; simp [read_bits]
  | succ n ih =>
    intro s
    simp only [read_bits, List.length_cons, List.mem_cons]
    refine ⟨by rw [(ih _).1], ?_⟩
    intro b hb
    rcases hb with rfl | hb
    · exact read_bit_val P s
    · exact (ih _).2 b hb

/-- On eight bit values the mask accumulation is the number with these bits,
least significant first. -/
theorem orMasks_eq_assemble (bits : List Nat) (hl : bits.length = 8)
    (hb : ∀ b ∈ bits, b = 0 ∨ b = 1) : orMasks bits 1 0 = assembleLSB bits := by
  match bits, hl, hb with
  | [b0, b1, b2, b3, b4, b5, b6, b7], _, hb =>
    have h0 := hb b0 (by simp)
    have h1 := hb b1 (by simp)
    have h2 := hb b2 (by simp)
    have h3 := hb b3 (by simp)
    have h4 := hb b4 (by simp)
    have h5 := hb b5 (by simp)
    have h6 := hb b6 (by simp)
    have h7 := hb b7 (by simp)
    rcases h0 with rfl | rfl <;> rcases h1 with rfl | rfl <;> rcases h2 with rfl | rfl <;>
      rcases h3 with rfl | rfl <;> rcases h4 with rfl | rfl <;> rcases h5 with rfl | rfl <;>
      rcases h6 with rfl | rfl <;> rcases h7 with rfl | rfl <;> rfl

/-- Source `read` returns the byte whose bits, least significant first, are the
eight values its `read_bit` calls returned. -/
theorem read_eq_assemble (P : Platform σ) (s : OneWire σ) :
    (read P s).1 = assembleLSB (read_bits P 8 s).1 := by
  rw [read_unroll]
  exact orMasks_eq_assemble _ (read_bits_spec P 8 s).1 (read_bits_spec P 8 s).2

theorem read_bit_line (t : OneWire Line) :
    (read_bit linePlatform t).1 = (if t.hw.samples.headD true then 1 else 0) ∧
    (read_bit linePlatform t).2.hw.samples = t.hw.samples.tail := by
  constructor <;> rfl

/-- On the scripted line, successive `read_bit` calls return the script. -/
theorem read_bits_line (n : Nat) : ∀ (t : OneWire Line) (xs rest : List Bool),
    t.hw.samples = xs ++ rest → xs.length = n →
    (read_bits linePlatform n t).1 = xs.map (fun x => if x then 1 else 0) := by
  induction n with
  | zero =>
    intro t xs rest _ hl
    have : xs = [] := List.length_eq_zero.mp hl
    subst this
    rfl
  | succ n ih =>
    intro t xs rest hs hl
    match xs, hl with
    | x :: xs, hl =>
      simp only [read_bits, List.map_cons]
      have h1 := read_bit_line t
      rw [h1.1, hs]
      have h2 : (read_bit linePlatform t).2.hw.samples = xs ++ rest := by
        rw [h1.2, hs]; rfl
      rw [ih _ xs rest h2 (by simpa using hl)]
      rfl

theorem writtenBits_map (vs : List Nat) : writtenBits (vs.map Call.write_bit) = vs := by
  induction vs with
  | nil => rfl
  | cons v vs ih => simp [writtenBits, ih]

set_option maxRecDepth 100000 in
theorem assemble_bitsLSB : ∀ b < 256,
    assembleLSB (bitsLSB b) = b ∧
      (bitsLSB b).map (fun v => if decide (v ≠ 0) then 1 else 0) = bitsLSB b := by
  decide

/-- C5. Byte framing round trip: `write(b)` makes exactly the eight `write_bit`
calls with the bits of `b`, least significant first, and `read()` on a line
that returns these eight values to its `read_bit` samples yields `b`. -/
theorem write_read_round_trip (P : Platform σ) (s : OneWire σ) (b power : Nat) (hb : b < 256)
    (t : OneWire Line) :
    (write P b power s).calls = s.calls ++ (bitsLSB b).map Call.write_bit ∧
    (read linePlatform
      { t with hw := loopback (writtenBits ((write P b power s).calls.drop s.calls.length)) }).1
      = b := by
  have hw := write_calls P s b power hb
  refine ⟨hw, ?_⟩
  rw [hw, List.drop_left, writtenBits_map, read_eq_assemble]
  have hr := read_bits_line 8
    { t with hw := loopback (bitsLSB b) } ((bitsLSB b).map (fun v => decide (v ≠ 0))) []
    (by simp [loopback]) (by simp [bitsLSB])
  rw [hr, List.map_map]
  have ha := assemble_bitsLSB b hb
  have hf : ((fun x : Bool => if x then 1 else 0) ∘ fun v : Nat => decide (v ≠ 0))
      = fun v : Nat => if decide (v ≠ 0) then 1 else 0 := rfl
  rw [hf, ha.2, ha.1]

/-- Witness of C5 for the byte `0xA5` on the scripted line. -/
theorem write_read_round_trip_witness :
    (0xA5 < 256) ∧
    (write linePlatform 0xA5 0 (construct linePlatform (loopback []))).calls
      = (construct linePlatform (loopback [])).calls ++ (bitsLSB 0xA5).map Call.write_bit ∧
    (read linePlatform
      { construct linePlatform (loopback []) with
        hw := loopback (writtenBits
          ((write linePlatform 0xA5 0 (construct linePlatform (loopback []))).calls.drop
            (construct linePlatform (loopback [])).calls.length)) }).1 = 0xA5 :=
  ⟨by decide, write_read_round_trip linePlatform (construct linePlatform (loopback [])) 0xA5 0
    (by decide) (construct linePlatform (loopback []))⟩

/-! ## The simulated bus, slot by slot -/

theorem write_bit_eq (P : Platform σ) (v : Nat) (s : OneWire σ) :
    write_bit P v s =
      { s with hw := write_bit_hw P v s.hw, calls := s.calls ++ [Call.write_bit v] } := by
  unfold write_bit write_bit_hw; split <;> rfl

theorem read_bit_eq (P : Platform σ) (s : OneWire σ) :
    read_bit P s = ((read_bit_hw P s.hw).1,
      { s with hw := (read_bit_hw P s.hw).2,
               calls := s.calls ++ [Call.read_bit (read_bit_hw P s.hw).1] }) := rfl

theorem slotEnd_frame (t : Nat) (b : SimBus) :
    (SimBus.slotEnd t b).outMode = b.outMode ∧ (SimBus.slotEnd t b).latch = b.latch ∧
    (SimBus.slotEnd t b).lowTime = b.lowTime ∧ (SimBus.slotEnd t b).clock = b.clock ∧
    (SimBus.slotEnd t b).devices = b.devices := by
  unfold SimBus.slotEnd
  by_cases ht : 480 ≤ t
  · simp [ht]
  · simp only [ht, if_false]
    cases hp : b.proto with
    | idle => simp
    | command bits =>
      by_cases h8 : bits.length + 1 = 8
      · by_cases hm : bits ++ [decide (t ≤ 15)] = searchCommandBits
        · simp [h8, hm]
        · simp [h8, hm]
      · simp [h8]
    | search pos phase =>
      rcases phase with _ | _ | n <;> simp

@[simp] theorem slotEnd_outMode (t : Nat) (b : SimBus) :
    (SimBus.slotEnd t b).outMode = b.outMode := (slotEnd_frame t b).1

@[simp] theorem slotEnd_latch (t : Nat) (b : SimBus) :
    (SimBus.slotEnd t b).latch = b.latch := (slotEnd_frame t b).2.1

@[simp] theorem slotEnd_lowTime (t : Nat) (b : SimBus) :
    (SimBus.slotEnd t b).lowTime = b.lowTime := (slotEnd_frame t b).2.2.1

@[simp] theorem slotEnd_clock (t : Nat) (b : SimBus) :
    (SimBus.slotEnd t b).clock = b.clock := (slotEnd_frame t b).2.2.2.1

@[simp] theorem slotEnd_devices (t : Nat) (b : SimBus) :
    (SimBus.slotEnd t b).devices = b.devices := (slotEnd_frame t b).2.2.2.2

/-- A write slot on the quiet simulated bus: a pulse of 10 or 65 us, then the
rest of the slot. -/
theorem write_bit_hw_sim (b : SimBus) (v : Nat) (hq : b.Quiet) :
    write_bit_hw simPlatform v b =
      if v &&& 1 ≠ 0 then SimBus.idleFor 55 (SimBus.released 10 true b)
      else SimBus.idleFor 5 (SimBus.released 65 true b) := by
  rcases b with ⟨devices, outMode, latch, lowTime, pull, clock, active, proto⟩
  simp only [SimBus.Quiet, SimBus.drivingLow] at hq
  obtain ⟨hq1, hq2⟩ := hq
  subst hq2
  unfold write_bit_hw
  split <;> cases outMode <;> cases latch <;> simp at hq1 <;>
    simp [runActs, simPlatform, SimBus.act, SimBus.pinChange, SimBus.drivingLow,
      SimBus.released, SimBus.idleFor]

/-- A read slot on the quiet simulated bus: a pulse of 3 us, the sample 10 us
after the release, then the rest of the slot. -/
theorem read_bit_hw_sim (b : SimBus) (hq : b.Quiet) :
    read_bit_hw simPlatform b =
      (if (SimBus.idleFor 10 (SimBus.released 3 false b)).pull = 0 then 1 else 0,
       SimBus.idleFor 53 (SimBus.idleFor 10 (SimBus.released 3 false b))) := by
  rcases b with ⟨devices, outMode, latch, lowTime, pull, clock, active, proto⟩
  simp only [SimBus.Quiet, SimBus.drivingLow] at hq
  obtain ⟨hq1, hq2⟩ := hq
  subst hq2
  unfold read_bit_hw
  cases outMode <;> cases latch <;> simp at hq1 <;>
    simp [runActs, simPlatform, SimBus.act, SimBus.pinChange, SimBus.drivingLow,
      SimBus.released, SimBus.idleFor, SimBus.sample]

/-- First read slot of a search round: the line is low when some device still
taking part has a 0 at this position. -/
theorem read_bit_hw_sim_phase0 (b : SimBus) (pos : Nat)
    (hp : b.proto = Proto.search pos 0) (hq : b.Quiet) :
    read_bit_hw simPlatform b =
      (if b.active.any (fun d => !d.testBit pos) then 0 else 1,
       { b with outMode := false, latch := false, lowTime := 3, pull := 0,
                clock := b.clock + 66, proto := Proto.search pos 1 }) := by
  rw [read_bit_hw_sim b hq]
  by_cases ha : b.active.any (fun d => !d.testBit pos) = true <;>
    simp [SimBus.released, SimBus.idleFor, SimBus.slotEnd, hp, hq.2, ha, Nat.add_assoc]

/-- Second read slot of a search round: the line is low when some device still
taking part has a 1 at this position. -/
theorem read_bit_hw_sim_phase1 (b : SimBus) (pos : Nat)
    (hp : b.proto = Proto.search pos 1) (hq : b.Quiet) :
    read_bit_hw simPlatform b =
      (if b.active.any (fun d => d.testBit pos) then 0 else 1,
       { b with outMode := false, latch := false, lowTime := 3, pull := 0,
                clock := b.clock + 66, proto := Proto.search pos 2 }) := by
  rw [read_bit_hw_sim b hq]
  by_cases ha : b.active.any (fun d => d.testBit pos) = true <;>
    simp [SimBus.released, SimBus.idleFor, SimBus.slotEnd, hp, hq.2, ha, Nat.add_assoc]

/-- The write slot of a search round: the devices whose bit differs from the
written direction leave the search. -/
theorem write_bit_hw_sim_phase2 (b : SimBus) (pos v : Nat)
    (hp : b.proto = Proto.search pos 2) (hq : b.Quiet) (hv : v = 0 ∨ v = 1) :
    write_bit_hw simPlatform v b =
      { b with outMode := true, latch := true, lowTime := if v = 1 then 10 else 65, pull := 0,
               clock := b.clock + (if v = 1 then 65 else 70),
               active := b.active.filter (fun d => d.testBit pos == decide (v = 1)),
               proto := if pos + 1 < 64 then Proto.search (pos + 1) 0 else Proto.idle } := by
  rw [write_bit_hw_sim b v hq]
  rcases hv with rfl | rfl <;>
    simp [SimBus.released, SimBus.idleFor, SimBus.slotEnd, hp, hq.2, Nat.add_assoc]

/-- A write slot while the devices receive the first seven bits of the command. -/
theorem write_bit_hw_sim_command (b : SimBus) (bits : List Bool) (v : Nat)
    (hp : b.proto = Proto.command bits) (hq : b.Quiet) (hv : v = 0 ∨ v = 1)
    (hl : bits.length + 1 ≠ 8) :
    write_bit_hw simPlatform v b =
      { b with outMode := true, latch := true, lowTime := if v = 1 then 10 else 65, pull := 0,
               clock := b.clock + (if v = 1 then 65 else 70),
               proto := Proto.command (bits ++ [decide (v = 1)]) } := by
  rw [write_bit_hw_sim b v hq]
  rcases hv with rfl | rfl <;>
    simp [SimBus.released, SimBus.idleFor, SimBus.slotEnd, hp, hq.2, Nat.add_assoc, hl]

/-- The write slot that completes the search command: all devices take part. -/
theorem write_bit_hw_sim_command_last (b : SimBus) (bits : List Bool) (v : Nat)
    (hp : b.proto = Proto.command bits) (hq : b.Quiet) (hv : v = 0 ∨ v = 1)
    (hl : bits.length + 1 = 8) (hm : bits ++ [decide (v = 1)] = searchCommandBits) :
    write_bit_hw simPlatform v b =
      { b with outMode := true, latch := true, lowTime := if v = 1 then 10 else 65, pull := 0,
               clock := b.clock + (if v = 1 then 65 else 70),
               active := b.devices, proto := Proto.search 0 0 } := by
  rw [write_bit_hw_sim b v hq]
  rcases hv with rfl | rfl
  · simp at hm
    simp [SimBus.released, SimBus.idleFor, SimBus.slotEnd, hp, hq.2, Nat.add_assoc, hl, hm]
  · simp at hm
    simp [SimBus.released, SimBus.idleFor, SimBus.slotEnd, hp, hq.2, Nat.add_assoc, hl, hm]

theorem reset_wait_unfold (P : Platform σ) (h : σ) :
    reset_wait P 125 h =
      if (P.sample (P.act (Act.delay 2) h)).1 then (true, (P.sample (P.act (Act.delay 2) h)).2)
      else reset_wait P 124 (P.sample (P.act (Act.delay 2) h)).2 := rfl

/-- The wait loop of `reset` leaves at its first sample when the line is high. -/
theorem reset_wait_high (P : Platform σ) (h : σ)
    (hs : (P.sample (P.act (Act.delay 2) h)).1 = true) :
    reset_wait P 125 h = (true, (P.sample (P.act (Act.delay 2) h)).2) := by
  rw [reset_wait_unfold, if_pos hs]

/-- A reset on the quiet simulated bus with at least one device: the presence
pulse is seen, and all devices wait for a command. -/
theorem reset_sim (s : OneWire SimBus) (hq : s.hw.Quiet) (hd : s.hw.devices ≠ []) :
    reset simPlatform s =
      (1, { s with hw := { s.hw with outMode := false, latch := false, lowTime := 500, pull := 0,
                                     clock := s.hw.clock + 1002, active := s.hw.devices,
                                     proto := Proto.command [] } }) := by
  rcases s with ⟨hw, a1, a2, a3, a4, a5, a6, a7, a8, a9, a10, a11, a12, a13, a14, a15, a16⟩
  rcases hw with ⟨devices, outMode, latch, lowTime, pull, clock, active, proto⟩
  simp only [SimBus.Quiet, SimBus.drivingLow] at hq hd
  obtain ⟨hq1, hq2⟩ := hq
  subst hq2
  have hne : devices.isEmpty = false := by
    cases devices with
    | nil => exact absurd rfl hd
    | cons d ds => rfl
  simp only [reset]
  rw [reset_wait_high]
  · cases outMode <;> cases latch <;> simp at hq1 <;>
      simp [runActs, simPlatform, SimBus.act, SimBus.pinChange, SimBus.drivingLow, SimBus.sample,
        SimBus.slotEnd, hne, hd, Nat.add_assoc]
  · cases outMode <;> cases latch <;> simp at hq1 <;>
      simp [runActs, simPlatform, SimBus.act, SimBus.pinChange, SimBus.drivingLow, SimBus.sample]

/-- The line actions of `release_line`, as a function of the platform state. -/
theorem release_line_eq (P : Platform σ) (s : OneWire σ) :
    release_line P s = { s with hw := release_hw P s.hw } := rfl

/-- The search command `0xF0` is written as the bits 0, 0, 0, 0, 1, 1, 1, 1. -/
theorem write_F0_unroll (P : Platform σ) (s : OneWire σ) :
    write P 0xF0 0 s =
      release_line P (write_bit P 1 (write_bit P 1 (write_bit P 1 (write_bit P 1
        (write_bit P 0 (write_bit P 0 (write_bit P 0 (write_bit P 0 s)))))))) := rfl

/-- Leaving the line floating on a bus the master does not pull low. -/
theorem release_line_hw_sim (b : SimBus) (hq : b.drivingLow = false) :
    release_hw simPlatform b = { b with outMode := false, latch := false } := by
  rcases b with ⟨devices, outMode, latch, lowTime, pull, clock, active, proto⟩
  simp only [SimBus.drivingLow] at hq
  cases outMode <;> cases latch <;> simp at hq <;>
    simp [release_hw, runActs, simPlatform, SimBus.act, SimBus.pinChange, SimBus.drivingLow]

theorem at_read0 {b : SimBus} {D A : List Nat} {pos : Nat}
    (h : b.At D A (Proto.search pos 0)) :
    (read_bit_hw simPlatform b).1 = (if A.any (fun d => !d.testBit pos) then 0 else 1) ∧
    (read_bit_hw simPlatform b).2.At D A (Proto.search pos 1) := by
  obtain ⟨h1, h2, h3, h4⟩ := h
  rw [read_bit_hw_sim_phase0 b pos h3 h4]
  simp [SimBus.At, SimBus.Quiet, SimBus.drivingLow, h1, h2]

theorem at_read1 {b : SimBus} {D A : List Nat} {pos : Nat}
    (h : b.At D A (Proto.search pos 1)) :
    (read_bit_hw simPlatform b).1 = (if A.any (fun d => d.testBit pos) then 0 else 1) ∧
    (read_bit_hw simPlatform b).2.At D A (Proto.search pos 2) := by
  obtain ⟨h1, h2, h3, h4⟩ := h
  rw [read_bit_hw_sim_phase1 b pos h3 h4]
  simp [SimBus.At, SimBus.Quiet, SimBus.drivingLow, h1, h2]

theorem at_write2 {b : SimBus} {D A : List Nat} {pos : Nat} (v : Nat)
    (h : b.At D A (Proto.search pos 2)) (hv : v = 0 ∨ v = 1) :
    (write_bit_hw simPlatform v b).At D (A.filter (fun d => d.testBit pos == decide (v = 1)))
      (if pos + 1 < 64 then Proto.search (pos + 1) 0 else Proto.idle) := by
  obtain ⟨h1, h2, h3, h4⟩ := h
  rw [write_bit_hw_sim_phase2 b pos v h3 h4 hv]
  simp [SimBus.At, SimBus.Quiet, SimBus.drivingLow, h1, h2]

theorem at_command {b : SimBus} {D A : List Nat} {bits : List Bool} (v : Nat)
    (h : b.At D A (Proto.command bits)) (hv : v = 0 ∨ v = 1) (hl : bits.length + 1 ≠ 8) :
    (write_bit_hw simPlatform v b).At D A (Proto.command (bits ++ [decide (v = 1)])) := by
  obtain ⟨h1, h2, h3, h4⟩ := h
  rw [write_bit_hw_sim_command b bits v h3 h4 hv hl]
  simp [SimBus.At, SimBus.Quiet, SimBus.drivingLow, h1, h2]

theorem at_command_last {b : SimBus} {D A : List Nat} {bits : List Bool} (v : Nat)
    (h : b.At D A (Proto.command bits)) (hv : v = 0 ∨ v = 1) (hl : bits.length + 1 = 8)
    (hm : bits ++ [decide (v = 1)] = searchCommandBits) :
    (write_bit_hw simPlatform v b).At D D (Proto.search 0 0) := by
  obtain ⟨h1, h2, h3, h4⟩ := h
  rw [write_bit_hw_sim_command_last b bits v h3 h4 hv hl hm]
  simp [SimBus.At, SimBus.Quiet, SimBus.drivingLow, h1]

theorem at_release {b : SimBus} {D A : List Nat} {p : Proto} (h : b.At D A p) :
    (release_hw simPlatform b).At D A p := by
  obtain ⟨h1, h2, h3, h4⟩ := h
  rw [release_line_hw_sim b h4.1]
  simp [SimBus.At, SimBus.Quiet, SimBus.drivingLow, h1, h2, h3, h4.2]

/-- A reset on the quiet simulated bus with at least one device: the presence
pulse is seen, and all devices wait for a command. -/
theorem at_reset (s : OneWire SimBus) (hq : s.hw.Quiet) (hd : s.hw.devices ≠ []) :
    (reset simPlatform s).1 = 1 ∧
    (reset simPlatform s).2.hw.At s.hw.devices s.hw.devices (Proto.command []) ∧
    (reset simPlatform s).2 = { s with hw := (reset simPlatform s).2.hw } := by
  rw [reset_sim s hq hd]
  simp [SimBus.At, SimBus.Quiet, SimBus.drivingLow]

/-- The search command written after a reset on the simulated bus: all devices
enter the search at position 0. -/
theorem at_write_F0 (s : OneWire SimBus) (D A : List Nat)
    (h : s.hw.At D A (Proto.command [])) :
    (write simPlatform 0xF0 0 s).hw.At D D (Proto.search 0 0) ∧
    write simPlatform 0xF0 0 s =
      { s with hw := (write simPlatform 0xF0 0 s).hw,
               calls := (write simPlatform 0xF0 0 s).calls } := by
  constructor
  · simp only [write_F0_unroll, write_bit_eq, release_line_eq]
    have h1 := at_command 0 h (Or.inl rfl) (by decide)
    have h2 := at_command 0 h1 (Or.inl rfl) (by decide)
    have h3 := at_command 0 h2 (Or.inl rfl) (by decide)
    have h4 := at_command 0 h3 (Or.inl rfl) (by decide)
    have h5 := at_command 1 h4 (Or.inr rfl) (by decide)
    have h6 := at_command 1 h5 (Or.inr rfl) (by decide)
    have h7 := at_command 1 h6 (Or.inr rfl) (by decide)
    have h8 := at_command_last 1 h7 (Or.inr rfl) (by decide) (by decide)
    exact at_release h8
  · simp only [write_F0_unroll, write_bit_eq, release_line_eq]

/-! ## Pure facts about the loop of `search` -/

theorem and_two_pow_eq (x m : Nat) : x &&& 2 ^ m = if x.testBit m then 2 ^ m else 0 := by
  apply Nat.eq_of_testBit_eq
  intro i
  rw [Nat.testBit_and, Nat.testBit_two_pow]
  by_cases hx : x.testBit m = true
  · rw [if_pos hx, Nat.testBit_two_pow]
    by_cases hi : m = i
    · subst hi; simp [hx]
    · simp [hi]
  · rw [if_neg hx]
    by_cases hi : m = i
    · subst hi; simp at hx; simp [hx]
    · simp [hi]

theorem and_two_pow_pos (x m : Nat) : (x &&& 2 ^ m > 0) ↔ x.testBit m = true := by
  rw [and_two_pow_eq]
  by_cases hx : x.testBit m = true
  · simp [hx]
  · simp [hx]

/-- The counters after a round, as long as fewer than 64 bits are done. -/
theorem search_advance_counters (k lz : Nat) (hk : k < 64) :
    search_advance
      { id_bit_number := k + 1, last_zero := lz, rom_byte_number := k / 8,
        rom_byte_mask := 2 ^ (k % 8) } =
      { id_bit_number := k + 2, last_zero := lz, rom_byte_number := (k + 1) / 8,
        rom_byte_mask := 2 ^ ((k + 1) % 8) } := by
  have h8 : k / 8 < 8 := by omega
  have hm := Nat.mod_lt k (show 8 > 0 by decide)
  have hid : (k + 1 + 1) % 256 = k + 2 := by omega
  unfold search_advance
  simp only [hid, Nat.shiftLeft_eq]
  generalize hr : k % 8 = m at hm
  have hq : (k / 8 + 1) % 256 = k / 8 + 1 := by omega
  interval_cases m
  all_goals simp
  all_goals first
    | (have e1 : (k + 1) / 8 = k / 8 := by omega
       have e2 : (k + 1) % 8 = k % 8 + 1 := by omega
       rw [e1, e2, hr]; exact ⟨rfl, by norm_num⟩)
    | (have e1 : (k + 1) / 8 = k / 8 + 1 := by omega
       have e2 : (k + 1) % 8 = 0 := by omega
       rw [e1, e2, hq]; simp)

theorem romBit_update_or (rom : Nat → Nat) (k j : Nat) :
    romBit (Function.update rom (k / 8) (rom (k / 8) ||| 2 ^ (k % 8))) j =
      if j = k then true else romBit rom j := by
  unfold romBit
  by_cases hj : j = k
  · subst hj; simp [Nat.testBit_two_pow_self]
  · rw [if_neg hj]
    by_cases hb : j / 8 = k / 8
    · rw [hb, Function.update_same, Nat.testBit_or, Nat.testBit_two_pow]
      have : k % 8 ≠ j % 8 := by omega
      simp [this]
    · rw [Function.update_noteq hb]

theorem romBit_update_and (rom : Nat → Nat) (k j : Nat) :
    romBit (Function.update rom (k / 8) (rom (k / 8) &&& (2 ^ (k % 8) ^^^ 0xFF))) j =
      if j = k then false else romBit rom j := by
  unfold romBit
  have h255 : ∀ i, i < 8 → Nat.testBit 0xFF i = true := by
    intro i hi
    have := Nat.testBit_two_pow_sub_one 8 i
    simpa [hi] using this
  by_cases hj : j = k
  · subst hj
    rw [if_pos rfl, Function.update_same, Nat.testBit_and, Nat.testBit_xor,
      Nat.testBit_two_pow_self, h255 _ (Nat.mod_lt _ (by decide))]
    simp
  · rw [if_neg hj]
    by_cases hb : j / 8 = k / 8
    · rw [hb, Function.update_same, Nat.testBit_and, Nat.testBit_xor, Nat.testBit_two_pow,
        h255 _ (Nat.mod_lt _ (by decide))]
      have : k % 8 ≠ j % 8 := by omega
      simp [this]
    · rw [Function.update_noteq hb]

/-- Storing the direction changes bit `k` of `ROM_NO` and nothing else, and
keeps every byte a byte. -/
theorem search_store_spec (dir k lz : Nat) (s : OneWire σ)
    (hrom : ∀ i, s.ROM_NO i < 256) :
    let l : SearchLocals :=
      { id_bit_number := k + 1, last_zero := lz, rom_byte_number := k / 8,
        rom_byte_mask := 2 ^ (k % 8) }
    (∀ j, romBit (search_store dir l s).ROM_NO j =
        if j = k then decide (dir = 1) else romBit s.ROM_NO j) ∧
    (∀ i, (search_store dir l s).ROM_NO i < 256) ∧
    search_store dir l s = { s with ROM_NO := (search_store dir l s).ROM_NO } := by
  intro l
  have hm : (2 : Nat) ^ (k % 8) < 2 ^ 8 :=
    Nat.pow_lt_pow_right (by decide) (Nat.mod_lt _ (by decide))
  by_cases hd : dir = 1
  · refine ⟨?_, ?_, ?_⟩
    · intro j
      simp only [search_store, l, hd, if_true]
      rw [romBit_update_or]; simp
    · intro i
      simp only [search_store, l, hd, if_true]
      by_cases hi : i = k / 8
      · subst hi; rw [Function.update_same]
        exact Nat.or_lt_two_pow (n := 8) (hrom _) hm
      · rw [Function.update_noteq hi]; exact hrom i
    · simp only [search_store, l, hd, if_true]
  · refine ⟨?_, ?_, ?_⟩
    · intro j
      simp only [search_store, l, hd, if_false]
      rw [romBit_update_and]; simp [hd]
    · intro i
      simp only [search_store, l, hd, if_false]
      by_cases hi : i = k / 8
      · subst hi; rw [Function.update_same]
        exact lt_of_le_of_lt Nat.and_le_left (hrom _)
      · rw [Function.update_noteq hi]; exact hrom i
    · simp only [search_store, l, hd, if_false]

/-! ## The path invariant of a search pass -/

theorem agreeBelow_congr {k : Nat} {d : Nat} {t t' : Nat → Bool}
    (h : ∀ j < k, t' j = t j) : AgreeBelow k d t' ↔ AgreeBelow k d t := by
  constructor
  · intro ha j hj; rw [ha j hj, h j hj]
  · intro ha j hj; rw [ha j hj, h j hj]

theorem zeroBranch_congr {D : List Nat} {j : Nat} {t t' : Nat → Bool}
    (h : ∀ i ≤ j, t' i = t i) : ZeroBranch D t' j ↔ ZeroBranch D t j := by
  unfold ZeroBranch
  rw [h j (Nat.le_refl j)]
  have hc : ∀ d, AgreeBelow j d t' ↔ AgreeBelow j d t := fun d =>
    agreeBelow_congr (fun i hi => h i (Nat.le_of_lt hi))
  constructor
  · rintro ⟨h0, d, hd, ha, hb⟩; exact ⟨h0, d, hd, (hc d).1 ha, hb⟩
  · rintro ⟨h0, d, hd, ha, hb⟩; exact ⟨h0, d, hd, (hc d).2 ha, hb⟩

theorem agreeBelow_succ {k d : Nat} {t : Nat → Bool} :
    AgreeBelow (k + 1) d t ↔ AgreeBelow k d t ∧ d.testBit k = t k := by
  constructor
  · intro h; exact ⟨fun j hj => h j (Nat.lt_succ_of_lt hj), h k (Nat.lt_succ_self k)⟩
  · rintro ⟨h1, h2⟩ j hj
    rcases Nat.lt_succ_iff_lt_or_eq.mp hj with hlt | rfl
    · exact h1 j hlt
    · exact h2

/-- One round of the loop keeps the path invariant. `dir` is the direction
written: the common bit when the devices agree, and at a branch point the old
bit before `L`, 1 at `L` and 0 after `L`. The new path `t'` is `t` with `dir`
at position `k`; the new `last_zero` is `z'`. -/
theorem pathInv_step {D : List Nat} {L : Nat} {r : Nat → Bool} {k : Nat} {t : Nat → Bool}
    {z : Nat} (hpre : PassPre D L r) (hk : k < 64) (inv : PathInv D L r k t z) (dir : Bool)
    (h0 : (¬ ∃ d ∈ D, AgreeBelow k d t ∧ d.testBit k = false) → dir = true)
    (h1 : (¬ ∃ d ∈ D, AgreeBelow k d t ∧ d.testBit k = true) → dir = false)
    (h01 : (∃ d ∈ D, AgreeBelow k d t ∧ d.testBit k = false) →
           (∃ d ∈ D, AgreeBelow k d t ∧ d.testBit k = true) →
           dir = (if k + 1 < L then t k else decide (k + 1 = L)))
    (t' : Nat → Bool) (hne : ∀ j, j ≠ k → t' j = t j) (hat : t' k = dir)
    (z' : Nat)
    (hz1 : (∃ d ∈ D, AgreeBelow k d t ∧ d.testBit k = true) ∧ dir = false → z' = k + 1)
    (hz2 : ¬ ((∃ d ∈ D, AgreeBelow k d t ∧ d.testBit k = true) ∧ dir = false) → z' = z) :
    PathInv D L r (k + 1) t' z' := by
  have hlow : ∀ j < k, t' j = t j := fun j hj => hne j (Nat.ne_of_lt hj)
  have hag : ∀ {j d}, j ≤ k → (AgreeBelow j d t' ↔ AgreeBelow j d t) := fun hj =>
    agreeBelow_congr (fun i hi => hlow i (Nat.lt_of_lt_of_le hi hj))
  have hzb : ∀ {j}, j < k → (ZeroBranch D t' j ↔ ZeroBranch D t j) := fun hj =>
    zeroBranch_congr (fun i hi => hlow i (Nat.lt_of_le_of_lt hi hj))
  have hzk : ZeroBranch D t' k ↔
      ((∃ d ∈ D, AgreeBelow k d t ∧ d.testBit k = true) ∧ dir = false) := by
    unfold ZeroBranch
    rw [hat]
    constructor
    · rintro ⟨hd, d, hdD, ha, hb⟩; exact ⟨⟨d, hdD, (hag (Nat.le_refl k)).1 ha, hb⟩, hd⟩
    · rintro ⟨⟨d, hdD, ha, hb⟩, hd⟩; exact ⟨hd, d, hdD, (hag (Nat.le_refl k)).2 ha, hb⟩
  have hprev : ∀ j, j < k → j + 1 < L → t j = r j := inv.pre
  refine ⟨?_, ?_, ?_, ?_, ?_, ?_⟩
  · -- some device follows the path one step further
    by_cases hdir : dir = true
    · by_cases hh : ∃ d ∈ D, AgreeBelow k d t ∧ d.testBit k = true
      · obtain ⟨d, hdD, ha, hb⟩ := hh
        exact ⟨d, hdD, agreeBelow_succ.2 ⟨(hag (Nat.le_refl k)).2 ha, by rw [hat, hb, hdir]⟩⟩
      · have := h1 hh; rw [hdir] at this; exact absurd this (by decide)
    · have hdir' : dir = false := by simpa using hdir
      by_cases hh : ∃ d ∈ D, AgreeBelow k d t ∧ d.testBit k = false
      · obtain ⟨d, hdD, ha, hb⟩ := hh
        exact ⟨d, hdD, agreeBelow_succ.2 ⟨(hag (Nat.le_refl k)).2 ha, by rw [hat, hb, hdir']⟩⟩
      · exact absurd (h0 hh) hdir
  · intro j hj
    rw [hne j (by omega)]
    exact inv.old j (by omega)
  · intro j hj hL
    rcases Nat.lt_succ_iff_lt_or_eq.mp hj with hlt | rfl
    · rw [hlow j hlt]; exact inv.pre j hlt hL
    · rw [hat]
      rcases hpre with hz | ⟨_, _, ⟨d0, hd0, ha0⟩, _⟩
      · omega
      · have hd0k : AgreeBelow j d0 t := by
          intro i hi
          rw [ha0 i (by omega), hprev i hi (by omega)]
        have hrj : d0.testBit j = r j := ha0 j hk
        have htj : t j = r j := inv.old j (Nat.le_refl j)
        by_cases hh0 : ∃ d ∈ D, AgreeBelow j d t ∧ d.testBit j = false
        · by_cases hh1 : ∃ d ∈ D, AgreeBelow j d t ∧ d.testBit j = true
          · rw [h01 hh0 hh1, if_pos hL, htj]
          · rw [h1 hh1]
            cases hb : d0.testBit j with
            | true => exact absurd ⟨d0, hd0, hd0k, hb⟩ hh1
            | false => rw [← hrj, hb]
        · rw [h0 hh0]
          cases hb : d0.testBit j with
          | true => rw [← hrj, hb]
          | false => exact absurd ⟨d0, hd0, hd0k, hb⟩ hh0
  · intro hL1 hLk
    rcases Nat.lt_succ_iff_lt_or_eq.mp (Nat.lt_succ_of_le hLk) with hlt | heq
    · rw [hne (L - 1) (by omega)]
      exact inv.atL hL1 (by omega)
    · have hLk' : L - 1 = k := by omega
      rw [hLk', hat]
      by_cases hh1 : ∃ d ∈ D, AgreeBelow k d t ∧ d.testBit k = true
      · by_cases hh0 : ∃ d ∈ D, AgreeBelow k d t ∧ d.testBit k = false
        · rw [h01 hh0 hh1]
          have : ¬ k + 1 < L := by omega
          simp [this, heq]
        · exact h0 hh0
      · exfalso
        rcases hpre with hz | ⟨_, _, _, hzr⟩
        · omega
        · rw [hLk'] at hzr
          obtain ⟨_, d, hdD, ha, hb⟩ := hzr
          apply hh1
          refine ⟨d, hdD, ?_, hb⟩
          intro i hi
          rw [ha i hi, hprev i hi (by omega)]
  · intro j hLj hj d hdD ha htj
    rcases Nat.lt_succ_iff_lt_or_eq.mp hj with hlt | rfl
    · rw [hlow j hlt] at htj
      exact inv.post j hLj hlt d hdD ((hag (Nat.le_of_lt hlt)).1 ha) htj
    · rw [hat] at htj
      have ha' := (hag (Nat.le_refl j)).1 ha
      cases hb : d.testBit j with
      | true => rfl
      | false =>
        exfalso
        have hh0 : ∃ d ∈ D, AgreeBelow j d t ∧ d.testBit j = false := ⟨d, hdD, ha', hb⟩
        by_cases hh1 : ∃ d ∈ D, AgreeBelow j d t ∧ d.testBit j = true
        · have := h01 hh0 hh1
          have hn1 : ¬ j + 1 < L := by omega
          have hn2 : ¬ j + 1 = L := by omega
          rw [htj] at this
          simp [hn1, hn2] at this
        · have := h1 hh1
          rw [htj] at this
          exact absurd this (by decide)
  · by_cases hc : (∃ d ∈ D, AgreeBelow k d t ∧ d.testBit k = true) ∧ dir = false
    · rw [hz1 hc]
      right
      refine ⟨by omega, Nat.le_refl _, ?_, ?_⟩
      · rw [Nat.add_sub_cancel]; exact hzk.2 hc
      · intro j h1 h2; omega
    · rw [hz2 hc]
      have hnk : ¬ ZeroBranch D t' k := fun h => hc (hzk.1 h)
      rcases inv.lz with ⟨hz0, hall⟩ | ⟨hz1, hzk', hzz, hall⟩
      · left
        refine ⟨hz0, ?_⟩
        intro j hj
        rcases Nat.lt_succ_iff_lt_or_eq.mp hj with hlt | rfl
        · exact fun h => hall j hlt ((hzb hlt).1 h)
        · exact hnk
      · right
        refine ⟨hz1, by omega, (hzb (by omega)).2 hzz, ?_⟩
        intro j hzj hj
        rcases Nat.lt_succ_iff_lt_or_eq.mp hj with hlt | rfl
        · exact fun h => hall j hzj hlt ((hzb hlt).1 h)
        · exact hnk

/-! ## One round of the loop of `search` on the simulated bus -/

theorem mem_followers {D : List Nat} {rom : Nat → Nat} {k d : Nat} :
    d ∈ followers D rom k ↔ d ∈ D ∧ AgreeBelow k d (romBit rom) := by
  unfold followers AgreeBelow
  rw [List.mem_filter, decide_eq_true_iff]

theorem followers_any_zero {D : List Nat} {rom : Nat → Nat} {k : Nat} :
    (followers D rom k).any (fun d => !d.testBit k) = true ↔
      ∃ d ∈ D, AgreeBelow k d (romBit rom) ∧ d.testBit k = false := by
  rw [List.any_eq_true]
  constructor
  · rintro ⟨d, hd, hb⟩
    exact ⟨d, (mem_followers.1 hd).1, (mem_followers.1 hd).2, by simpa using hb⟩
  · rintro ⟨d, hd, ha, hb⟩
    exact ⟨d, mem_followers.2 ⟨hd, ha⟩, by simp [hb]⟩

theorem followers_any_one {D : List Nat} {rom : Nat → Nat} {k : Nat} :
    (followers D rom k).any (fun d => d.testBit k) = true ↔
      ∃ d ∈ D, AgreeBelow k d (romBit rom) ∧ d.testBit k = true := by
  rw [List.any_eq_true]
  constructor
  · rintro ⟨d, hd, hb⟩
    exact ⟨d, (mem_followers.1 hd).1, (mem_followers.1 hd).2, hb⟩
  · rintro ⟨d, hd, ha, hb⟩
    exact ⟨d, mem_followers.2 ⟨hd, ha⟩, hb⟩

/-- The devices left after the write slot are the followers of the new path. -/
theorem followers_step (D : List Nat) (rom rom' : Nat → Nat) (k : Nat) (dir : Bool)
    (hne : ∀ j, j ≠ k → romBit rom' j = romBit rom j) (hat : romBit rom' k = dir) :
    (followers D rom k).filter (fun d => d.testBit k == dir) = followers D rom' (k + 1) := by
  unfold followers
  rw [List.filter_filter]
  apply List.filter_congr
  intro d _
  rw [Bool.eq_iff_iff]
  simp only [Bool.and_eq_true, beq_iff_eq, decide_eq_true_iff]
  constructor
  · rintro ⟨h1, h2⟩ j hj
    rcases Nat.lt_succ_iff_lt_or_eq.mp hj with hlt | rfl
    · rw [h2 j hlt, hne j (Nat.ne_of_lt hlt)]
    · rw [h1, hat]
  · intro h
    refine ⟨by rw [h k (Nat.lt_succ_self k), hat], ?_⟩
    intro j hj
    rw [h j (Nat.lt_succ_of_lt hj), hne j (Nat.ne_of_lt hj)]

/-- The direction choice of a round, for bits read as 0 or 1 and not both 1:
the direction `dir`, the new `last_zero`, and nothing else changed except
`LastFamilyDiscrepancy`. -/
theorem search_choose_spec (id_bit cmp_id_bit k lz : Nat) (s : OneWire σ)
    (hi : id_bit = 0 ∨ id_bit = 1) (hc : cmp_id_bit = 0 ∨ cmp_id_bit = 1)
    (hn : ¬ (id_bit = 1 ∧ cmp_id_bit = 1)) :
    ∃ (dir : Bool) (z' lfd : Nat),
      search_choose id_bit cmp_id_bit
        { id_bit_number := k + 1, last_zero := lz, rom_byte_number := k / 8,
          rom_byte_mask := 2 ^ (k % 8) } s =
        (if dir then 1 else 0,
         { id_bit_number := k + 1, last_zero := z', rom_byte_number := k / 8,
           rom_byte_mask := 2 ^ (k % 8) },
         { s with LastFamilyDiscrepancy := lfd }) ∧
      (id_bit = 1 → dir = true) ∧ (cmp_id_bit = 1 → dir = false) ∧
      (id_bit = 0 → cmp_id_bit = 0 →
        dir = (if k + 1 < s.LastDiscrepancy then romBit s.ROM_NO k
               else decide (k + 1 = s.LastDiscrepancy))) ∧
      ((id_bit = 0 ∧ cmp_id_bit = 0) ∧ dir = false → z' = k + 1) ∧
      (¬ ((id_bit = 0 ∧ cmp_id_bit = 0) ∧ dir = false) → z' = lz) := by
  rcases hi with rfl | rfl <;> rcases hc with rfl | rfl
  · -- a branch point
    by_cases h1 : k + 1 < s.LastDiscrepancy
    · by_cases hb : romBit s.ROM_NO k = true
      · refine ⟨true, lz, s.LastFamilyDiscrepancy, ?_, ?_⟩
        · have : s.ROM_NO (k / 8) &&& 2 ^ (k % 8) > 0 := (and_two_pow_pos _ _).2 hb
          simp [search_choose, h1, this]
        · simp [h1, hb]
      · have hb' : romBit s.ROM_NO k = false := by simpa using hb
        have hz : ¬ (s.ROM_NO (k / 8) &&& 2 ^ (k % 8) > 0) := fun h =>
          hb ((and_two_pow_pos _ _).1 h)
        by_cases h9 : k + 1 < 9
        · refine ⟨false, k + 1, k + 1, ?_, ?_⟩
          · simp [search_choose, h1, hz, h9]
          · simp [h1, hb']
        · refine ⟨false, k + 1, s.LastFamilyDiscrepancy, ?_, ?_⟩
          · simp [search_choose, h1, hz, h9]
          · simp [h1, hb']
    · by_cases h2 : k + 1 = s.LastDiscrepancy
      · refine ⟨true, lz, s.LastFamilyDiscrepancy, ?_, ?_⟩
        · simp [search_choose, h1, h2]
        · simp [h1, h2]
      · by_cases h9 : k + 1 < 9
        · refine ⟨false, k + 1, k + 1, ?_, ?_⟩
          · simp [search_choose, h1, h2, h9]
          · simp [h1, h2]
        · refine ⟨false, k + 1, s.LastFamilyDiscrepancy, ?_, ?_⟩
          · simp [search_choose, h1, h2, h9]
          · simp [h1, h2]
  · exact ⟨false, lz, s.LastFamilyDiscrepancy, by simp [search_choose], by simp⟩
  · exact ⟨true, lz, s.LastFamilyDiscrepancy, by simp [search_choose], by simp⟩
  · exact absurd ⟨rfl, rfl⟩ hn

/-- One round of the loop of `search` on the simulated bus keeps the invariant
and, unless it was the last of the 64 rounds, continues with the next round. -/
theorem search_loop_step {D : List Nat} {L : Nat} {r : Nat → Bool} {k : Nat}
    {l : SearchLocals} {s : OneWire SimBus} (hpre : PassPre D L r) (hk : k < 64)
    (inv : LoopInv D L r k l s) :
    ∃ l' s', LoopInv D L r (k + 1) l' s' ∧
      ∀ fuel, search_loop simPlatform (fuel + 1) l s =
        if k + 1 < 64 then search_loop simPlatform fuel l' s' else (l', s') := by
  obtain ⟨idn, lz, byte, mask⟩ := l
  obtain ⟨hidn, hbyte, hmask, hrom, hbus, hLD, hLDF, hpath⟩ := inv
  simp only at hidn hbyte hmask hpath
  subst hidn hbyte hmask
  rw [if_pos hk] at hbus
  -- the two read slots
  have hr1 := at_read0 hbus
  have hr2 := at_read1 hr1.2
  generalize e1 : read_bit_hw simPlatform s.hw = R1 at hr1 hr2
  generalize e2 : read_bit_hw simPlatform R1.2 = R2 at hr2
  obtain ⟨hid, -⟩ := hr1
  obtain ⟨hcmp, hb2⟩ := hr2
  -- what the devices answer
  have hex := hpath.act_ne
  have hi01 : R1.1 = 0 ∨ R1.1 = 1 := by rw [hid]; split <;> simp
  have hc01 : R2.1 = 0 ∨ R2.1 = 1 := by rw [hcmp]; split <;> simp
  have hi1 : R1.1 = 1 ↔ ¬ ∃ d ∈ D, AgreeBelow k d (romBit s.ROM_NO) ∧ d.testBit k = false := by
    rw [hid, ← followers_any_zero]; split <;> simp_all
  have hc1 : R2.1 = 1 ↔ ¬ ∃ d ∈ D, AgreeBelow k d (romBit s.ROM_NO) ∧ d.testBit k = true := by
    rw [hcmp, ← followers_any_one]; split <;> simp_all
  have hn : ¬ (R1.1 = 1 ∧ R2.1 = 1) := by
    rintro ⟨h1, h2⟩
    obtain ⟨d, hd, ha⟩ := hex
    cases hb : d.testBit k with
    | true => exact (hc1.1 h2) ⟨d, hd, ha, hb⟩
    | false => exact (hi1.1 h1) ⟨d, hd, ha, hb⟩
  have hi0 : R1.1 = 0 ↔ ∃ d ∈ D, AgreeBelow k d (romBit s.ROM_NO) ∧ d.testBit k = false := by
    constructor
    · intro h; by_contra hcon; have := hi1.2 hcon; omega
    · intro h; rcases hi01 with h0 | h1
      · exact h0
      · exact absurd h (hi1.1 h1)
  have hc0 : R2.1 = 0 ↔ ∃ d ∈ D, AgreeBelow k d (romBit s.ROM_NO) ∧ d.testBit k = true := by
    constructor
    · intro h; by_contra hcon; have := hc1.2 hcon; omega
    · intro h; rcases hc01 with h0 | h1
      · exact h0
      · exact absurd h (hc1.1 h1)
  -- the direction
  obtain ⟨dir, z', lfd, hch, hd1, hd2, hd3, hz1, hz2⟩ :=
    search_choose_spec R1.1 R2.1 k lz
      { s with hw := R2.2,
               calls := s.calls ++ [Call.read_bit R1.1] ++ [Call.read_bit R2.1] } hi01 hc01 hn
  simp only at hd3
  rw [hLD] at hd3
  -- the store and the write slot
  obtain ⟨hst1, hst2, hst3⟩ := search_store_spec (if dir then 1 else 0) k z'
    { s with hw := R2.2,
             calls := s.calls ++ [Call.read_bit R1.1] ++ [Call.read_bit R2.1],
             LastFamilyDiscrepancy := lfd } hrom
  simp only at hst1 hst2 hst3
  have hdec : decide ((if dir then 1 else 0 : Nat) = 1) = dir := by cases dir <;> rfl
  have hw := at_write2 (if dir then 1 else 0) hb2 (by cases dir <;> simp)
  rw [hdec] at hw
  simp only [hdec] at hst1
  have hfol := followers_step D s.ROM_NO _ k dir
    (fun j hj => by rw [hst1 j, if_neg hj]) (by rw [hst1 k, if_pos rfl])
  rw [hfol] at hw
  refine ⟨{ id_bit_number := k + 2, last_zero := z', rom_byte_number := (k + 1) / 8,
            rom_byte_mask := 2 ^ ((k + 1) % 8) },
          write_bit simPlatform (if dir then 1 else 0)
            (search_store (if dir then 1 else 0)
              { id_bit_number := k + 1, last_zero := z', rom_byte_number := k / 8,
                rom_byte_mask := 2 ^ (k % 8) }
              { s with hw := R2.2,
                       calls := s.calls ++ [Call.read_bit R1.1] ++ [Call.read_bit R2.1],
                       LastFamilyDiscrepancy := lfd }), ?_, ?_⟩
  · -- the invariant
    rw [write_bit_eq, hst3]
    refine ⟨rfl, rfl, rfl, hst2, hw, hLD, hLDF, ?_⟩
    refine pathInv_step hpre hk hpath dir ?_ ?_ ?_ _ ?_ ?_ z' ?_ ?_
    · intro h; exact hd1 (hi1.2 h)
    · intro h; exact hd2 (hc1.2 h)
    · intro h0 h1; exact hd3 (hi0.2 h0) (hc0.2 h1)
    · intro j hj; simp only; rw [hst1 j, if_neg hj]
    · simp only; rw [hst1 k, if_pos rfl]
    · rintro ⟨h1, hdir⟩
      refine hz1 ⟨⟨?_, hc0.2 h1⟩, hdir⟩
      rcases hi01 with h | h
      · exact h
      · have := hd1 h; rw [hdir] at this; exact absurd this (by decide)
    · intro h
      apply hz2
      rintro ⟨⟨-, h2⟩, hdir⟩
      exact h ⟨hc0.1 h2, hdir⟩
  · -- the code
    intro fuel
    simp only [search_loop, read_bit_eq, e1, e2, if_neg hn, hch,
      search_advance_counters k z' hk]
    have hlt : ((k + 1) / 8 < 8) ↔ k + 1 < 64 := by omega
    simp only [hlt]

/-! ## The order of the enumeration -/

theorem revBits_lt (n : Nat) : ∀ d : Nat, revBits n d < 2 ^ n := by
  induction n with
  | zero => intro d; simp [revBits]
  | succ n ih =>
    intro d
    have h1 := ih (d / 2)
    have h2 : d % 2 < 2 := Nat.mod_lt _ (by decide)
    have h3 : d % 2 * 2 ^ n ≤ 1 * 2 ^ n := Nat.mul_le_mul_right _ (by omega)
    simp only [revBits, Nat.pow_succ]
    omega

/-- A number with a 0 where the other has a 1, and equal bits before, has the
smaller reversed value. -/
theorem revBits_lt_of_first_diff (n : Nat) : ∀ (a b k : Nat), k < n →
    (∀ j < k, a.testBit j = b.testBit j) → a.testBit k = false → b.testBit k = true →
    revBits n a < revBits n b := by
  induction n with
  | zero => intro a b k hk; omega
  | succ n ih =>
    intro a b k hk hag ha hb
    simp only [revBits]
    cases k with
    | zero =>
      rw [Nat.testBit_zero] at ha hb
      have ha' : a % 2 = 0 := by
        have := Nat.mod_two_eq_zero_or_one a
        simp at ha; omega
      have hb' : b % 2 = 1 := by simpa using hb
      rw [ha', hb']
      have := revBits_lt n (a / 2)
      omega
    | succ k =>
      have h0 := hag 0 (Nat.succ_pos k)
      rw [Nat.testBit_zero, Nat.testBit_zero] at h0
      have h0' : a % 2 = b % 2 := by
        have h1 := Nat.mod_two_eq_zero_or_one a
        have h2 := Nat.mod_two_eq_zero_or_one b
        rcases h1 with h1 | h1 <;> rcases h2 with h2 | h2 <;> simp [h1, h2] at h0 ⊢
      rw [h0']
      have := ih (a / 2) (b / 2) k (by omega)
        (fun j hj => by
          rw [Nat.testBit_div_two, Nat.testBit_div_two]; exact hag (j + 1) (by omega))
        (by rw [Nat.testBit_div_two]; exact ha)
        (by rw [Nat.testBit_div_two]; exact hb)
      omega

/-- Two different 64-bit numbers have a first position where their bits differ. -/
theorem first_diff (a b : Nat) (ha : a < 2 ^ 64) (hb : b < 2 ^ 64) (hne : a ≠ b) :
    ∃ k < 64, (∀ j < k, a.testBit j = b.testBit j) ∧ a.testBit k ≠ b.testBit k := by
  have hex : ∃ k, a.testBit k ≠ b.testBit k := by
    by_contra hcon
    apply hne
    apply Nat.eq_of_testBit_eq
    intro i
    by_contra hi
    exact hcon ⟨i, hi⟩
  classical
  refine ⟨Nat.find hex, ?_, ?_, Nat.find_spec hex⟩
  · by_contra hge
    have hge' : 64 ≤ Nat.find hex := by omega
    have h1 : a.testBit (Nat.find hex) = false :=
      Nat.testBit_lt_two_pow (lt_of_lt_of_le ha (Nat.pow_le_pow_right (by decide) hge'))
    have h2 : b.testBit (Nat.find hex) = false :=
      Nat.testBit_lt_two_pow (lt_of_lt_of_le hb (Nat.pow_le_pow_right (by decide) hge'))
    exact Nat.find_spec hex (by rw [h1, h2])
  · intro j hj
    by_contra hcon
    exact Nat.find_min hex hj hcon

theorem revBits_injective (a b : Nat) (ha : a < 2 ^ 64) (hb : b < 2 ^ 64)
    (h : revBits 64 a = revBits 64 b) : a = b := by
  by_contra hne
  obtain ⟨k, hk, hag, hd⟩ := first_diff a b ha hb hne
  cases hak : a.testBit k with
  | true =>
    have hbk : b.testBit k = false := by
      cases hbk : b.testBit k with
      | true => rw [hak, hbk] at hd; exact absurd rfl hd
      | false => rfl
    have := revBits_lt_of_first_diff 64 b a k hk (fun j hj => (hag j hj).symm) hbk hak
    omega
  | false =>
    have hbk : b.testBit k = true := by
      cases hbk : b.testBit k with
      | true => rfl
      | false => rw [hak, hbk] at hd; exact absurd rfl hd
    have := revBits_lt_of_first_diff 64 a b k hk hag hak hbk
    omega

/-- A path that takes the zero side wherever a device offers it from position
`L` on is below every device that shares its first `L` bits. -/
theorem key_le_of_post {D : List Nat} {L t d : Nat} (ht : t < 2 ^ 64) (hd : d < 2 ^ 64)
    (hdD : d ∈ D) (hag : ∀ j < L, d.testBit j = t.testBit j)
    (post : ∀ j, L ≤ j → j < 64 → ∀ d ∈ D, AgreeBelow j d t.testBit → t.testBit j = true →
      d.testBit j = true) :
    revBits 64 t ≤ revBits 64 d := by
  by_cases hne : t = d
  · rw [hne]
  · obtain ⟨k, hk, hagk, hdk⟩ := first_diff t d ht hd hne
    have hLk : L ≤ k := by
      by_contra hcon
      exact hdk (hag k (by omega)).symm
    cases htk : t.testBit k with
    | true =>
      have := post k hLk hk d hdD (fun j hj => (hagk j hj).symm) htk
      rw [htk, this] at hdk
      exact absurd rfl hdk
    | false =>
      have hdk' : d.testBit k = true := by
        cases hb : d.testBit k with
        | true => rfl
        | false => rw [htk, hb] at hdk; exact absurd rfl hdk
      exact Nat.le_of_lt (revBits_lt_of_first_diff 64 t d k hk hagk htk hdk')

/-- Without a zero branch the path is above every device. -/
theorem key_le_of_no_zeroBranch {D : List Nat} {t d : Nat} (ht : t < 2 ^ 64) (hd : d < 2 ^ 64)
    (hdD : d ∈ D) (hz : ∀ j < 64, ¬ ZeroBranch D t.testBit j) :
    revBits 64 d ≤ revBits 64 t := by
  by_cases hne : t = d
  · rw [hne]
  · obtain ⟨k, hk, hagk, hdk⟩ := first_diff t d ht hd hne
    cases htk : t.testBit k with
    | true =>
      have hdk' : d.testBit k = false := by
        cases hb : d.testBit k with
        | true => rw [htk, hb] at hdk; exact absurd rfl hdk
        | false => rfl
      exact Nat.le_of_lt (revBits_lt_of_first_diff 64 d t k hk
        (fun j hj => (hagk j hj).symm) hdk' htk)
    | false =>
      have hdk' : d.testBit k = true := by
        cases hb : d.testBit k with
        | true => rfl
        | false => rw [htk, hb] at hdk; exact absurd rfl hdk
      exact absurd ⟨htk, d, hdD, fun j hj => (hagk j hj).symm, hdk'⟩ (hz k hk)

/-- A zero branch shows a device above the path. -/
theorem key_lt_of_zeroBranch {D : List Nat} {t : Nat} {k : Nat} (hk : k < 64)
    (hz : ZeroBranch D t.testBit k) : ∃ d ∈ D, revBits 64 t < revBits 64 d := by
  obtain ⟨htk, d, hdD, hag, hdk⟩ := hz
  exact ⟨d, hdD, revBits_lt_of_first_diff 64 t d k hk (fun j hj => (hag j hj).symm) htk hdk⟩

/-- The address found by a pass that resumes at the branch point `L` of the
previous address `r` is the next device above `r`. -/
theorem key_next {D : List Nat} {L r t : Nat} (hr : r < 2 ^ 64) (ht : t < 2 ^ 64)
    (hD : ∀ d ∈ D, d < 2 ^ 64) (hL1 : 1 ≤ L) (hL : L ≤ 64)
    (hzr : ZeroBranch D r.testBit (L - 1))
    (hlast : ∀ j, L ≤ j → j < 64 → ¬ ZeroBranch D r.testBit j)
    (pre : ∀ j, j + 1 < L → t.testBit j = r.testBit j)
    (atL : t.testBit (L - 1) = true)
    (post : ∀ j, L ≤ j → j < 64 → ∀ d ∈ D, AgreeBelow j d t.testBit → t.testBit j = true →
      d.testBit j = true) :
    revBits 64 r < revBits 64 t ∧
    ∀ d ∈ D, revBits 64 r < revBits 64 d → revBits 64 t ≤ revBits 64 d := by
  constructor
  · exact revBits_lt_of_first_diff 64 r t (L - 1) (by omega)
      (fun j hj => (pre j (by omega)).symm) hzr.1 atL
  · intro d hdD hlt
    have hne : r ≠ d := by rintro rfl; omega
    obtain ⟨k, hk, hagk, hdk⟩ := first_diff r d hr (hD d hdD) hne
    cases hrk : r.testBit k with
    | true =>
      have hdk' : d.testBit k = false := by
        cases hb : d.testBit k with
        | true => rw [hrk, hb] at hdk; exact absurd rfl hdk
        | false => rfl
      have := revBits_lt_of_first_diff 64 d r k hk (fun j hj => (hagk j hj).symm) hdk' hrk
      omega
    | false =>
      have hdk' : d.testBit k = true := by
        cases hb : d.testBit k with
        | true => rfl
        | false => rw [hrk, hb] at hdk; exact absurd rfl hdk
      have hzk : ZeroBranch D r.testBit k := ⟨hrk, d, hdD, fun j hj => (hagk j hj).symm, hdk'⟩
      have hkL : k < L := by
        by_contra hcon
        exact hlast k (by omega) hk hzk
      by_cases hkl : k + 1 < L
      · apply Nat.le_of_lt
        refine revBits_lt_of_first_diff 64 t d k hk ?_ ?_ hdk'
        · intro j hj; rw [pre j (by omega)]; exact hagk j hj
        · rw [pre k hkl]; exact hrk
      · have hkeq : k = L - 1 := by omega
        refine key_le_of_post ht (hD d hdD) hdD ?_ post
        intro j hj
        rcases Nat.lt_succ_iff_lt_or_eq.mp (show j < (L - 1) + 1 by omega) with h1 | h1
        · rw [pre j (by omega)]; exact (hagk j (by omega)).symm
        · rw [h1, atL, ← hkeq]; exact hdk'

/-! ## Addresses as numbers -/

theorem testBit_bytesToNat (bs : List Nat) : (∀ b ∈ bs, b < 256) → ∀ j,
    (bytesToNat bs).testBit j = (bs.getD (j / 8) 0).testBit (j % 8) := by
  induction bs with
  | nil => intro _ j; simp [bytesToNat]
  | cons b rest ih =>
    intro hb j
    have hb0 : b < 2 ^ 8 := hb b (List.mem_cons_self _ _)
    have e : bytesToNat (b :: rest) = 2 ^ 8 * bytesToNat rest + b := by
      simp only [bytesToNat]; omega
    rw [e, Nat.testBit_mul_pow_two_add _ hb0]
    by_cases hj : j < 8
    · rw [if_pos hj]
      have e1 : j / 8 = 0 := by omega
      have e2 : j % 8 = j := by omega
      rw [e1, e2]; rfl
    · rw [if_neg hj, ih (fun x hx => hb x (List.mem_cons_of_mem _ hx))]
      have e1 : j / 8 = (j - 8) / 8 + 1 := by omega
      have e2 : (j - 8) % 8 = j % 8 := by omega
      rw [e1, e2]; rfl

/-- The bits of the number of an address buffer are the bits of its bytes. -/
theorem testBit_addrToNat (a : Nat → Nat) (ha : ∀ i, i < 8 → a i < 256) (j : Nat) :
    (addrToNat a).testBit j = if j < 64 then romBit a j else false := by
  unfold addrToNat
  rw [testBit_bytesToNat]
  · unfold romBit
    by_cases hj : j < 64
    · rw [if_pos hj]
      have h8 : j / 8 < 8 := by omega
      generalize j / 8 = q at h8
      interval_cases q <;> rfl
    · rw [if_neg hj]
      have h8 : 8 ≤ j / 8 := by omega
      obtain ⟨q, hq⟩ : ∃ q, j / 8 = q + 8 := ⟨j / 8 - 8, by omega⟩
      rw [hq]
      simp
  · intro b hb
    simp only [List.mem_cons, List.mem_singleton, List.not_mem_nil, or_false] at hb
    rcases hb with rfl | rfl | rfl | rfl | rfl | rfl | rfl | rfl <;> exact ha _ (by decide)

/-- A buffer whose 64 bits are those of the 64-bit number `d` is the address `d`. -/
theorem addrToNat_eq (a : Nat → Nat) (d : Nat) (ha : ∀ i, i < 8 → a i < 256)
    (hd : d < 2 ^ 64) (hbits : ∀ j < 64, d.testBit j = romBit a j) : addrToNat a = d := by
  apply Nat.eq_of_testBit_eq
  intro j
  rw [testBit_addrToNat a ha]
  by_cases hj : j < 64
  · rw [if_pos hj, hbits j hj]
  · rw [if_neg hj]
    exact (Nat.testBit_lt_two_pow (lt_of_lt_of_le hd
      (Nat.pow_le_pow_right (by decide) (by omega)))).symm

/-- The first byte of such a buffer is the family byte of `d`. -/
theorem family_byte_eq (a : Nat → Nat) (d : Nat) (ha : a 0 < 256)
    (hbits : ∀ j < 64, d.testBit j = romBit a j) : a 0 = d % 256 := by
  apply Nat.eq_of_testBit_eq
  intro j
  rw [show (256 : Nat) = 2 ^ 8 by decide, Nat.testBit_mod_two_pow]
  by_cases hj : j < 8
  · have := hbits j (by omega)
    unfold romBit at this
    have e1 : j / 8 = 0 := by omega
    have e2 : j % 8 = j := by omega
    rw [e1, e2] at this
    simp [hj, this]
  · have : a 0 < 2 ^ j := lt_of_lt_of_le ha
      (by rw [show (256 : Nat) = 2 ^ 8 by decide]
          exact Nat.pow_le_pow_right (by decide) (by omega))
    simp [hj, Nat.testBit_lt_two_pow this]

/-! ## A whole pass of `search` on the simulated bus -/

/-- From the round for position `k` on, the loop of `search` runs its remaining
`64 - k` rounds and leaves through its own test; more fuel changes nothing. -/
theorem search_loop_run {D : List Nat} {L : Nat} {r : Nat → Bool} (hpre : PassPre D L r) :
    ∀ (n k : Nat) (l : SearchLocals) (s : OneWire SimBus), k + n = 64 → 1 ≤ n →
      LoopInv D L r k l s →
      ∃ l' s', LoopInv D L r 64 l' s' ∧
        ∀ extra, search_loop simPlatform (n + extra) l s = (l', s') := by
  intro n
  induction n with
  | zero => intro k l s _ h1; omega
  | succ n ih =>
    intro k l s hkn _ inv
    obtain ⟨l1, s1, inv1, hstep⟩ := search_loop_step hpre (by omega) inv
    by_cases hn : n = 0
    · subst hn
      have hk : k + 1 = 64 := by omega
      refine ⟨l1, s1, hk ▸ inv1, ?_⟩
      intro extra
      rw [show 0 + 1 + extra = extra + 1 by omega, hstep, if_neg (by omega)]
    · obtain ⟨l', s', inv', hrun⟩ := ih (k + 1) l1 s1 (by omega) (by omega) inv1
      refine ⟨l', s', inv', ?_⟩
      intro extra
      rw [show n + 1 + extra = (n + extra) + 1 by omega, hstep, if_pos (by omega), hrun]

theorem followers_zero (D : List Nat) (rom : Nat → Nat) : followers D rom 0 = D := by
  unfold followers
  rw [List.filter_eq_self]
  intro d _
  simp

theorem lastZero_congr {D : List Nat} {t t' : Nat → Bool} {k z : Nat}
    (h : ∀ j < k, t' j = t j) : LastZero D t' k z → LastZero D t k z := by
  have hz : ∀ j, j < k → (ZeroBranch D t' j ↔ ZeroBranch D t j) := fun j hj =>
    zeroBranch_congr (fun i hi => h i (Nat.lt_of_le_of_lt hi hj))
  rintro (⟨h0, hall⟩ | ⟨h1, h2, h3, hall⟩)
  · exact Or.inl ⟨h0, fun j hj hzb => hall j hj ((hz j hj).2 hzb)⟩
  · exact Or.inr ⟨h1, h2, (hz _ (by omega)).1 h3,
      fun j hzj hj hzb => hall j hzj hj ((hz j hj).2 hzb)⟩

/-- The start of a pass: after the reset and the search command the loop
invariant holds for position 0. -/
theorem loopInv_init {D : List Nat} (s : OneWire SimBus) (hne : D ≠ [])
    (hrom : ∀ i, s.ROM_NO i < 256) (hdev : s.hw.devices = D) (hq : s.hw.Quiet)
    (hflag : s.LastDeviceFlag = false) :
    (reset simPlatform s).1 = 1 ∧
    LoopInv D s.LastDiscrepancy (romBit s.ROM_NO) 0
      { id_bit_number := 1, last_zero := 0, rom_byte_number := 0, rom_byte_mask := 1 }
      (write simPlatform 0xF0 0 (reset simPlatform s).2) := by
  obtain ⟨hr1, hr2, hr3⟩ := at_reset s hq (by rw [hdev]; exact hne)
  rw [hdev] at hr2
  obtain ⟨hw1, hw2⟩ := at_write_F0 (reset simPlatform s).2 D D hr2
  refine ⟨hr1, ?_⟩
  rw [hw2, hr3]
  refine ⟨rfl, rfl, rfl, hrom, ?_, rfl, hflag, ?_⟩
  · simp only [followers_zero]
    rw [hr3] at hw1
    exact hw1
  · obtain ⟨d, hd⟩ := List.exists_mem_of_ne_nil D hne
    refine ⟨⟨d, hd, fun j hj => absurd hj (Nat.not_lt_zero j)⟩, fun j _ => rfl, ?_, ?_, ?_, ?_⟩
    · intro j hj; omega
    · intro h1 h2; omega
    · intro j _ hj; omega
    · exact Or.inl ⟨rfl, fun j hj => absurd hj (Nat.not_lt_zero j)⟩

/-- A pass of `search` on the simulated bus, started with the flag
`LastDeviceFlag` clear: it returns 1 with the address of a device `t`, and
relates `t` to the previous address and `LastDiscrepancy` as the path
invariant says. -/
theorem search_pass {D : List Nat} (hD : ∀ d ∈ D, d < 2 ^ 64 ∧ d % 256 ≠ 0) (hne : D ≠ [])
    (s : OneWire SimBus) (newAddr : Nat → Nat)
    (hrom : ∀ i, s.ROM_NO i < 256) (hdev : s.hw.devices = D) (hq : s.hw.Quiet)
    (hflag : s.LastDeviceFlag = false)
    (hpre : PassPre D s.LastDiscrepancy (romBit s.ROM_NO)) :
    ∃ t s', search simPlatform newAddr s =
        (1, (fun i => if i < 8 then s'.ROM_NO i else newAddr i), s') ∧
      Found D s' t ∧
      addrToNat (fun i => if i < 8 then s'.ROM_NO i else newAddr i) = t ∧
      (∀ j, j < 64 → j + 1 < s.LastDiscrepancy → t.testBit j = romBit s.ROM_NO j) ∧
      (1 ≤ s.LastDiscrepancy → s.LastDiscrepancy ≤ 64 →
        t.testBit (s.LastDiscrepancy - 1) = true) ∧
      (∀ j, s.LastDiscrepancy ≤ j → j < 64 → ∀ d ∈ D, AgreeBelow j d t.testBit →
        t.testBit j = true → d.testBit j = true) := by
  obtain ⟨hr, inv0⟩ := loopInv_init s hne hrom hdev hq hflag
  obtain ⟨l', s1, inv, hrun⟩ := search_loop_run hpre 64 0 _ _ rfl (by decide) inv0
  have hrun0 := hrun 0
  obtain ⟨t, htD, hag⟩ := inv.path.act_ne
  have hbits : ∀ j < 64, t.testBit j = romBit s1.ROM_NO j := hag
  have hfam : s1.ROM_NO 0 ≠ 0 := by
    rw [family_byte_eq s1.ROM_NO t (inv.rom_lt 0) hbits]
    exact (hD t htD).2
  have hquiet : s1.hw.Quiet := inv.bus.2.2.2
  have hdev1 : s1.hw.devices = D := inv.bus.1
  have hidn : ¬ (l'.id_bit_number < 65) := by rw [inv.idn]; omega
  have hlz : LastZero D t.testBit 64 l'.last_zero :=
    lastZero_congr (fun j hj => (hbits j hj).symm) inv.path.lz
  have hpathpre := inv.path.pre
  have hpathL := inv.path.atL
  have hpathpost := inv.path.post
  have hcong : ∀ {j d}, j ≤ 64 → (AgreeBelow j d t.testBit ↔ AgreeBelow j d (romBit s1.ROM_NO)) :=
    fun hj => agreeBelow_congr (fun i hi => hbits i (by omega))
  have hfacts :
      (∀ j, j < 64 → j + 1 < s.LastDiscrepancy → t.testBit j = romBit s.ROM_NO j) ∧
      (1 ≤ s.LastDiscrepancy → s.LastDiscrepancy ≤ 64 →
        t.testBit (s.LastDiscrepancy - 1) = true) ∧
      (∀ j, s.LastDiscrepancy ≤ j → j < 64 → ∀ d ∈ D, AgreeBelow j d t.testBit →
        t.testBit j = true → d.testBit j = true) := by
    refine ⟨?_, ?_, ?_⟩
    · intro j hj hL; rw [hbits j hj]; exact hpathpre j hj hL
    · intro h1 h2; rw [hbits _ (by omega)]; exact hpathL h1 h2
    · intro j hLj hj d hdD ha htj
      rw [hbits j hj] at htj
      exact hpathpost j hLj hj d hdD ((hcong (Nat.le_of_lt hj)).1 ha) htj
  by_cases hz : l'.last_zero = 0
  · refine ⟨t, { s1 with LastDiscrepancy := l'.last_zero, LastDeviceFlag := true }, ?_, ?_, ?_,
      hfacts⟩
    · simp [search, search_finish, hflag, hr, hrun0, hidn, hz, hfam]
    · exact ⟨htD, hbits, inv.rom_lt, hdev1, hquiet, hlz, by simp [hz]⟩
    · exact addrToNat_eq _ t (fun i hi => by simp only [hi, if_true]; exact inv.rom_lt i)
        (hD t htD).1 (fun j hj => by
          rw [hbits j hj]; unfold romBit
          have : j / 8 < 8 := by omega
          simp only [this, if_true])
  · refine ⟨t, { s1 with LastDiscrepancy := l'.last_zero }, ?_, ?_, ?_, hfacts⟩
    · simp [search, search_finish, hflag, hr, hrun0, hidn, hz, hfam]
    · exact ⟨htD, hbits, inv.rom_lt, hdev1, hquiet, hlz, by simp [hz, inv.LDF]⟩
    · exact addrToNat_eq _ t (fun i hi => by simp only [hi, if_true]; exact inv.rom_lt i)
        (hD t htD).1 (fun j hj => by
          rw [hbits j hj]; unfold romBit
          have : j / 8 < 8 := by omega
          simp only [this, if_true])

/-- With `LastDeviceFlag` set, `search` returns 0 and resets the counters. -/
theorem search_done (s : OneWire SimBus) (newAddr : Nat → Nat)
    (hflag : s.LastDeviceFlag = true) :
    search simPlatform newAddr s =
      (0, (fun i => if i < 8 then s.ROM_NO i else newAddr i),
        { s with LastDiscrepancy := 0, LastDeviceFlag := false, LastFamilyDiscrepancy := 0 }) := by
  simp [search, search_finish, hflag]

/-! ## The enumeration -/

/-- Taking the least element off a duplicate-free list leaves the elements above it. -/
theorem perm_cons_above (R : List Nat) (t : Nat) (hnd : R.Nodup) (ht : t ∈ R)
    (hR : ∀ d ∈ R, d < 2 ^ 64) (hmin : ∀ d ∈ R, revBits 64 t ≤ revBits 64 d) :
    List.Perm R (t :: above R t) := by
  have h1 := List.perm_cons_erase ht
  have h2 : R.erase t = above R t := by
    rw [hnd.erase_eq_filter]
    unfold above
    apply List.filter_congr
    intro d hd
    rw [Bool.eq_iff_iff]
    simp only [bne_iff_ne, ne_eq, decide_eq_true_iff]
    constructor
    · intro hne
      have := hmin d hd
      have hk : revBits 64 t ≠ revBits 64 d := fun h =>
        hne (revBits_injective t d (hR t ht) (hR d hd) h).symm
      omega
    · intro hlt heq
      rw [heq] at hlt
      omega
  rw [← h2]
  exact h1

theorem above_above (D : List Nat) (t0 t : Nat) (h : revBits 64 t0 < revBits 64 t) :
    above (above D t0) t = above D t := by
  unfold above
  rw [List.filter_filter]
  apply List.filter_congr
  intro d _
  rw [Bool.eq_iff_iff]
  simp only [Bool.and_eq_true, decide_eq_true_iff]
  constructor
  · intro h1; exact h1.1
  · intro h1; exact ⟨h1, by omega⟩

theorem searches_succ (P : Platform σ) (n : Nat) (s : OneWire σ) :
    searches P (n + 1) s =
      ((search P (fun _ => 0) s).1, addrToNat (search P (fun _ => 0) s).2.1) ::
        searches P n (search P (fun _ => 0) s).2.2 := rfl

/-- A successful call during the enumeration: the device found is the least of
the remaining ones, and the devices above it remain. -/
theorem enum_step {D : List Nat} (hD : ∀ d ∈ D, d < 2 ^ 64 ∧ d % 256 ≠ 0) (hnd : D.Nodup)
    (hne : D ≠ []) (s : OneWire SimBus) (R : List Nat) (hinv : EnumInv D s R) (hR : R ≠ []) :
    ∃ t s', search simPlatform (fun _ => 0) s = (1, (search simPlatform (fun _ => 0) s).2.1, s') ∧
      addrToNat (search simPlatform (fun _ => 0) s).2.1 = t ∧
      EnumInv D s' (above R t) ∧ List.Perm R (t :: above R t) ∧ t ∈ R := by
  have hlt : ∀ d ∈ D, d < 2 ^ 64 := fun d hd => (hD d hd).1
  rcases hinv with ⟨hf, rfl⟩ | ⟨t0, hfd, rfl⟩
  · -- the first pass
    obtain ⟨t, s', heq, hfound, haddr, -, -, hpost⟩ :=
      search_pass hD hne s (fun _ => 0) hf.rom_lt hf.dev hf.quiet hf.LDF (Or.inl hf.LD)
    rw [hf.LD] at hpost
    have hmin : ∀ d ∈ R, revBits 64 t ≤ revBits 64 d := fun d hd =>
      key_le_of_post (hlt t hfound.mem) (hlt d hd) hd (fun j hj => absurd hj (Nat.not_lt_zero j))
        (fun j hj => hpost j hj)
    refine ⟨t, s', ?_, ?_, Or.inr ⟨t, hfound, rfl⟩,
      perm_cons_above R t hnd hfound.mem hlt hmin, hfound.mem⟩
    · rw [heq]
    · rw [heq]; exact haddr
  · -- a later pass
    have hL1 : 1 ≤ s.LastDiscrepancy := by
      by_contra hcon
      have hL0 : s.LastDiscrepancy = 0 := by omega
      apply hR
      unfold above
      rw [List.filter_eq_nil_iff]
      intro d hd
      have hz : ∀ j < 64, ¬ ZeroBranch D t0.testBit j := by
        rcases hfd.lz with ⟨_, hall⟩ | ⟨h1, _⟩
        · exact hall
        · omega
      have := key_le_of_no_zeroBranch (hlt t0 hfd.mem) (hlt d hd) hd hz
      simp only [decide_eq_true_iff]
      omega
    obtain ⟨hL64, hzb, hlast⟩ : s.LastDiscrepancy ≤ 64 ∧
        ZeroBranch D t0.testBit (s.LastDiscrepancy - 1) ∧
        ∀ j, s.LastDiscrepancy ≤ j → j < 64 → ¬ ZeroBranch D t0.testBit j := by
      rcases hfd.lz with ⟨h0, _⟩ | ⟨_, h2, h3, h4⟩
      · omega
      · exact ⟨h2, h3, h4⟩
    have hflag : s.LastDeviceFlag = false := by
      rw [hfd.flag]; simp; omega
    have hpre : PassPre D s.LastDiscrepancy (romBit s.ROM_NO) := by
      refine Or.inr ⟨hL1, hL64, ⟨t0, hfd.mem, hfd.bits⟩, ?_⟩
      exact (zeroBranch_congr (fun i hi => (hfd.bits i (by omega)).symm)).2 hzb
    obtain ⟨t, s', heq, hfound, haddr, hpre', hatL, hpost⟩ :=
      search_pass hD hne s (fun _ => 0) hfd.rom_lt hfd.dev hfd.quiet hflag hpre
    obtain ⟨hnext1, hnext2⟩ := key_next (hlt t0 hfd.mem) (hlt t hfound.mem) hlt hL1 hL64 hzb hlast
      (fun j hj => by rw [hpre' j (by omega) hj, hfd.bits j (by omega)])
      (hatL hL1 hL64) hpost
    have htR : t ∈ above D t0 := by
      unfold above
      rw [List.mem_filter]
      exact ⟨hfound.mem, by simpa using hnext1⟩
    have hmin : ∀ d ∈ above D t0, revBits 64 t ≤ revBits 64 d := by
      intro d hd
      unfold above at hd
      rw [List.mem_filter] at hd
      exact hnext2 d hd.1 (by simpa using hd.2)
    have hsub : ∀ d ∈ above D t0, d < 2 ^ 64 := by
      intro d hd
      unfold above at hd
      rw [List.mem_filter] at hd
      exact hlt d hd.1
    refine ⟨t, s', ?_, ?_, Or.inr ⟨t, hfound, above_above D t0 t hnext1⟩,
      perm_cons_above _ t (hnd.filter _) htR hsub hmin, htR⟩
    · rw [heq]
    · rw [heq]; exact haddr

/-- The call after the last device: `search` returns 0. -/
theorem enum_end {D : List Nat} (hne : D ≠ []) (s : OneWire SimBus) (hinv : EnumInv D s []) :
    (search simPlatform (fun _ => 0) s).1 = 0 := by
  rcases hinv with ⟨_, h⟩ | ⟨t0, hfd, h⟩
  · exact absurd h.symm hne
  · have hL0 : s.LastDiscrepancy = 0 := by
      by_contra hcon
      rcases hfd.lz with ⟨h0, _⟩ | ⟨h1, h2, h3, _⟩
      · exact hcon h0
      · obtain ⟨d, hdD, hlt⟩ := key_lt_of_zeroBranch (by omega) h3
        have : d ∈ above D t0 := by
          unfold above
          rw [List.mem_filter]
          exact ⟨hdD, by simpa using hlt⟩
        rw [← h] at this
        exact absurd this (List.not_mem_nil d)
    have hflag : s.LastDeviceFlag = true := by rw [hfd.flag]; simp [hL0]
    rw [search_done s _ hflag]

/-- The enumeration from any state between two calls: as many successful calls
as devices remain, reporting the remaining devices in the order of their
reversed bits, then a call that returns 0. -/
theorem enum_run {D : List Nat} (hD : ∀ d ∈ D, d < 2 ^ 64 ∧ d % 256 ≠ 0) (hnd : D.Nodup)
    (hne : D ≠ []) : ∀ (m : Nat) (s : OneWire SimBus) (R : List Nat), EnumInv D s R →
      R.length = m →
      (searches simPlatform (m + 1) s).map Prod.fst = List.replicate m 1 ++ [0] ∧
      List.Perm (((searches simPlatform (m + 1) s).take m).map Prod.snd) R ∧
      List.Pairwise (fun a b => revBits 64 a < revBits 64 b)
        (((searches simPlatform (m + 1) s).take m).map Prod.snd) := by
  intro m
  induction m with
  | zero =>
    intro s R hinv hlen
    have hR : R = [] := List.length_eq_zero.mp hlen
    subst hR
    rw [searches_succ]
    simp [searches, enum_end hne s hinv]
  | succ m ih =>
    intro s R hinv hlen
    have hR : R ≠ [] := by
      intro h; rw [h] at hlen; simp at hlen
    obtain ⟨t, s', heq, haddr, hinv', hperm, htR⟩ := enum_step hD hnd hne s R hinv hR
    have hlen' : (above R t).length = m := by
      have := hperm.length_eq
      simp only [List.length_cons] at this
      omega
    obtain ⟨ih1, ih2, ih3⟩ := ih s' (above R t) hinv' hlen'
    have hs' : (search simPlatform (fun _ => 0) s).2.2 = s' := by rw [heq]
    have h1 : (search simPlatform (fun _ => 0) s).1 = 1 := by rw [heq]
    rw [searches_succ, hs', h1, haddr]
    refine ⟨?_, ?_, ?_⟩
    · rw [List.map_cons, ih1, List.replicate_succ]; rfl
    · rw [List.take_succ_cons, List.map_cons]
      exact (List.Perm.cons t ih2).trans hperm.symm
    · rw [List.take_succ_cons, List.map_cons, List.pairwise_cons]
      refine ⟨?_, ih3⟩
      intro x hx
      have hx' : x ∈ above R t := ih2.subset hx
      unfold above at hx'
      rw [List.mem_filter] at hx'
      simpa using hx'.2


/-- The object after construction and `reset_search` on a quiet simulated bus. -/
theorem fresh_start (D : List Nat) :
    Fresh D (reset_search (construct simPlatform (simBus D))) := by
  refine ⟨?_, rfl, ⟨rfl, rfl⟩, rfl, rfl⟩
  intro i
  simp only [reset_search, construct]
  split <;> decide

/-- C1. Search enumeration: on the simulated bus holding a non-empty set `D` of
distinct 64-bit addresses with non-zero family byte, the first `|D|` calls of
`search` after `reset_search` return 1, the addresses they copy out are the
addresses of `D`, each exactly once, and the next call returns 0. -/
theorem search_enumerates_all (D : List Nat) (hne : D ≠ []) (hnd : D.Nodup)
    (hD : ∀ d ∈ D, d < 2 ^ 64 ∧ d % 256 ≠ 0) :
    (enumerate D (D.length + 1)).map Prod.fst = List.replicate D.length 1 ++ [0] ∧
    List.Perm (((enumerate D (D.length + 1)).take D.length).map Prod.snd) D := by
  have h := enum_run hD hnd hne D.length _ D (Or.inl ⟨fresh_start D, rfl⟩) rfl
  exact ⟨h.1, h.2.1⟩

/-- Witness of C1 for two devices. -/
theorem search_enumerates_all_witness :
    ([0x0128, 0x0228] ≠ [] ∧ [0x0128, 0x0228].Nodup ∧
      ∀ d ∈ [0x0128, 0x0228], d < 2 ^ 64 ∧ d % 256 ≠ 0) ∧
    ((enumerate [0x0128, 0x0228] ([0x0128, 0x0228].length + 1)).map Prod.fst
        = List.replicate [0x0128, 0x0228].length 1 ++ [0] ∧
      List.Perm
        (((enumerate [0x0128, 0x0228] ([0x0128, 0x0228].length + 1)).take
          [0x0128, 0x0228].length).map Prod.snd) [0x0128, 0x0228]) :=
  ⟨⟨by decide, by decide, by decide⟩,
    search_enumerates_all [0x0128, 0x0228] (by decide) (by decide) (by decide)⟩

set_option maxRecDepth 1000000 in
set_option maxHeartbeats 4000000 in
/-- C2 as stated fails: with the devices 1 and 2 on the bus, the first
successful call reports 2 and the second reports 1, which is not ascending in
the value of the address with bit 0 least significant. -/
theorem search_order_counterexample :
    enumerate [1, 2] 3 = [(1, 2), (1, 1), (0, 1)] ∧
    ¬ List.Pairwise (fun a b => a < b) (((enumerate [1, 2] 3).take 2).map Prod.snd) := by
  decide

/-- C2, amended. Search order: the addresses reported by the successful calls
come in ascending order of the address read with the first bit on the wire
(bit 0 of byte 0) as the most significant bit, that is, of its 64 bits reversed. -/
theorem search_order_reversed_bits (D : List Nat) (hne : D ≠ []) (hnd : D.Nodup)
    (hD : ∀ d ∈ D, d < 2 ^ 64 ∧ d % 256 ≠ 0) :
    List.Pairwise (fun a b => revBits 64 a < revBits 64 b)
      (((enumerate D (D.length + 1)).take D.length).map Prod.snd) :=
  (enum_run hD hnd hne D.length _ D (Or.inl ⟨fresh_start D, rfl⟩) rfl).2.2

/-- Witness of the amended C2 for the devices 1 and 2. -/
theorem search_order_reversed_bits_witness :
    ([1, 2] ≠ [] ∧ [1, 2].Nodup ∧ ∀ d ∈ [1, 2], d < 2 ^ 64 ∧ d % 256 ≠ 0) ∧
    List.Pairwise (fun a b => revBits 64 a < revBits 64 b)
      (((enumerate [1, 2] ([1, 2].length + 1)).take [1, 2].length).map Prod.snd) :=
  ⟨⟨by decide, by decide, by decide⟩,
    search_order_reversed_bits [1, 2] (by decide) (by decide) (by decide)⟩

/-! ## The polled engine, byte by byte -/

theorem polled_write_eq (P : Platform σ) (v power : Nat) (s : OneWire σ) :
    polled_write P v power s =
      { s with
        hw := write_bit_hw P (if 1 &&& v ≠ 0 then 1 else 0) s.hw
        readWriteByte := v
        writePower := power
        poll_status := s.poll_status ||| ONEWIRE_POLLSTAT_WRITE
        readWriteBitMask := 2
        calls := s.calls ++ [Call.polled_write v] ++
          [Call.write_bit (if 1 &&& v ≠ 0 then 1 else 0)] } := by
  unfold polled_write
  simp only [write_bit_eq]
  rfl

theorem polled_read_eq (P : Platform σ) (s : OneWire σ) :
    polled_read P s =
      { s with
        hw := (read_bit_hw P s.hw).2
        readWriteByte := if (read_bit_hw P s.hw).1 ≠ 0 then 0 ||| 1 else 0
        poll_status := s.poll_status ||| ONEWIRE_POLLSTAT_READ
        readWriteBitMask := 2
        calls := s.calls ++ [Call.polled_read] ++ [Call.read_bit (read_bit_hw P s.hw).1] } := by
  unfold polled_read
  simp only [read_bit_eq]
  split <;> rfl

theorem poll_read_eq (P : Platform σ) (s : OneWire σ) :
    poll_read P s =
      { s with
        hw := (read_bit_hw P s.hw).2
        readWriteByte := if (read_bit_hw P s.hw).1 ≠ 0 then s.readWriteByte ||| s.readWriteBitMask
          else s.readWriteByte
        readWriteBitMask := (s.readWriteBitMask <<< 1) % 256
        poll_status := if (s.readWriteBitMask <<< 1) % 256 ≠ 0 then s.poll_status
          else clear_flag s.poll_status ONEWIRE_POLLSTAT_READ
        calls := s.calls ++ [Call.read_bit (read_bit_hw P s.hw).1] } := by
  unfold poll_read
  simp only [read_bit_eq]
  split <;> split <;> rfl

theorem mod_two_ite (x : Nat) :
    (if x % 2 = 1 then 1 else 0) = if x % 2 = 0 then (0 : Nat) else 1 := by
  rcases Nat.mod_two_eq_zero_or_one x with h | h <;> simp [h]

/-- The bit operations on the poll status values that occur, evaluated. -/
theorem status_eval :
    (0 &&& 1 : Nat) = 0 ∧
    (0 &&& 2 : Nat) = 0 ∧
    (0 &&& 4 : Nat) = 0 ∧
    (0 &&& 8 : Nat) = 0 ∧
    (0 &&& 16 : Nat) = 0 ∧
    (2 &&& 1 : Nat) = 0 ∧
    (2 &&& 2 : Nat) = 2 ∧
    (2 &&& 4 : Nat) = 0 ∧
    (2 &&& 8 : Nat) = 0 ∧
    (2 &&& 16 : Nat) = 0 ∧
    (4 &&& 1 : Nat) = 0 ∧
    (4 &&& 2 : Nat) = 0 ∧
    (4 &&& 4 : Nat) = 4 ∧
    (4 &&& 8 : Nat) = 0 ∧
    (4 &&& 16 : Nat) = 0 ∧
    (8 &&& 1 : Nat) = 0 ∧
    (8 &&& 2 : Nat) = 0 ∧
    (8 &&& 4 : Nat) = 0 ∧
    (8 &&& 8 : Nat) = 8 ∧
    (8 &&& 16 : Nat) = 0 ∧
    (10 &&& 1 : Nat) = 0 ∧
    (10 &&& 2 : Nat) = 2 ∧
    (10 &&& 4 : Nat) = 0 ∧
    (10 &&& 8 : Nat) = 8 ∧
    (10 &&& 16 : Nat) = 0 ∧
    (16 &&& 1 : Nat) = 0 ∧
    (16 &&& 2 : Nat) = 0 ∧
    (16 &&& 4 : Nat) = 0 ∧
    (16 &&& 8 : Nat) = 0 ∧
    (16 &&& 16 : Nat) = 16 ∧
    (20 &&& 1 : Nat) = 0 ∧
    (20 &&& 2 : Nat) = 0 ∧
    (20 &&& 4 : Nat) = 4 ∧
    (20 &&& 8 : Nat) = 0 ∧
    (20 &&& 16 : Nat) = 16 ∧
    (0 ||| 1 : Nat) = 1 ∧
    (0 ||| 2 : Nat) = 2 ∧
    (0 ||| 4 : Nat) = 4 ∧
    (0 ||| 8 : Nat) = 8 ∧
    (0 ||| 16 : Nat) = 16 ∧
    (2 ||| 1 : Nat) = 3 ∧
    (2 ||| 2 : Nat) = 2 ∧
    (2 ||| 4 : Nat) = 6 ∧
    (2 ||| 8 : Nat) = 10 ∧
    (2 ||| 16 : Nat) = 18 ∧
    (4 ||| 1 : Nat) = 5 ∧
    (4 ||| 2 : Nat) = 6 ∧
    (4 ||| 4 : Nat) = 4 ∧
    (4 ||| 8 : Nat) = 12 ∧
    (4 ||| 16 : Nat) = 20 ∧
    (8 ||| 1 : Nat) = 9 ∧
    (8 ||| 2 : Nat) = 10 ∧
    (8 ||| 4 : Nat) = 12 ∧
    (8 ||| 8 : Nat) = 8 ∧
    (8 ||| 16 : Nat) = 24 ∧
    (10 ||| 1 : Nat) = 11 ∧
    (10 ||| 2 : Nat) = 10 ∧
    (10 ||| 4 : Nat) = 14 ∧
    (10 ||| 8 : Nat) = 10 ∧
    (10 ||| 16 : Nat) = 26 ∧
    (16 ||| 1 : Nat) = 17 ∧
    (16 ||| 2 : Nat) = 18 ∧
    (16 ||| 4 : Nat) = 20 ∧
    (16 ||| 8 : Nat) = 24 ∧
    (16 ||| 16 : Nat) = 16 ∧
    (20 ||| 1 : Nat) = 21 ∧
    (20 ||| 2 : Nat) = 22 ∧
    (20 ||| 4 : Nat) = 20 ∧
    (20 ||| 8 : Nat) = 28 ∧
    (20 ||| 16 : Nat) = 20 ∧
    (0 &&& 254 : Nat) = 0 ∧
    (0 &&& 253 : Nat) = 0 ∧
    (0 &&& 251 : Nat) = 0 ∧
    (0 &&& 247 : Nat) = 0 ∧
    (0 &&& 239 : Nat) = 0 ∧
    (2 &&& 254 : Nat) = 2 ∧
    (2 &&& 253 : Nat) = 0 ∧
    (2 &&& 251 : Nat) = 2 ∧
    (2 &&& 247 : Nat) = 2 ∧
    (2 &&& 239 : Nat) = 2 ∧
    (4 &&& 254 : Nat) = 4 ∧
    (4 &&& 253 : Nat) = 4 ∧
    (4 &&& 251 : Nat) = 0 ∧
    (4 &&& 247 : Nat) = 4 ∧
    (4 &&& 239 : Nat) = 4 ∧
    (8 &&& 254 : Nat) = 8 ∧
    (8 &&& 253 : Nat) = 8 ∧
    (8 &&& 251 : Nat) = 8 ∧
    (8 &&& 247 : Nat) = 0 ∧
    (8 &&& 239 : Nat) = 8 ∧
    (10 &&& 254 : Nat) = 10 ∧
    (10 &&& 253 : Nat) = 8 ∧
    (10 &&& 251 : Nat) = 10 ∧
    (10 &&& 247 : Nat) = 2 ∧
    (10 &&& 239 : Nat) = 10 ∧
    (16 &&& 254 : Nat) = 16 ∧
    (16 &&& 253 : Nat) = 16 ∧
    (16 &&& 251 : Nat) = 16 ∧
    (16 &&& 247 : Nat) = 16 ∧
    (16 &&& 239 : Nat) = 0 ∧
    (20 &&& 254 : Nat) = 20 ∧
    (20 &&& 253 : Nat) = 20 ∧
    (20 &&& 251 : Nat) = 16 ∧
    (20 &&& 247 : Nat) = 20 ∧
    (20 &&& 239 : Nat) = 4 ∧
    (1 ^^^ 255 : Nat) = 254 ∧
    (2 ^^^ 255 : Nat) = 253 ∧
    (4 ^^^ 255 : Nat) = 251 ∧
    (8 ^^^ 255 : Nat) = 247 ∧
    (16 ^^^ 255 : Nat) = 239 := by
  repeat' apply And.intro
  all_goals decide

/-! ## The poll-driven engine, byte by byte -/

theorem polls_add (P : Platform σ) (a b : Nat) (s : OneWire σ) :
    polls P (a + b) s = polls P b (polls P a s) := by
  induction a generalizing s with
  | zero => simp [polls]
  | succ a ih => rw [Nat.succ_add]; simp only [polls]; exact ih _

theorem busy_add (P : Platform σ) (a b : Nat) (s : OneWire σ)
    (ha : Busy P a s) (hb : Busy P b (polls P a s)) : Busy P (a + b) s := by
  intro j hj
  by_cases h : j < a
  · exact ha j h
  · have := hb (j - a) (by omega)
    rw [← polls_add] at this
    rw [show j = a + (j - a) by omega]
    exact this

/-- The caller's loop stops exactly at the first poll count with status 0. -/
theorem poll_until_idle_eq (P : Platform σ) (k : Nat) : ∀ (s : OneWire σ) (extra : Nat),
    Busy P k s → (polls P k s).poll_status = 0 →
    poll_until_idle P (k + 1 + extra) s = polls P k s := by
  induction k with
  | zero =>
    intro s extra _ h0
    simp only [polls] at h0
    simp [poll_until_idle, polls, h0, Nat.add_comm]
  | succ k ih =>
    intro s extra hb h0
    have h1 : s.poll_status ≠ 0 := hb 0 (Nat.succ_pos k)
    rw [show k + 1 + 1 + extra = (k + 1 + extra) + 1 by omega]
    simp only [poll_until_idle, h1, if_false, polls]
    apply ih
    · intro j hj
      exact hb (j + 1) (by omega)
    · exact h0

/-- A polled byte write: `polled_write` and seven calls of `poll` make the eight
write slots of the byte, release the line unless `power` is set, and clear the
write flag; the status does not change before the seventh `poll`. -/
theorem polled_write_run (P : Platform σ) (v power : Nat) (s : OneWire σ)
    (h1 : (s.poll_status ||| 2) &&& 1 = 0) (h2 : (s.poll_status ||| 2) &&& 2 ≠ 0) :
    polls P 7 (polled_write P v power s) =
      { s with
        hw := byte_hw P v power s.hw
        readWriteByte := v
        writePower := power
        readWriteBitMask := 0
        poll_status := clear_flag (s.poll_status ||| 2) 2
        calls := s.calls ++ [Call.polled_write v] ++ (maskBits v).map Call.write_bit } ∧
    ∀ j < 7, (polls P j (polled_write P v power s)).poll_status = s.poll_status ||| 2 := by
  constructor
  · by_cases hp : power = 0
    · simp [polls, poll, poll_write, polled_write_eq, write_bit_eq, release_line_eq,
        ONEWIRE_POLLSTAT_RESET, ONEWIRE_POLLSTAT_WRITE, h1, h2, hp, byte_hw, maskBits,
        write_bits_hw, mod_two_ite]
    · simp [polls, poll, poll_write, polled_write_eq, write_bit_eq, release_line_eq,
        ONEWIRE_POLLSTAT_RESET, ONEWIRE_POLLSTAT_WRITE, h1, h2, hp, byte_hw, maskBits,
        write_bits_hw, mod_two_ite]
  · intro j hj
    interval_cases j <;>
      simp [polls, poll, poll_write, polled_write_eq, write_bit_eq,
        ONEWIRE_POLLSTAT_RESET, ONEWIRE_POLLSTAT_WRITE, h1, h2]

/-- A polled byte read: `polled_read` and seven calls of `poll` make eight read
slots, accumulate the byte under the masks 1, 2, ..., 128 and clear the read
flag; the status does not change before the seventh `poll`. -/
theorem polled_read_run (P : Platform σ) (s : OneWire σ)
    (h1 : (s.poll_status ||| 4) &&& 1 = 0) (h2 : (s.poll_status ||| 4) &&& 2 = 0)
    (h3 : (s.poll_status ||| 4) &&& 4 ≠ 0) :
    polls P 7 (polled_read P s) =
      { s with
        hw := (read_bits_hw P 8 s.hw).2
        readWriteByte := orMasks (read_bits_hw P 8 s.hw).1 1 0
        readWriteBitMask := 0
        poll_status := clear_flag (s.poll_status ||| 4) 4
        calls := s.calls ++ [Call.polled_read] ++
          (read_bits_hw P 8 s.hw).1.map Call.read_bit } ∧
    ∀ j < 7, (polls P j (polled_read P s)).poll_status = s.poll_status ||| 4 := by
  constructor
  · simp [polls, poll, poll_read_eq, polled_read_eq,
      ONEWIRE_POLLSTAT_RESET, ONEWIRE_POLLSTAT_WRITE, ONEWIRE_POLLSTAT_READ, h1, h2, h3,
      read_bits_hw, orMasks]
  · intro j hj
    interval_cases j <;>
      simp [polls, poll, poll_read_eq, polled_read_eq,
        ONEWIRE_POLLSTAT_RESET, ONEWIRE_POLLSTAT_WRITE, ONEWIRE_POLLSTAT_READ, h1, h2, h3]

/-- The start of a polled multi-byte write from the idle object: after
`polled_write_bytes` and seven calls of `poll` the first byte is written. -/
theorem wbytes_start (P : Platform σ) (bufLen : Nat) (buf : Nat → Nat) (count : Nat)
    (power : Bool) (s : OneWire σ) (hs : s.poll_status = 0) :
    polls P 7 (polled_write_bytes P bufLen buf count power s) =
      wbytes_state P s (min count bufLen % 256) power
        (fun i => if i < min count bufLen % 256 then buf i else s.readWriteBuffer i) 1 ∧
    Busy P 7 (polled_write_bytes P bufLen buf count power s) := by
  constructor
  · simp [polls, poll, poll_write, polled_write_bytes, polled_write_eq, write_bit_eq,
      release_line_eq, ONEWIRE_POLLSTAT_RESET, ONEWIRE_POLLSTAT_WRITE,
      ONEWIRE_POLLSTAT_WRITE_BYTES, hs, wbytes_state, wbytes_run, byte_hw, maskBits,
      write_bits_hw, clear_flag, status_eval, mod_two_ite]
  · intro j hj
    interval_cases j <;>
      simp [polls, poll, poll_write, polled_write_bytes, polled_write_eq, write_bit_eq,
        ONEWIRE_POLLSTAT_RESET, ONEWIRE_POLLSTAT_WRITE, ONEWIRE_POLLSTAT_WRITE_BYTES, hs]

/-- A byte that is not the last of a polled multi-byte write: eight calls of
`poll` start it and complete it. -/
theorem wbytes_mid (P : Platform σ) (s : OneWire σ) (N : Nat) (power : Bool) (B : Nat → Nat)
    (i : Nat) (hi : i + 1 < N) (hN : N < 256) :
    polls P 8 (wbytes_state P s N power B i) = wbytes_state P s N power B (i + 1) ∧
    Busy P 8 (wbytes_state P s N power B i) := by
  have hm : (i + 1) % 256 = i + 1 := Nat.mod_eq_of_lt (by omega)
  constructor
  · simp [polls, poll, poll_write, poll_write_bytes, polled_write_eq, write_bit_eq,
      release_line_eq, ONEWIRE_POLLSTAT_RESET, ONEWIRE_POLLSTAT_WRITE,
      ONEWIRE_POLLSTAT_WRITE_BYTES, ONEWIRE_POLLSTAT_READ, wbytes_state, wbytes_run, byte_hw,
      maskBits, write_bits_hw, clear_flag, hm, hi, status_eval, mod_two_ite]
  · intro j hj
    interval_cases j <;>
      simp [polls, poll, poll_write, poll_write_bytes, polled_write_eq, write_bit_eq,
        ONEWIRE_POLLSTAT_RESET, ONEWIRE_POLLSTAT_WRITE, ONEWIRE_POLLSTAT_WRITE_BYTES,
        ONEWIRE_POLLSTAT_READ, wbytes_state, hm, hi, status_eval]

/-- The last byte of a polled multi-byte write: the `poll` that starts it
clears the multi-byte flag, seven more complete it and leave the engine idle. -/
theorem wbytes_last (P : Platform σ) (s : OneWire σ) (N : Nat) (power : Bool) (B : Nat → Nat)
    (i : Nat) (hi : ¬ (i + 1 < N)) (hi2 : i + 1 < 256) :
    polls P 8 (wbytes_state P s N power B i) = wbytes_final P s N power B i ∧
    Busy P 8 (wbytes_state P s N power B i) := by
  have hm : (i + 1) % 256 = i + 1 := Nat.mod_eq_of_lt hi2
  constructor
  · cases power <;>
      simp [polls, poll, poll_write, poll_write_bytes, polled_write_eq, write_bit_eq,
        release_line_eq, ONEWIRE_POLLSTAT_RESET, ONEWIRE_POLLSTAT_WRITE,
        ONEWIRE_POLLSTAT_WRITE_BYTES, ONEWIRE_POLLSTAT_READ, wbytes_state, wbytes_final,
        wbytes_run, byte_hw, last_byte_hw, maskBits, write_bits_hw, clear_flag, hm, hi,
        status_eval, mod_two_ite]
  · intro j hj
    interval_cases j <;> cases power <;>
      simp [polls, poll, poll_write, poll_write_bytes, polled_write_eq, write_bit_eq,
        release_line_eq, clear_flag,
        ONEWIRE_POLLSTAT_RESET, ONEWIRE_POLLSTAT_WRITE, ONEWIRE_POLLSTAT_WRITE_BYTES,
        ONEWIRE_POLLSTAT_READ, wbytes_state, hm, hi, status_eval]

/-- The start of a polled multi-byte read from the idle object: after
`polled_read_bytes` and seven calls of `poll` the first byte is read. -/
theorem rbytes_start (P : Platform σ) (bufLen count : Nat) (s : OneWire σ)
    (hs : s.poll_status = 0) :
    polls P 7 (polled_read_bytes P bufLen count s) =
      rbytes_state P s (min count bufLen % 256) 0 ∧
    Busy P 7 (polled_read_bytes P bufLen count s) := by
  constructor
  · simp [polls, poll, poll_read_eq, polled_read_bytes, polled_read_eq,
      ONEWIRE_POLLSTAT_RESET, ONEWIRE_POLLSTAT_WRITE, ONEWIRE_POLLSTAT_READ,
      ONEWIRE_POLLSTAT_READ_BYTES, hs, rbytes_state, rbytes_run, read_bits_hw, orMasks,
      clear_flag, status_eval]
  · intro j hj
    interval_cases j <;>
      simp [polls, poll, poll_read_eq, polled_read_bytes, polled_read_eq,
        ONEWIRE_POLLSTAT_RESET, ONEWIRE_POLLSTAT_WRITE, ONEWIRE_POLLSTAT_READ,
        ONEWIRE_POLLSTAT_READ_BYTES, hs, status_eval]

/-- A byte that is not the last of a polled multi-byte read: one `poll` stores
it and starts the next byte, seven more complete that byte. -/
theorem rbytes_mid (P : Platform σ) (s : OneWire σ) (N i : Nat) (hi : i + 1 ≠ N)
    (hi2 : i + 1 < 256) :
    polls P 8 (rbytes_state P s N i) = rbytes_state P s N (i + 1) ∧
    Busy P 8 (rbytes_state P s N i) := by
  have hm : (i + 1) % 256 = i + 1 := Nat.mod_eq_of_lt hi2
  constructor
  · simp [polls, poll, poll_read_eq, poll_read_bytes, polled_read_eq,
      ONEWIRE_POLLSTAT_RESET, ONEWIRE_POLLSTAT_WRITE, ONEWIRE_POLLSTAT_READ,
      ONEWIRE_POLLSTAT_WRITE_BYTES, ONEWIRE_POLLSTAT_READ_BYTES, rbytes_state, rbytes_run,
      read_bits_hw, orMasks, clear_flag, hm, hi, status_eval]
  · intro j hj
    interval_cases j <;>
      simp [polls, poll, poll_read_eq, poll_read_bytes, polled_read_eq,
        ONEWIRE_POLLSTAT_RESET, ONEWIRE_POLLSTAT_WRITE, ONEWIRE_POLLSTAT_READ,
        ONEWIRE_POLLSTAT_WRITE_BYTES, ONEWIRE_POLLSTAT_READ_BYTES, rbytes_state, hm, hi,
        status_eval]

/-- The last byte of a polled multi-byte read: one `poll` stores it and leaves
the engine idle. -/
theorem rbytes_last (P : Platform σ) (s : OneWire σ) (N i : Nat) (hi : i + 1 = N)
    (hi2 : i + 1 < 256) :
    polls P 1 (rbytes_state P s N i) = rbytes_final P s N i ∧
    Busy P 1 (rbytes_state P s N i) := by
  have hm : (i + 1) % 256 = i + 1 := Nat.mod_eq_of_lt hi2
  subst hi
  constructor
  · simp [polls, poll, poll_read_bytes,
      ONEWIRE_POLLSTAT_RESET, ONEWIRE_POLLSTAT_WRITE, ONEWIRE_POLLSTAT_READ,
      ONEWIRE_POLLSTAT_WRITE_BYTES, ONEWIRE_POLLSTAT_READ_BYTES, rbytes_state, rbytes_final,
      rbytes_run, clear_flag, hm, status_eval]
  · intro j hj
    interval_cases j
    simp [polls, rbytes_state, ONEWIRE_POLLSTAT_READ_BYTES]

/-! ## The call record of the multi-byte operations -/

theorem writtenBits_append (a b : List Call) :
    writtenBits (a ++ b) = writtenBits a ++ writtenBits b := by
  induction a with
  | nil => rfl
  | cons c a ih => cases c <;> simp [writtenBits, ih]

theorem sampledBits_append (a b : List Call) :
    sampledBits (a ++ b) = sampledBits a ++ sampledBits b := by
  induction a with
  | nil => rfl
  | cons c a ih => cases c <;> simp [sampledBits, ih]

theorem polledWrites_append (a b : List Call) :
    polledWrites (a ++ b) = polledWrites a ++ polledWrites b := by
  induction a with
  | nil => rfl
  | cons c a ih => cases c <;> simp [polledWrites, ih]

theorem polledReads_append (a b : List Call) :
    polledReads (a ++ b) = polledReads a + polledReads b := by
  induction a with
  | nil => simp [polledReads]
  | cons c a ih => cases c <;> simp [polledReads, ih] <;> omega

theorem bufIndices_append (a b : List Call) :
    bufIndices (a ++ b) = bufIndices a ++ bufIndices b := by
  induction a with
  | nil => rfl
  | cons c a ih => cases c <;> simp [bufIndices, ih]

theorem extract_map_write_bit (vs : List Nat) :
    writtenBits (vs.map Call.write_bit) = vs ∧ polledWrites (vs.map Call.write_bit) = [] ∧
    bufIndices (vs.map Call.write_bit) = [] ∧ sampledBits (vs.map Call.write_bit) = [] ∧
    polledReads (vs.map Call.write_bit) = 0 := by
  induction vs with
  | nil => simp [writtenBits, polledWrites, bufIndices, sampledBits, polledReads]
  | cons v vs ih =>
    simp [writtenBits, polledWrites, bufIndices, sampledBits, polledReads, ih]

theorem extract_map_read_bit (vs : List Nat) :
    sampledBits (vs.map Call.read_bit) = vs ∧ polledReads (vs.map Call.read_bit) = 0 ∧
    bufIndices (vs.map Call.read_bit) = [] ∧ writtenBits (vs.map Call.read_bit) = [] := by
  induction vs with
  | nil => simp [writtenBits, bufIndices, sampledBits, polledReads]
  | cons v vs ih => simp [writtenBits, bufIndices, sampledBits, polledReads, ih]

theorem extract_map_bufWrite (vs : List Nat) :
    writtenBits (vs.map Call.bufWrite) = [] ∧ polledWrites (vs.map Call.bufWrite) = [] ∧
    bufIndices (vs.map Call.bufWrite) = vs := by
  induction vs with
  | nil => simp [writtenBits, polledWrites, bufIndices]
  | cons v vs ih => simp [writtenBits, polledWrites, bufIndices, ih]

/-- The mask tests select the bits of any number, least significant first. -/
theorem maskBits_eq_bitsLSB (v : Nat) : maskBits v = bitsLSB v := by
  have h : ∀ k : Nat, (if 2 ^ k &&& v ≠ 0 then 1 else 0) = v / 2 ^ k % 2 := by
    intro k
    rw [Nat.and_comm, and_two_pow_eq]
    have ht := @Nat.testBit_to_div_mod k v
    by_cases hb : v.testBit k = true
    · rw [hb] at ht
      have h1 : v / 2 ^ k % 2 = 1 := by simpa using ht.symm
      have hp : (2 : Nat) ^ k ≠ 0 := Nat.pos_iff_ne_zero.mp (Nat.two_pow_pos k)
      simp [hb, h1, hp]
    · have hb' : v.testBit k = false := by simpa using hb
      rw [hb'] at ht
      have h0 : v / 2 ^ k % 2 = 0 := by
        have := Nat.mod_two_eq_zero_or_one (v / 2 ^ k)
        have hne : ¬ v / 2 ^ k % 2 = 1 := by simpa using ht.symm
        omega
      simp [hb', h0]
  have e := fun k => h k
  unfold maskBits bitsLSB
  have h0 := h 0; have h1 := h 1; have h2 := h 2; have h3 := h 3
  have h4 := h 4; have h5 := h 5; have h6 := h 6; have h7 := h 7
  norm_num at h0 h1 h2 h3 h4 h5 h6 h7
  simp [List.range, List.range.loop, h0, h1, h2, h3, h4, h5, h6, h7]
  rcases Nat.mod_two_eq_zero_or_one v with h | h <;> simp [h]

theorem bitsLSB_length (v : Nat) : (bitsLSB v).length = 8 := by
  simp [bitsLSB]

theorem wbytes_run_eq (P : Platform σ) (B : Nat → Nat) (i : Nat) (h : σ) (c : List Call) :
    (wbytes_run P B i (h, c)).2 = c ++ wcalls B i := by
  induction i with
  | zero => simp [wbytes_run, wcalls]
  | succ i ih => simp [wbytes_run, wcalls, ih, List.append_assoc]

/-- What the calls of `i` bytes of a polled multi-byte write show: the bits
written, the bytes passed to `polled_write`, the buffer indices read. -/
theorem wcalls_spec (B : Nat → Nat) (i : Nat) :
    writtenBits (wcalls B i) = bytesBits B i ∧
    polledWrites (wcalls B i) = (List.range i).map B ∧
    bufIndices (wcalls B i) = List.range i := by
  induction i with
  | zero => simp [wcalls, writtenBits, polledWrites, bufIndices, bytesBits]
  | succ i ih =>
    obtain ⟨ih1, ih2, ih3⟩ := ih
    have hm := extract_map_write_bit (maskBits (B i))
    refine ⟨?_, ?_, ?_⟩
    · simp only [wcalls, writtenBits_append, ih1, hm.1, bytesBits, maskBits_eq_bitsLSB,
        writtenBits, List.append_nil]
      rfl
    · simp only [wcalls, polledWrites_append, ih2, hm.2.1, List.range_succ, List.map_append]
      simp [polledWrites]
    · simp only [wcalls, bufIndices_append, ih3, hm.2.2.1, List.range_succ]
      simp [bufIndices]

/-! ## Polled multi-byte writes from start to idle -/

/-- Every byte of a polled multi-byte write before the last is reached: after
`7 + 8 * k` calls of `poll`, `k + 1` bytes are written. -/
theorem wbytes_reach (P : Platform σ) (bufLen : Nat) (buf : Nat → Nat) (count : Nat)
    (power : Bool) (s : OneWire σ) (hs : s.poll_status = 0) :
    ∀ k, (k = 0 ∨ k + 1 < min count bufLen % 256) →
      polls P (7 + 8 * k) (polled_write_bytes P bufLen buf count power s) =
        wbytes_state P s (min count bufLen % 256) power
          (fun i => if i < min count bufLen % 256 then buf i else s.readWriteBuffer i) (k + 1) ∧
      Busy P (7 + 8 * k) (polled_write_bytes P bufLen buf count power s) := by
  have hN : min count bufLen % 256 < 256 := Nat.mod_lt _ (by decide)
  intro k
  induction k with
  | zero => intro _; exact wbytes_start P bufLen buf count power s hs
  | succ k ih =>
    intro hk
    have hk' : k + 1 + 1 < min count bufLen % 256 := by
      rcases hk with h | h
      · omega
      · exact h
    obtain ⟨ih1, ih2⟩ := ih (by omega)
    obtain ⟨hm1, hm2⟩ := wbytes_mid P s (min count bufLen % 256) power
      (fun i => if i < min count bufLen % 256 then buf i else s.readWriteBuffer i) (k + 1)
      hk' hN
    rw [show 7 + 8 * (k + 1) = (7 + 8 * k) + 8 by omega]
    refine ⟨?_, busy_add P _ _ _ ih2 (by rw [ih1]; exact hm2)⟩
    rw [polls_add, ih1, hm1]

/-- A polled multi-byte write of `N >= 2` bytes from the idle object is complete
after exactly `8 * N - 1` calls of `poll`. -/
theorem polled_write_bytes_run (P : Platform σ) (bufLen : Nat) (buf : Nat → Nat) (count : Nat)
    (power : Bool) (s : OneWire σ) (hs : s.poll_status = 0)
    (hN2 : 2 ≤ min count bufLen % 256) :
    polls P (8 * (min count bufLen % 256) - 1) (polled_write_bytes P bufLen buf count power s) =
      wbytes_final P s (min count bufLen % 256) power
        (fun i => if i < min count bufLen % 256 then buf i else s.readWriteBuffer i)
        (min count bufLen % 256 - 1) ∧
    Busy P (8 * (min count bufLen % 256) - 1) (polled_write_bytes P bufLen buf count power s) := by
  have hN : min count bufLen % 256 < 256 := Nat.mod_lt _ (by decide)
  generalize hNdef : min count bufLen % 256 = N at hN2 hN
  obtain ⟨k, rfl⟩ : ∃ k, N = k + 2 := ⟨N - 2, by omega⟩
  have hr := wbytes_reach P bufLen buf count power s hs k (by rw [hNdef]; omega)
  rw [hNdef] at hr
  obtain ⟨hr1, hr2⟩ := hr
  obtain ⟨hl1, hl2⟩ := wbytes_last P s (k + 2) power
    (fun i => if i < k + 2 then buf i else s.readWriteBuffer i) (k + 1) (by omega) (by omega)
  rw [show 8 * (k + 2) - 1 = (7 + 8 * k) + 8 by omega, show k + 2 - 1 = k + 1 by omega]
  refine ⟨?_, busy_add P _ _ _ hr2 (by rw [hr1]; exact hl2)⟩
  rw [polls_add, hr1, hl1]

/-- A polled multi-byte write of fewer than two bytes from the idle object is
complete only after 15 calls of `poll`: the byte at index 1 is written too. -/
theorem polled_write_bytes_short (P : Platform σ) (bufLen : Nat) (buf : Nat → Nat)
    (count : Nat) (power : Bool) (s : OneWire σ) (hs : s.poll_status = 0)
    (hN1 : min count bufLen % 256 ≤ 1) :
    polls P 15 (polled_write_bytes P bufLen buf count power s) =
      wbytes_final P s (min count bufLen % 256) power
        (fun i => if i < min count bufLen % 256 then buf i else s.readWriteBuffer i) 1 ∧
    Busy P 15 (polled_write_bytes P bufLen buf count power s) ∧
    (polls P 7 (polled_write_bytes P bufLen buf count power s)).poll_status =
      ONEWIRE_POLLSTAT_WRITE_BYTES := by
  obtain ⟨hr1, hr2⟩ := wbytes_reach P bufLen buf count power s hs 0 (Or.inl rfl)
  obtain ⟨hl1, hl2⟩ := wbytes_last P s (min count bufLen % 256) power
    (fun i => if i < min count bufLen % 256 then buf i else s.readWriteBuffer i) 1
    (by omega) (by omega)
  refine ⟨?_, busy_add P 7 8 _ hr2 (by rw [hr1]; exact hl2), ?_⟩
  · rw [show (15 : Nat) = (7 + 8 * 0) + 8 by rfl, polls_add, hr1, hl1]
  · rw [show (7 : Nat) = 7 + 8 * 0 by rfl, hr1]; rfl

theorem wbytes_final_calls (P : Platform σ) (s : OneWire σ) (N : Nat) (power : Bool)
    (B : Nat → Nat) (i : Nat) :
    (wbytes_final P s N power B i).calls =
      s.calls ++ ((List.range N).map Call.bufWrite ++ wcalls B (i + 1)) := by
  simp only [wbytes_final, wbytes_state, wbytes_run_eq, List.append_assoc]

/-- What the new calls of a complete polled multi-byte write show. -/
theorem wbytes_final_spec (P : Platform σ) (s : OneWire σ) (N : Nat) (power : Bool)
    (B : Nat → Nat) (i : Nat) :
    writtenBits ((wbytes_final P s N power B i).calls.drop s.calls.length)
      = bytesBits B (i + 1) ∧
    polledWrites ((wbytes_final P s N power B i).calls.drop s.calls.length)
      = (List.range (i + 1)).map B ∧
    bufIndices ((wbytes_final P s N power B i).calls.drop s.calls.length)
      = List.range N ++ List.range (i + 1) := by
  rw [wbytes_final_calls, List.drop_left]
  obtain ⟨h1, h2, h3⟩ := wcalls_spec B (i + 1)
  obtain ⟨g1, g2, g3⟩ := extract_map_bufWrite (List.range N)
  refine ⟨?_, ?_, ?_⟩
  · rw [writtenBits_append, h1, g1, List.nil_append]
  · rw [polledWrites_append, h2, g2, List.nil_append]
  · rw [bufIndices_append, h3, g3]

theorem bytesBits_congr (B B' : Nat → Nat) (n : Nat) (h : ∀ i < n, B i = B' i) :
    bytesBits B n = bytesBits B' n := by
  induction n with
  | zero => rfl
  | succ n ih =>
    simp only [bytesBits]
    rw [ih (fun i hi => h i (Nat.lt_succ_of_lt hi)), h n (Nat.lt_succ_self n)]

/-! ## The synchronous multi-byte writes -/

theorem write_calls_all (P : Platform σ) (s : OneWire σ) (b power : Nat) :
    (write P b power s).calls = s.calls ++ (bitsLSB b).map Call.write_bit := by
  unfold write
  rw [write_loop_unroll, ← maskBits_eq_bitsLSB]
  have h : ∀ t : OneWire σ, (if power = 0 then release_line P t else t).calls = t.calls := by
    intro t; split <;> rfl
  rw [h]
  simp only [write_bit_calls, List.append_assoc, List.map, List.cons_append, List.nil_append,
    maskBits]

theorem write_bytes_loop_calls (P : Platform σ) (buf : Nat → Nat) (count : Nat) :
    ∀ (fuel i : Nat) (s : OneWire σ) (c0 : List Call), i + fuel = count →
      s.calls = c0 ++ (bytesBits buf i).map Call.write_bit →
      (write_bytes_loop P buf count fuel i s).calls =
        c0 ++ (bytesBits buf count).map Call.write_bit := by
  intro fuel
  induction fuel with
  | zero =>
    intro i s c0 hi hs
    have : i = count := by omega
    subst this
    simpa [write_bytes_loop] using hs
  | succ fuel ih =>
    intro i s c0 hi hs
    have hlt : i < count := by omega
    simp only [write_bytes_loop, hlt, if_true]
    apply ih (i + 1) _ c0 (by omega)
    rw [write_calls_all, hs, bytesBits, List.map_append, List.append_assoc]

/-- The synchronous `write_bytes` passes to `write_bit` the bits of the bytes,
in order, each byte least significant bit first. -/
theorem write_bytes_calls (P : Platform σ) (buf : Nat → Nat) (count : Nat) (power : Bool)
    (s : OneWire σ) :
    (write_bytes P buf count power s).calls =
      s.calls ++ (bytesBits buf count).map Call.write_bit := by
  unfold write_bytes
  have h : ∀ t : OneWire σ, (if (!power) = true then release_line P t else t).calls = t.calls := by
    intro t; split <;> rfl
  rw [h]
  exact write_bytes_loop_calls P buf count count 0 s s.calls (by omega) (by simp [bytesBits])

theorem select_loop_calls (P : Platform σ) (rom : Nat → Nat) :
    ∀ (fuel i : Nat) (s : OneWire σ) (c0 : List Call), i + fuel = 8 →
      s.calls = c0 ++ (bytesBits rom i).map Call.write_bit →
      (select_loop P rom fuel i s).calls = c0 ++ (bytesBits rom 8).map Call.write_bit := by
  intro fuel
  induction fuel with
  | zero =>
    intro i s c0 hi hs
    have : i = 8 := by omega
    subst this
    simpa [select_loop] using hs
  | succ fuel ih =>
    intro i s c0 hi hs
    have hlt : i < 8 := by omega
    simp only [select_loop, hlt, if_true]
    apply ih (i + 1) _ c0 (by omega)
    rw [write_calls_all, hs, bytesBits, List.map_append, List.append_assoc]

/-- The synchronous `select` passes to `write_bit` the bits of `0x55` and of the
8 address bytes. -/
theorem select_calls (P : Platform σ) (rom : Nat → Nat) (s : OneWire σ) :
    (select P rom s).calls =
      s.calls ++ (bitsLSB 0x55 ++ bytesBits rom 8).map Call.write_bit := by
  unfold select
  rw [select_loop_calls P rom 8 0 (write P 0x55 0 s) (s.calls ++ (bitsLSB 0x55).map Call.write_bit)
    (by omega) (by rw [write_calls_all]; simp [bytesBits])]
  rw [List.map_append, List.append_assoc]

/-! ## Polled multi-byte reads from start to idle -/

/-- Every byte of a polled multi-byte read is reached: after `7 + 8 * k` calls
of `poll`, byte `k` is read and waits to be stored. -/
theorem rbytes_reach (P : Platform σ) (bufLen count : Nat) (s : OneWire σ)
    (hs : s.poll_status = 0) :
    ∀ k, k < min count bufLen % 256 →
      polls P (7 + 8 * k) (polled_read_bytes P bufLen count s) =
        rbytes_state P s (min count bufLen % 256) k ∧
      Busy P (7 + 8 * k) (polled_read_bytes P bufLen count s) := by
  have hN : min count bufLen % 256 < 256 := Nat.mod_lt _ (by decide)
  intro k
  induction k with
  | zero => intro _; exact rbytes_start P bufLen count s hs
  | succ k ih =>
    intro hk
    obtain ⟨ih1, ih2⟩ := ih (by omega)
    obtain ⟨hm1, hm2⟩ := rbytes_mid P s (min count bufLen % 256) k (by omega) (by omega)
    rw [show 7 + 8 * (k + 1) = (7 + 8 * k) + 8 by omega]
    refine ⟨?_, busy_add P _ _ _ ih2 (by rw [ih1]; exact hm2)⟩
    rw [polls_add, ih1, hm1]

/-- A polled multi-byte read of `N >= 1` bytes from the idle object is complete
after exactly `8 * N` calls of `poll`. -/
theorem polled_read_bytes_run (P : Platform σ) (bufLen count : Nat) (s : OneWire σ)
    (hs : s.poll_status = 0) (hN1 : 1 ≤ min count bufLen % 256) :
    polls P (8 * (min count bufLen % 256)) (polled_read_bytes P bufLen count s) =
      rbytes_final P s (min count bufLen % 256) (min count bufLen % 256 - 1) ∧
    Busy P (8 * (min count bufLen % 256)) (polled_read_bytes P bufLen count s) := by
  have hN : min count bufLen % 256 < 256 := Nat.mod_lt _ (by decide)
  generalize hNdef : min count bufLen % 256 = N at hN1 hN
  obtain ⟨k, rfl⟩ : ∃ k, N = k + 1 := ⟨N - 1, by omega⟩
  have hr := rbytes_reach P bufLen count s hs k (by rw [hNdef]; omega)
  rw [hNdef] at hr
  obtain ⟨hr1, hr2⟩ := hr
  obtain ⟨hl1, hl2⟩ := rbytes_last P s (k + 1) k rfl (by omega)
  rw [show 8 * (k + 1) = (7 + 8 * k) + 1 by omega, show k + 1 - 1 = k by omega]
  refine ⟨?_, busy_add P _ _ _ hr2 (by rw [hr1]; exact hl2)⟩
  rw [polls_add, hr1, hl1]

theorem read_bits_hw_spec (P : Platform σ) (n : Nat) : ∀ h : σ,
    (read_bits_hw P n h).1.length = n ∧ ∀ b ∈ (read_bits_hw P n h).1, b = 0 ∨ b = 1 := by
  induction n with
  | zero => intro h; simp [read_bits_hw]
  | succ n ih =>
    intro h
    simp only [read_bits_hw, List.length_cons, List.mem_cons]
    refine ⟨by rw [(ih _).1], ?_⟩
    intro b hb
    rcases hb with rfl | hb
    · unfold read_bit_hw
      simp only
      split <;> simp
    · exact (ih _).2 b hb

theorem rbytes_run_hw (P : Platform σ) (h : σ) (c c' : List Call) (B B' : Nat → Nat) :
    ∀ i, (rbytes_run P i (h, c, B)).1 = (rbytes_run P i (h, c', B')).1 := by
  intro i
  induction i with
  | zero => rfl
  | succ i ih => simp only [rbytes_run, ih]

theorem rbytes_run_calls (P : Platform σ) (h : σ) (c : List Call) (B : Nat → Nat) :
    ∀ i, (rbytes_run P i (h, c, B)).2.1 = c ++ rcalls P i h := by
  intro i
  induction i with
  | zero => simp [rbytes_run, rcalls]
  | succ i ih =>
    unfold rcalls at ih ⊢
    simp only [rbytes_run, ih, rbytes_run_hw P h c [] B (fun _ => 0) i, List.append_assoc]

theorem bytesOfBits_snoc : ∀ (n : Nat) (xs b8 : List Nat), xs.length = 8 * n →
    bytesOfBits (n + 1) (xs ++ b8) = bytesOfBits n xs ++ [assembleLSB (b8.take 8)] := by
  intro n
  induction n with
  | zero =>
    intro xs b8 hl
    have : xs = [] := List.length_eq_zero.mp (by omega)
    subst this
    simp [bytesOfBits]
  | succ n ih =>
    intro xs b8 hl
    have h8 : 8 ≤ xs.length := by omega
    have e1 : bytesOfBits (n + 1 + 1) (xs ++ b8) =
        assembleLSB ((xs ++ b8).take 8) :: bytesOfBits (n + 1) ((xs ++ b8).drop 8) := rfl
    have e2 : bytesOfBits (n + 1) xs =
        assembleLSB (xs.take 8) :: bytesOfBits n (xs.drop 8) := rfl
    rw [e1, e2, List.take_append_of_le_length h8, List.drop_append_of_le_length h8,
      ih (xs.drop 8) b8 (by rw [List.length_drop]; omega)]
    rfl

/-- What the calls of the first `i` bytes of a polled multi-byte read show, and
what the buffer holds after them. -/
theorem rcalls_spec (P : Platform σ) (h : σ) (c : List Call) (B : Nat → Nat) :
    ∀ i, (sampledBits (rcalls P i h)).length = 8 * i ∧
      polledReads (rcalls P i h) = i ∧
      bufIndices (rcalls P i h) = List.range i ∧
      (List.range i).map (rbytes_run P i (h, c, B)).2.2 =
        bytesOfBits i (sampledBits (rcalls P i h)) := by
  intro i
  induction i with
  | zero => simp [rcalls, rbytes_run, sampledBits, polledReads, bufIndices, bytesOfBits]
  | succ i ih =>
    obtain ⟨ih1, ih2, ih3, ih4⟩ := ih
    have hb := read_bits_hw_spec P 8 (rbytes_run P i (h, c, B)).1
    have hm := extract_map_read_bit (read_bits_hw P 8 (rbytes_run P i (h, c, B)).1).1
    have hc : rcalls P (i + 1) h = rcalls P i h ++ ([Call.polled_read] ++
        ((read_bits_hw P 8 (rbytes_run P i (h, c, B)).1).1.map Call.read_bit ++
          [Call.bufWrite i])) := by
      unfold rcalls
      simp only [rbytes_run, rbytes_run_hw P h c [] B (fun _ => 0) i, List.append_assoc]
    rw [hc]
    generalize hb8 : (read_bits_hw P 8 (rbytes_run P i (h, c, B)).1).1 = b8 at hb hm hc ⊢
    have q1 : sampledBits [Call.polled_read] = [] := rfl
    have q2 : sampledBits [Call.bufWrite i] = [] := rfl
    have q3 : polledReads [Call.polled_read] = 1 := rfl
    have q4 : polledReads [Call.bufWrite i] = 0 := rfl
    have q5 : bufIndices [Call.polled_read] = [] := rfl
    have q6 : bufIndices [Call.bufWrite i] = [i] := rfl
    have hs : sampledBits (rcalls P i h ++ ([Call.polled_read] ++
        (b8.map Call.read_bit ++ [Call.bufWrite i]))) = sampledBits (rcalls P i h) ++ b8 := by
      rw [sampledBits_append, sampledBits_append, sampledBits_append, hm.1, q1, q2,
        List.nil_append, List.append_nil]
    refine ⟨?_, ?_, ?_, ?_⟩
    · rw [hs, List.length_append, ih1, hb.1]; omega
    · rw [polledReads_append, polledReads_append, polledReads_append, hm.2.1, q3, q4, ih2]
    · rw [bufIndices_append, bufIndices_append, bufIndices_append, hm.2.2.1, q5, q6, ih3,
        List.range_succ]
      rfl
    · rw [hs, bytesOfBits_snoc _ _ _ ih1, ← ih4, List.range_succ, List.map_append,
        List.take_of_length_le (by rw [hb.1]), ← orMasks_eq_assemble _ hb.1 hb.2]
      have hR : (rbytes_run P (i + 1) (h, c, B)).2.2 =
          Function.update (rbytes_run P i (h, c, B)).2.2 i (orMasks b8 1 0) := by
        rw [← hb8]; rfl
      rw [hR]
      simp only [List.map_cons, List.map_nil, Function.update_same]
      congr 1
      apply List.map_congr_left
      intro j hj
      rw [Function.update_noteq (by have := List.mem_range.mp hj; omega)]

theorem rbytes_final_calls (P : Platform σ) (s : OneWire σ) (N i : Nat) :
    (rbytes_final P s N i).calls = s.calls ++ rcalls P (i + 1) s.hw := by
  simp only [rbytes_final, rbytes_run_calls]

/-! ## The synchronous multi-byte read -/

theorem read_bits_calls (P : Platform σ) (n : Nat) : ∀ s : OneWire σ,
    (read_bits P n s).2.calls = s.calls ++ (read_bits P n s).1.map Call.read_bit := by
  induction n with
  | zero => intro s; simp [read_bits]
  | succ n ih =>
    intro s
    simp only [read_bits, ih, read_bit_eq, List.map_cons, List.append_assoc, List.cons_append,
      List.nil_append]

/-- The synchronous `read_bytes` returns the bytes assembled, least significant
bit first, from the `8 * n` values its `read_bit` calls return. -/
theorem read_bytes_spec (P : Platform σ) (n : Nat) : ∀ s : OneWire σ,
    ∃ L, (read_bytes P n s).2.calls = s.calls ++ L ∧ (sampledBits L).length = 8 * n ∧
      (read_bytes P n s).1 = bytesOfBits n (sampledBits L) := by
  unfold read_bytes
  induction n with
  | zero => intro s; exact ⟨[], by simp [read_bytes_loop, sampledBits, bytesOfBits]⟩
  | succ n ih =>
    intro s
    obtain ⟨L, h1, h2, h3⟩ := ih (read P s).2
    have hb := read_bits_spec P 8 s
    have hm := extract_map_read_bit (read_bits P 8 s).1
    refine ⟨(read_bits P 8 s).1.map Call.read_bit ++ L, ?_, ?_, ?_⟩
    · simp only [read_bytes_loop, h1]
      rw [read_unroll, read_bits_calls, List.append_assoc]
    · rw [sampledBits_append, List.length_append, h2, hm.1, hb.1]; omega
    · simp only [read_bytes_loop, h3]
      rw [sampledBits_append, hm.1, bytesOfBits, List.take_left' hb.1, List.drop_left' hb.1,
        read_eq_assemble]

/-! ## Polled writes driven to idle -/

/-- A polled multi-byte write of `N` bytes from the idle object, driven by
`poll` until the status is 0: the number of polls it takes and the object it
ends in. For `N >= 2` these are `8 * N - 1` polls and `N` bytes; for `N <= 1`
they are 15 polls and 2 bytes. -/
theorem polled_write_bytes_idle (P : Platform σ) (bufLen : Nat) (buf : Nat → Nat)
    (count : Nat) (power : Bool) (s : OneWire σ) (hs : s.poll_status = 0) (N : Nat)
    (hN : min count bufLen % 256 = N) :
    polls P (if N ≤ 1 then 15 else 8 * N - 1) (polled_write_bytes P bufLen buf count power s) =
      wbytes_final P s N power (fun i => if i < N then buf i else s.readWriteBuffer i)
        (if N ≤ 1 then 1 else N - 1) ∧
    Busy P (if N ≤ 1 then 15 else 8 * N - 1) (polled_write_bytes P bufLen buf count power s) ∧
    ∀ extra, poll_until_idle P ((if N ≤ 1 then 15 else 8 * N - 1) + 1 + extra)
        (polled_write_bytes P bufLen buf count power s) =
      wbytes_final P s N power (fun i => if i < N then buf i else s.readWriteBuffer i)
        (if N ≤ 1 then 1 else N - 1) := by
  subst hN
  have key : polls P (if min count bufLen % 256 ≤ 1 then 15 else 8 * (min count bufLen % 256) - 1)
        (polled_write_bytes P bufLen buf count power s) =
      wbytes_final P s (min count bufLen % 256) power
        (fun i => if i < min count bufLen % 256 then buf i else s.readWriteBuffer i)
        (if min count bufLen % 256 ≤ 1 then 1 else min count bufLen % 256 - 1) ∧
      Busy P (if min count bufLen % 256 ≤ 1 then 15 else 8 * (min count bufLen % 256) - 1)
        (polled_write_bytes P bufLen buf count power s) := by
    by_cases h1 : min count bufLen % 256 ≤ 1
    · simp only [h1, if_true]
      exact ⟨(polled_write_bytes_short P bufLen buf count power s hs h1).1,
        (polled_write_bytes_short P bufLen buf count power s hs h1).2.1⟩
    · simp only [h1, if_false]
      exact polled_write_bytes_run P bufLen buf count power s hs (by omega)
  refine ⟨key.1, key.2, fun extra => ?_⟩
  rw [poll_until_idle_eq P _ _ extra key.2 (by rw [key.1]; rfl), key.1]

/-- The bits of the buffer of `polled_select`. -/
theorem bytesBits_select (rom : Nat → Nat) (B : Nat → Nat) :
    bytesBits (fun i => if i < 9 then (if i = 0 then 0x55 else rom (i - 1)) else B i) 9 =
      bitsLSB 0x55 ++ bytesBits rom 8 := by
  simp [bytesBits]

theorem bytesBits_length (B : Nat → Nat) (n : Nat) : (bytesBits B n).length = 8 * n := by
  induction n with
  | zero => rfl
  | succ n ih => rw [bytesBits, List.length_append, ih, bitsLSB_length]; omega

/-! ## The synchronous and the polled multi-byte read on the same line -/

theorem read_bits_eq_hw (P : Platform σ) (n : Nat) : ∀ s : OneWire σ,
    (read_bits P n s).1 = (read_bits_hw P n s.hw).1 ∧
    (read_bits P n s).2.hw = (read_bits_hw P n s.hw).2 := by
  induction n with
  | zero => intro s; exact ⟨rfl, rfl⟩
  | succ n ih =>
    intro s
    simp only [read_bits, read_bits_hw, read_bit_eq, (ih _).1, (ih _).2, and_self]

theorem rcalls_succ_bits (P : Platform σ) (h : σ) (i : Nat) :
    sampledBits (rcalls P (i + 1) h) =
      sampledBits (rcalls P i h) ++
        (read_bits_hw P 8 (rbytes_run P i (h, [], fun _ => 0)).1).1 := by
  have hc : rcalls P (i + 1) h = rcalls P i h ++ ([Call.polled_read] ++
      ((read_bits_hw P 8 (rbytes_run P i (h, [], fun _ => 0)).1).1.map Call.read_bit ++
        [Call.bufWrite i])) := by
    unfold rcalls
    simp only [rbytes_run, List.append_assoc]
  have q1 : sampledBits [Call.polled_read] = [] := rfl
  have q2 : sampledBits [Call.bufWrite i] = [] := rfl
  rw [hc, sampledBits_append, sampledBits_append, sampledBits_append,
    (extract_map_read_bit _).1, q1, q2, List.nil_append, List.append_nil]

/-- The polled read of `n + 1` bytes is the read of one byte followed by the
polled read of `n` bytes, as far as the line and the samples go. -/
theorem rbytes_run_shift (P : Platform σ) (h : σ) : ∀ n,
    (rbytes_run P (n + 1) (h, [], fun _ => 0)).1 =
      (rbytes_run P n ((read_bits_hw P 8 h).2, [], fun _ => 0)).1 ∧
    sampledBits (rcalls P (n + 1) h) =
      (read_bits_hw P 8 h).1 ++ sampledBits (rcalls P n (read_bits_hw P 8 h).2) := by
  intro n
  induction n with
  | zero =>
    refine ⟨rfl, ?_⟩
    rw [rcalls_succ_bits]
    simp [rcalls, rbytes_run, sampledBits]
  | succ n ih =>
    have e1 : (rbytes_run P (n + 1 + 1) (h, [], fun _ => 0)).1 =
        (rbytes_run P (n + 1) ((read_bits_hw P 8 h).2, [], fun _ => 0)).1 := by
      show (read_bits_hw P 8 (rbytes_run P (n + 1) (h, [], fun _ => 0)).1).2 =
        (read_bits_hw P 8 (rbytes_run P n ((read_bits_hw P 8 h).2, [], fun _ => 0)).1).2
      rw [ih.1]
    refine ⟨e1, ?_⟩
    rw [rcalls_succ_bits, ih.2, ih.1, rcalls_succ_bits, List.append_assoc]

/-- The synchronous `read_bytes` samples the same values as the polled read of
the same number of bytes started on the same line. -/
theorem read_bytes_samples (P : Platform σ) (n : Nat) : ∀ s : OneWire σ,
    ∃ L, (read_bytes P n s).2.calls = s.calls ++ L ∧
      sampledBits L = sampledBits (rcalls P n s.hw) ∧
      (read_bytes P n s).1 = bytesOfBits n (sampledBits L) := by
  unfold read_bytes
  induction n with
  | zero =>
    intro s
    exact ⟨[], by simp [read_bytes_loop, sampledBits, bytesOfBits, rcalls, rbytes_run]⟩
  | succ n ih =>
    intro s
    obtain ⟨L, h1, h2, h3⟩ := ih (read P s).2
    have hb := read_bits_spec P 8 s
    have hm := extract_map_read_bit (read_bits P 8 s).1
    have hhw : (read P s).2.hw = (read_bits_hw P 8 s.hw).2 := by
      rw [read_unroll]; exact (read_bits_eq_hw P 8 s).2
    refine ⟨(read_bits P 8 s).1.map Call.read_bit ++ L, ?_, ?_, ?_⟩
    · simp only [read_bytes_loop, h1]
      rw [read_unroll, read_bits_calls, List.append_assoc]
    · rw [sampledBits_append, hm.1, h2, hhw, (rbytes_run_shift P s.hw n).2,
        (read_bits_eq_hw P 8 s).1]
    · simp only [read_bytes_loop, h3]
      rw [sampledBits_append, hm.1, bytesOfBits, List.take_left' hb.1, List.drop_left' hb.1,
        read_eq_assemble]

/-- C8. `polled_read_bytes(N)` with `1 <= N <= bufLen`, from the idle object:
the status is nonzero before and 0 after exactly `8N` calls of `poll`;
`polled_read` is called exactly `N` times; `8N` bits are sampled; and
`readWriteBuffer[0..N-1]` then holds, in the order read, the bytes assembled
least significant bit first from these bits, which are the bytes the
synchronous `read_bytes` returns on the same line. -/
theorem polled_read_bytes_spec (P : Platform σ) (bufLen N : Nat) (s : OneWire σ)
    (hs : s.poll_status = 0) (hn : 1 ≤ N) (hle : N ≤ bufLen) (h256 : N < 256) :
    Busy P (8 * N) (polled_read_bytes P bufLen N s) ∧
    (polls P (8 * N) (polled_read_bytes P bufLen N s)).poll_status = 0 ∧
    polledReads ((polls P (8 * N) (polled_read_bytes P bufLen N s)).calls.drop
      s.calls.length) = N ∧
    (sampledBits ((polls P (8 * N) (polled_read_bytes P bufLen N s)).calls.drop
      s.calls.length)).length = 8 * N ∧
    (List.range N).map (polls P (8 * N) (polled_read_bytes P bufLen N s)).readWriteBuffer =
      bytesOfBits N (sampledBits ((polls P (8 * N)
        (polled_read_bytes P bufLen N s)).calls.drop s.calls.length)) ∧
    (read_bytes P N s).1 =
      (List.range N).map (polls P (8 * N) (polled_read_bytes P bufLen N s)).readWriteBuffer := by
  have hN : min N bufLen % 256 = N := by rw [Nat.min_eq_left hle, Nat.mod_eq_of_lt h256]
  have hrun := polled_read_bytes_run P bufLen N s hs (by rw [hN]; exact hn)
  rw [hN] at hrun
  obtain ⟨hrun, hbusy⟩ := hrun
  obtain ⟨c1, c2, _, c4⟩ := rcalls_spec P s.hw s.calls s.readWriteBuffer N
  have hcalls : (polls P (8 * N) (polled_read_bytes P bufLen N s)).calls.drop s.calls.length =
      rcalls P N s.hw := by
    rw [hrun, rbytes_final_calls, List.drop_left, show N - 1 + 1 = N by omega]
  have hbuf : (polls P (8 * N) (polled_read_bytes P bufLen N s)).readWriteBuffer =
      (rbytes_run P N (s.hw, s.calls, s.readWriteBuffer)).2.2 := by
    rw [hrun]
    show (rbytes_run P (N - 1 + 1) (s.hw, s.calls, s.readWriteBuffer)).2.2 = _
    rw [show N - 1 + 1 = N by omega]
  obtain ⟨L, _, r2, r3⟩ := read_bytes_samples P N s
  refine ⟨hbusy, by rw [hrun]; rfl, by rw [hcalls, c2], by rw [hcalls, c1],
    by rw [hcalls, hbuf, c4], ?_⟩
  rw [r3, r2, hbuf, c4]

/-- Witness of C8: two bytes read on the scripted line. -/
theorem polled_read_bytes_spec_witness :
    (construct linePlatform (loopback [1, 0, 1, 0, 0, 1, 0, 1, 0, 0, 1, 1, 1, 1, 0, 0])).poll_status
      = 0 ∧ 1 ≤ 2 ∧ 2 ≤ 9 ∧
    (read_bytes linePlatform 2
      (construct linePlatform (loopback [1, 0, 1, 0, 0, 1, 0, 1, 0, 0, 1, 1, 1, 1, 0, 0]))).1 =
      (List.range 2).map (polls linePlatform (8 * 2) (polled_read_bytes linePlatform 9 2
        (construct linePlatform
          (loopback [1, 0, 1, 0, 0, 1, 0, 1, 0, 0, 1, 1, 1, 1, 0, 0])))).readWriteBuffer :=
  ⟨rfl, by decide, by decide,
    (polled_read_bytes_spec linePlatform 9 2
      (construct linePlatform (loopback [1, 0, 1, 0, 0, 1, 0, 1, 0, 0, 1, 1, 1, 1, 0, 0]))
      rfl (by decide) (by decide) (by decide)).2.2.2.2.2⟩

/-- C6. Polled and synchronous multi-byte writes, `1 <= n <= bufLen`, from the
idle object: `polled_write_bytes(buf, n)` followed by `poll` until the status
is 0 ends idle; the synchronous `write_bytes(buf, n)` passes to `write_bit`
the bits of `buf[0..n-1]`; the polled run passes the same sequence when
`n >= 2`, but for `n = 1` it passes 16 values, the bits of `buf[0]` followed by
the bits of the stale `readWriteBuffer[1]`, so the two waveforms differ. -/
theorem polled_write_bytes_waveform (P : Platform σ) (bufLen : Nat) (buf : Nat → Nat)
    (n : Nat) (power : Bool) (s : OneWire σ) (hs : s.poll_status = 0) (hn : 1 ≤ n)
    (hle : n ≤ bufLen) (h256 : n < 256) (extra : Nat) :
    (poll_until_idle P (8 * n + 8 + extra)
      (polled_write_bytes P bufLen buf n power s)).poll_status = 0 ∧
    writtenBits ((write_bytes P buf n power s).calls.drop s.calls.length) = bytesBits buf n ∧
    writtenBits ((poll_until_idle P (8 * n + 8 + extra)
      (polled_write_bytes P bufLen buf n power s)).calls.drop s.calls.length) =
      (if n = 1 then bytesBits buf 1 ++ bitsLSB (s.readWriteBuffer 1) else bytesBits buf n) ∧
    (n = 1 →
      writtenBits ((poll_until_idle P (8 * n + 8 + extra)
        (polled_write_bytes P bufLen buf n power s)).calls.drop s.calls.length) ≠
      writtenBits ((write_bytes P buf n power s).calls.drop s.calls.length)) := by
  have hN : min n bufLen % 256 = n := by rw [Nat.min_eq_left hle, Nat.mod_eq_of_lt h256]
  obtain ⟨_, _, hrun⟩ := polled_write_bytes_idle P bufLen buf n power s hs n hN
  have hsync : writtenBits ((write_bytes P buf n power s).calls.drop s.calls.length) =
      bytesBits buf n := by
    rw [write_bytes_calls, List.drop_left, (extract_map_write_bit _).1]
  have hpoll : writtenBits ((poll_until_idle P (8 * n + 8 + extra)
      (polled_write_bytes P bufLen buf n power s)).calls.drop s.calls.length) =
      (if n = 1 then bytesBits buf 1 ++ bitsLSB (s.readWriteBuffer 1) else bytesBits buf n) := by
    by_cases h1 : n = 1
    · subst h1
      have h := hrun (extra + 0)
      simp only [Nat.le_refl, if_true] at h
      rw [show 8 * 1 + 8 + extra = 15 + 1 + (extra + 0) by omega, h,
        (wbytes_final_spec P s 1 power _ 1).1]
      simp [bytesBits]
    · have h := hrun (extra + 8)
      have h2 : ¬ n ≤ 1 := by omega
      simp only [h2, if_false] at h
      rw [show 8 * n + 8 + extra = 8 * n - 1 + 1 + (extra + 8) by omega, h,
        (wbytes_final_spec P s n power _ (n - 1)).1, if_neg h1,
        show n - 1 + 1 = n by omega]
      exact bytesBits_congr _ _ n (fun i hi => by simp [hi])
  refine ⟨?_, hsync, hpoll, ?_⟩
  · by_cases h1 : n ≤ 1
    · have h := hrun (extra + (8 * n - 8))
      simp only [h1, if_true] at h
      rw [show 8 * n + 8 + extra = 15 + 1 + (extra + (8 * n - 8)) by omega, h]
      rfl
    · have h := hrun (extra + 8)
      simp only [h1, if_false] at h
      rw [show 8 * n + 8 + extra = 8 * n - 1 + 1 + (extra + 8) by omega, h]
      rfl
  · intro h1 heq
    rw [hpoll, hsync, if_pos h1] at heq
    have hl := congrArg List.length heq
    rw [List.length_append, bytesBits_length, bytesBits_length, bitsLSB_length] at hl
    omega

/-- Witness of C6 at the failing input: one byte `0xCC` written after the
buffer held `0xBE` at index 1. -/
theorem polled_write_bytes_waveform_witness :
    writtenBits ((write_bytes linePlatform (fun _ => 0xCC) 1 false
      { construct linePlatform (loopback []) with readWriteBuffer := fun _ => 0xBE }).calls.drop
      (construct linePlatform (loopback [])).calls.length) = [0, 0, 1, 1, 0, 0, 1, 1] ∧
    writtenBits ((poll_until_idle linePlatform (8 * 1 + 8 + 0)
      (polled_write_bytes linePlatform 9 (fun _ => 0xCC) 1 false
        { construct linePlatform (loopback []) with
          readWriteBuffer := fun _ => 0xBE })).calls.drop
      (construct linePlatform (loopback [])).calls.length) =
      [0, 0, 1, 1, 0, 0, 1, 1, 0, 1, 1, 1, 1, 1, 0, 1] :=
  ⟨(polled_write_bytes_waveform linePlatform 9 (fun _ => 0xCC) 1 false
      { construct linePlatform (loopback []) with readWriteBuffer := fun _ => 0xBE }
      rfl (by decide) (by decide) (by decide) 0).2.1,
   (polled_write_bytes_waveform linePlatform 9 (fun _ => 0xCC) 1 false
      { construct linePlatform (loopback []) with readWriteBuffer := fun _ => 0xBE }
      rfl (by decide) (by decide) (by decide) 0).2.2.1⟩

/-- C7. `polled_select(rom)` followed by `poll` until the status is 0, from
the idle object and with a buffer of at least 9 bytes, ends idle and passes to
`write_bit` exactly 72 values: the bits of `0x55` and then of `rom[0..7]`, each
byte least significant bit first; the synchronous `select(rom)` passes the same
sequence. -/
theorem polled_select_bits (P : Platform σ) (bufLen : Nat) (rom : Nat → Nat)
    (s : OneWire σ) (hs : s.poll_status = 0) (hbuf : 9 ≤ bufLen) (extra : Nat) :
    (poll_until_idle P (72 + extra) (polled_select P bufLen rom s)).poll_status = 0 ∧
    writtenBits ((poll_until_idle P (72 + extra)
      (polled_select P bufLen rom s)).calls.drop s.calls.length) =
      bitsLSB 0x55 ++ bytesBits rom 8 ∧
    (bitsLSB 0x55 ++ bytesBits rom 8).length = 72 ∧
    writtenBits ((select P rom s).calls.drop s.calls.length) =
      writtenBits ((poll_until_idle P (72 + extra)
        (polled_select P bufLen rom s)).calls.drop s.calls.length) := by
  have hN : min 9 bufLen % 256 = 9 := by rw [Nat.min_eq_left hbuf]
  obtain ⟨_, _, hrun⟩ := polled_write_bytes_idle P bufLen
    (fun i => if i = 0 then 0x55 else rom (i - 1)) 9 false s hs 9 hN
  have h := hrun extra
  simp only [show ¬ (9 ≤ 1) by decide, if_false] at h
  have hp : poll_until_idle P (72 + extra) (polled_select P bufLen rom s) =
      wbytes_final P s 9 false
        (fun i => if i < 9 then (if i = 0 then 0x55 else rom (i - 1)) else s.readWriteBuffer i)
        8 := by
    rw [← h, show 8 * 9 - 1 + 1 + extra = 72 + extra by omega]
    rfl
  have hbits : writtenBits ((poll_until_idle P (72 + extra)
      (polled_select P bufLen rom s)).calls.drop s.calls.length) =
      bitsLSB 0x55 ++ bytesBits rom 8 := by
    rw [hp, (wbytes_final_spec P s 9 false _ 8).1]
    exact bytesBits_select rom s.readWriteBuffer
  refine ⟨by rw [hp]; rfl, hbits, ?_, ?_⟩
  · rw [List.length_append, bitsLSB_length, bytesBits_length]
  · rw [hbits, select_calls, List.drop_left, (extract_map_write_bit _).1]

/-- Witness of C7 on the scripted line, with a buffer of 9 bytes. -/
theorem polled_select_bits_witness :
    (construct linePlatform (loopback [])).poll_status = 0 ∧ 9 ≤ 9 ∧
    writtenBits ((poll_until_idle linePlatform (72 + 0)
      (polled_select linePlatform 9 (fun i => 0x28 + i)
        (construct linePlatform (loopback [])))).calls.drop
      (construct linePlatform (loopback [])).calls.length) =
      bitsLSB 0x55 ++ bytesBits (fun i => 0x28 + i) 8 :=
  ⟨rfl, by decide,
    (polled_select_bits linePlatform 9 (fun i => 0x28 + i)
      (construct linePlatform (loopback [])) rfl (by decide) 0).2.1⟩

/-- C9. `polled_write_bytes(buf, N)` with `1 <= N <= bufLen`, from the idle
object. For `N >= 2` the status is nonzero before and 0 after exactly `8N - 1`
calls of `poll`, and `polled_write` is called `N` times, with `buf[0..N-1]` in
order. For `N = 1` the status is still nonzero after `8N - 1 = 7` polls and
first becomes 0 after 15 polls, and `polled_write` is called twice: with
`buf[0]` and with the stale `readWriteBuffer[1]`. -/
theorem polled_write_bytes_count (P : Platform σ) (bufLen : Nat) (buf : Nat → Nat)
    (N : Nat) (power : Bool) (s : OneWire σ) (hs : s.poll_status = 0) (hn : 1 ≤ N)
    (hle : N ≤ bufLen) (h256 : N < 256) :
    Busy P (if N = 1 then 15 else 8 * N - 1) (polled_write_bytes P bufLen buf N power s) ∧
    (polls P (if N = 1 then 15 else 8 * N - 1)
      (polled_write_bytes P bufLen buf N power s)).poll_status = 0 ∧
    polledWrites ((polls P (if N = 1 then 15 else 8 * N - 1)
      (polled_write_bytes P bufLen buf N power s)).calls.drop s.calls.length) =
      (if N = 1 then [buf 0, s.readWriteBuffer 1] else (List.range N).map buf) := by
  have hN : min N bufLen % 256 = N := by rw [Nat.min_eq_left hle, Nat.mod_eq_of_lt h256]
  obtain ⟨hrun, hbusy, _⟩ := polled_write_bytes_idle P bufLen buf N power s hs N hN
  by_cases h1 : N = 1
  · subst h1
    simp only [Nat.le_refl, if_true] at hrun hbusy ⊢
    refine ⟨hbusy, by rw [hrun]; rfl, ?_⟩
    rw [hrun, (wbytes_final_spec P s 1 power _ 1).2.1]
    rfl
  · have h2 : ¬ N ≤ 1 := by omega
    simp only [h2, h1, if_false] at hrun hbusy ⊢
    refine ⟨hbusy, by rw [hrun]; rfl, ?_⟩
    rw [hrun, (wbytes_final_spec P s N power _ (N - 1)).2.1, show N - 1 + 1 = N by omega]
    apply List.map_congr_left
    intro i hi
    simp [List.mem_range.mp hi]

/-- Witness of C9 at the failing input `N = 1`: busy through 14 polls, and two
calls of `polled_write`. -/
theorem polled_write_bytes_count_witness :
    Busy linePlatform 15 (polled_write_bytes linePlatform 9 (fun _ => 0xCC) 1 false
      { construct linePlatform (loopback []) with readWriteBuffer := fun _ => 0xBE }) ∧
    polledWrites ((polls linePlatform 15
      (polled_write_bytes linePlatform 9 (fun _ => 0xCC) 1 false
        { construct linePlatform (loopback []) with
          readWriteBuffer := fun _ => 0xBE })).calls.drop
      (construct linePlatform (loopback [])).calls.length) = [0xCC, 0xBE] :=
  ⟨(polled_write_bytes_count linePlatform 9 (fun _ => 0xCC) 1 false
      { construct linePlatform (loopback []) with readWriteBuffer := fun _ => 0xBE }
      rfl (by decide) (by decide) (by decide)).1,
   (polled_write_bytes_count linePlatform 9 (fun _ => 0xCC) 1 false
      { construct linePlatform (loopback []) with readWriteBuffer := fun _ => 0xBE }
      rfl (by decide) (by decide) (by decide)).2.2⟩

/-- C10. Truncation. With a buffer of `bufLen >= 9` bytes and a requested
`count > bufLen` (an 8-bit value), from the idle object: `polled_write_bytes`
and `polled_read_bytes` set `byteCount` to exactly `bufLen`; the write is idle
after exactly `8 * bufLen - 1` calls of `poll` and has written exactly the
bytes `buf[0..bufLen-1]`; the read is idle after exactly `8 * bufLen` calls and
has read exactly `bufLen` bytes; every index used on `readWriteBuffer` is below
`bufLen`; and `reset_result`, the only result flag, is unchanged. -/
theorem polled_bytes_truncate (P : Platform σ) (bufLen : Nat) (buf : Nat → Nat)
    (count : Nat) (power : Bool) (s : OneWire σ) (hs : s.poll_status = 0)
    (hbuf : 9 ≤ bufLen) (hc : bufLen < count) (h256 : count < 256) :
    ((polled_write_bytes P bufLen buf count power s).byteCount = bufLen ∧
      Busy P (8 * bufLen - 1) (polled_write_bytes P bufLen buf count power s) ∧
      (polls P (8 * bufLen - 1) (polled_write_bytes P bufLen buf count power s)).poll_status
        = 0 ∧
      polledWrites ((polls P (8 * bufLen - 1)
        (polled_write_bytes P bufLen buf count power s)).calls.drop s.calls.length)
        = (List.range bufLen).map buf ∧
      writtenBits ((polls P (8 * bufLen - 1)
        (polled_write_bytes P bufLen buf count power s)).calls.drop s.calls.length)
        = bytesBits buf bufLen ∧
      (∀ i ∈ bufIndices ((polls P (8 * bufLen - 1)
        (polled_write_bytes P bufLen buf count power s)).calls.drop s.calls.length),
        i < bufLen) ∧
      (polls P (8 * bufLen - 1)
        (polled_write_bytes P bufLen buf count power s)).reset_result = s.reset_result) ∧
    ((polled_read_bytes P bufLen count s).byteCount = bufLen ∧
      Busy P (8 * bufLen) (polled_read_bytes P bufLen count s) ∧
      (polls P (8 * bufLen) (polled_read_bytes P bufLen count s)).poll_status = 0 ∧
      polledReads ((polls P (8 * bufLen)
        (polled_read_bytes P bufLen count s)).calls.drop s.calls.length) = bufLen ∧
      (sampledBits ((polls P (8 * bufLen)
        (polled_read_bytes P bufLen count s)).calls.drop s.calls.length)).length
        = 8 * bufLen ∧
      (∀ i ∈ bufIndices ((polls P (8 * bufLen)
        (polled_read_bytes P bufLen count s)).calls.drop s.calls.length), i < bufLen) ∧
      (polls P (8 * bufLen) (polled_read_bytes P bufLen count s)).reset_result
        = s.reset_result) := by
  have hN : min count bufLen % 256 = bufLen := by
    rw [Nat.min_eq_right (Nat.le_of_lt hc), Nat.mod_eq_of_lt (by omega)]
  have h2 : ¬ bufLen ≤ 1 := by omega
  constructor
  · obtain ⟨hrun, hbusy, _⟩ := polled_write_bytes_idle P bufLen buf count power s hs bufLen hN
    simp only [h2, if_false] at hrun hbusy
    obtain ⟨w1, w2, w3⟩ := wbytes_final_spec P s bufLen power
      (fun i => if i < bufLen then buf i else s.readWriteBuffer i) (bufLen - 1)
    rw [show bufLen - 1 + 1 = bufLen by omega] at w1 w2 w3
    refine ⟨?_, hbusy, by rw [hrun]; rfl, ?_, ?_, ?_, by rw [hrun]; rfl⟩
    · simp only [polled_write_bytes, polled_write_eq]
      exact hN
    · rw [hrun, w2]
      apply List.map_congr_left
      intro i hi
      simp [List.mem_range.mp hi]
    · rw [hrun, w1]
      exact bytesBits_congr _ _ bufLen (fun i hi => by simp [hi])
    · rw [hrun, w3]
      intro i hi
      rcases List.mem_append.mp hi with h | h <;> exact List.mem_range.mp h
  · have hrun := polled_read_bytes_run P bufLen count s hs (by rw [hN]; omega)
    rw [hN] at hrun
    obtain ⟨hrun, hbusy⟩ := hrun
    obtain ⟨c1, c2, c3, _⟩ := rcalls_spec P s.hw s.calls s.readWriteBuffer bufLen
    have hcalls : (polls P (8 * bufLen) (polled_read_bytes P bufLen count s)).calls.drop
        s.calls.length = rcalls P bufLen s.hw := by
      rw [hrun, rbytes_final_calls, List.drop_left, show bufLen - 1 + 1 = bufLen by omega]
    refine ⟨?_, hbusy, by rw [hrun]; rfl, by rw [hcalls, c2], by rw [hcalls, c1], ?_,
      by rw [hrun]; rfl⟩
    · simp only [polled_read_bytes, polled_read_eq]
      exact hN
    · rw [hcalls, c3]
      intro i hi
      exact List.mem_range.mp hi

/-- Witness of C10: 14 bytes requested with a buffer of 9. -/
theorem polled_bytes_truncate_witness :
    (construct linePlatform (loopback [])).poll_status = 0 ∧ 9 ≤ 9 ∧ 9 < 14 ∧ 14 < 256 ∧
    (polled_write_bytes linePlatform 9 (fun i => i) 14 false
      (construct linePlatform (loopback []))).byteCount = 9 ∧
    (polled_read_bytes linePlatform 9 14 (construct linePlatform (loopback []))).byteCount = 9 ∧
    polledWrites ((polls linePlatform (8 * 9 - 1)
      (polled_write_bytes linePlatform 9 (fun i => i) 14 false
        (construct linePlatform (loopback [])))).calls.drop
      (construct linePlatform (loopback [])).calls.length) = (List.range 9).map (fun i => i) :=
  ⟨rfl, by decide, by decide, by decide,
    (polled_bytes_truncate linePlatform 9 (fun i => i) 14 false
      (construct linePlatform (loopback [])) rfl (by decide) (by decide) (by decide)).1.1,
    (polled_bytes_truncate linePlatform 9 (fun i => i) 14 false
      (construct linePlatform (loopback [])) rfl (by decide) (by decide) (by decide)).2.1,
    (polled_bytes_truncate linePlatform 9 (fun i => i) 14 false
      (construct linePlatform (loopback [])) rfl (by decide) (by decide) (by decide)).1.2.2.2.1⟩

/-! ## Failure paths of the search -/

theorem search_finish_zero (newAddr : Nat → Nat) (s : OneWire σ) :
    search_finish 0 newAddr s =
      (0, (fun i => if i < 8 then s.ROM_NO i else newAddr i),
        { s with LastDiscrepancy := 0, LastDeviceFlag := false, LastFamilyDiscrepancy := 0 }) := by
  simp [search_finish]

theorem search_finish_one (newAddr : Nat → Nat) (s : OneWire σ) :
    search_finish 1 newAddr s =
      if s.ROM_NO 0 = 0 then
        (0, (fun i => if i < 8 then s.ROM_NO i else newAddr i),
          { s with LastDiscrepancy := 0, LastDeviceFlag := false, LastFamilyDiscrepancy := 0 })
      else (1, (fun i => if i < 8 then s.ROM_NO i else newAddr i), s) := by
  simp [search_finish]

theorem reset_frame (P : Platform σ) (s : OneWire σ) :
    (reset P s).2 = { s with hw := (reset P s).2.hw } := by
  simp only [reset]
  split <;> rfl

theorem search_exhausted (P : Platform σ) (newAddr : Nat → Nat) (s : OneWire σ)
    (hf : s.LastDeviceFlag = true) : search P newAddr s = search_finish 0 newAddr s := by
  unfold search
  simp only [hf, Bool.not_true, Bool.false_eq_true, if_false]

theorem search_reset_failed (P : Platform σ) (newAddr : Nat → Nat) (s : OneWire σ)
    (hf : s.LastDeviceFlag = false) (hr : (reset P s).1 = 0) :
    search P newAddr s =
      (0, newAddr,
        { (reset P s).2 with
          LastDiscrepancy := 0, LastDeviceFlag := false, LastFamilyDiscrepancy := 0 }) := by
  unfold search
  simp only [hf, Bool.not_false, if_true, hr]

theorem search_ran (P : Platform σ) (newAddr : Nat → Nat) (s : OneWire σ)
    (hf : s.LastDeviceFlag = false) (hr : (reset P s).1 ≠ 0) :
    ∃ r t, (r = 0 ∨ r = 1) ∧ search P newAddr s = search_finish r newAddr t := by
  unfold search
  simp only [hf, Bool.not_false, if_true, hr, if_false]
  split
  · exact ⟨1, _, Or.inr rfl, rfl⟩
  · exact ⟨0, _, Or.inl rfl, rfl⟩

set_option maxRecDepth 1000000 in
set_option maxHeartbeats 4000000 in
/-- The counterexample to C11: on the simulated bus with the one device `0x28`,
the second call of `search` returns 0 (the enumeration is exhausted) and
`ROM_NO` still holds the address found by the first call. -/
theorem search_failure_keeps_rom :
    (search simPlatform (fun _ => 0)
      (search simPlatform (fun _ => 0) (construct simPlatform (simBus [0x28]))).2.2).1 = 0 ∧
    (search simPlatform (fun _ => 0)
      (search simPlatform (fun _ => 0)
        (construct simPlatform (simBus [0x28]))).2.2).2.2.ROM_NO 0 = 0x28 ∧
    ¬ (∀ i < 8, (search simPlatform (fun _ => 0)
      (search simPlatform (fun _ => 0)
        (construct simPlatform (simBus [0x28]))).2.2).2.2.ROM_NO i = 0) := by
  decide

/-- C11, amended. Whenever `search` returns 0, whatever the cause, the three
counters of the search state are reset: `LastDiscrepancy = 0`,
`LastFamilyDiscrepancy = 0` and `LastDeviceFlag = false`. `ROM_NO` is not
zeroed: when the enumeration was exhausted or the reset failed it is exactly
what it was before the call. -/
theorem search_failure_resets_counters (P : Platform σ) (newAddr : Nat → Nat)
    (s : OneWire σ) (h : (search P newAddr s).1 = 0) :
    (search P newAddr s).2.2.LastDiscrepancy = 0 ∧
    (search P newAddr s).2.2.LastFamilyDiscrepancy = 0 ∧
    (search P newAddr s).2.2.LastDeviceFlag = false ∧
    ((s.LastDeviceFlag = true ∨ (reset P s).1 = 0) →
      (search P newAddr s).2.2.ROM_NO = s.ROM_NO) := by
  by_cases hf : s.LastDeviceFlag = true
  · rw [search_exhausted P newAddr s hf, search_finish_zero]
    exact ⟨rfl, rfl, rfl, fun _ => rfl⟩
  · have hf' : s.LastDeviceFlag = false := by simpa using hf
    by_cases hr : (reset P s).1 = 0
    · rw [search_reset_failed P newAddr s hf' hr]
      refine ⟨rfl, rfl, rfl, fun _ => ?_⟩
      show (reset P s).2.ROM_NO = s.ROM_NO
      rw [reset_frame]
    · have hno : ¬ (s.LastDeviceFlag = true ∨ (reset P s).1 = 0) := by simp [hr, hf']
      obtain ⟨r, t, hrt, e⟩ := search_ran P newAddr s hf' hr
      rw [e] at h ⊢
      rcases hrt with rfl | rfl
      · rw [search_finish_zero]
        exact ⟨rfl, rfl, rfl, fun hc => absurd hc hno⟩
      · rw [search_finish_one] at h ⊢
        by_cases h0 : t.ROM_NO 0 = 0
        · rw [if_pos h0]
          exact ⟨rfl, rfl, rfl, fun hc => absurd hc hno⟩
        · rw [if_neg h0] at h
          exact absurd h Nat.one_ne_zero

set_option maxRecDepth 1000000 in
set_option maxHeartbeats 4000000 in
/-- Witness of the amended C11: the second search on a bus with one device. -/
theorem search_failure_resets_counters_witness :
    (search simPlatform (fun _ => 0)
      (search simPlatform (fun _ => 0) (construct simPlatform (simBus [0x28]))).2.2).1 = 0 ∧
    (search simPlatform (fun _ => 0)
      (search simPlatform (fun _ => 0)
        (construct simPlatform (simBus [0x28]))).2.2).2.2.LastDiscrepancy = 0 :=
  ⟨by decide,
    (search_failure_resets_counters simPlatform (fun _ => 0)
      (search simPlatform (fun _ => 0) (construct simPlatform (simBus [0x28]))).2.2
      (by decide)).1⟩

set_option maxRecDepth 1000000 in
set_option maxHeartbeats 4000000 in
/-- The counterexample to C12: on a line that stays low the reset fails,
`search` returns 0 at once and the caller's buffer keeps its old bytes, which
differ from `ROM_NO`. -/
theorem search_no_copy_on_reset_failure :
    (search probePlatform (fun _ => 0xFF)
      (construct probePlatform (probe (List.replicate 124 false) []))).1 = 0 ∧
    (search probePlatform (fun _ => 0xFF)
      (construct probePlatform (probe (List.replicate 124 false) []))).2.1 0 = 0xFF ∧
    (search probePlatform (fun _ => 0xFF)
      (construct probePlatform (probe (List.replicate 124 false) []))).2.2.ROM_NO 0 = 0 := by
  decide

/-- C12, amended. When the enumeration was already exhausted, or the reset
inside `search` succeeds, the 8 bytes of `newAddr` equal `ROM_NO` at return,
whether `search` returns 1 or 0, and the rest of `newAddr` is untouched. When
the reset fails, `search` returns before the copy and `newAddr` is unchanged. -/
theorem search_copy_out (P : Platform σ) (newAddr : Nat → Nat) (s : OneWire σ) :
    ((s.LastDeviceFlag = true ∨ (reset P s).1 ≠ 0) →
      (∀ i < 8, (search P newAddr s).2.1 i = (search P newAddr s).2.2.ROM_NO i) ∧
      (∀ i, 8 ≤ i → (search P newAddr s).2.1 i = newAddr i)) ∧
    ((s.LastDeviceFlag = false ∧ (reset P s).1 = 0) →
      (search P newAddr s).1 = 0 ∧ (search P newAddr s).2.1 = newAddr) := by
  have hfin : ∀ (r : Nat) (t : OneWire σ),
      (∀ i < 8, (search_finish r newAddr t).2.1 i = (search_finish r newAddr t).2.2.ROM_NO i) ∧
      (∀ i, 8 ≤ i → (search_finish r newAddr t).2.1 i = newAddr i) := by
    intro r t
    unfold search_finish
    split
    · exact ⟨fun i hi => by simp [hi], fun i hi => by simp [Nat.not_lt.mpr hi]⟩
    · exact ⟨fun i hi => by simp [hi], fun i hi => by simp [Nat.not_lt.mpr hi]⟩
  constructor
  · intro h
    by_cases hf : s.LastDeviceFlag = true
    · rw [search_exhausted P newAddr s hf]
      exact hfin 0 s
    · have hf' : s.LastDeviceFlag = false := by simpa using hf
      have hr : (reset P s).1 ≠ 0 := by
        rcases h with h | h
        · exact absurd h hf
        · exact h
      obtain ⟨r, t, _, e⟩ := search_ran P newAddr s hf' hr
      rw [e]
      exact hfin r t
  · rintro ⟨hf, hr⟩
    rw [search_reset_failed P newAddr s hf hr]
    exact ⟨rfl, rfl⟩

set_option maxRecDepth 1000000 in
set_option maxHeartbeats 4000000 in
/-- Witness of the amended C12: the first search on a bus with one device
copies the address found. -/
theorem search_copy_out_witness :
    (reset simPlatform (construct simPlatform (simBus [0x28]))).1 ≠ 0 ∧
    (∀ i < 8, (search simPlatform (fun _ => 0xFF) (construct simPlatform (simBus [0x28]))).2.1 i =
      (search simPlatform (fun _ => 0xFF)
        (construct simPlatform (simBus [0x28]))).2.2.ROM_NO i) :=
  ⟨by decide,
    ((search_copy_out simPlatform (fun _ => 0xFF) (construct simPlatform (simBus [0x28]))).1
      (Or.inr (by decide))).1⟩

/-- C13. Empty bus: from the freshly constructed object, when `reset` reports
no presence pulse, `search` returns 0, makes no `write_bit` or `read_bit` call
(so no search command is issued), performs the line actions of `reset` and no
others, leaves `newAddr` alone, and leaves the search state at its initial
zeroed values. -/
theorem search_empty_bus (P : Platform σ) (h : σ) (newAddr : Nat → Nat)
    (hr : (reset P (construct P h)).1 = 0) :
    (search P newAddr (construct P h)).1 = 0 ∧
    (search P newAddr (construct P h)).2.2.calls = [] ∧
    (search P newAddr (construct P h)).2.2.hw = (reset P (construct P h)).2.hw ∧
    (search P newAddr (construct P h)).2.1 = newAddr ∧
    (search P newAddr (construct P h)).2.2.LastDiscrepancy = 0 ∧
    (search P newAddr (construct P h)).2.2.LastFamilyDiscrepancy = 0 ∧
    (search P newAddr (construct P h)).2.2.LastDeviceFlag = false ∧
    (∀ i, (search P newAddr (construct P h)).2.2.ROM_NO i = 0) := by
  have hf : (construct P h).LastDeviceFlag = false := rfl
  rw [search_reset_failed P newAddr (construct P h) hf hr]
  refine ⟨rfl, ?_, rfl, rfl, rfl, rfl, rfl, ?_⟩
  · show (reset P (construct P h)).2.calls = []
    rw [reset_frame]; rfl
  · intro i
    show (reset P (construct P h)).2.ROM_NO i = 0
    rw [reset_frame]
    simp [construct, reset_search]

set_option maxRecDepth 1000000 in
set_option maxHeartbeats 4000000 in
/-- Witness of C13: the simulated bus without devices. -/
theorem search_empty_bus_witness :
    (reset simPlatform (construct simPlatform (simBus []))).1 = 0 ∧
    (search simPlatform (fun _ => 0) (construct simPlatform (simBus []))).1 = 0 ∧
    (search simPlatform (fun _ => 0) (construct simPlatform (simBus []))).2.2.calls = [] :=
  ⟨by decide,
    (search_empty_bus simPlatform (simBus []) (fun _ => 0) (by decide)).1,
    (search_empty_bus simPlatform (simBus []) (fun _ => 0) (by decide)).2.1⟩

/-! ## The poll status, one call of `poll` at a time -/

theorem write_bit_status (P : Platform σ) (v : Nat) (s : OneWire σ) :
    (write_bit P v s).poll_status = s.poll_status := by
  rw [write_bit_eq]

theorem poll_reset_status (P : Platform σ) (s : OneWire σ) :
    (poll_reset P s).poll_status = s.poll_status ∨
    (poll_reset P s).poll_status = clear_flag s.poll_status ONEWIRE_POLLSTAT_RESET := by
  unfold poll_reset
  simp only
  split
  · split
    · split
      · exact Or.inr rfl
      · exact Or.inl rfl
    · exact Or.inl rfl
  · split
    · split
      · exact Or.inl rfl
      · exact Or.inl rfl
    · split
      · split
        · exact Or.inl rfl
        · exact Or.inr rfl
      · exact Or.inl rfl

theorem poll_write_status (P : Platform σ) (s : OneWire σ) :
    (poll_write P s).poll_status = s.poll_status ∨
    (poll_write P s).poll_status = clear_flag s.poll_status ONEWIRE_POLLSTAT_WRITE := by
  unfold poll_write
  simp only [write_bit_eq]
  split
  · exact Or.inl rfl
  · right
    split <;> rfl

theorem poll_read_status (P : Platform σ) (s : OneWire σ) :
    (poll_read P s).poll_status = s.poll_status ∨
    (poll_read P s).poll_status = clear_flag s.poll_status ONEWIRE_POLLSTAT_READ := by
  unfold poll_read
  simp only [read_bit_eq]
  split_ifs <;> first | exact Or.inl rfl | exact Or.inr rfl

theorem polled_write_status (P : Platform σ) (v power : Nat) (s : OneWire σ) :
    (polled_write P v power s).poll_status = s.poll_status ||| ONEWIRE_POLLSTAT_WRITE := by
  rw [polled_write_eq]

theorem polled_read_status (P : Platform σ) (s : OneWire σ) :
    (polled_read P s).poll_status = s.poll_status ||| ONEWIRE_POLLSTAT_READ := by
  rw [polled_read_eq]

theorem polled_reset_status (P : Platform σ) (s : OneWire σ) :
    (polled_reset P s).poll_status = s.poll_status ||| ONEWIRE_POLLSTAT_RESET := by
  unfold polled_reset
  simp only
  split <;> rfl

theorem poll_write_bytes_status (P : Platform σ) (s : OneWire σ) :
    (poll_write_bytes P s).poll_status = s.poll_status ||| ONEWIRE_POLLSTAT_WRITE ∨
    (poll_write_bytes P s).poll_status =
      clear_flag (s.poll_status ||| ONEWIRE_POLLSTAT_WRITE) ONEWIRE_POLLSTAT_WRITE_BYTES := by
  unfold poll_write_bytes
  simp only [polled_write_eq]
  split
  · exact Or.inl rfl
  · right
    split <;> rfl

theorem poll_read_bytes_status (P : Platform σ) (s : OneWire σ) :
    (poll_read_bytes P s).poll_status = clear_flag s.poll_status ONEWIRE_POLLSTAT_READ_BYTES ∨
    (poll_read_bytes P s).poll_status = s.poll_status ||| ONEWIRE_POLLSTAT_READ := by
  unfold poll_read_bytes
  simp only
  split
  · exact Or.inl rfl
  · right
    rw [polled_read_status]

theorem polled_write_bytes_status (P : Platform σ) (bufLen : Nat) (buf : Nat → Nat)
    (count : Nat) (power : Bool) (s : OneWire σ) :
    (polled_write_bytes P bufLen buf count power s).poll_status =
      (s.poll_status ||| ONEWIRE_POLLSTAT_WRITE_BYTES) ||| ONEWIRE_POLLSTAT_WRITE := by
  simp only [polled_write_bytes, polled_write_eq]

theorem polled_read_bytes_status (P : Platform σ) (bufLen count : Nat) (s : OneWire σ) :
    (polled_read_bytes P bufLen count s).poll_status =
      (s.poll_status ||| ONEWIRE_POLLSTAT_READ_BYTES) ||| ONEWIRE_POLLSTAT_READ := by
  simp only [polled_read_bytes, polled_read_eq]

/-- How one call of `poll` moves the poll status, for every status that occurs
after an entry call from the idle object. -/
theorem poll_status_step (P : Platform σ) (s : OneWire σ) :
    (s.poll_status = 0 → (poll P s).poll_status = 0) ∧
    (s.poll_status = 1 → (poll P s).poll_status = 1 ∨ (poll P s).poll_status = 0) ∧
    (s.poll_status = 2 → (poll P s).poll_status = 2 ∨ (poll P s).poll_status = 0) ∧
    (s.poll_status = 4 → (poll P s).poll_status = 4 ∨ (poll P s).poll_status = 0) ∧
    (s.poll_status = 8 → (poll P s).poll_status = 10 ∨ (poll P s).poll_status = 2) ∧
    (s.poll_status = 10 → (poll P s).poll_status = 10 ∨ (poll P s).poll_status = 8) ∧
    (s.poll_status = 16 → (poll P s).poll_status = 20 ∨ (poll P s).poll_status = 0) ∧
    (s.poll_status = 20 → (poll P s).poll_status = 20 ∨ (poll P s).poll_status = 16) := by
  refine ⟨?_, ?_, ?_, ?_, ?_, ?_, ?_, ?_⟩ <;> intro h
  · have e : poll P s = s := by
      unfold poll; rw [h]; rfl
    rw [e, h]
  · have e : poll P s = poll_reset P s := by
      unfold poll; rw [h]; rfl
    rw [e]
    rcases poll_reset_status P s with q | q <;> rw [q, h]
    · exact Or.inl rfl
    · exact Or.inr (by decide)
  · have e : poll P s = poll_write P s := by
      unfold poll; rw [h]; rfl
    rw [e]
    rcases poll_write_status P s with q | q <;> rw [q, h]
    · exact Or.inl rfl
    · exact Or.inr (by decide)
  · have e : poll P s = poll_read P s := by
      unfold poll; rw [h]; rfl
    rw [e]
    rcases poll_read_status P s with q | q <;> rw [q, h]
    · exact Or.inl rfl
    · exact Or.inr (by decide)
  · have e : poll P s = poll_write_bytes P s := by
      unfold poll; rw [h]; rfl
    rw [e]
    rcases poll_write_bytes_status P s with q | q <;> rw [q, h]
    · exact Or.inl (by decide)
    · exact Or.inr (by decide)
  · have e : poll P s = poll_write P s := by
      unfold poll; rw [h]; rfl
    rw [e]
    rcases poll_write_status P s with q | q <;> rw [q, h]
    · exact Or.inl rfl
    · exact Or.inr (by decide)
  · have e : poll P s = poll_read_bytes P s := by
      unfold poll; rw [h]; rfl
    rw [e]
    rcases poll_read_bytes_status P s with q | q <;> rw [q, h]
    · exact Or.inr (by decide)
    · exact Or.inl (by decide)
  · have e : poll P s = poll_read P s := by
      unfold poll; rw [h]; rfl
    rw [e]
    rcases poll_read_status P s with q | q <;> rw [q, h]
    · exact Or.inl rfl
    · exact Or.inr (by decide)

/-- A property of the poll status that one call of `poll` preserves holds after
any number of calls. -/
theorem polls_invariant (P : Platform σ) (I : Nat → Prop)
    (hI : ∀ s : OneWire σ, I s.poll_status → I (poll P s).poll_status) :
    ∀ (k : Nat) (s : OneWire σ), I s.poll_status → I (polls P k s).poll_status := by
  intro k
  induction k with
  | zero => intro s h; exact h
  | succ k ih => intro s h; exact ih (poll P s) (hI s h)

theorem polls_status_single (P : Platform σ) (f : Nat) (hf : f = 1 ∨ f = 2 ∨ f = 4) (k : Nat)
    (s : OneWire σ) (h : s.poll_status = 0 ∨ s.poll_status = f) :
    (polls P k s).poll_status = 0 ∨ (polls P k s).poll_status = f := by
  refine polls_invariant P (fun x => x = 0 ∨ x = f) ?_ k s h
  intro t ht
  obtain ⟨p0, p1, p2, p4, _⟩ := poll_status_step P t
  rcases ht with ht | ht
  · exact Or.inl (p0 ht)
  · rcases hf with rfl | rfl | rfl
    · rcases p1 ht with q | q
      · exact Or.inr q
      · exact Or.inl q
    · rcases p2 ht with q | q
      · exact Or.inr q
      · exact Or.inl q
    · rcases p4 ht with q | q
      · exact Or.inr q
      · exact Or.inl q

theorem polls_status_write_bytes (P : Platform σ) (k : Nat) (s : OneWire σ)
    (h : s.poll_status = 0 ∨ s.poll_status = 2 ∨ s.poll_status = 8 ∨ s.poll_status = 10) :
    (polls P k s).poll_status = 0 ∨ (polls P k s).poll_status = 2 ∨
      (polls P k s).poll_status = 8 ∨ (polls P k s).poll_status = 10 := by
  refine polls_invariant P (fun x => x = 0 ∨ x = 2 ∨ x = 8 ∨ x = 10) ?_ k s h
  intro t ht
  obtain ⟨p0, _, p2, _, p8, p10, _, _⟩ := poll_status_step P t
  rcases ht with ht | ht | ht | ht
  · exact Or.inl (p0 ht)
  · rcases p2 ht with q | q
    · exact Or.inr (Or.inl q)
    · exact Or.inl q
  · rcases p8 ht with q | q
    · exact Or.inr (Or.inr (Or.inr q))
    · exact Or.inr (Or.inl q)
  · rcases p10 ht with q | q
    · exact Or.inr (Or.inr (Or.inr q))
    · exact Or.inr (Or.inr (Or.inl q))

theorem polls_status_read_bytes (P : Platform σ) (k : Nat) (s : OneWire σ)
    (h : s.poll_status = 0 ∨ s.poll_status = 16 ∨ s.poll_status = 20) :
    (polls P k s).poll_status = 0 ∨ (polls P k s).poll_status = 16 ∨
      (polls P k s).poll_status = 20 := by
  refine polls_invariant P (fun x => x = 0 ∨ x = 16 ∨ x = 20) ?_ k s h
  intro t ht
  obtain ⟨p0, _, _, _, _, _, p16, p20⟩ := poll_status_step P t
  rcases ht with ht | ht | ht
  · exact Or.inl (p0 ht)
  · rcases p16 ht with q | q
    · exact Or.inr (Or.inr q)
    · exact Or.inl q
  · rcases p20 ht with q | q
    · exact Or.inr (Or.inr q)
    · exact Or.inr (Or.inl q)

/-- The counterexample to C14: right after `polled_write_bytes` from the idle
object two top-level flags are set, `writing_bytes` and `writing`; likewise
`reading_bytes` and `reading` after `polled_read_bytes`. -/
theorem poll_flags_two_at_once :
    (construct linePlatform (loopback [])).poll_status = 0 ∧
    (polled_write_bytes linePlatform 9 (fun _ => 0) 2 false
      (construct linePlatform (loopback []))).poll_status =
      ONEWIRE_POLLSTAT_WRITE_BYTES ||| ONEWIRE_POLLSTAT_WRITE ∧
    flagCount (polled_write_bytes linePlatform 9 (fun _ => 0) 2 false
      (construct linePlatform (loopback []))).poll_status = 2 ∧
    flagCount (polled_read_bytes linePlatform 9 2
      (construct linePlatform (loopback []))).poll_status = 2 := by
  decide

/-- C14, amended. After one entry call from the idle object and any number of
calls of `poll`, the poll status is 0 or the flag of the entry, with the flags
of a multi-byte operation nested: after `polled_write_bytes` or `polled_select`
the status is 0, `writing`, `writing_bytes`, or `writing_bytes` together with
`writing`; after `polled_read_bytes` it is 0, `reading_bytes`, or
`reading_bytes` together with `reading`. Flags of different operations never
mix, and at most two flags are set. -/
theorem poll_flags_nested (P : Platform σ) (s : OneWire σ) (hs : s.poll_status = 0) (k : Nat)
    (v power : Nat) (bufLen : Nat) (buf : Nat → Nat) (count : Nat) (hold : Bool)
    (rom : Nat → Nat) :
    (polls P k (polled_reset P s)).poll_status ∈ [0, ONEWIRE_POLLSTAT_RESET] ∧
    (polls P k (polled_write P v power s)).poll_status ∈ [0, ONEWIRE_POLLSTAT_WRITE] ∧
    (polls P k (polled_skip P s)).poll_status ∈ [0, ONEWIRE_POLLSTAT_WRITE] ∧
    (polls P k (polled_read P s)).poll_status ∈ [0, ONEWIRE_POLLSTAT_READ] ∧
    (polls P k (polled_write_bytes P bufLen buf count hold s)).poll_status ∈
      [0, ONEWIRE_POLLSTAT_WRITE, ONEWIRE_POLLSTAT_WRITE_BYTES,
        ONEWIRE_POLLSTAT_WRITE_BYTES ||| ONEWIRE_POLLSTAT_WRITE] ∧
    (polls P k (polled_select P bufLen rom s)).poll_status ∈
      [0, ONEWIRE_POLLSTAT_WRITE, ONEWIRE_POLLSTAT_WRITE_BYTES,
        ONEWIRE_POLLSTAT_WRITE_BYTES ||| ONEWIRE_POLLSTAT_WRITE] ∧
    (polls P k (polled_read_bytes P bufLen count s)).poll_status ∈
      [0, ONEWIRE_POLLSTAT_READ_BYTES,
        ONEWIRE_POLLSTAT_READ_BYTES ||| ONEWIRE_POLLSTAT_READ] ∧
    flagCount (polls P k (polled_write_bytes P bufLen buf count hold s)).poll_status ≤ 2 ∧
    flagCount (polls P k (polled_read_bytes P bufLen count s)).poll_status ≤ 2 := by
  have e1 : (polled_reset P s).poll_status = 1 := by rw [polled_reset_status, hs]; rfl
  have e2 : (polled_write P v power s).poll_status = 2 := by rw [polled_write_status, hs]; rfl
  have e3 : (polled_skip P s).poll_status = 2 := by
    unfold polled_skip; rw [polled_write_status, hs]; rfl
  have e4 : (polled_read P s).poll_status = 4 := by rw [polled_read_status, hs]; rfl
  have e5 : ∀ b c h, (polled_write_bytes P bufLen b c h s).poll_status = 10 := by
    intro b c h; rw [polled_write_bytes_status, hs]; rfl
  have es : polled_select P bufLen rom s =
      polled_write_bytes P bufLen (fun i => if i = 0 then 0x55 else rom (i - 1)) 9 false s := rfl
  have e6 : (polled_read_bytes P bufLen count s).poll_status = 20 := by
    rw [polled_read_bytes_status, hs]; rfl
  have r1 := polls_status_single P 1 (Or.inl rfl) k _ (Or.inr e1)
  have r2 := polls_status_single P 2 (Or.inr (Or.inl rfl)) k _ (Or.inr e2)
  have r3 := polls_status_single P 2 (Or.inr (Or.inl rfl)) k _ (Or.inr e3)
  have r4 := polls_status_single P 4 (Or.inr (Or.inr rfl)) k _ (Or.inr e4)
  have r5 := polls_status_write_bytes P k _ (Or.inr (Or.inr (Or.inr (e5 buf count hold))))
  have r6 : (polls P k (polled_select P bufLen rom s)).poll_status = 0 ∨
      (polls P k (polled_select P bufLen rom s)).poll_status = 2 ∨
      (polls P k (polled_select P bufLen rom s)).poll_status = 8 ∨
      (polls P k (polled_select P bufLen rom s)).poll_status = 10 := by
    rw [es]
    exact polls_status_write_bytes P k _ (Or.inr (Or.inr (Or.inr (e5 _ 9 false))))
  have r7 := polls_status_read_bytes P k _ (Or.inr (Or.inr e6))
  have c10 : ONEWIRE_POLLSTAT_WRITE_BYTES ||| ONEWIRE_POLLSTAT_WRITE = 10 := rfl
  have c20 : ONEWIRE_POLLSTAT_READ_BYTES ||| ONEWIRE_POLLSTAT_READ = 20 := rfl
  simp only [List.mem_cons, List.mem_singleton, List.not_mem_nil, or_false, c10, c20,
    ONEWIRE_POLLSTAT_RESET, ONEWIRE_POLLSTAT_WRITE, ONEWIRE_POLLSTAT_READ,
    ONEWIRE_POLLSTAT_WRITE_BYTES, ONEWIRE_POLLSTAT_READ_BYTES]
  refine ⟨r1, r2, r3, r4, r5, r6, r7, ?_, ?_⟩
  · rcases r5 with q | q | q | q <;> rw [q] <;> decide
  · rcases r7 with q | q | q <;> rw [q] <;> decide

/-- Witness of the amended C14: a polled write of two bytes on the scripted
line, after three calls of `poll`. -/
theorem poll_flags_nested_witness :
    (construct linePlatform (loopback [])).poll_status = 0 ∧
    (polls linePlatform 3 (polled_write_bytes linePlatform 9 (fun _ => 0xA5) 2 false
      (construct linePlatform (loopback [])))).poll_status ∈
      [0, ONEWIRE_POLLSTAT_WRITE, ONEWIRE_POLLSTAT_WRITE_BYTES,
        ONEWIRE_POLLSTAT_WRITE_BYTES ||| ONEWIRE_POLLSTAT_WRITE] :=
  ⟨rfl, (poll_flags_nested linePlatform (construct linePlatform (loopback [])) rfl 3
    0 0 9 (fun _ => 0xA5) 2 false (fun _ => 0)).2.2.2.2.1⟩

/-! ## The line after a multi-byte write -/

theorem write_hw_released (P : Platform σ) (v : Nat) (s : OneWire σ) :
    (write P v 0 s).hw = release_hw P (write_loop P v 8 1 s).hw := rfl

theorem write_bytes_loop_released (P : Platform σ) (buf : Nat → Nat) (count : Nat) :
    ∀ (fuel i : Nat) (s : OneWire σ), i + (fuel + 1) = count →
      ∃ h, (write_bytes_loop P buf count (fuel + 1) i s).hw = release_hw P h := by
  intro fuel
  induction fuel with
  | zero =>
    intro i s hi
    have hlt : i < count := by omega
    simp only [write_bytes_loop, hlt, if_true]
    exact ⟨_, write_hw_released P (buf i) s⟩
  | succ fuel ih =>
    intro i s hi
    have hlt : i < count := by omega
    rw [write_bytes_loop, if_pos hlt]
    exact ih (i + 1) _ (by omega)

theorem release_hw_trace (h : Line) :
    (release_hw linePlatform h).trace =
      h.trace ++ [Act.noInterrupts, Act.modeInput, Act.writeLow, Act.interrupts] := by
  simp [release_hw, runActs, linePlatform]

/-- C15. Multi-byte power hold, on the scripted line. With `power` set and
`count >= 1`, the synchronous `write_bytes` and the polled `polled_write_bytes`
driven to idle both end with the line released: the last four line actions
are the switch to input and the write of a low latch between the interrupt
switches, because every byte, the last one included, is written with the
default `power = 0`. The line is not left driven. -/
theorem write_bytes_power_released (bufLen : Nat) (buf : Nat → Nat) (count : Nat)
    (s : OneWire Line) (hs : s.poll_status = 0) (hn : 1 ≤ count) (hle : count ≤ bufLen)
    (h256 : count < 256) (extra : Nat) :
    [Act.noInterrupts, Act.modeInput, Act.writeLow, Act.interrupts] <:+
      (write_bytes linePlatform buf count true s).hw.trace ∧
    (poll_until_idle linePlatform (8 * count + 8 + extra)
      (polled_write_bytes linePlatform bufLen buf count true s)).poll_status = 0 ∧
    [Act.noInterrupts, Act.modeInput, Act.writeLow, Act.interrupts] <:+
      (poll_until_idle linePlatform (8 * count + 8 + extra)
        (polled_write_bytes linePlatform bufLen buf count true s)).hw.trace := by
  have hN : min count bufLen % 256 = count := by
    rw [Nat.min_eq_left hle, Nat.mod_eq_of_lt h256]
  obtain ⟨_, _, hrun⟩ := polled_write_bytes_idle linePlatform bufLen buf count true s hs count hN
  have hfin : ∃ i, poll_until_idle linePlatform (8 * count + 8 + extra)
      (polled_write_bytes linePlatform bufLen buf count true s) =
      wbytes_final linePlatform s count true
        (fun i => if i < count then buf i else s.readWriteBuffer i) i := by
    by_cases h1 : count ≤ 1
    · have h := hrun (extra + (8 * count - 8))
      simp only [h1, if_true] at h
      exact ⟨1, by rw [← h]; congr 1; omega⟩
    · have h := hrun (extra + 8)
      simp only [h1, if_false] at h
      exact ⟨count - 1, by rw [← h]; congr 1; omega⟩
  obtain ⟨i, hfin⟩ := hfin
  refine ⟨?_, by rw [hfin]; rfl, ?_⟩
  · obtain ⟨k, rfl⟩ : ∃ k, count = k + 1 := ⟨count - 1, by omega⟩
    obtain ⟨h, hh⟩ := write_bytes_loop_released linePlatform buf (k + 1) k 0 s (by omega)
    have e : (write_bytes linePlatform buf (k + 1) true s).hw = release_hw linePlatform h := hh
    rw [e, release_hw_trace]
    exact List.suffix_append _ _
  · rw [hfin]
    have e : (wbytes_final linePlatform s count true
        (fun i => if i < count then buf i else s.readWriteBuffer i) i).hw =
        release_hw linePlatform (write_bits_hw linePlatform
          (maskBits ((fun i => if i < count then buf i else s.readWriteBuffer i) i)).tail
          (write_bit_hw linePlatform
            (maskBits ((fun i => if i < count then buf i else s.readWriteBuffer i) i)).head!
            (wbytes_run linePlatform (fun i => if i < count then buf i else s.readWriteBuffer i)
              i (s.hw, s.calls ++ (List.range count).map Call.bufWrite)).1)) := rfl
    rw [e, release_hw_trace]
    exact List.suffix_append _ _

/-- Witness of C15 at a failing input: one byte `0xA5` with `power` set. -/
theorem write_bytes_power_released_witness :
    (1 ≤ 1 ∧ 1 ≤ 9 ∧ 1 < 256) ∧
    [Act.noInterrupts, Act.modeInput, Act.writeLow, Act.interrupts] <:+
      (write_bytes linePlatform (fun _ => 0xA5) 1 true
        (construct linePlatform (loopback []))).hw.trace :=
  ⟨by decide,
    (write_bytes_power_released 9 (fun _ => 0xA5) 1 (construct linePlatform (loopback []))
      rfl (by decide) (by decide) (by decide) 0).1⟩

/-! ## The synchronous reset on the probe -/

theorem reset_wait_step (P : Platform σ) (r : Nat) (hr : r ≠ 0) (h : σ) :
    reset_wait P (r + 1) h =
      if (P.sample (P.act (Act.delay 2) h)).1 then (true, (P.sample (P.act (Act.delay 2) h)).2)
      else reset_wait P r (P.sample (P.act (Act.delay 2) h)).2 := by
  simp only [reset_wait, hr, if_false]

theorem reset_of_wait_false (P : Platform σ) (s : OneWire σ) (h1 : σ)
    (hw : reset_wait P 125 (runActs P [Act.noInterrupts, Act.modeInput, Act.interrupts] s.hw) =
      (false, h1)) :
    reset P s = (0, { s with hw := h1 }) := by
  simp only [reset, hw, Bool.false_eq_true, if_false]

theorem reset_of_wait_true (P : Platform σ) (s : OneWire σ) (h1 : σ)
    (hw : reset_wait P 125 (runActs P [Act.noInterrupts, Act.modeInput, Act.interrupts] s.hw) =
      (true, h1)) :
    reset P s =
      ((if (P.sample (runActs P [Act.noInterrupts, Act.writeLow, Act.modeOutput,
          Act.interrupts, Act.delay 500, Act.noInterrupts, Act.modeInput, Act.delay 80] h1)).1
        then 0 else 1),
       { s with
         hw := runActs P [Act.interrupts, Act.delay 420]
           (P.sample (runActs P [Act.noInterrupts, Act.writeLow, Act.modeOutput,
             Act.interrupts, Act.delay 500, Act.noInterrupts, Act.modeInput,
             Act.delay 80] h1)).2 }) := by
  simp only [reset, hw, if_true]

/-- While the line reads low, the wait loop of `reset` goes on: `k` rounds on
the probe. -/
theorem reset_wait_probe (p : Probe) : ∀ (k r : Nat), k ≤ r →
    (∀ i < k, p.line (p.nsamples + i) = false) →
    reset_wait probePlatform (r + 1) p =
      reset_wait probePlatform (r + 1 - k)
        { p with
          nsamples := p.nsamples + k
          log := p.log ++ waitEvents p.line p.nsamples k } := by
  intro k
  induction k with
  | zero => intro r _ _; simp [waitEvents]
  | succ k ih =>
    intro r hk hlow
    rw [ih r (by omega) (fun i hi => hlow i (by omega)),
      show r + 1 - k = (r - k) + 1 by omega, reset_wait_step _ _ (by omega)]
    have hl : p.line (p.nsamples + k) = false := hlow k (by omega)
    simp only [probePlatform, hl, Bool.false_eq_true, if_false, waitEvents, List.append_assoc,
      List.cons_append, List.nil_append]
    rw [show r - k = r + 1 - (k + 1) by omega]
    rfl

theorem delaySum_append (a b : List Event) : delaySum (a ++ b) = delaySum a + delaySum b := by
  induction a with
  | nil => simp [delaySum]
  | cons e a ih =>
    cases e with
    | act x => cases x <;> simp [delaySum, ih, Nat.add_assoc]
    | sampled l => simp [delaySum, ih]
    | clock t => simp [delaySum, ih]

theorem delaySum_waitEvents (line : Nat → Bool) (n0 k : Nat) :
    delaySum (waitEvents line n0 k) = 2 * k := by
  induction k with
  | zero => rfl
  | succ k ih =>
    rw [waitEvents, delaySum_append, ih]
    simp [delaySum]
    omega

theorem waitEvents_no_drive (line : Nat → Bool) (n0 k : Nat) :
    ∀ e ∈ waitEvents line n0 k, e ≠ Event.act Act.writeLow ∧ e ≠ Event.act Act.modeOutput := by
  induction k with
  | zero => intro e he; simp [waitEvents] at he
  | succ k ih =>
    intro e he
    rw [waitEvents, List.mem_append] at he
    rcases he with he | he
    · exact ih e he
    · simp only [List.mem_cons, List.mem_singleton, List.not_mem_nil, or_false] at he
      rcases he with rfl | rfl <;> simp

/-- The synchronous reset on a line that reads low 124 times: it gives up. -/
theorem reset_probe_stuck (s : OneWire Probe)
    (hlow : ∀ i < 124, s.hw.line (s.hw.nsamples + i) = false) :
    reset probePlatform s =
      (0, { s with
        hw := { s.hw with
          nsamples := s.hw.nsamples + 124
          log := s.hw.log ++
            [Event.act Act.noInterrupts, Event.act Act.modeInput, Event.act Act.interrupts] ++
            waitEvents s.hw.line s.hw.nsamples 124 } }) := by
  apply reset_of_wait_false
  have h := reset_wait_probe
    (runActs probePlatform [Act.noInterrupts, Act.modeInput, Act.interrupts] s.hw) 124 124
    (Nat.le_refl _) hlow
  rw [h]
  simp [reset_wait, runActs, probePlatform]

/-- The synchronous reset on a line whose first high sample is the one with
index `j < 124`: the reset pulse is sent and the next sample is the presence. -/
theorem reset_probe_high (s : OneWire Probe) (j : Nat) (hj : j < 124)
    (hlow : ∀ i < j, s.hw.line (s.hw.nsamples + i) = false)
    (hhigh : s.hw.line (s.hw.nsamples + j) = true) :
    reset probePlatform s =
      ((if s.hw.line (s.hw.nsamples + j + 1) then 0 else 1),
       { s with
        hw := { s.hw with
          nsamples := s.hw.nsamples + j + 2
          log := s.hw.log ++
            [Event.act Act.noInterrupts, Event.act Act.modeInput, Event.act Act.interrupts] ++
            waitEvents s.hw.line s.hw.nsamples (j + 1) ++
            [Event.act Act.noInterrupts, Event.act Act.writeLow, Event.act Act.modeOutput,
              Event.act Act.interrupts, Event.act (Act.delay 500), Event.act Act.noInterrupts,
              Event.act Act.modeInput, Event.act (Act.delay 80),
              Event.sampled (s.hw.line (s.hw.nsamples + j + 1)), Event.act Act.interrupts,
              Event.act (Act.delay 420)] } }) := by
  have h := reset_wait_probe
    (runActs probePlatform [Act.noInterrupts, Act.modeInput, Act.interrupts] s.hw) j 124
    (by omega) hlow
  have hw : reset_wait probePlatform 125
      (runActs probePlatform [Act.noInterrupts, Act.modeInput, Act.interrupts] s.hw) =
      (true, { s.hw with
        nsamples := s.hw.nsamples + j + 1
        log := s.hw.log ++
          [Event.act Act.noInterrupts, Event.act Act.modeInput, Event.act Act.interrupts] ++
          waitEvents s.hw.line s.hw.nsamples (j + 1) }) := by
    rw [h, show 124 + 1 - j = (124 - j) + 1 by omega, reset_wait_step _ _ (by omega)]
    have hh : s.hw.line (s.hw.nsamples + j) = true := hhigh
    simp [probePlatform, runActs, hh, waitEvents]
  rw [reset_of_wait_true probePlatform s _ hw]
  simp [probePlatform, runActs]

/-- C17. The synchronous `reset` on the probe, for every line script. When the
line reads low at each of the 124 samples of the wait loop, `reset` returns 0
after 248 us of programmed delay and never drives the line low. Otherwise, with
the first high sample at index `j < 124`, it drives the line low, waits 500 us,
releases the line, waits 80 us, samples, waits 420 us more (1000 us from the
drive-low), and returns 1 exactly when that sample was low. -/
theorem reset_result_spec (s : OneWire Probe) :
    ((∀ i < 124, s.hw.line (s.hw.nsamples + i) = false) →
      (reset probePlatform s).1 = 0 ∧
      (reset probePlatform s).2.hw.log = s.hw.log ++
        [Event.act Act.noInterrupts, Event.act Act.modeInput, Event.act Act.interrupts] ++
        waitEvents s.hw.line s.hw.nsamples 124 ∧
      delaySum ((reset probePlatform s).2.hw.log.drop s.hw.log.length) = 248 ∧
      (∀ e ∈ (reset probePlatform s).2.hw.log.drop s.hw.log.length,
        e ≠ Event.act Act.writeLow ∧ e ≠ Event.act Act.modeOutput)) ∧
    (∀ j < 124, (∀ i < j, s.hw.line (s.hw.nsamples + i) = false) →
      s.hw.line (s.hw.nsamples + j) = true →
      ((reset probePlatform s).1 = 1 ↔ s.hw.line (s.hw.nsamples + j + 1) = false) ∧
      ((reset probePlatform s).1 = 0 ↔ s.hw.line (s.hw.nsamples + j + 1) = true) ∧
      (reset probePlatform s).2.hw.log = s.hw.log ++
        [Event.act Act.noInterrupts, Event.act Act.modeInput, Event.act Act.interrupts] ++
        waitEvents s.hw.line s.hw.nsamples (j + 1) ++
        [Event.act Act.noInterrupts, Event.act Act.writeLow, Event.act Act.modeOutput,
          Event.act Act.interrupts, Event.act (Act.delay 500), Event.act Act.noInterrupts,
          Event.act Act.modeInput, Event.act (Act.delay 80),
          Event.sampled (s.hw.line (s.hw.nsamples + j + 1)), Event.act Act.interrupts,
          Event.act (Act.delay 420)] ∧
      delaySum (waitEvents s.hw.line s.hw.nsamples (j + 1)) ≤ 250) := by
  constructor
  · intro hlow
    rw [reset_probe_stuck s hlow]
    refine ⟨rfl, rfl, ?_, ?_⟩
    · simp only [List.append_assoc, List.drop_left, delaySum_append, delaySum_waitEvents]
      rfl
    · intro e he
      simp only [List.append_assoc, List.drop_left, List.mem_append, List.mem_cons,
        List.mem_singleton, List.not_mem_nil, or_false] at he
      rcases he with (rfl | rfl | rfl) | he
      · simp
      · simp
      · simp
      · exact waitEvents_no_drive _ _ _ e he
  · intro j hj hlow hhigh
    rw [reset_probe_high s j hj hlow hhigh]
    refine ⟨?_, ?_, rfl, ?_⟩
    · cases s.hw.line (s.hw.nsamples + j + 1) <;> simp
    · cases s.hw.line (s.hw.nsamples + j + 1) <;> simp
    · rw [delaySum_waitEvents]; omega

/-- Witness of C17: a line that is low for three samples, then high, then low
at the presence sample. -/
theorem reset_result_spec_witness :
    (reset probePlatform
      (construct probePlatform (probe [false, false, false, true, false] []))).1 = 1 ↔
      (construct probePlatform (probe [false, false, false, true, false] [])).hw.line
        ((construct probePlatform (probe [false, false, false, true, false] [])).hw.nsamples
          + 3 + 1) = false :=
  ((reset_result_spec
    (construct probePlatform (probe [false, false, false, true, false] []))).2 3 (by decide)
    (by decide) (by decide)).1

/-! ## The polled reset on the probe, one call of `poll` at a time -/

theorem one_and_one : (1 &&& 1 : Nat) = 1 ∧ (0 ||| 1 : Nat) = 1 ∧ clear_flag 1 1 = 0 := by
  decide

/-- Entry of the polled reset with the line high: the reset pulse starts. -/
theorem polled_reset_high (s : OneWire Probe) (hs : s.poll_status = 0)
    (hl : s.hw.line s.hw.nsamples = true) :
    polled_reset probePlatform s =
      resetState s 1 1
        ([Event.act Act.noInterrupts, Event.act Act.modeInput, Event.act Act.interrupts,
          Event.sampled true] ++ driveLowEvents ++ [Event.clock (s.hw.times s.hw.nclock)])
        1 ONEWIRE_BITSTAT_RESET_WAIT_LOW (armed (s.hw.times s.hw.nclock) 500)
        s.reset_result := by
  simp [polled_reset, resetState, probeAt, probePlatform, runActs, hs, hl, armed,
    driveLowEvents, ONEWIRE_POLLSTAT_RESET, one_and_one]

/-- Entry of the polled reset with the line low: the wait for the line begins. -/
theorem polled_reset_low (s : OneWire Probe) (hs : s.poll_status = 0)
    (hl : s.hw.line s.hw.nsamples = false) :
    polled_reset probePlatform s =
      resetState s 1 1
        [Event.act Act.noInterrupts, Event.act Act.modeInput, Event.act Act.interrupts,
          Event.sampled false, Event.clock (s.hw.times s.hw.nclock)]
        1 ONEWIRE_BITSTAT_RESET_WAIT_LINE_HIGH (armed (s.hw.times s.hw.nclock) 250)
        s.reset_result := by
  simp [polled_reset, resetState, probeAt, probePlatform, runActs, hs, hl, armed,
    ONEWIRE_POLLSTAT_RESET, one_and_one]

/-- Waiting for the line: low and the deadline not reached. -/
theorem poll_line_wait (s : OneWire Probe) (dn dc : Nat) (ev : List Event) (D : Nat)
    (r : Bool) (hl : s.hw.line (s.hw.nsamples + dn) = false)
    (hd : deadline_reached (s.hw.times (s.hw.nclock + dc)) D = false) :
    poll probePlatform (resetState s dn dc ev 1 ONEWIRE_BITSTAT_RESET_WAIT_LINE_HIGH D r) =
      resetState s (dn + 1) (dc + 1)
        (ev ++ [Event.sampled (s.hw.line (s.hw.nsamples + dn)),
          Event.clock (s.hw.times (s.hw.nclock + dc))])
        1 ONEWIRE_BITSTAT_RESET_WAIT_LINE_HIGH D r := by
  simp [poll, poll_reset, resetState, probeAt, probePlatform, hl, hd, ONEWIRE_POLLSTAT_RESET,
    ONEWIRE_BITSTAT_RESET_WAIT_LINE_HIGH, one_and_one, Nat.add_assoc]

/-- Waiting for the line: low and the deadline reached, the reset fails. -/
theorem poll_line_fail (s : OneWire Probe) (dn dc : Nat) (ev : List Event) (D : Nat)
    (r : Bool) (hl : s.hw.line (s.hw.nsamples + dn) = false)
    (hd : deadline_reached (s.hw.times (s.hw.nclock + dc)) D = true) :
    poll probePlatform (resetState s dn dc ev 1 ONEWIRE_BITSTAT_RESET_WAIT_LINE_HIGH D r) =
      resetState s (dn + 1) (dc + 1)
        (ev ++ [Event.sampled (s.hw.line (s.hw.nsamples + dn)),
          Event.clock (s.hw.times (s.hw.nclock + dc))])
        0 ONEWIRE_BITSTAT_RESET_WAIT_LINE_HIGH D false := by
  simp [poll, poll_reset, resetState, probeAt, probePlatform, hl, hd, ONEWIRE_POLLSTAT_RESET,
    ONEWIRE_BITSTAT_RESET_WAIT_LINE_HIGH, one_and_one, Nat.add_assoc]

/-- Waiting for the line: high, the reset pulse starts. -/
theorem poll_line_high (s : OneWire Probe) (dn dc : Nat) (ev : List Event) (D : Nat)
    (r : Bool) (hl : s.hw.line (s.hw.nsamples + dn) = true) :
    poll probePlatform (resetState s dn dc ev 1 ONEWIRE_BITSTAT_RESET_WAIT_LINE_HIGH D r) =
      resetState s (dn + 1) (dc + 1)
        (ev ++ [Event.sampled true] ++ driveLowEvents ++
          [Event.clock (s.hw.times (s.hw.nclock + dc))])
        1 ONEWIRE_BITSTAT_RESET_WAIT_LOW (armed (s.hw.times (s.hw.nclock + dc)) 500) r := by
  simp [poll, poll_reset, resetState, probeAt, probePlatform, runActs, hl, armed,
    driveLowEvents, ONEWIRE_POLLSTAT_RESET, ONEWIRE_BITSTAT_RESET_WAIT_LINE_HIGH,
    ONEWIRE_BITSTAT_RESET_WAIT_LOW, one_and_one, Nat.add_assoc]

/-- Holding the line low or finishing: the deadline not reached, nothing but
the clock reading happens. -/
theorem poll_clock_wait (s : OneWire Probe) (dn dc : Nat) (ev : List Event) (bit D : Nat)
    (r : Bool)
    (hb : bit = ONEWIRE_BITSTAT_RESET_WAIT_LOW ∨ bit = ONEWIRE_BITSTAT_RESET_WAIT_FINISH)
    (hd : deadline_reached (s.hw.times (s.hw.nclock + dc)) D = false) :
    poll probePlatform (resetState s dn dc ev 1 bit D r) =
      resetState s dn (dc + 1) (ev ++ [Event.clock (s.hw.times (s.hw.nclock + dc))])
        1 bit D r := by
  rcases hb with rfl | rfl <;>
  simp [poll, poll_reset, resetState, probeAt, probePlatform, hd, ONEWIRE_POLLSTAT_RESET,
    ONEWIRE_BITSTAT_RESET_WAIT_LINE_HIGH, ONEWIRE_BITSTAT_RESET_WAIT_LOW,
    ONEWIRE_BITSTAT_RESET_WAIT_FINISH, one_and_one, Nat.add_assoc]

/-- The low hold is over: the line is released and the presence is sampled
after 80 us. -/
theorem poll_low_done (s : OneWire Probe) (dn dc : Nat) (ev : List Event) (D : Nat)
    (r : Bool) (hd : deadline_reached (s.hw.times (s.hw.nclock + dc)) D = true) :
    poll probePlatform (resetState s dn dc ev 1 ONEWIRE_BITSTAT_RESET_WAIT_LOW D r) =
      resetState s (dn + 1) (dc + 2)
        (ev ++ [Event.clock (s.hw.times (s.hw.nclock + dc)), Event.act Act.noInterrupts,
          Event.act Act.modeInput, Event.act (Act.delay 80),
          Event.sampled (s.hw.line (s.hw.nsamples + dn)), Event.act Act.interrupts,
          Event.clock (s.hw.times (s.hw.nclock + dc + 1))])
        1 ONEWIRE_BITSTAT_RESET_WAIT_FINISH (armed (s.hw.times (s.hw.nclock + dc + 1)) 420)
        (!s.hw.line (s.hw.nsamples + dn)) := by
  simp [poll, poll_reset, resetState, probeAt, probePlatform, runActs, hd, armed,
    ONEWIRE_POLLSTAT_RESET, ONEWIRE_BITSTAT_RESET_WAIT_LINE_HIGH,
    ONEWIRE_BITSTAT_RESET_WAIT_LOW, ONEWIRE_BITSTAT_RESET_WAIT_FINISH, one_and_one,
    Nat.add_assoc]

/-- The last deadline is reached: the reset flag is cleared. -/
theorem poll_finish_done (s : OneWire Probe) (dn dc : Nat) (ev : List Event) (D : Nat)
    (r : Bool) (hd : deadline_reached (s.hw.times (s.hw.nclock + dc)) D = true) :
    poll probePlatform (resetState s dn dc ev 1 ONEWIRE_BITSTAT_RESET_WAIT_FINISH D r) =
      resetState s dn (dc + 1) (ev ++ [Event.clock (s.hw.times (s.hw.nclock + dc))])
        0 ONEWIRE_BITSTAT_RESET_WAIT_FINISH D r := by
  simp [poll, poll_reset, resetState, probeAt, probePlatform, hd, ONEWIRE_POLLSTAT_RESET,
    ONEWIRE_BITSTAT_RESET_WAIT_LINE_HIGH, ONEWIRE_BITSTAT_RESET_WAIT_LOW,
    ONEWIRE_BITSTAT_RESET_WAIT_FINISH, one_and_one, Nat.add_assoc]

/-! ## The polled reset on the probe, phase by phase -/

theorem resetState_status (s : OneWire Probe) (dn dc : Nat) (ev : List Event)
    (status bit D : Nat) (r : Bool) :
    (resetState s dn dc ev status bit D r).poll_status = status := rfl

/-- The polls that find the line low before the deadline. -/
theorem polls_line_wait (s : OneWire Probe) (dn dc : Nat) (ev : List Event) (D : Nat)
    (r : Bool) : ∀ k,
    (∀ i < k, s.hw.line (s.hw.nsamples + dn + i) = false) →
    (∀ i < k, deadline_reached (s.hw.times (s.hw.nclock + dc + i)) D = false) →
    polls probePlatform k (resetState s dn dc ev 1 ONEWIRE_BITSTAT_RESET_WAIT_LINE_HIGH D r) =
      resetState s (dn + k) (dc + k)
        (ev ++ lineWaitEvents s.hw.line s.hw.times (s.hw.nsamples + dn) (s.hw.nclock + dc) k)
        1 ONEWIRE_BITSTAT_RESET_WAIT_LINE_HIGH D r := by
  intro k
  induction k with
  | zero => intro _ _; simp [polls, lineWaitEvents]
  | succ k ih =>
    intro hl hd
    rw [polls_add, ih (fun i hi => hl i (by omega)) (fun i hi => hd i (by omega))]
    have h1 := hl k (by omega)
    have h2 := hd k (by omega)
    rw [Nat.add_assoc] at h1 h2
    simp only [polls]
    rw [poll_line_wait s (dn + k) (dc + k) _ D r h1 h2]
    simp only [lineWaitEvents, List.append_assoc, Nat.add_assoc]

/-- The polls that find a deadline not reached. -/
theorem polls_clock_wait (s : OneWire Probe) (dn dc : Nat) (ev : List Event) (bit D : Nat)
    (r : Bool)
    (hb : bit = ONEWIRE_BITSTAT_RESET_WAIT_LOW ∨ bit = ONEWIRE_BITSTAT_RESET_WAIT_FINISH) :
    ∀ k, (∀ i < k, deadline_reached (s.hw.times (s.hw.nclock + dc + i)) D = false) →
    polls probePlatform k (resetState s dn dc ev 1 bit D r) =
      resetState s dn (dc + k) (ev ++ clockEvents s.hw.times (s.hw.nclock + dc) k) 1 bit D r := by
  intro k
  induction k with
  | zero => intro _; simp [polls, clockEvents]
  | succ k ih =>
    intro hd
    rw [polls_add, ih (fun i hi => hd i (by omega))]
    have h2 := hd k (by omega)
    rw [Nat.add_assoc] at h2
    simp only [polls]
    rw [poll_clock_wait s dn (dc + k) _ bit D r hb h2]
    simp only [clockEvents, List.append_assoc, Nat.add_assoc]

theorem busy_of_status (P : Platform σ) (k : Nat) (s : OneWire σ)
    (h : ∀ j < k, (polls P j s).poll_status = 1) : Busy P k s := by
  intro j hj
  rw [h j hj]
  exact Nat.one_ne_zero

theorem lineWaitEvents_shift (line : Nat → Bool) (times : Nat → Nat) (n0 c0 : Nat) :
    ∀ k, lineWaitEvents line times n0 c0 (k + 1) =
      [Event.sampled (line n0), Event.clock (times c0)] ++
        lineWaitEvents line times (n0 + 1) (c0 + 1) k := by
  intro k
  induction k with
  | zero => simp [lineWaitEvents]
  | succ k ih =>
    rw [lineWaitEvents, ih]
    simp only [lineWaitEvents, List.append_assoc, List.cons_append, List.nil_append]
    rw [show n0 + 1 + k = n0 + (k + 1) by omega, show c0 + 1 + k = c0 + (k + 1) by omega]

/-- Phase 1 of a polled reset that recovers: the line reads low `m` times, the
deadline of 250 us is not reached meanwhile, and then the line reads high. After
`m` polls the reset pulse has started. -/
theorem polled_reset_phase1 (s : OneWire Probe) (hs : s.poll_status = 0) (m : Nat)
    (hlow : ∀ i < m, s.hw.line (s.hw.nsamples + i) = false)
    (hhigh : s.hw.line (s.hw.nsamples + m) = true)
    (hA : ∀ i < m, 1 ≤ i →
      deadline_reached (s.hw.times (s.hw.nclock + i)) (armed (s.hw.times s.hw.nclock) 250)
        = false) :
    polls probePlatform m (polled_reset probePlatform s) =
      resetState s (m + 1) (m + 1)
        ([Event.act Act.noInterrupts, Event.act Act.modeInput, Event.act Act.interrupts] ++
          lineWaitEvents s.hw.line s.hw.times s.hw.nsamples s.hw.nclock m ++
          [Event.sampled true] ++ driveLowEvents ++ [Event.clock (s.hw.times (s.hw.nclock + m))])
        1 ONEWIRE_BITSTAT_RESET_WAIT_LOW (armed (s.hw.times (s.hw.nclock + m)) 500)
        s.reset_result ∧
    Busy probePlatform m (polled_reset probePlatform s) := by
  cases m with
  | zero =>
    refine ⟨?_, fun j hj => absurd hj (Nat.not_lt_zero j)⟩
    rw [polled_reset_high s hs hhigh]
    simp [polls, lineWaitEvents]
  | succ m =>
    have h0 : s.hw.line s.hw.nsamples = false := hlow 0 (by omega)
    have hw : ∀ k ≤ m, polls probePlatform k (polled_reset probePlatform s) =
        resetState s (1 + k) (1 + k)
          ([Event.act Act.noInterrupts, Event.act Act.modeInput, Event.act Act.interrupts,
            Event.sampled false, Event.clock (s.hw.times s.hw.nclock)] ++
            lineWaitEvents s.hw.line s.hw.times (s.hw.nsamples + 1) (s.hw.nclock + 1) k)
          1 ONEWIRE_BITSTAT_RESET_WAIT_LINE_HIGH (armed (s.hw.times s.hw.nclock) 250)
          s.reset_result := by
      intro k hk
      rw [polled_reset_low s hs h0]
      exact polls_line_wait s 1 1 _ _ _ k
        (fun i hi => by rw [Nat.add_assoc]; exact hlow (1 + i) (by omega))
        (fun i hi => by rw [Nat.add_assoc]; exact hA (1 + i) (by omega) (by omega))
    constructor
    · rw [polls_add, hw m (Nat.le_refl m)]
      simp only [polls]
      have hh : s.hw.line (s.hw.nsamples + (1 + m)) = true := by
        rw [show 1 + m = m + 1 by omega]; exact hhigh
      rw [poll_line_high s (1 + m) (1 + m) _ _ _ hh, lineWaitEvents_shift, h0]
      simp only [List.append_assoc, List.cons_append, List.nil_append,
        show 1 + m = m + 1 by omega]
    · apply busy_of_status
      intro j hj
      rw [hw j (by omega)]
      rfl

/-- Phase 2: the low hold. After `a` polls before the deadline and one poll at
or after it, the presence is sampled. -/
theorem polled_reset_phase2 (s : OneWire Probe) (dn dc : Nat) (ev : List Event) (D : Nat)
    (r : Bool) (a : Nat)
    (hearly : ∀ i < a, deadline_reached (s.hw.times (s.hw.nclock + dc + i)) D = false)
    (hdone : deadline_reached (s.hw.times (s.hw.nclock + dc + a)) D = true) :
    polls probePlatform (a + 1) (resetState s dn dc ev 1 ONEWIRE_BITSTAT_RESET_WAIT_LOW D r) =
      resetState s (dn + 1) (dc + a + 2)
        (ev ++ clockEvents s.hw.times (s.hw.nclock + dc) a ++
          [Event.clock (s.hw.times (s.hw.nclock + dc + a)), Event.act Act.noInterrupts,
            Event.act Act.modeInput, Event.act (Act.delay 80),
            Event.sampled (s.hw.line (s.hw.nsamples + dn)), Event.act Act.interrupts,
            Event.clock (s.hw.times (s.hw.nclock + dc + a + 1))])
        1 ONEWIRE_BITSTAT_RESET_WAIT_FINISH
        (armed (s.hw.times (s.hw.nclock + dc + a + 1)) 420)
        (!s.hw.line (s.hw.nsamples + dn)) ∧
    Busy probePlatform (a + 1)
      (resetState s dn dc ev 1 ONEWIRE_BITSTAT_RESET_WAIT_LOW D r) := by
  have hw : ∀ k ≤ a, polls probePlatform k
      (resetState s dn dc ev 1 ONEWIRE_BITSTAT_RESET_WAIT_LOW D r) =
      resetState s dn (dc + k) (ev ++ clockEvents s.hw.times (s.hw.nclock + dc) k) 1
        ONEWIRE_BITSTAT_RESET_WAIT_LOW D r :=
    fun k hk => polls_clock_wait s dn dc ev _ D r (Or.inl rfl) k
      (fun i hi => hearly i (by omega))
  constructor
  · rw [polls_add, hw a (Nat.le_refl a)]
    simp only [polls]
    have hd : deadline_reached (s.hw.times (s.hw.nclock + (dc + a))) D = true := by
      rw [← Nat.add_assoc]; exact hdone
    rw [poll_low_done s dn (dc + a) _ D r hd]
    simp only [List.append_assoc, Nat.add_assoc]
  · apply busy_of_status
    intro j hj
    rw [hw j (by omega)]
    rfl

/-- Phase 3: the rest of the reset slot. After `b` polls before the deadline
and one poll at or after it, the reset flag is cleared. -/
theorem polled_reset_phase3 (s : OneWire Probe) (dn dc : Nat) (ev : List Event) (D : Nat)
    (r : Bool) (b : Nat)
    (hearly : ∀ i < b, deadline_reached (s.hw.times (s.hw.nclock + dc + i)) D = false)
    (hdone : deadline_reached (s.hw.times (s.hw.nclock + dc + b)) D = true) :
    polls probePlatform (b + 1)
      (resetState s dn dc ev 1 ONEWIRE_BITSTAT_RESET_WAIT_FINISH D r) =
      resetState s dn (dc + b + 1)
        (ev ++ clockEvents s.hw.times (s.hw.nclock + dc) b ++
          [Event.clock (s.hw.times (s.hw.nclock + dc + b))])
        0 ONEWIRE_BITSTAT_RESET_WAIT_FINISH D r ∧
    Busy probePlatform (b + 1)
      (resetState s dn dc ev 1 ONEWIRE_BITSTAT_RESET_WAIT_FINISH D r) := by
  have hw : ∀ k ≤ b, polls probePlatform k
      (resetState s dn dc ev 1 ONEWIRE_BITSTAT_RESET_WAIT_FINISH D r) =
      resetState s dn (dc + k) (ev ++ clockEvents s.hw.times (s.hw.nclock + dc) k) 1
        ONEWIRE_BITSTAT_RESET_WAIT_FINISH D r :=
    fun k hk => polls_clock_wait s dn dc ev _ D r (Or.inr rfl) k
      (fun i hi => hearly i (by omega))
  constructor
  · rw [polls_add, hw b (Nat.le_refl b)]
    simp only [polls]
    have hd : deadline_reached (s.hw.times (s.hw.nclock + (dc + b))) D = true := by
      rw [← Nat.add_assoc]; exact hdone
    rw [poll_finish_done s dn (dc + b) _ D r hd]
    simp only [List.append_assoc, Nat.add_assoc]
  · apply busy_of_status
    intro j hj
    rw [hw j (by omega)]
    rfl

/-- A polled reset that fails: the line reads low at the entry and at `k`
polls, and the deadline of 250 us is first reached at the `k`-th poll. -/
theorem polled_reset_fails (s : OneWire Probe) (hs : s.poll_status = 0) (k : Nat)
    (hlow : ∀ i < k + 2, s.hw.line (s.hw.nsamples + i) = false)
    (hearly : ∀ i < k + 1, 1 ≤ i →
      deadline_reached (s.hw.times (s.hw.nclock + i)) (armed (s.hw.times s.hw.nclock) 250)
        = false)
    (hdone : deadline_reached (s.hw.times (s.hw.nclock + (k + 1)))
      (armed (s.hw.times s.hw.nclock) 250) = true) :
    polls probePlatform (k + 1) (polled_reset probePlatform s) =
      resetState s (k + 2) (k + 2)
        ([Event.act Act.noInterrupts, Event.act Act.modeInput, Event.act Act.interrupts] ++
          lineWaitEvents s.hw.line s.hw.times s.hw.nsamples s.hw.nclock (k + 2))
        0 ONEWIRE_BITSTAT_RESET_WAIT_LINE_HIGH (armed (s.hw.times s.hw.nclock) 250) false ∧
    Busy probePlatform (k + 1) (polled_reset probePlatform s) := by
  have h0 : s.hw.line s.hw.nsamples = false := hlow 0 (by omega)
  have hw : ∀ j ≤ k, polls probePlatform j (polled_reset probePlatform s) =
      resetState s (1 + j) (1 + j)
        ([Event.act Act.noInterrupts, Event.act Act.modeInput, Event.act Act.interrupts,
          Event.sampled false, Event.clock (s.hw.times s.hw.nclock)] ++
          lineWaitEvents s.hw.line s.hw.times (s.hw.nsamples + 1) (s.hw.nclock + 1) j)
        1 ONEWIRE_BITSTAT_RESET_WAIT_LINE_HIGH (armed (s.hw.times s.hw.nclock) 250)
        s.reset_result := by
    intro j hj
    rw [polled_reset_low s hs h0]
    exact polls_line_wait s 1 1 _ _ _ j
      (fun i hi => by rw [Nat.add_assoc]; exact hlow (1 + i) (by omega))
      (fun i hi => by rw [Nat.add_assoc]; exact hearly (1 + i) (by omega) (by omega))
  constructor
  · rw [polls_add, hw k (Nat.le_refl k)]
    simp only [polls]
    have hl : s.hw.line (s.hw.nsamples + (1 + k)) = false := hlow (1 + k) (by omega)
    have hd : deadline_reached (s.hw.times (s.hw.nclock + (1 + k)))
        (armed (s.hw.times s.hw.nclock) 250) = true := by
      rw [show 1 + k = k + 1 by omega]; exact hdone
    rw [poll_line_fail s (1 + k) (1 + k) _ _ _ hl hd, lineWaitEvents_shift,
      lineWaitEvents, h0]
    simp only [List.append_assoc, List.cons_append, List.nil_append, Nat.add_assoc,
      show 1 + k + 1 = k + 2 by omega, show 1 + k = k + 1 by omega]
  · apply busy_of_status
    intro j hj
    rw [hw j (by omega)]
    rfl

theorem resetState_congr (s : OneWire Probe) (dn dc dn' dc' : Nat) (ev : List Event)
    (status bit D D' : Nat) (r : Bool) (h1 : dn = dn') (h2 : dc = dc') (h3 : D = D') :
    resetState s dn dc ev status bit D r = resetState s dn' dc' ev status bit D' r := by
  subst h1 h2 h3; rfl

/-- Where a polled reset started from the idle object `s` can be after some
polls: waiting for the line, holding the line low, finishing, or done after a
run of one of the two shapes. -/
theorem polled_reset_shapes (s : OneWire Probe) (hs : s.poll_status = 0) : ∀ j,
    (∃ ev r, polls probePlatform j (polled_reset probePlatform s) =
        resetState s (1 + j) (1 + j) ev 1 ONEWIRE_BITSTAT_RESET_WAIT_LINE_HIGH
          (armed (s.hw.times s.hw.nclock) 250) r ∧
      (∀ i < j + 1, s.hw.line (s.hw.nsamples + i) = false) ∧
      (∀ i < j + 1, 1 ≤ i → deadline_reached (s.hw.times (s.hw.nclock + i))
        (armed (s.hw.times s.hw.nclock) 250) = false)) ∨
    (∃ m a ev r, polls probePlatform j (polled_reset probePlatform s) =
        resetState s (m + 1) (m + 1 + a) ev 1 ONEWIRE_BITSTAT_RESET_WAIT_LOW
          (armed (s.hw.times (s.hw.nclock + m)) 500) r ∧
      (∀ i < m, s.hw.line (s.hw.nsamples + i) = false) ∧
      s.hw.line (s.hw.nsamples + m) = true ∧
      (∀ i < m, 1 ≤ i → deadline_reached (s.hw.times (s.hw.nclock + i))
        (armed (s.hw.times s.hw.nclock) 250) = false) ∧
      (∀ i < a, deadline_reached (s.hw.times (s.hw.nclock + (m + 1) + i))
        (armed (s.hw.times (s.hw.nclock + m)) 500) = false)) ∨
    (∃ m a b ev r, polls probePlatform j (polled_reset probePlatform s) =
        resetState s (m + 1 + 1) (m + 1 + a + 2 + b) ev 1 ONEWIRE_BITSTAT_RESET_WAIT_FINISH
          (armed (s.hw.times (s.hw.nclock + (m + 1) + a + 1)) 420) r ∧
      (∀ i < m, s.hw.line (s.hw.nsamples + i) = false) ∧
      s.hw.line (s.hw.nsamples + m) = true ∧
      (∀ i < m, 1 ≤ i → deadline_reached (s.hw.times (s.hw.nclock + i))
        (armed (s.hw.times s.hw.nclock) 250) = false) ∧
      (∀ i < a, deadline_reached (s.hw.times (s.hw.nclock + (m + 1) + i))
        (armed (s.hw.times (s.hw.nclock + m)) 500) = false) ∧
      deadline_reached (s.hw.times (s.hw.nclock + (m + 1) + a))
        (armed (s.hw.times (s.hw.nclock + m)) 500) = true ∧
      (∀ i < b, deadline_reached (s.hw.times (s.hw.nclock + (m + 1 + a + 2) + i))
        (armed (s.hw.times (s.hw.nclock + (m + 1) + a + 1)) 420) = false)) ∨
    ((∃ k, ResetFails s k) ∨ (∃ m a b, ResetRecovers s m a b)) := by
  intro j
  induction j with
  | zero =>
    cases hl : s.hw.line s.hw.nsamples
    · left
      refine ⟨_, _, (polled_reset_low s hs hl).trans
        (resetState_congr s _ _ _ _ _ _ _ _ _ _ (by omega) (by omega) rfl), ?_, ?_⟩
      · intro i hi
        have : i = 0 := by omega
        subst this; exact hl
      · intro i hi h1; omega
    · right; left
      refine ⟨0, 0, _, _, (polled_reset_high s hs hl).trans
        (resetState_congr s _ _ _ _ _ _ _ _ _ _ (by omega) (by omega) rfl), ?_, hl, ?_, ?_⟩
      · intro i hi; omega
      · intro i hi; omega
      · intro i hi; omega
  | succ j ih =>
    rw [polls_add probePlatform j 1]
    simp only [polls]
    rcases ih with ⟨ev, r, e, hlow, hA⟩ | ⟨m, a, ev, r, e, hlow, hhigh, hA, hL⟩ |
      ⟨m, a, b, ev, r, e, hlow, hhigh, hA, hL, hLd, hF⟩ | hdone
    · rw [e]
      cases hl : s.hw.line (s.hw.nsamples + (1 + j))
      · cases hd : deadline_reached (s.hw.times (s.hw.nclock + (1 + j)))
          (armed (s.hw.times s.hw.nclock) 250)
        · left
          refine ⟨_, _, (poll_line_wait s _ _ _ _ _ hl hd).trans
            (resetState_congr s _ _ _ _ _ _ _ _ _ _ (by omega) (by omega) rfl), ?_, ?_⟩
          · intro i hi
            by_cases h : i < j + 1
            · exact hlow i h
            · have : i = 1 + j := by omega
              subst this; exact hl
          · intro i hi h1
            by_cases h : i < j + 1
            · exact hA i h h1
            · have : i = 1 + j := by omega
              subst this; exact hd
        · right; right; right; left
          refine ⟨j, ?_, ?_, ?_⟩
          · intro i hi
            by_cases h : i < j + 1
            · exact hlow i h
            · have : i = 1 + j := by omega
              subst this; exact hl
          · exact hA
          · rw [show j + 1 = 1 + j by omega]; exact hd
      · right; left
        refine ⟨1 + j, 0, _, _, (poll_line_high s _ _ _ _ _ hl).trans
          (resetState_congr s _ _ _ _ _ _ _ _ _ _ (by omega) (by omega) rfl), ?_, hl, ?_, ?_⟩
        · intro i hi; exact hlow i (by omega)
        · intro i hi h1; exact hA i (by omega) h1
        · intro i hi; omega
    · rw [e]
      cases hd : deadline_reached (s.hw.times (s.hw.nclock + (m + 1 + a)))
        (armed (s.hw.times (s.hw.nclock + m)) 500)
      · right; left
        refine ⟨m, a + 1, _, _, (poll_clock_wait s _ _ _ _ _ _ (Or.inl rfl) hd).trans
          (resetState_congr s _ _ _ _ _ _ _ _ _ _ (by omega) (by omega) rfl),
          hlow, hhigh, hA, ?_⟩
        intro i hi
        by_cases h : i < a
        · exact hL i h
        · have e : i = a := by omega
          rw [e, show s.hw.nclock + (m + 1) + a = s.hw.nclock + (m + 1 + a) by omega]
          exact hd
      · right; right; left
        refine ⟨m, a, 0, _, _, (poll_low_done s _ _ _ _ _ hd).trans
            (resetState_congr s _ _ _ _ _ _ _ _ _ _ (by omega) (by omega)
              (by rw [show s.hw.nclock + (m + 1 + a) + 1 = s.hw.nclock + (m + 1) + a + 1
                by omega])), hlow, hhigh, hA, hL, ?_, ?_⟩
        · rw [show s.hw.nclock + (m + 1) + a = s.hw.nclock + (m + 1 + a) by omega]
          exact hd
        · intro i hi; omega
    · rw [e]
      cases hd : deadline_reached (s.hw.times (s.hw.nclock + (m + 1 + a + 2 + b)))
        (armed (s.hw.times (s.hw.nclock + (m + 1) + a + 1)) 420)
      · right; right; left
        refine ⟨m, a, b + 1, _, _, (poll_clock_wait s _ _ _ _ _ _ (Or.inr rfl) hd).trans
          (resetState_congr s _ _ _ _ _ _ _ _ _ _ (by omega) (by omega) rfl),
          hlow, hhigh, hA, hL, hLd, ?_⟩
        intro i hi
        by_cases h : i < b
        · exact hF i h
        · have e : i = b := by omega
          rw [e, show s.hw.nclock + (m + 1 + a + 2) + b = s.hw.nclock + (m + 1 + a + 2 + b)
            by omega]
          exact hd
      · right; right; right; right
        refine ⟨m, a, b, hlow, hhigh, hA, hL, hLd, hF, ?_⟩
        rw [show s.hw.nclock + (m + 1 + a + 2) + b = s.hw.nclock + (m + 1 + a + 2 + b)
          by omega]
        exact hd
    · exact Or.inr (Or.inr (Or.inr hdone))

set_option maxRecDepth 1000000 in
set_option maxHeartbeats 4000000 in
/-- The counterexample to C16, both ways. On the line script low, low, high,
low with the clock readings 0 and 250, the polled reset gives up at its first
poll with `reset_result = false`, while the synchronous `reset` sees the line
high at its third sample and returns 1. On a line that reads low 124 times,
then high, then low, with a clock that still reads 0 during the wait, the
polled reset goes through and ends with `reset_result = true`, while the
synchronous `reset` gives up after its 124 samples and returns 0. -/
theorem polled_reset_differs_from_reset :
    ((polls probePlatform 1 (polled_reset probePlatform
        (construct probePlatform (probe [false, false, true, false] [0, 250])))).poll_status
      = 0 ∧
     (polls probePlatform 1 (polled_reset probePlatform
        (construct probePlatform (probe [false, false, true, false] [0, 250])))).reset_result
      = false ∧
     (reset probePlatform
        (construct probePlatform (probe [false, false, true, false] [0, 250]))).1 = 1) ∧
    ((polls probePlatform 126 (polled_reset probePlatform
        (construct probePlatform (probe (List.replicate 124 false ++ [true, false])
          (List.replicate 125 0 ++ [600, 600, 1100]))))).poll_status = 0 ∧
     (polls probePlatform 126 (polled_reset probePlatform
        (construct probePlatform (probe (List.replicate 124 false ++ [true, false])
          (List.replicate 125 0 ++ [600, 600, 1100]))))).reset_result = true ∧
     (reset probePlatform
        (construct probePlatform (probe (List.replicate 124 false ++ [true, false])
          (List.replicate 125 0 ++ [600, 600, 1100])))).1 = 0) := by
  decide

/-- C16, amended. The polled reset on the probe, from the idle object, for
every line and clock script. Whenever the reset flag has cleared, the run had
one of two shapes. Failure (`ResetFails`): the line read low at the entry and
at every poll up to the first one at which the deadline of 250 us was reached
on the clock; then the flag clears at that poll with `reset_result = false`,
and the line was never driven low. Recovery (`ResetRecovers`): the line read
high after `m` low samples taken before that deadline; then the line is driven
low until the first poll at or after the deadline of 500 us, is released, and
is sampled 80 us later; after the deadline of 420 us more the flag clears, and
`reset_result` is true exactly when that sample was low. The synchronous
`reset` on the same line script returns this value in two cases: in a
recovery after `m < 124` low samples, and in a failure when the line reads
low at all 124 samples of the wait of `reset`. It need not otherwise: `reset`
counts samples where the polled reset reads the clock, so after 124 low
samples `reset` returns 0 also when the polled reset recovered later, and
when the line goes high within 124 samples `reset` returns the presence
sample also when the polled reset had run out of time. -/
theorem polled_reset_outcome (s : OneWire Probe) (hs : s.poll_status = 0) :
    (∀ n, (polls probePlatform n (polled_reset probePlatform s)).poll_status = 0 →
      (∃ k, ResetFails s k) ∨ (∃ m a b, ResetRecovers s m a b)) ∧
    (∀ k, ResetFails s k →
      Busy probePlatform (k + 1) (polled_reset probePlatform s) ∧
      (∀ extra, poll_until_idle probePlatform (k + 1 + 1 + extra)
        (polled_reset probePlatform s) =
        polls probePlatform (k + 1) (polled_reset probePlatform s)) ∧
      (polls probePlatform (k + 1) (polled_reset probePlatform s)).poll_status = 0 ∧
      (polls probePlatform (k + 1) (polled_reset probePlatform s)).reset_result = false ∧
      (polls probePlatform (k + 1) (polled_reset probePlatform s)).hw.log = s.hw.log ++
        ([Event.act Act.noInterrupts, Event.act Act.modeInput, Event.act Act.interrupts] ++
          lineWaitEvents s.hw.line s.hw.times s.hw.nsamples s.hw.nclock (k + 2)) ∧
      ((∀ i < 124, s.hw.line (s.hw.nsamples + i) = false) →
        (reset probePlatform s).1 = 0) ∧
      (∀ j < 124, (∀ i < j, s.hw.line (s.hw.nsamples + i) = false) →
        s.hw.line (s.hw.nsamples + j) = true →
        ((reset probePlatform s).1 = 1 ↔ s.hw.line (s.hw.nsamples + j + 1) = false))) ∧
    (∀ m a b, ResetRecovers s m a b →
      Busy probePlatform (m + (a + 1) + (b + 1)) (polled_reset probePlatform s) ∧
      (∀ extra, poll_until_idle probePlatform (m + (a + 1) + (b + 1) + 1 + extra)
        (polled_reset probePlatform s) =
        polls probePlatform (m + (a + 1) + (b + 1)) (polled_reset probePlatform s)) ∧
      (polls probePlatform (m + (a + 1) + (b + 1)) (polled_reset probePlatform s)).poll_status
        = 0 ∧
      ((polls probePlatform (m + (a + 1) + (b + 1))
        (polled_reset probePlatform s)).reset_result = true ↔
        s.hw.line (s.hw.nsamples + (m + 1)) = false) ∧
      (polls probePlatform (m + (a + 1) + (b + 1)) (polled_reset probePlatform s)).hw.log =
        s.hw.log ++
        ([Event.act Act.noInterrupts, Event.act Act.modeInput, Event.act Act.interrupts] ++
          lineWaitEvents s.hw.line s.hw.times s.hw.nsamples s.hw.nclock m ++
          [Event.sampled true] ++ driveLowEvents ++
          [Event.clock (s.hw.times (s.hw.nclock + m))] ++
          clockEvents s.hw.times (s.hw.nclock + (m + 1)) a ++
          [Event.clock (s.hw.times (s.hw.nclock + (m + 1) + a)), Event.act Act.noInterrupts,
            Event.act Act.modeInput, Event.act (Act.delay 80),
            Event.sampled (s.hw.line (s.hw.nsamples + (m + 1))), Event.act Act.interrupts,
            Event.clock (s.hw.times (s.hw.nclock + (m + 1) + a + 1))] ++
          clockEvents s.hw.times (s.hw.nclock + (m + 1 + a + 2)) b ++
          [Event.clock (s.hw.times (s.hw.nclock + (m + 1 + a + 2) + b))]) ∧
      (m < 124 →
        ((reset probePlatform s).1 = 1 ↔
          (polls probePlatform (m + (a + 1) + (b + 1))
            (polled_reset probePlatform s)).reset_result = true)) ∧
      (124 ≤ m → (reset probePlatform s).1 = 0)) := by
  refine ⟨?_, ?_, ?_⟩
  · intro n hn
    rcases polled_reset_shapes s hs n with ⟨ev, r, e, _⟩ | ⟨m, a, ev, r, e, _⟩ |
      ⟨m, a, b, ev, r, e, _⟩ | hdone
    · rw [e] at hn; exact absurd hn Nat.one_ne_zero
    · rw [e] at hn; exact absurd hn Nat.one_ne_zero
    · rw [e] at hn; exact absurd hn Nat.one_ne_zero
    · exact hdone
  · rintro k ⟨hlow, hearly, hdone⟩
    obtain ⟨hrun, hbusy⟩ := polled_reset_fails s hs k hlow hearly hdone
    refine ⟨hbusy, fun extra => ?_, by rw [hrun]; rfl, by rw [hrun]; rfl, by rw [hrun]; rfl,
      fun h => by rw [reset_probe_stuck s h], fun j hj hl hh => ?_⟩
    · exact poll_until_idle_eq probePlatform (k + 1) _ extra hbusy (by rw [hrun]; rfl)
    · rw [reset_probe_high s j hj hl hh]
      show (if s.hw.line (s.hw.nsamples + j + 1) then 0 else 1) = 1 ↔ _
      cases s.hw.line (s.hw.nsamples + j + 1) <;> simp
  · rintro m a b ⟨hlow, hhigh, hA, hL, hLd, hF, hFd⟩
    obtain ⟨h1, b1⟩ := polled_reset_phase1 s hs m hlow hhigh hA
    obtain ⟨h2, b2⟩ := polled_reset_phase2 s (m + 1) (m + 1) _
      (armed (s.hw.times (s.hw.nclock + m)) 500) s.reset_result a hL hLd
    obtain ⟨h3, b3⟩ := polled_reset_phase3 s (m + 1 + 1) (m + 1 + a + 2) _
      (armed (s.hw.times (s.hw.nclock + (m + 1) + a + 1)) 420)
      (!s.hw.line (s.hw.nsamples + (m + 1))) b hF hFd
    have hrun : polls probePlatform (m + (a + 1) + (b + 1)) (polled_reset probePlatform s) =
        polls probePlatform (b + 1) (polls probePlatform (a + 1)
          (polls probePlatform m (polled_reset probePlatform s))) := by
      rw [polls_add probePlatform (m + (a + 1)) (b + 1), polls_add probePlatform m (a + 1)]
    rw [h1, h2, h3] at hrun
    have hbusy : Busy probePlatform (m + (a + 1) + (b + 1)) (polled_reset probePlatform s) := by
      apply busy_add
      · apply busy_add
        · exact b1
        · rw [h1]; exact b2
      · rw [polls_add probePlatform m (a + 1), h1, h2]; exact b3
    refine ⟨hbusy, fun extra => ?_, by rw [hrun]; rfl, ?_, ?_, ?_,
      fun hm => by rw [reset_probe_stuck s (fun i hi => hlow i (by omega))]⟩
    · exact poll_until_idle_eq probePlatform _ _ extra hbusy (by rw [hrun]; rfl)
    · rw [hrun]
      show (!s.hw.line (s.hw.nsamples + (m + 1))) = true ↔ _
      cases s.hw.line (s.hw.nsamples + (m + 1)) <;> simp
    · rw [hrun]
      show s.hw.log ++ _ = _
      simp only [List.append_assoc]
    · intro hm
      rw [hrun, reset_probe_high s m hm hlow hhigh]
      show _ ↔ (!s.hw.line (s.hw.nsamples + (m + 1))) = true
      rw [show s.hw.nsamples + m + 1 = s.hw.nsamples + (m + 1) by omega]
      cases s.hw.line (s.hw.nsamples + (m + 1)) <;> simp

/-- Witness of C16: the line is low at the entry, high at the first poll and
low at the presence sample; the clock runs across the 32-bit wrap. -/
theorem polled_reset_outcome_witness :
    ResetRecovers (construct probePlatform (probe [false, true, false]
      [4294967000, 4294967100, 4294967200, 304, 400, 800, 820])) 1 1 1 ∧
    ((polls probePlatform (1 + (1 + 1) + (1 + 1)) (polled_reset probePlatform
      (construct probePlatform (probe [false, true, false]
        [4294967000, 4294967100, 4294967200, 304, 400, 800, 820])))).reset_result = true ↔
    (construct probePlatform (probe [false, true, false]
      [4294967000, 4294967100, 4294967200, 304, 400, 800, 820])).hw.line
      ((construct probePlatform (probe [false, true, false]
        [4294967000, 4294967100, 4294967200, 304, 400, 800, 820])).hw.nsamples + (1 + 1))
      = false) :=
  ⟨⟨by decide, by decide, by decide, by decide, by decide, by decide, by decide⟩,
    ((polled_reset_outcome
      (construct probePlatform (probe [false, true, false]
        [4294967000, 4294967100, 4294967200, 304, 400, 800, 820])) rfl).2.2 1 1 1
      ⟨by decide, by decide, by decide, by decide, by decide, by decide,
        by decide⟩).2.2.2.1⟩

/-! ## Deadlines across the wrap of the clock -/

/-- The deadline test in terms of the elapsed time: with the deadline armed
`d` microseconds after the reading `t0`, and the elapsed time since `t0` below
2^31, the deadline counts as reached exactly when the elapsed time is at
least `d`. -/
theorem deadline_reached_iff (t0 now d : Nat) (hd : d ≤ 2 ^ 31)
    (he : (now % 2 ^ 32 + 2 ^ 32 - t0 % 2 ^ 32) % 2 ^ 32 < 2 ^ 31) :
    deadline_reached now (armed t0 d) = true ↔
      d ≤ (now % 2 ^ 32 + 2 ^ 32 - t0 % 2 ^ 32) % 2 ^ 32 := by
  unfold deadline_reached armed
  simp only [decide_eq_true_eq]
  norm_num at hd he ⊢
  omega

/-- C19. Wraparound-safe deadlines. On a 32-bit microsecond clock, for every
start reading `t0` (also when `t0 + d` overflows) and every later reading `now`
with elapsed time `e = (now - t0) mod 2^32` below 2^31, each deadline test of
`poll` goes by `e >= d`: waiting for the line with the line low, the reset is
abandoned exactly when `e >= 250`; holding the line low, the presence is
sampled exactly when `e >= 500`; finishing, the reset flag is cleared exactly
when `e >= 420`. -/
theorem poll_deadlines_wraparound (s : OneWire Probe) (dn dc : Nat) (ev : List Event)
    (r : Bool) (t0 : Nat)
    (he : (s.hw.times (s.hw.nclock + dc) % 2 ^ 32 + 2 ^ 32 - t0 % 2 ^ 32) % 2 ^ 32 < 2 ^ 31) :
    (s.hw.line (s.hw.nsamples + dn) = false →
      ((poll probePlatform (resetState s dn dc ev 1 ONEWIRE_BITSTAT_RESET_WAIT_LINE_HIGH
        (armed t0 250) r)).poll_status = 0 ↔
        250 ≤ (s.hw.times (s.hw.nclock + dc) % 2 ^ 32 + 2 ^ 32 - t0 % 2 ^ 32) % 2 ^ 32)) ∧
    ((poll probePlatform (resetState s dn dc ev 1 ONEWIRE_BITSTAT_RESET_WAIT_LOW
        (armed t0 500) r)).bit_status = ONEWIRE_BITSTAT_RESET_WAIT_FINISH ↔
      500 ≤ (s.hw.times (s.hw.nclock + dc) % 2 ^ 32 + 2 ^ 32 - t0 % 2 ^ 32) % 2 ^ 32) ∧
    ((poll probePlatform (resetState s dn dc ev 1 ONEWIRE_BITSTAT_RESET_WAIT_FINISH
        (armed t0 420) r)).poll_status = 0 ↔
      420 ≤ (s.hw.times (s.hw.nclock + dc) % 2 ^ 32 + 2 ^ 32 - t0 % 2 ^ 32) % 2 ^ 32) := by
  have k250 := deadline_reached_iff t0 (s.hw.times (s.hw.nclock + dc)) 250 (by norm_num) he
  have k500 := deadline_reached_iff t0 (s.hw.times (s.hw.nclock + dc)) 500 (by norm_num) he
  have k420 := deadline_reached_iff t0 (s.hw.times (s.hw.nclock + dc)) 420 (by norm_num) he
  refine ⟨fun hl => ?_, ?_, ?_⟩
  · rw [← k250]
    cases hd : deadline_reached (s.hw.times (s.hw.nclock + dc)) (armed t0 250)
    · rw [poll_line_wait s dn dc ev _ r hl hd]
      simp [resetState]
    · rw [poll_line_fail s dn dc ev _ r hl hd]
      simp [resetState]
  · rw [← k500]
    cases hd : deadline_reached (s.hw.times (s.hw.nclock + dc)) (armed t0 500)
    · rw [poll_clock_wait s dn dc ev _ _ r (Or.inl rfl) hd]
      simp [resetState, ONEWIRE_BITSTAT_RESET_WAIT_LOW, ONEWIRE_BITSTAT_RESET_WAIT_FINISH]
    · rw [poll_low_done s dn dc ev _ r hd]
      simp [resetState]
  · rw [← k420]
    cases hd : deadline_reached (s.hw.times (s.hw.nclock + dc)) (armed t0 420)
    · rw [poll_clock_wait s dn dc ev _ _ r (Or.inr rfl) hd]
      simp [resetState]
    · rw [poll_finish_done s dn dc ev _ r hd]
      simp [resetState]

/-- Witness of C19: the deadline of 500 us armed at 4294967100 wraps to 304;
the reading 304 is 500 us later. -/
theorem poll_deadlines_wraparound_witness :
    (poll probePlatform (resetState (construct probePlatform (probe [] [304])) 0 0 [] 1
      ONEWIRE_BITSTAT_RESET_WAIT_LOW (armed 4294967100 500) false)).bit_status =
      ONEWIRE_BITSTAT_RESET_WAIT_FINISH ↔
    500 ≤ ((construct probePlatform (probe [] [304])).hw.times
      ((construct probePlatform (probe [] [304])).hw.nclock + 0) % 2 ^ 32 + 2 ^ 32
        - 4294967100 % 2 ^ 32) % 2 ^ 32 :=
  (poll_deadlines_wraparound (construct probePlatform (probe [] [304])) 0 0 [] false
    4294967100 (by decide)).2.1

/-! ## The dispatch of `poll` -/

theorem poll_reset_calls (P : Platform σ) (s : OneWire σ) :
    (poll_reset P s).calls = s.calls := by
  unfold poll_reset
  simp only
  split_ifs <;> rfl

theorem poll_write_calls (P : Platform σ) (s : OneWire σ) :
    (poll_write P s).calls =
      s.calls ++ [Call.write_bit (if s.readWriteBitMask &&& s.readWriteByte ≠ 0 then 1 else 0)] ∧
    (poll_write P s).byteIndex = s.byteIndex := by
  unfold poll_write
  simp only [write_bit_eq, release_line_eq]
  split_ifs <;> exact ⟨rfl, rfl⟩

theorem poll_read_calls (P : Platform σ) (s : OneWire σ) :
    (poll_read P s).calls = s.calls ++ [Call.read_bit (read_bit_hw P s.hw).1] ∧
    (poll_read P s).byteIndex = s.byteIndex := by
  rw [poll_read_eq]
  exact ⟨rfl, rfl⟩

theorem poll_write_bytes_calls (P : Platform σ) (s : OneWire σ) :
    (poll_write_bytes P s).calls =
      s.calls ++ [Call.bufRead s.byteIndex, Call.polled_write (s.readWriteBuffer s.byteIndex),
        Call.write_bit (if 1 &&& s.readWriteBuffer s.byteIndex ≠ 0 then 1 else 0)] := by
  unfold poll_write_bytes
  simp only [polled_write_eq, release_line_eq]
  split_ifs <;> simp

theorem poll_read_bytes_calls (P : Platform σ) (s : OneWire σ) :
    (poll_read_bytes P s).calls = s.calls ++ [Call.bufWrite s.byteIndex] ∨
    (poll_read_bytes P s).calls =
      s.calls ++ [Call.bufWrite s.byteIndex, Call.polled_read,
        Call.read_bit (read_bit_hw P s.hw).1] := by
  unfold poll_read_bytes
  simp only
  split
  · exact Or.inl rfl
  · right
    rw [polled_read_eq]
    simp

theorem clear_flag_other (x f g : Nat) (h : (f ^^^ 0xFF) &&& g = g) :
    clear_flag x f &&& g = x &&& g := by
  unfold clear_flag
  rw [Nat.land_assoc, h]

/-- Which branch of `poll` runs, by the flags of the poll status. -/
theorem poll_dispatch (P : Platform σ) (s : OneWire σ) :
    (s.poll_status &&& ONEWIRE_POLLSTAT_RESET ≠ 0 → poll P s = poll_reset P s) ∧
    (s.poll_status &&& ONEWIRE_POLLSTAT_RESET = 0 →
      s.poll_status &&& ONEWIRE_POLLSTAT_WRITE ≠ 0 → poll P s = poll_write P s) ∧
    (s.poll_status &&& ONEWIRE_POLLSTAT_RESET = 0 →
      s.poll_status &&& ONEWIRE_POLLSTAT_WRITE = 0 →
      s.poll_status &&& ONEWIRE_POLLSTAT_READ ≠ 0 → poll P s = poll_read P s) ∧
    (s.poll_status &&& ONEWIRE_POLLSTAT_RESET = 0 →
      s.poll_status &&& ONEWIRE_POLLSTAT_WRITE = 0 →
      s.poll_status &&& ONEWIRE_POLLSTAT_READ = 0 →
      s.poll_status &&& ONEWIRE_POLLSTAT_WRITE_BYTES ≠ 0 →
      poll P s = poll_write_bytes P s) ∧
    (s.poll_status &&& ONEWIRE_POLLSTAT_RESET = 0 →
      s.poll_status &&& ONEWIRE_POLLSTAT_WRITE = 0 →
      s.poll_status &&& ONEWIRE_POLLSTAT_READ = 0 →
      s.poll_status &&& ONEWIRE_POLLSTAT_WRITE_BYTES = 0 →
      s.poll_status &&& ONEWIRE_POLLSTAT_READ_BYTES ≠ 0 →
      poll P s = poll_read_bytes P s) ∧
    (s.poll_status &&& ONEWIRE_POLLSTAT_RESET = 0 →
      s.poll_status &&& ONEWIRE_POLLSTAT_WRITE = 0 →
      s.poll_status &&& ONEWIRE_POLLSTAT_READ = 0 →
      s.poll_status &&& ONEWIRE_POLLSTAT_WRITE_BYTES = 0 →
      s.poll_status &&& ONEWIRE_POLLSTAT_READ_BYTES = 0 → poll P s = s) := by
  refine ⟨?_, ?_, ?_, ?_, ?_, ?_⟩
  · intro h; unfold poll; rw [if_pos h]
  · intro h1 h2; unfold poll; rw [if_neg (not_not.mpr h1), if_pos h2]
  · intro h1 h2 h3
    unfold poll; rw [if_neg (not_not.mpr h1), if_neg (not_not.mpr h2), if_pos h3]
  · intro h1 h2 h3 h4
    unfold poll
    rw [if_neg (not_not.mpr h1), if_neg (not_not.mpr h2), if_neg (not_not.mpr h3), if_pos h4]
  · intro h1 h2 h3 h4 h5
    unfold poll
    rw [if_neg (not_not.mpr h1), if_neg (not_not.mpr h2), if_neg (not_not.mpr h3),
      if_neg (not_not.mpr h4), if_pos h5]
  · intro h1 h2 h3 h4 h5
    unfold poll
    rw [if_neg (not_not.mpr h1), if_neg (not_not.mpr h2), if_neg (not_not.mpr h3),
      if_neg (not_not.mpr h4), if_neg (not_not.mpr h5)]

/-- C18. Dispatch priority of `poll`. Only the branch of the first set flag in
the order reset, write, read, write-bytes, read-bytes runs. With the reset flag
set no `write_bit` or `read_bit` is called. With the write flag set (and no
reset) one bit of the current byte is written, and `byteIndex` and the
multi-byte flags are left as they are, so no next byte is started; likewise
for the read flag. With none of the five flags set `poll` returns the object
unchanged. In every case at most one `write_bit` or `read_bit` is called. -/
theorem poll_dispatch_priority (P : Platform σ) (s : OneWire σ) :
    (s.poll_status &&& ONEWIRE_POLLSTAT_RESET ≠ 0 →
      poll P s = poll_reset P s ∧ (poll P s).calls = s.calls) ∧
    (s.poll_status &&& ONEWIRE_POLLSTAT_RESET = 0 →
      s.poll_status &&& ONEWIRE_POLLSTAT_WRITE ≠ 0 →
      poll P s = poll_write P s ∧
      (poll P s).calls = s.calls ++
        [Call.write_bit (if s.readWriteBitMask &&& s.readWriteByte ≠ 0 then 1 else 0)] ∧
      (poll P s).byteIndex = s.byteIndex ∧
      (poll P s).poll_status &&& ONEWIRE_POLLSTAT_WRITE_BYTES =
        s.poll_status &&& ONEWIRE_POLLSTAT_WRITE_BYTES ∧
      (poll P s).poll_status &&& ONEWIRE_POLLSTAT_READ_BYTES =
        s.poll_status &&& ONEWIRE_POLLSTAT_READ_BYTES) ∧
    (s.poll_status &&& ONEWIRE_POLLSTAT_RESET = 0 →
      s.poll_status &&& ONEWIRE_POLLSTAT_WRITE = 0 →
      s.poll_status &&& ONEWIRE_POLLSTAT_READ ≠ 0 →
      poll P s = poll_read P s ∧
      (poll P s).calls = s.calls ++ [Call.read_bit (read_bit_hw P s.hw).1] ∧
      (poll P s).byteIndex = s.byteIndex ∧
      (poll P s).poll_status &&& ONEWIRE_POLLSTAT_WRITE_BYTES =
        s.poll_status &&& ONEWIRE_POLLSTAT_WRITE_BYTES ∧
      (poll P s).poll_status &&& ONEWIRE_POLLSTAT_READ_BYTES =
        s.poll_status &&& ONEWIRE_POLLSTAT_READ_BYTES) ∧
    (s.poll_status &&& ONEWIRE_POLLSTAT_RESET = 0 →
      s.poll_status &&& ONEWIRE_POLLSTAT_WRITE = 0 →
      s.poll_status &&& ONEWIRE_POLLSTAT_READ = 0 →
      s.poll_status &&& ONEWIRE_POLLSTAT_WRITE_BYTES ≠ 0 →
      poll P s = poll_write_bytes P s) ∧
    (s.poll_status &&& ONEWIRE_POLLSTAT_RESET = 0 →
      s.poll_status &&& ONEWIRE_POLLSTAT_WRITE = 0 →
      s.poll_status &&& ONEWIRE_POLLSTAT_READ = 0 →
      s.poll_status &&& ONEWIRE_POLLSTAT_WRITE_BYTES = 0 →
      s.poll_status &&& ONEWIRE_POLLSTAT_READ_BYTES ≠ 0 →
      poll P s = poll_read_bytes P s) ∧
    (s.poll_status &&& ONEWIRE_POLLSTAT_RESET = 0 →
      s.poll_status &&& ONEWIRE_POLLSTAT_WRITE = 0 →
      s.poll_status &&& ONEWIRE_POLLSTAT_READ = 0 →
      s.poll_status &&& ONEWIRE_POLLSTAT_WRITE_BYTES = 0 →
      s.poll_status &&& ONEWIRE_POLLSTAT_READ_BYTES = 0 →
      poll P s = s) ∧
    (writtenBits ((poll P s).calls.drop s.calls.length)).length +
      (sampledBits ((poll P s).calls.drop s.calls.length)).length ≤ 1 := by
  obtain ⟨d1, d2, d3, d4, d5, d6⟩ := poll_dispatch P s
  have keepW : ∀ x, clear_flag x ONEWIRE_POLLSTAT_WRITE &&& ONEWIRE_POLLSTAT_WRITE_BYTES =
      x &&& ONEWIRE_POLLSTAT_WRITE_BYTES ∧
      clear_flag x ONEWIRE_POLLSTAT_WRITE &&& ONEWIRE_POLLSTAT_READ_BYTES =
      x &&& ONEWIRE_POLLSTAT_READ_BYTES :=
    fun x => ⟨clear_flag_other x _ _ (by decide), clear_flag_other x _ _ (by decide)⟩
  have keepR : ∀ x, clear_flag x ONEWIRE_POLLSTAT_READ &&& ONEWIRE_POLLSTAT_WRITE_BYTES =
      x &&& ONEWIRE_POLLSTAT_WRITE_BYTES ∧
      clear_flag x ONEWIRE_POLLSTAT_READ &&& ONEWIRE_POLLSTAT_READ_BYTES =
      x &&& ONEWIRE_POLLSTAT_READ_BYTES :=
    fun x => ⟨clear_flag_other x _ _ (by decide), clear_flag_other x _ _ (by decide)⟩
  refine ⟨fun h => ⟨d1 h, by rw [d1 h, poll_reset_calls]⟩, ?_, ?_, d4, d5, d6, ?_⟩
  · intro h1 h2
    rw [d2 h1 h2]
    refine ⟨rfl, (poll_write_calls P s).1, (poll_write_calls P s).2, ?_⟩
    rcases poll_write_status P s with q | q <;> rw [q]
    · exact ⟨rfl, rfl⟩
    · exact keepW _
  · intro h1 h2 h3
    rw [d3 h1 h2 h3]
    refine ⟨rfl, (poll_read_calls P s).1, (poll_read_calls P s).2, ?_⟩
    rcases poll_read_status P s with q | q <;> rw [q]
    · exact ⟨rfl, rfl⟩
    · exact keepR _
  · by_cases h1 : s.poll_status &&& ONEWIRE_POLLSTAT_RESET = 0
    swap
    · rw [d1 h1, poll_reset_calls]; simp [writtenBits, sampledBits]
    by_cases h2 : s.poll_status &&& ONEWIRE_POLLSTAT_WRITE = 0
    swap
    · rw [d2 h1 h2, (poll_write_calls P s).1, List.drop_left]; simp [writtenBits, sampledBits]
    by_cases h3 : s.poll_status &&& ONEWIRE_POLLSTAT_READ = 0
    swap
    · rw [d3 h1 h2 h3, (poll_read_calls P s).1, List.drop_left]; simp [writtenBits, sampledBits]
    by_cases h4 : s.poll_status &&& ONEWIRE_POLLSTAT_WRITE_BYTES = 0
    swap
    · rw [d4 h1 h2 h3 h4, poll_write_bytes_calls, List.drop_left]
      simp [writtenBits, sampledBits]
    by_cases h5 : s.poll_status &&& ONEWIRE_POLLSTAT_READ_BYTES = 0
    swap
    · rw [d5 h1 h2 h3 h4 h5]
      rcases poll_read_bytes_calls P s with q | q <;> rw [q, List.drop_left] <;>
        simp [writtenBits, sampledBits]
    · rw [d6 h1 h2 h3 h4 h5]; simp [writtenBits, sampledBits]

/-! ## The programmed delay of one call -/

theorem delay_write_bit_hw (v : Nat) (h : Probe) :
    delaySum (write_bit_hw probePlatform v h).log =
      delaySum h.log + (if v &&& 1 ≠ 0 then 65 else 70) := by
  unfold write_bit_hw
  split <;> simp [runActs, probePlatform, delaySum_append, delaySum]

theorem delay_read_bit_hw (h : Probe) :
    delaySum (read_bit_hw probePlatform h).2.log = delaySum h.log + 66 := by
  simp [read_bit_hw, runActs, probePlatform, delaySum_append, delaySum]

theorem delay_release_hw (h : Probe) :
    delaySum (release_hw probePlatform h).log = delaySum h.log := by
  simp [release_hw, runActs, probePlatform, delaySum_append, delaySum]

theorem bit_and_one (c : Prop) [Decidable c] :
    ((if c then (1 : Nat) else 0) &&& 1 ≠ 0) ↔ c := by
  by_cases h : c <;> simp [h]

theorem polled_write_delay (v power : Nat) (s : OneWire Probe) :
    delaySum (polled_write probePlatform v power s).hw.log =
      delaySum s.hw.log + (if 1 &&& v ≠ 0 then 65 else 70) := by
  rw [polled_write_eq]
  show delaySum (write_bit_hw probePlatform _ s.hw).log = _
  rw [delay_write_bit_hw]
  simp only [bit_and_one]

theorem polled_read_delay (s : OneWire Probe) :
    delaySum (polled_read probePlatform s).hw.log = delaySum s.hw.log + 66 := by
  rw [polled_read_eq]
  exact delay_read_bit_hw s.hw

theorem polled_reset_delay (s : OneWire Probe) :
    delaySum (polled_reset probePlatform s).hw.log = delaySum s.hw.log := by
  unfold polled_reset
  simp only
  split <;> simp [runActs, probePlatform, delaySum_append, delaySum]

theorem poll_reset_delay (s : OneWire Probe) :
    delaySum (poll_reset probePlatform s).hw.log = delaySum s.hw.log ∨
    (delaySum (poll_reset probePlatform s).hw.log = delaySum s.hw.log + 80 ∧
      s.bit_status = ONEWIRE_BITSTAT_RESET_WAIT_LOW) := by
  unfold poll_reset
  simp only
  split_ifs with h1 h2 h3 h4 h5 h6 h7
  all_goals first
    | (left; simp [runActs, probePlatform, delaySum_append, delaySum]; done)
    | (right; exact ⟨by simp [runActs, probePlatform, delaySum_append, delaySum], h4⟩)

theorem poll_write_delay (s : OneWire Probe) :
    delaySum (poll_write probePlatform s).hw.log =
      delaySum s.hw.log + (if s.readWriteBitMask &&& s.readWriteByte ≠ 0 then 65 else 70) := by
  unfold poll_write
  simp only [write_bit_eq, release_line_eq]
  split_ifs <;>
    simp only [delay_release_hw, delay_write_bit_hw, bit_and_one] <;> simp [*]

theorem poll_read_delay (s : OneWire Probe) :
    delaySum (poll_read probePlatform s).hw.log = delaySum s.hw.log + 66 := by
  rw [poll_read_eq]
  exact delay_read_bit_hw s.hw

theorem poll_write_bytes_delay (s : OneWire Probe) :
    delaySum (poll_write_bytes probePlatform s).hw.log =
      delaySum s.hw.log + (if 1 &&& s.readWriteBuffer s.byteIndex ≠ 0 then 65 else 70) := by
  unfold poll_write_bytes
  simp only [polled_write_eq, release_line_eq]
  split_ifs <;>
    simp only [delay_release_hw, delay_write_bit_hw, bit_and_one] <;> simp [*]

theorem poll_read_bytes_delay (s : OneWire Probe) :
    delaySum (poll_read_bytes probePlatform s).hw.log = delaySum s.hw.log ∨
    delaySum (poll_read_bytes probePlatform s).hw.log = delaySum s.hw.log + 66 := by
  unfold poll_read_bytes
  simp only
  split
  · exact Or.inl rfl
  · right
    rw [polled_read_delay]

theorem polled_write_delay_cases (v power : Nat) (t : OneWire Probe) :
    delaySum (polled_write probePlatform v power t).hw.log = delaySum t.hw.log + 65 ∨
    delaySum (polled_write probePlatform v power t).hw.log = delaySum t.hw.log + 70 := by
  rw [polled_write_delay]
  by_cases h : 1 &&& v ≠ 0
  · left; rw [if_pos h]
  · right; rw [if_neg h]

theorem polled_write_bytes_delay (bufLen : Nat) (buf : Nat → Nat) (count : Nat) (hold : Bool)
    (s : OneWire Probe) :
    delaySum (polled_write_bytes probePlatform bufLen buf count hold s).hw.log =
      delaySum s.hw.log + 65 ∨
    delaySum (polled_write_bytes probePlatform bufLen buf count hold s).hw.log =
      delaySum s.hw.log + 70 := by
  unfold polled_write_bytes
  exact polled_write_delay_cases _ 0 _

theorem polled_read_bytes_delay (bufLen count : Nat) (s : OneWire Probe) :
    delaySum (polled_read_bytes probePlatform bufLen count s).hw.log =
      delaySum s.hw.log + 66 := by
  unfold polled_read_bytes
  simp only
  rw [polled_read_delay]

theorem programmedDelay_of (before after : Probe) (d : Nat)
    (h : delaySum after.log = delaySum before.log + d) : programmedDelay before after = d := by
  unfold programmedDelay
  omega

/-- The programmed delay of one call of `poll`, by the branch that runs. -/
theorem poll_delay_cases (s : OneWire Probe) :
    (s.poll_status &&& ONEWIRE_POLLSTAT_RESET ≠ 0 ∧
      (delaySum (poll probePlatform s).hw.log = delaySum s.hw.log ∨
        (delaySum (poll probePlatform s).hw.log = delaySum s.hw.log + 80 ∧
          s.bit_status = ONEWIRE_BITSTAT_RESET_WAIT_LOW))) ∨
    (s.poll_status &&& ONEWIRE_POLLSTAT_RESET = 0 ∧
      (delaySum (poll probePlatform s).hw.log = delaySum s.hw.log ∨
        delaySum (poll probePlatform s).hw.log = delaySum s.hw.log + 65 ∨
        delaySum (poll probePlatform s).hw.log = delaySum s.hw.log + 66 ∨
        delaySum (poll probePlatform s).hw.log = delaySum s.hw.log + 70)) := by
  obtain ⟨d1, d2, d3, d4, d5, d6⟩ := poll_dispatch probePlatform s
  by_cases h1 : s.poll_status &&& ONEWIRE_POLLSTAT_RESET = 0
  swap
  · left
    rw [d1 h1]
    exact ⟨h1, poll_reset_delay s⟩
  right
  refine ⟨h1, ?_⟩
  by_cases h2 : s.poll_status &&& ONEWIRE_POLLSTAT_WRITE = 0
  swap
  · rw [d2 h1 h2, poll_write_delay]
    split
    · exact Or.inr (Or.inl rfl)
    · exact Or.inr (Or.inr (Or.inr rfl))
  by_cases h3 : s.poll_status &&& ONEWIRE_POLLSTAT_READ = 0
  swap
  · rw [d3 h1 h2 h3, poll_read_delay]
    exact Or.inr (Or.inr (Or.inl rfl))
  by_cases h4 : s.poll_status &&& ONEWIRE_POLLSTAT_WRITE_BYTES = 0
  swap
  · rw [d4 h1 h2 h3 h4, poll_write_bytes_delay]
    split
    · exact Or.inr (Or.inl rfl)
    · exact Or.inr (Or.inr (Or.inr rfl))
  by_cases h5 : s.poll_status &&& ONEWIRE_POLLSTAT_READ_BYTES = 0
  swap
  · rw [d5 h1 h2 h3 h4 h5]
    rcases poll_read_bytes_delay s with q | q
    · exact Or.inl q
    · exact Or.inr (Or.inr (Or.inl q))
  · rw [d6 h1 h2 h3 h4 h5]
    exact Or.inl rfl

/-- C20. Bounded blocking, on the probe. From every state, one call of `poll`
accumulates 0, 65, 66, 70 or 80 us of programmed delay, and 80 us only in the
reset branch when the low hold ends and the presence is sampled; a poll that
writes a bit takes 65 or 70 us and one that reads a bit 66 us. The entry points
take 0 us (`polled_reset`), 65 or 70 us (`polled_write`, `polled_write_bytes`,
`polled_select`), 70 us (`polled_skip`) and 66 us (`polled_read`,
`polled_read_bytes`). -/
theorem poll_bounded_delay (s : OneWire Probe) (v power bufLen : Nat) (buf : Nat → Nat)
    (count : Nat) (hold : Bool) (rom : Nat → Nat) :
    programmedDelay s.hw (poll probePlatform s).hw ∈ [0, 65, 66, 70, 80] ∧
    programmedDelay s.hw (poll probePlatform s).hw ≤ 80 ∧
    delaySum s.hw.log ≤ delaySum (poll probePlatform s).hw.log ∧
    (programmedDelay s.hw (poll probePlatform s).hw = 80 →
      s.poll_status &&& ONEWIRE_POLLSTAT_RESET ≠ 0 ∧
      s.bit_status = ONEWIRE_BITSTAT_RESET_WAIT_LOW) ∧
    (s.poll_status &&& ONEWIRE_POLLSTAT_RESET = 0 →
      s.poll_status &&& ONEWIRE_POLLSTAT_WRITE ≠ 0 →
      programmedDelay s.hw (poll probePlatform s).hw =
        (if s.readWriteBitMask &&& s.readWriteByte ≠ 0 then 65 else 70)) ∧
    (s.poll_status &&& ONEWIRE_POLLSTAT_RESET = 0 →
      s.poll_status &&& ONEWIRE_POLLSTAT_WRITE = 0 →
      s.poll_status &&& ONEWIRE_POLLSTAT_READ ≠ 0 →
      programmedDelay s.hw (poll probePlatform s).hw = 66) ∧
    programmedDelay s.hw (polled_reset probePlatform s).hw = 0 ∧
    programmedDelay s.hw (polled_write probePlatform v power s).hw =
      (if 1 &&& v ≠ 0 then 65 else 70) ∧
    programmedDelay s.hw (polled_read probePlatform s).hw = 66 ∧
    programmedDelay s.hw (polled_write_bytes probePlatform bufLen buf count hold s).hw
      ∈ [65, 70] ∧
    programmedDelay s.hw (polled_read_bytes probePlatform bufLen count s).hw = 66 ∧
    programmedDelay s.hw (polled_select probePlatform bufLen rom s).hw ∈ [65, 70] ∧
    programmedDelay s.hw (polled_skip probePlatform s).hw = 70 := by
  obtain ⟨_, d2, d3, _, _, _⟩ := poll_dispatch probePlatform s
  have hc := poll_delay_cases s
  have hwb : ∀ b c h, programmedDelay s.hw (polled_write_bytes probePlatform bufLen b c h s).hw
      ∈ [65, 70] := by
    intro b c h
    rcases polled_write_bytes_delay bufLen b c h s with q | q
    · rw [programmedDelay_of _ _ _ q]; simp
    · rw [programmedDelay_of _ _ _ q]; simp
  refine ⟨?_, ?_, ?_, ?_, ?_, ?_, ?_, ?_, ?_, hwb buf count hold, ?_, ?_, ?_⟩
  · rcases hc with ⟨_, q | ⟨q, _⟩⟩ | ⟨_, q | q | q | q⟩
    · rw [programmedDelay_of _ _ 0 q]; simp
    · rw [programmedDelay_of _ _ _ q]; simp
    · rw [programmedDelay_of _ _ 0 q]; simp
    · rw [programmedDelay_of _ _ _ q]; simp
    · rw [programmedDelay_of _ _ _ q]; simp
    · rw [programmedDelay_of _ _ _ q]; simp
  · unfold programmedDelay
    rcases hc with ⟨_, q | ⟨q, _⟩⟩ | ⟨_, q | q | q | q⟩ <;> omega
  · rcases hc with ⟨_, q | ⟨q, _⟩⟩ | ⟨_, q | q | q | q⟩ <;> omega
  · intro h80
    unfold programmedDelay at h80
    rcases hc with ⟨h1, q | ⟨q, hb⟩⟩ | ⟨_, q | q | q | q⟩
    · omega
    · exact ⟨h1, hb⟩
    · omega
    · omega
    · omega
    · omega
  · intro h1 h2
    rw [d2 h1 h2]
    exact programmedDelay_of _ _ _ (poll_write_delay s)
  · intro h1 h2 h3
    rw [d3 h1 h2 h3]
    exact programmedDelay_of _ _ _ (poll_read_delay s)
  · exact programmedDelay_of _ _ 0 (polled_reset_delay s)
  · exact programmedDelay_of _ _ _ (polled_write_delay v power s)
  · exact programmedDelay_of _ _ _ (polled_read_delay s)
  · exact programmedDelay_of _ _ _ (polled_read_bytes_delay bufLen count s)
  · exact hwb _ 9 false
  · exact programmedDelay_of _ _ _ (polled_write_delay 0xCC 0 s)

/-! ## The CRC-8 of a sequence followed by its CRC-8 -/

theorem crc8_table_loop_append (d : List Nat) (b : Nat) : ∀ crc : Nat,
    crc8_table_loop (d ++ [b]) crc = dscrc_table.getD (crc8_table_loop d crc ^^^ b) 0 := by
  induction d with
  | nil => intro crc; rfl
  | cons x d ih => intro crc; exact ih _

theorem crc8_bitwise_loop_append (d : List Nat) (b : Nat) : ∀ crc : Nat,
    crc8_bitwise_loop (d ++ [b]) crc = crc8_bits 8 (crc8_bitwise_loop d crc) b := by
  induction d with
  | nil => intro crc; rfl
  | cons x d ih => intro crc; exact ih _

theorem crc8_bits_lt (i : Nat) : ∀ crc inbyte : Nat, crc < 256 →
    crc8_bits i crc inbyte < 256 := by
  induction i with
  | zero => intro crc inbyte h; exact h
  | succ i ih =>
    intro crc inbyte h
    simp only [crc8_bits]
    apply ih
    have h1 : crc >>> 1 < 2 ^ 8 := by
      rw [Nat.shiftRight_eq_div_pow]; omega
    split
    · exact Nat.xor_lt_two_pow h1 (by decide)
    · exact h1

theorem crc8_bitwise_loop_lt (d : List Nat) : ∀ crc : Nat, crc < 256 →
    crc8_bitwise_loop d crc < 256 := by
  induction d with
  | nil => intro crc h; exact h
  | cons x d ih => intro crc h; exact ih _ (crc8_bits_lt 8 crc x h)

/-- The bit loop run on a register and the same byte as input gives 0. -/
theorem crc8_bits_self (c : Nat) (hc : c < 256) : crc8_bits 8 c c = 0 := by
  have h := crc8_bits_xor 8 c c
  rw [Nat.xor_self] at h
  have h8 : c >>> 8 = 0 := by
    rw [Nat.shiftRight_eq_div_pow]; exact Nat.div_eq_of_lt hc
  rw [h8, Nat.xor_zero] at h
  rw [← h]
  decide

/-- C22. CRC-8 self-check, for both variants of `crc8` and for every byte
sequence `d` (the lists of the model have no length limit; the source takes a
length of at most 255): the CRC-8 of `d` followed by the byte `crc8(d)` is 0.
In particular an 8-byte address whose last byte is the CRC-8 of its first 7
bytes has CRC-8 0. -/
theorem crc8_self_check (d : List Nat) :
    crc8_table (d ++ [crc8_table d]) = 0 ∧
    crc8_bitwise (d ++ [crc8_bitwise d]) = 0 ∧
    (∀ addr : List Nat, addr.length = 8 → addr.getD 7 0 = crc8_table (addr.take 7) →
      crc8_table addr = 0) ∧
    (∀ addr : List Nat, addr.length = 8 → addr.getD 7 0 = crc8_bitwise (addr.take 7) →
      crc8_bitwise addr = 0) := by
  have ht : ∀ d : List Nat, crc8_table (d ++ [crc8_table d]) = 0 := by
    intro d
    unfold crc8_table
    rw [crc8_table_loop_append, Nat.xor_self]
    rfl
  have hb : ∀ d : List Nat, crc8_bitwise (d ++ [crc8_bitwise d]) = 0 := by
    intro d
    unfold crc8_bitwise
    rw [crc8_bitwise_loop_append]
    exact crc8_bits_self _ (crc8_bitwise_loop_lt d 0 (by decide))
  have hsplit : ∀ addr : List Nat, addr.length = 8 →
      addr = addr.take 7 ++ [addr.getD 7 0] := by
    intro addr hl
    match addr, hl with
    | [a0, a1, a2, a3, a4, a5, a6, a7], _ => rfl
  refine ⟨ht d, hb d, ?_, ?_⟩
  · intro addr hl h7
    rw [hsplit addr hl, h7]
    exact ht _
  · intro addr hl h7
    rw [hsplit addr hl, h7]
    exact hb _

/-! ## The parity-table CRC-16 against the bit-by-bit reference -/

theorem crc16_reference_bits_xor (i : Nat) : ∀ crc b : Nat,
    crc16_reference_bits i (crc ^^^ b) 0 = crc16_reference_bits i crc b ^^^ (b >>> i) := by
  induction i with
  | zero => intro crc b; simp [crc16_reference_bits]
  | succ i ih =>
    intro crc b
    simp only [crc16_reference_bits, Nat.xor_zero, Nat.zero_shiftRight]
    have hs : b >>> (i + 1) = (b >>> 1) >>> i := by
      rw [Nat.add_comm, Nat.shiftRight_add]
    rw [hs]
    by_cases hc : (crc ^^^ b) &&& 1 ≠ 0
    · rw [if_pos hc, if_pos hc, ← ih]
      congr 1
      rw [shiftRight_xor_one, Nat.xor_assoc, Nat.xor_comm (b >>> 1), ← Nat.xor_assoc]
    · rw [if_neg hc, if_neg hc, ← ih, shiftRight_xor_one]

theorem xor_shiftLeft_succ_and_one (y h i : Nat) :
    (y ^^^ (h <<< (i + 1))) &&& 1 = y &&& 1 := by
  apply Nat.eq_of_testBit_eq
  intro j
  simp only [Nat.testBit_and, Nat.testBit_xor, Nat.testBit_shiftLeft]
  by_cases hj : j = 0
  · subst hj; simp
  · have : Nat.testBit 1 j = false := by
      rw [show (1 : Nat) = 2 ^ 0 by rfl, Nat.testBit_two_pow]; simp; omega
    simp [this]

theorem shiftLeft_succ_shiftRight_one (h i : Nat) : (h <<< (i + 1)) >>> 1 = h <<< i := by
  rw [Nat.shiftLeft_eq, Nat.shiftRight_eq_div_pow, Nat.shiftLeft_eq, Nat.pow_succ,
    ← Nat.mul_assoc]
  simp

/-- The bits of the register above the first `i` pass through `i` rounds of
the reference loop unchanged, shifted down. -/
theorem crc16_reference_bits_high (i : Nat) : ∀ y h : Nat,
    crc16_reference_bits i (y ^^^ (h <<< i)) 0 = crc16_reference_bits i y 0 ^^^ h := by
  induction i with
  | zero => intro y h; simp [crc16_reference_bits]
  | succ i ih =>
    intro y h
    simp only [crc16_reference_bits, Nat.xor_zero, Nat.zero_shiftRight,
      xor_shiftLeft_succ_and_one, shiftRight_xor_one, shiftLeft_succ_shiftRight_one]
    by_cases hc : y &&& 1 ≠ 0
    · rw [if_pos hc, if_pos hc, ← ih]
      congr 1
      rw [Nat.xor_assoc, Nat.xor_comm (h <<< i), ← Nat.xor_assoc]
    · rw [if_neg hc, if_neg hc, ← ih]

set_option maxRecDepth 100000 in
/-- Eight rounds of the reference loop on a byte, by the parity formula. -/
theorem crc16_reference_table : ∀ x < 256,
    crc16_reference_bits 8 x 0 =
      ((if oddparity.getD (x &&& 0x0F) 0 ^^^ oddparity.getD (x >>> 4) 0 ≠ 0 then 0xC001 else 0)
        ^^^ (x <<< 6)) ^^^ (x <<< 7) := by
  decide

theorem split_low_high (y : Nat) : y = (y &&& 255) ^^^ ((y >>> 8) <<< 8) := by
  apply Nat.eq_of_testBit_eq
  intro j
  rw [Nat.testBit_xor, Nat.testBit_and, Nat.testBit_shiftLeft, Nat.testBit_shiftRight,
    show (255 : Nat) = 2 ^ 8 - 1 by rfl, Nat.testBit_two_pow_sub_one]
  by_cases hj : j < 8
  · simp [hj, Nat.not_le.mpr hj]
  · simp [hj, Nat.not_lt.mp hj]

theorem low_byte_mix (crc b : Nat) :
    (b ^^^ (crc &&& 0xff)) &&& 0xff = (crc ^^^ b) &&& 255 := by
  apply Nat.eq_of_testBit_eq
  intro j
  simp only [Nat.testBit_and, Nat.testBit_xor]
  cases crc.testBit j <;> cases b.testBit j <;> cases Nat.testBit 255 j <;> rfl

theorem high_byte_mix (crc b : Nat) (hb : b < 256) : (crc ^^^ b) >>> 8 = crc >>> 8 := by
  apply Nat.eq_of_testBit_eq
  intro j
  rw [Nat.testBit_shiftRight, Nat.testBit_shiftRight, Nat.testBit_xor]
  have : b.testBit (8 + j) = false :=
    Nat.testBit_lt_two_pow (lt_of_lt_of_le hb
      (by rw [show (256 : Nat) = 2 ^ 8 by rfl]; exact Nat.pow_le_pow_right (by decide) (by omega)))
  simp [this]

theorem xor_left_comm_nat (a b c : Nat) : a ^^^ (b ^^^ c) = b ^^^ (a ^^^ c) := by
  rw [← Nat.xor_assoc, Nat.xor_comm a b, Nat.xor_assoc]

/-- One byte through `crc16` is one byte through the reference loop. -/
theorem crc16_step_eq_reference (crc b : Nat) (hb : b < 256) :
    crc16_step crc b = crc16_reference_bits 8 crc b := by
  have hb8 : b >>> 8 = 0 := by
    rw [Nat.shiftRight_eq_div_pow]; exact Nat.div_eq_of_lt hb
  have e1 : crc16_reference_bits 8 crc b = crc16_reference_bits 8 (crc ^^^ b) 0 := by
    have h := crc16_reference_bits_xor 8 crc b
    rw [hb8, Nat.xor_zero] at h
    exact h.symm
  have hx : (crc ^^^ b) &&& 255 < 256 := lt_of_le_of_lt Nat.and_le_right (by decide)
  have e2 : crc16_reference_bits 8 (crc ^^^ b) 0 =
      crc16_reference_bits 8 ((crc ^^^ b) &&& 255) 0 ^^^ (crc >>> 8) := by
    conv_lhs => rw [split_low_high (crc ^^^ b)]
    rw [crc16_reference_bits_high, high_byte_mix crc b hb]
  rw [e1, e2, crc16_reference_table _ hx]
  unfold crc16_step
  simp only [Nat.mod_eq_of_lt (lt_trans hb (by decide : 256 < 65536)), low_byte_mix]
  generalize hxdef : (crc ^^^ b) &&& 255 = x at hx
  have h6 : (x <<< 6) % 65536 = x <<< 6 := by
    apply Nat.mod_eq_of_lt
    rw [Nat.shiftLeft_eq]; omega
  have h7 : ((x <<< 6) <<< 1) % 65536 = x <<< 7 := by
    rw [← Nat.shiftLeft_add]
    apply Nat.mod_eq_of_lt
    rw [Nat.shiftLeft_eq]; omega
  rw [h6, h7]
  split
  · simp only [Nat.xor_assoc, Nat.xor_comm, xor_left_comm_nat]
  · simp only [Nat.xor_assoc, Nat.xor_comm, xor_left_comm_nat, Nat.zero_xor, Nat.xor_zero]

theorem crc16_foldl_eq_reference (input : List Nat) : ∀ crc : Nat,
    (∀ b ∈ input, b < 256) →
    input.foldl crc16_step crc =
      input.foldl (fun crc b => crc16_reference_bits 8 crc b) crc := by
  induction input with
  | nil => intro crc _; rfl
  | cons b rest ih =>
    intro crc h
    simp only [List.foldl_cons]
    rw [crc16_step_eq_reference crc b (h b (List.mem_cons_self _ _))]
    exact ih _ (fun x hx => h x (List.mem_cons_of_mem _ hx))

/-- C23. CRC-16 reference: for every byte sequence the parity-table `crc16`
equals the bit-by-bit reflected CRC-16 with seed 0 and polynomial
x^16 + x^15 + x^2 + 1, in which for each input bit, least significant first,
the register is shifted right by one and XORed with `0xA001` when the low bit
of register XOR input bit is 1. -/
theorem crc16_eq_reference (input : List Nat) (h : ∀ b ∈ input, b < 256) :
    crc16 input = crc16_reference input :=
  crc16_foldl_eq_reference input 0 h

set_option maxRecDepth 100000 in
/-- Witness of C23: the check value of the CRC-16 of "123456789" is `0xBB3D`. -/
theorem crc16_eq_reference_witness :
    (∀ b ∈ [0x31, 0x32, 0x33, 0x34, 0x35, 0x36, 0x37, 0x38, 0x39], b < 256) ∧
    crc16 [0x31, 0x32, 0x33, 0x34, 0x35, 0x36, 0x37, 0x38, 0x39] =
      crc16_reference [0x31, 0x32, 0x33, 0x34, 0x35, 0x36, 0x37, 0x38, 0x39] ∧
    crc16_reference [0x31, 0x32, 0x33, 0x34, 0x35, 0x36, 0x37, 0x38, 0x39] = 0xBB3D :=
  ⟨by decide,
    crc16_eq_reference [0x31, 0x32, 0x33, 0x34, 0x35, 0x36, 0x37, 0x38, 0x39] (by decide),
    by decide⟩

/-! ## A polled multi-byte read of no bytes -/

/-- With `byteCount = 0` the polled multi-byte read goes on after every byte:
after `7 + 8 * k` calls of `poll`, `k` bytes are stored and the next is read,
for every `k` up to 255. -/
theorem rbytes_reach_zero (P : Platform σ) (bufLen count : Nat) (s : OneWire σ)
    (hs : s.poll_status = 0) (hN : min count bufLen % 256 = 0) :
    ∀ k, k ≤ 255 →
      polls P (7 + 8 * k) (polled_read_bytes P bufLen count s) = rbytes_state P s 0 k ∧
      Busy P (7 + 8 * k) (polled_read_bytes P bufLen count s) := by
  intro k
  induction k with
  | zero =>
    intro _
    have h := rbytes_start P bufLen count s hs
    rw [hN] at h
    exact h
  | succ k ih =>
    intro hk
    obtain ⟨ih1, ih2⟩ := ih (by omega)
    obtain ⟨hm1, hm2⟩ := rbytes_mid P s 0 k (by omega) (by omega)
    rw [show 7 + 8 * (k + 1) = (7 + 8 * k) + 8 by omega]
    refine ⟨?_, busy_add P _ _ _ ih2 (by rw [ih1]; exact hm2)⟩
    rw [polls_add, ih1, hm1]

/-- The byte after which `byteIndex` wraps to 0, which equals `byteCount`: the
engine goes idle. -/
theorem rbytes_wrap (P : Platform σ) (s : OneWire σ) (i : Nat) (hi : (i + 1) % 256 = 0) :
    polls P 1 (rbytes_state P s 0 i) = { rbytes_final P s 0 i with byteIndex := 0 } ∧
    Busy P 1 (rbytes_state P s 0 i) := by
  constructor
  · simp [polls, poll, poll_read_bytes,
      ONEWIRE_POLLSTAT_RESET, ONEWIRE_POLLSTAT_WRITE, ONEWIRE_POLLSTAT_READ,
      ONEWIRE_POLLSTAT_WRITE_BYTES, ONEWIRE_POLLSTAT_READ_BYTES, rbytes_state, rbytes_final,
      rbytes_run, clear_flag, hi, status_eval]
  · intro j hj
    interval_cases j
    simp [polls, rbytes_state, ONEWIRE_POLLSTAT_READ_BYTES]

/-- A polled multi-byte read with `byteCount = 0` from the idle object is
complete after 2048 calls of `poll`, with 256 bytes stored. -/
theorem polled_read_bytes_zero (P : Platform σ) (bufLen count : Nat) (s : OneWire σ)
    (hs : s.poll_status = 0) (hN : min count bufLen % 256 = 0) :
    polls P 2048 (polled_read_bytes P bufLen count s) =
      { rbytes_final P s 0 255 with byteIndex := 0 } ∧
    Busy P 2048 (polled_read_bytes P bufLen count s) := by
  obtain ⟨h1, b1⟩ := rbytes_reach_zero P bufLen count s hs hN 255 (Nat.le_refl _)
  obtain ⟨h2, b2⟩ := rbytes_wrap P s 255 (by decide)
  rw [show (2048 : Nat) = (7 + 8 * 255) + 1 by rfl]
  refine ⟨?_, busy_add P _ _ _ b1 (by rw [h1]; exact b2)⟩
  rw [polls_add, h1, h2]

/-- C24. Buffer indices of the polled multi-byte operations, from the idle
object, with a buffer of `bufLen >= 9` bytes and every 8-bit `count`. A read of
`count >= 1` bytes and a write of `count >= 2` bytes go idle after
transferring `min(count, bufLen)` bytes and use only indices below `bufLen`.
A read with `count = 0` does not stop at once: it goes idle only after 2048
calls of `poll`, with 256 calls of `polled_read` and stores at the indices
0 to 255, which leave the buffer whenever `bufLen < 256`. A write with
`count <= 1` transfers 2 bytes, the second one being the stale
`readWriteBuffer[1]`. -/
theorem polled_bytes_index_safety (P : Platform σ) (bufLen : Nat) (buf : Nat → Nat)
    (count : Nat) (hold : Bool) (s : OneWire σ) (hs : s.poll_status = 0)
    (hbuf : 9 ≤ bufLen) (hc : count < 256) :
    (1 ≤ count →
      Busy P (8 * min count bufLen) (polled_read_bytes P bufLen count s) ∧
      (polls P (8 * min count bufLen) (polled_read_bytes P bufLen count s)).poll_status = 0 ∧
      polledReads ((polls P (8 * min count bufLen)
        (polled_read_bytes P bufLen count s)).calls.drop s.calls.length) = min count bufLen ∧
      (∀ i ∈ bufIndices ((polls P (8 * min count bufLen)
        (polled_read_bytes P bufLen count s)).calls.drop s.calls.length), i < bufLen)) ∧
    (count = 0 →
      Busy P 2048 (polled_read_bytes P bufLen count s) ∧
      (polls P 2048 (polled_read_bytes P bufLen count s)).poll_status = 0 ∧
      polledReads ((polls P 2048
        (polled_read_bytes P bufLen count s)).calls.drop s.calls.length) = 256 ∧
      bufIndices ((polls P 2048
        (polled_read_bytes P bufLen count s)).calls.drop s.calls.length) = List.range 256 ∧
      (bufLen < 256 → bufLen ∈ bufIndices ((polls P 2048
        (polled_read_bytes P bufLen count s)).calls.drop s.calls.length))) ∧
    (2 ≤ count →
      Busy P (8 * min count bufLen - 1) (polled_write_bytes P bufLen buf count hold s) ∧
      (polls P (8 * min count bufLen - 1)
        (polled_write_bytes P bufLen buf count hold s)).poll_status = 0 ∧
      polledWrites ((polls P (8 * min count bufLen - 1)
        (polled_write_bytes P bufLen buf count hold s)).calls.drop s.calls.length) =
        (List.range (min count bufLen)).map buf ∧
      (∀ i ∈ bufIndices ((polls P (8 * min count bufLen - 1)
        (polled_write_bytes P bufLen buf count hold s)).calls.drop s.calls.length),
        i < bufLen)) ∧
    (count ≤ 1 →
      Busy P 15 (polled_write_bytes P bufLen buf count hold s) ∧
      (polls P 15 (polled_write_bytes P bufLen buf count hold s)).poll_status = 0 ∧
      polledWrites ((polls P 15
        (polled_write_bytes P bufLen buf count hold s)).calls.drop s.calls.length) =
        [if 0 < count then buf 0 else s.readWriteBuffer 0, s.readWriteBuffer 1] ∧
      (∀ i ∈ bufIndices ((polls P 15
        (polled_write_bytes P bufLen buf count hold s)).calls.drop s.calls.length),
        i < bufLen)) := by
  have hN : min count bufLen % 256 = min count bufLen :=
    Nat.mod_eq_of_lt (lt_of_le_of_lt (Nat.min_le_left _ _) hc)
  have hNle : min count bufLen ≤ bufLen := Nat.min_le_right _ _
  refine ⟨?_, ?_, ?_, ?_⟩
  · intro h1
    have hpos : 1 ≤ min count bufLen := by
      rw [Nat.le_min]; exact ⟨h1, by omega⟩
    have hrun := polled_read_bytes_run P bufLen count s hs (by rw [hN]; exact hpos)
    rw [hN] at hrun
    obtain ⟨hrun, hbusy⟩ := hrun
    obtain ⟨_, c2, c3, _⟩ := rcalls_spec P s.hw s.calls s.readWriteBuffer (min count bufLen)
    have hcalls : (polls P (8 * min count bufLen) (polled_read_bytes P bufLen count s)).calls.drop
        s.calls.length = rcalls P (min count bufLen) s.hw := by
      rw [hrun, rbytes_final_calls, List.drop_left,
        show min count bufLen - 1 + 1 = min count bufLen by omega]
    refine ⟨hbusy, by rw [hrun]; rfl, by rw [hcalls, c2], ?_⟩
    rw [hcalls, c3]
    intro i hi
    exact lt_of_lt_of_le (List.mem_range.mp hi) hNle
  · intro h0
    have hz : min count bufLen % 256 = 0 := by rw [h0]; simp
    obtain ⟨hrun, hbusy⟩ := polled_read_bytes_zero P bufLen count s hs hz
    obtain ⟨_, c2, c3, _⟩ := rcalls_spec P s.hw s.calls s.readWriteBuffer 256
    have hcalls : (polls P 2048 (polled_read_bytes P bufLen count s)).calls.drop
        s.calls.length = rcalls P 256 s.hw := by
      rw [hrun]
      show (rbytes_final P s 0 255).calls.drop s.calls.length = _
      rw [rbytes_final_calls, List.drop_left]
    refine ⟨hbusy, by rw [hrun]; rfl, by rw [hcalls, c2], by rw [hcalls, c3], ?_⟩
    intro hlt
    rw [hcalls, c3]
    exact List.mem_range.mpr hlt
  · intro h2
    have hge : 2 ≤ min count bufLen := by
      rw [Nat.le_min]; exact ⟨h2, by omega⟩
    obtain ⟨hrun, hbusy, _⟩ := polled_write_bytes_idle P bufLen buf count hold s hs
      (min count bufLen) hN
    have hn1 : ¬ min count bufLen ≤ 1 := by omega
    simp only [hn1, if_false] at hrun hbusy
    obtain ⟨_, w2, w3⟩ := wbytes_final_spec P s (min count bufLen) hold
      (fun i => if i < min count bufLen then buf i else s.readWriteBuffer i)
      (min count bufLen - 1)
    rw [show min count bufLen - 1 + 1 = min count bufLen by omega] at w2 w3
    refine ⟨hbusy, by rw [hrun]; rfl, ?_, ?_⟩
    · rw [hrun, w2]
      apply List.map_congr_left
      intro i hi
      simp [List.mem_range.mp hi]
    · rw [hrun, w3]
      intro i hi
      rcases List.mem_append.mp hi with h | h <;>
        exact lt_of_lt_of_le (List.mem_range.mp h) hNle
  · intro h1
    have hle : min count bufLen ≤ 1 := le_trans (Nat.min_le_left _ _) h1
    have hmin : min count bufLen = count := Nat.min_eq_left (by omega)
    obtain ⟨hrun, hbusy, _⟩ := polled_write_bytes_idle P bufLen buf count hold s hs
      (min count bufLen) hN
    simp only [hle, if_true] at hrun hbusy
    obtain ⟨_, w2, w3⟩ := wbytes_final_spec P s (min count bufLen) hold
      (fun i => if i < min count bufLen then buf i else s.readWriteBuffer i) 1
    refine ⟨hbusy, by rw [hrun]; rfl, ?_, ?_⟩
    · rw [hrun, w2, hmin]
      have h1' : ¬ (1 < count) := by omega
      simp [List.range_succ, h1']
    · rw [hrun, w3]
      intro i hi
      rcases List.mem_append.mp hi with h | h
      · exact lt_of_lt_of_le (List.mem_range.mp h) hNle
      · have := List.mem_range.mp h
        omega

/-- Witness of C24 at the failing input: a polled read of 0 bytes with a
buffer of 9 bytes stores at index 9. -/
theorem polled_bytes_index_safety_witness :
    (construct linePlatform (loopback [])).poll_status = 0 ∧ 9 ≤ 9 ∧ 0 < 256 ∧
    9 ∈ bufIndices ((polls linePlatform 2048
      (polled_read_bytes linePlatform 9 0 (construct linePlatform (loopback [])))).calls.drop
      (construct linePlatform (loopback [])).calls.length) :=
  ⟨rfl, by decide, by decide,
    ((polled_bytes_index_safety linePlatform 9 (fun _ => 0) 0 false
      (construct linePlatform (loopback [])) rfl (by decide) (by decide)).2.1 rfl).2.2.2.2
      (by decide)⟩

/-! ## The search does not read a stale address buffer

With `LastDiscrepancy = 0` no round of the search consults `ROM_NO`; a search
run keeps everything but `ROM_NO` apart from what `ROM_NO` held before. -/

theorem read_bit_setRom (P : Platform σ) (r : Nat → Nat) (s : OneWire σ) :
    read_bit P (setRom r s) = ((read_bit P s).1, setRom r (read_bit P s).2) := rfl

theorem write_bit_setRom (P : Platform σ) (v : Nat) (r : Nat → Nat) (s : OneWire σ) :
    write_bit P v (setRom r s) = setRom r (write_bit P v s) := by
  unfold write_bit
  split <;> rfl

theorem reset_setRom (P : Platform σ) (r : Nat → Nat) (s : OneWire σ) :
    reset P (setRom r s) = ((reset P s).1, setRom r (reset P s).2) := by
  rcases hw : reset_wait P 125
    (runActs P [Act.noInterrupts, Act.modeInput, Act.interrupts] s.hw) with ⟨b, h1⟩
  cases b
  · rw [reset_of_wait_false P s h1 hw, reset_of_wait_false P (setRom r s) h1 hw]
    rfl
  · rw [reset_of_wait_true P s h1 hw, reset_of_wait_true P (setRom r s) h1 hw]
    rfl

theorem write_setRom (P : Platform σ) (v : Nat) (r : Nat → Nat) (s : OneWire σ) :
    write P v 0 (setRom r s) = setRom r (write P v 0 s) := by
  unfold write
  rw [write_loop_unroll, write_loop_unroll]
  simp only [write_bit_setRom]
  rfl

theorem search_choose_setRom (id_bit cmp_id_bit : Nat) (l : SearchLocals) (r : Nat → Nat)
    (s : OneWire σ) (hLD : s.LastDiscrepancy = 0) :
    search_choose id_bit cmp_id_bit l (setRom r s) =
      ((search_choose id_bit cmp_id_bit l s).1, (search_choose id_bit cmp_id_bit l s).2.1,
        setRom r (search_choose id_bit cmp_id_bit l s).2.2) := by
  cases s
  simp only at hLD
  subst hLD
  unfold search_choose
  simp only [setRom, Nat.not_lt_zero, if_false]
  split_ifs <;> rfl

theorem search_choose_frame (id_bit cmp_id_bit : Nat) (l : SearchLocals) (s : OneWire σ) :
    (search_choose id_bit cmp_id_bit l s).2.1 =
      { l with last_zero := (search_choose id_bit cmp_id_bit l s).2.1.last_zero } ∧
    (search_choose id_bit cmp_id_bit l s).2.2 =
      { s with
        LastFamilyDiscrepancy :=
          (search_choose id_bit cmp_id_bit l s).2.2.LastFamilyDiscrepancy } := by
  unfold search_choose
  simp only
  split_ifs <;> exact ⟨rfl, rfl⟩

theorem search_store_setRom (dir : Nat) (l : SearchLocals) (r : Nat → Nat) (s : OneWire σ) :
    search_store dir l (setRom r s) =
      setRom (search_store dir l (setRom r s)).ROM_NO (search_store dir l s) := by
  unfold search_store
  split <;> rfl

theorem search_loop_succ (P : Platform σ) (fuel : Nat) (l : SearchLocals) (s : OneWire σ) :
    search_loop P (fuel + 1) l s =
      if (read_bit P s).1 = 1 ∧ (read_bit P (read_bit P s).2).1 = 1 then
        (l, (read_bit P (read_bit P s).2).2)
      else if (search_advance (search_choose (read_bit P s).1
          (read_bit P (read_bit P s).2).1 l (read_bit P (read_bit P s).2).2).2.1).rom_byte_number
          < 8 then
        search_loop P fuel
          (search_advance (search_choose (read_bit P s).1
            (read_bit P (read_bit P s).2).1 l (read_bit P (read_bit P s).2).2).2.1)
          (write_bit P (search_choose (read_bit P s).1
              (read_bit P (read_bit P s).2).1 l (read_bit P (read_bit P s).2).2).1
            (search_store (search_choose (read_bit P s).1
                (read_bit P (read_bit P s).2).1 l (read_bit P (read_bit P s).2).2).1
              (search_choose (read_bit P s).1
                (read_bit P (read_bit P s).2).1 l (read_bit P (read_bit P s).2).2).2.1
              (search_choose (read_bit P s).1
                (read_bit P (read_bit P s).2).1 l (read_bit P (read_bit P s).2).2).2.2))
      else
        (search_advance (search_choose (read_bit P s).1
            (read_bit P (read_bit P s).2).1 l (read_bit P (read_bit P s).2).2).2.1,
          write_bit P (search_choose (read_bit P s).1
              (read_bit P (read_bit P s).2).1 l (read_bit P (read_bit P s).2).2).1
            (search_store (search_choose (read_bit P s).1
                (read_bit P (read_bit P s).2).1 l (read_bit P (read_bit P s).2).2).1
              (search_choose (read_bit P s).1
                (read_bit P (read_bit P s).2).1 l (read_bit P (read_bit P s).2).2).2.1
              (search_choose (read_bit P s).1
                (read_bit P (read_bit P s).2).1 l (read_bit P (read_bit P s).2).2).2.2)) := rfl

/-- Bytes with the same 64 bits are the same bytes. -/
theorem rom_bytes_eq_of_bits (r r' : Nat → Nat) (hr : ∀ i, r i < 256) (hr' : ∀ i, r' i < 256)
    (h : ∀ j < 64, romBit r j = romBit r' j) : ∀ i < 8, r i = r' i := by
  intro i hi
  apply Nat.eq_of_testBit_eq
  intro b
  by_cases hb : b < 8
  · have := h (8 * i + b) (by omega)
    unfold romBit at this
    rw [show (8 * i + b) / 8 = i by omega, show (8 * i + b) % 8 = b by omega] at this
    exact this
  · have e : ∀ x : Nat, x < 256 → x.testBit b = false := fun x hx =>
      Nat.testBit_lt_two_pow (lt_of_lt_of_le hx
        (by rw [show (256 : Nat) = 2 ^ 8 by rfl]
            exact Nat.pow_le_pow_right (by decide) (by omega)))
    rw [e _ (hr i), e _ (hr' i)]
/-- The loop of `search` with `LastDiscrepancy = 0` on two objects that differ
only in `ROM_NO`: the same rounds, the same locals, and objects that again
differ only in `ROM_NO`, where the bits written so far agree. -/
theorem search_loop_setRom (P : Platform σ) : ∀ (fuel k lz : Nat) (s : OneWire σ)
    (r' : Nat → Nat), k < 64 → s.LastDiscrepancy = 0 → (∀ i, s.ROM_NO i < 256) →
    (∀ i, r' i < 256) → (∀ j < k, romBit r' j = romBit s.ROM_NO j) →
    ∃ r'' : Nat → Nat,
      search_loop P fuel
        { id_bit_number := k + 1, last_zero := lz, rom_byte_number := k / 8,
          rom_byte_mask := 2 ^ (k % 8) } (setRom r' s) =
        ((search_loop P fuel
          { id_bit_number := k + 1, last_zero := lz, rom_byte_number := k / 8,
            rom_byte_mask := 2 ^ (k % 8) } s).1,
         setRom r'' (search_loop P fuel
          { id_bit_number := k + 1, last_zero := lz, rom_byte_number := k / 8,
            rom_byte_mask := 2 ^ (k % 8) } s).2) ∧
      (∀ i, r'' i < 256) ∧
      (∀ i, (search_loop P fuel
          { id_bit_number := k + 1, last_zero := lz, rom_byte_number := k / 8,
            rom_byte_mask := 2 ^ (k % 8) } s).2.ROM_NO i < 256) ∧
      (∀ j, j + 1 < (search_loop P fuel
          { id_bit_number := k + 1, last_zero := lz, rom_byte_number := k / 8,
            rom_byte_mask := 2 ^ (k % 8) } s).1.id_bit_number →
        romBit r'' j = romBit (search_loop P fuel
          { id_bit_number := k + 1, last_zero := lz, rom_byte_number := k / 8,
            rom_byte_mask := 2 ^ (k % 8) } s).2.ROM_NO j) := by
  intro fuel
  induction fuel with
  | zero =>
    intro k lz s r' _ _ hs hr hag
    exact ⟨r', rfl, hr, hs, fun j hj => hag j (Nat.lt_of_succ_lt_succ hj)⟩
  | succ fuel ih =>
    intro k lz s r' hk hLD hs hr hag
    rw [search_loop_succ, search_loop_succ]
    simp only [read_bit_setRom]
    have hs2LD : (read_bit P (read_bit P s).2).2.LastDiscrepancy = 0 := hLD
    rw [search_choose_setRom _ _ _ _ _ hs2LD]
    by_cases h11 : (read_bit P s).1 = 1 ∧ (read_bit P (read_bit P s).2).1 = 1
    · rw [if_pos h11, if_pos h11]
      exact ⟨r', rfl, hr, hs, fun j hj => hag j (Nat.lt_of_succ_lt_succ hj)⟩
    · rw [if_neg h11, if_neg h11]
      obtain ⟨hC1, hC2⟩ := search_choose_frame (read_bit P s).1
        (read_bit P (read_bit P s).2).1
        { id_bit_number := k + 1, last_zero := lz, rom_byte_number := k / 8,
          rom_byte_mask := 2 ^ (k % 8) } (read_bit P (read_bit P s).2).2
      generalize search_choose (read_bit P s).1 (read_bit P (read_bit P s).2).1
        { id_bit_number := k + 1, last_zero := lz, rom_byte_number := k / 8,
          rom_byte_mask := 2 ^ (k % 8) } (read_bit P (read_bit P s).2).2 = c at hC1 hC2 ⊢
      have hcrom : c.2.2.ROM_NO = s.ROM_NO := by rw [hC2]; rfl
      have hcLD : c.2.2.LastDiscrepancy = 0 := by rw [hC2]; exact hLD
      generalize c.2.1.last_zero = z' at hC1
      simp only at hC1
      rw [hC1, search_advance_counters k z' hk, search_store_setRom, write_bit_setRom]
      have hcs : ∀ i, c.2.2.ROM_NO i < 256 := by rw [hcrom]; exact hs
      obtain ⟨p1, p2, p3⟩ := search_store_spec c.1 k z' c.2.2 hcs
      obtain ⟨q1, q2, _⟩ := search_store_spec c.1 k z' (setRom r' c.2.2) hr
      have hagree : ∀ j < k + 1,
          romBit (search_store c.1
            { id_bit_number := k + 1, last_zero := z', rom_byte_number := k / 8,
              rom_byte_mask := 2 ^ (k % 8) } (setRom r' c.2.2)).ROM_NO j =
          romBit (search_store c.1
            { id_bit_number := k + 1, last_zero := z', rom_byte_number := k / 8,
              rom_byte_mask := 2 ^ (k % 8) } c.2.2).ROM_NO j := by
        intro j hj
        rw [p1 j, q1 j]
        by_cases hjk : j = k
        · rw [if_pos hjk, if_pos hjk]
        · rw [if_neg hjk, if_neg hjk, hcrom]
          exact hag j (by omega)
      have hWLD : (write_bit P c.1 (search_store c.1
          { id_bit_number := k + 1, last_zero := z', rom_byte_number := k / 8,
            rom_byte_mask := 2 ^ (k % 8) } c.2.2)).LastDiscrepancy = 0 := by
        rw [write_bit_eq, p3]; exact hcLD
      have hWrom : (write_bit P c.1 (search_store c.1
          { id_bit_number := k + 1, last_zero := z', rom_byte_number := k / 8,
            rom_byte_mask := 2 ^ (k % 8) } c.2.2)).ROM_NO =
          (search_store c.1
            { id_bit_number := k + 1, last_zero := z', rom_byte_number := k / 8,
              rom_byte_mask := 2 ^ (k % 8) } c.2.2).ROM_NO := by
        rw [write_bit_eq]
      by_cases hb : (k + 1) / 8 < 8
      · simp only [hb, if_true]
        obtain ⟨r'', e, b1, b2, b3⟩ := ih (k + 1) z' _ _ (by omega) hWLD
          (by rw [hWrom]; exact p2) q2 (by rw [hWrom]; exact hagree)
        exact ⟨r'', e, b1, b2, b3⟩
      · simp only [hb, if_false]
        refine ⟨_, rfl, q2, by rw [hWrom]; exact p2, ?_⟩
        intro j hj
        rw [hWrom]
        exact hagree j (by simpa using hj)
/-- Writing the search command changes the line and the call trace only. -/
theorem write_F0_frame (P : Platform σ) (s : OneWire σ) :
    (write P 0xF0 0 s).ROM_NO = s.ROM_NO ∧
    (write P 0xF0 0 s).LastDiscrepancy = s.LastDiscrepancy := by
  rw [write_F0_unroll, release_line_eq]
  simp only [write_bit_eq]
  constructor <;> first | rfl | trivial

/-- The start of a search that runs changes the line and the call trace only. -/
theorem search_prologue_frame (P : Platform σ) (s : OneWire σ) :
    (write P 0xF0 0 (reset P s).2).ROM_NO = s.ROM_NO ∧
    (write P 0xF0 0 (reset P s).2).LastDiscrepancy = s.LastDiscrepancy := by
  obtain ⟨h1, h2⟩ := write_F0_frame P (reset P s).2
  rw [h1, h2, reset_frame]
  exact ⟨rfl, rfl⟩

/-- The loop of `search` keeps every byte of `ROM_NO` below 256. -/
theorem search_loop_bytes (P : Platform σ) : ∀ (fuel k lz : Nat) (s : OneWire σ),
    k < 64 → (∀ i, s.ROM_NO i < 256) →
    ∀ i, (search_loop P fuel
      { id_bit_number := k + 1, last_zero := lz, rom_byte_number := k / 8,
        rom_byte_mask := 2 ^ (k % 8) } s).2.ROM_NO i < 256 := by
  intro fuel
  induction fuel with
  | zero =>
    intro k lz s _ hs
    exact hs
  | succ fuel ih =>
    intro k lz s hk hs
    rw [search_loop_succ]
    by_cases h11 : (read_bit P s).1 = 1 ∧ (read_bit P (read_bit P s).2).1 = 1
    · rw [if_pos h11]
      exact hs
    · rw [if_neg h11]
      obtain ⟨hC1, hC2⟩ := search_choose_frame (read_bit P s).1
        (read_bit P (read_bit P s).2).1
        { id_bit_number := k + 1, last_zero := lz, rom_byte_number := k / 8,
          rom_byte_mask := 2 ^ (k % 8) } (read_bit P (read_bit P s).2).2
      generalize search_choose (read_bit P s).1 (read_bit P (read_bit P s).2).1
        { id_bit_number := k + 1, last_zero := lz, rom_byte_number := k / 8,
          rom_byte_mask := 2 ^ (k % 8) } (read_bit P (read_bit P s).2).2 = c at hC1 hC2 ⊢
      have hcrom : c.2.2.ROM_NO = s.ROM_NO := by rw [hC2]; rfl
      generalize c.2.1.last_zero = z' at hC1
      simp only at hC1
      rw [hC1, search_advance_counters k z' hk]
      have hcs : ∀ i, c.2.2.ROM_NO i < 256 := by rw [hcrom]; exact hs
      obtain ⟨_, p2, _⟩ := search_store_spec c.1 k z' c.2.2 hcs
      have hWrom : (write_bit P c.1 (search_store c.1
          { id_bit_number := k + 1, last_zero := z', rom_byte_number := k / 8,
            rom_byte_mask := 2 ^ (k % 8) } c.2.2)).ROM_NO =
          (search_store c.1
            { id_bit_number := k + 1, last_zero := z', rom_byte_number := k / 8,
              rom_byte_mask := 2 ^ (k % 8) } c.2.2).ROM_NO := by
        rw [write_bit_eq]
      by_cases hb : (k + 1) / 8 < 8
      · simp only [hb, if_true]
        exact ih (k + 1) z' _ (by omega) (by rw [hWrom]; exact p2)
      · simp only [hb, if_false]
        rw [hWrom]
        exact p2

/-- The form of `search` when the enumeration is not exhausted and the reset
finds a device. -/
theorem search_ran_eq (P : Platform σ) (newAddr : Nat → Nat) (s : OneWire σ)
    (hf : s.LastDeviceFlag = false) (hr : (reset P s).1 ≠ 0) :
    search P newAddr s =
      if ¬ ((search_loop P 64
          { id_bit_number := 0 + 1, last_zero := 0, rom_byte_number := 0 / 8,
            rom_byte_mask := 2 ^ (0 % 8) } (write P 0xF0 0 (reset P s).2)).1.id_bit_number
          < 65) then
        search_finish 1 newAddr
          (if (search_loop P 64
              { id_bit_number := 0 + 1, last_zero := 0, rom_byte_number := 0 / 8,
                rom_byte_mask := 2 ^ (0 % 8) } (write P 0xF0 0 (reset P s).2)).1.last_zero = 0
           then
            { (search_loop P 64
                { id_bit_number := 0 + 1, last_zero := 0, rom_byte_number := 0 / 8,
                  rom_byte_mask := 2 ^ (0 % 8) } (write P 0xF0 0 (reset P s).2)).2 with
              LastDiscrepancy := (search_loop P 64
                { id_bit_number := 0 + 1, last_zero := 0, rom_byte_number := 0 / 8,
                  rom_byte_mask := 2 ^ (0 % 8) } (write P 0xF0 0 (reset P s).2)).1.last_zero
              LastDeviceFlag := true }
           else
            { (search_loop P 64
                { id_bit_number := 0 + 1, last_zero := 0, rom_byte_number := 0 / 8,
                  rom_byte_mask := 2 ^ (0 % 8) } (write P 0xF0 0 (reset P s).2)).2 with
              LastDiscrepancy := (search_loop P 64
                { id_bit_number := 0 + 1, last_zero := 0, rom_byte_number := 0 / 8,
                  rom_byte_mask := 2 ^ (0 % 8) } (write P 0xF0 0 (reset P s).2)).1.last_zero })
      else
        search_finish 0 newAddr (search_loop P 64
          { id_bit_number := 0 + 1, last_zero := 0, rom_byte_number := 0 / 8,
            rom_byte_mask := 2 ^ (0 % 8) } (write P 0xF0 0 (reset P s).2)).2 := by
  unfold search
  simp only [hf, Bool.not_false, if_true, hr, if_false]
  rfl

/-- Every call of `search` keeps the bytes of `ROM_NO` below 256. -/
theorem search_bytes (P : Platform σ) (newAddr : Nat → Nat) (s : OneWire σ)
    (hs : ∀ i, s.ROM_NO i < 256) : ∀ i, (search P newAddr s).2.2.ROM_NO i < 256 := by
  by_cases hf : s.LastDeviceFlag = true
  · rw [search_exhausted P newAddr s hf, search_finish_zero]
    exact hs
  · have hf' : s.LastDeviceFlag = false := by simpa using hf
    by_cases hr : (reset P s).1 = 0
    · rw [search_reset_failed P newAddr s hf' hr]
      show ∀ i, (reset P s).2.ROM_NO i < 256
      rw [reset_frame]
      exact hs
    · have hl := search_loop_bytes P 64 0 0 (write P 0xF0 0 (reset P s).2) (by decide)
        (by rw [(search_prologue_frame P s).1]; exact hs)
      rw [search_ran_eq P newAddr s hf' hr]
      generalize search_loop P 64
        { id_bit_number := 0 + 1, last_zero := 0, rom_byte_number := 0 / 8,
          rom_byte_mask := 2 ^ (0 % 8) } (write P 0xF0 0 (reset P s).2) = T at hl ⊢
      by_cases hid : T.1.id_bit_number < 65
      · rw [if_neg (not_not.mpr hid), search_finish_zero]
        exact hl
      · rw [if_pos hid, search_finish_one]
        by_cases hz : T.1.last_zero = 0
        · rw [if_pos hz]
          split <;> exact hl
        · rw [if_neg hz]
          split <;> exact hl

/-- A call of `search` that returns 0 leaves the three counters reset. -/
theorem search_failed_counters (P : Platform σ) (newAddr : Nat → Nat) (s : OneWire σ)
    (h : (search P newAddr s).1 = 0) :
    (search P newAddr s).2.2.LastDiscrepancy = 0 ∧
    (search P newAddr s).2.2.LastDeviceFlag = false ∧
    (search P newAddr s).2.2.LastFamilyDiscrepancy = 0 := by
  by_cases hf : s.LastDeviceFlag = true
  · rw [search_exhausted P newAddr s hf, search_finish_zero]
    exact ⟨rfl, rfl, rfl⟩
  · have hf' : s.LastDeviceFlag = false := by simpa using hf
    by_cases hr : (reset P s).1 = 0
    · rw [search_reset_failed P newAddr s hf' hr]
      exact ⟨rfl, rfl, rfl⟩
    · obtain ⟨r, t, hrt, e⟩ := search_ran P newAddr s hf' hr
      rw [e] at h ⊢
      rcases hrt with rfl | rfl
      · rw [search_finish_zero]
        exact ⟨rfl, rfl, rfl⟩
      · rw [search_finish_one] at h ⊢
        by_cases h0 : t.ROM_NO 0 = 0
        · rw [if_pos h0]
          exact ⟨rfl, rfl, rfl⟩
        · rw [if_neg h0] at h
          exact absurd h Nat.one_ne_zero

/-- On a state whose counters are already reset, `reset_search` only replaces
the eight bytes of `ROM_NO` by zeros. -/
theorem reset_search_eq_setRom (s : OneWire σ) (h1 : s.LastDiscrepancy = 0)
    (h2 : s.LastDeviceFlag = false) (h3 : s.LastFamilyDiscrepancy = 0) :
    reset_search s = setRom (fun i => if i < 8 then 0 else s.ROM_NO i) s := by
  cases s
  simp only at h1 h2 h3
  subst h1 h2 h3
  rfl
/-- The epilogue of `search` on two objects that differ only in `ROM_NO`, with
the same eight address bytes. -/
theorem search_finish_setRom (res : Nat) (newAddr : Nat → Nat) (r : Nat → Nat)
    (t : OneWire σ) (hb : ∀ i < 8, r i = t.ROM_NO i) :
    search_finish res newAddr (setRom r t) =
      ((search_finish res newAddr t).1, (search_finish res newAddr t).2.1,
        setRom r (search_finish res newAddr t).2.2) := by
  have h0 : r 0 = t.ROM_NO 0 := hb 0 (by decide)
  have hfun : (fun i => if i < 8 then r i else newAddr i) =
      (fun i => if i < 8 then t.ROM_NO i else newAddr i) := by
    funext i
    by_cases hi : i < 8
    · rw [if_pos hi, if_pos hi]
      exact hb i hi
    · rw [if_neg hi, if_neg hi]
  unfold search_finish
  simp only [setRom]
  rw [h0, hfun]
  split <;> rfl

/-- A search from reset counters does not depend on the bytes in `ROM_NO`:
replacing them changes neither the value returned nor, when a device is found,
the address reported, and the final objects differ only in `ROM_NO`. -/
theorem search_setRom (P : Platform σ) (newAddr : Nat → Nat) (s : OneWire σ)
    (r' : Nat → Nat) (hLD : s.LastDiscrepancy = 0) (hF : s.LastDeviceFlag = false)
    (hs : ∀ i, s.ROM_NO i < 256) (hr : ∀ i, r' i < 256) :
    (search P newAddr (setRom r' s)).1 = (search P newAddr s).1 ∧
    ((search P newAddr s).1 = 1 →
      (search P newAddr (setRom r' s)).2.1 = (search P newAddr s).2.1) ∧
    ∃ r'' : Nat → Nat,
      (search P newAddr (setRom r' s)).2.2 = setRom r'' (search P newAddr s).2.2 := by
  by_cases hr0 : (reset P s).1 = 0
  · have hr0' : (reset P (setRom r' s)).1 = 0 := by rw [reset_setRom]; exact hr0
    rw [search_reset_failed P newAddr s hF hr0,
      search_reset_failed P newAddr (setRom r' s) hF hr0']
    refine ⟨rfl, fun _ => rfl, r', ?_⟩
    rw [reset_setRom]
    rfl
  · have hr0' : (reset P (setRom r' s)).1 ≠ 0 := by rw [reset_setRom]; exact hr0
    obtain ⟨hW1, hW2⟩ := search_prologue_frame P s
    obtain ⟨r'', e, b1, b2, b3⟩ := search_loop_setRom P 64 0 0
      (write P 0xF0 0 (reset P s).2) r' (by decide) (by rw [hW2]; exact hLD)
      (by rw [hW1]; exact hs) hr (fun j hj => absurd hj (Nat.not_lt_zero j))
    rw [search_ran_eq P newAddr s hF hr0, search_ran_eq P newAddr (setRom r' s) hF hr0']
    simp only [reset_setRom]
    rw [write_setRom, e]
    generalize search_loop P 64
      { id_bit_number := 0 + 1, last_zero := 0, rom_byte_number := 0 / 8,
        rom_byte_mask := 2 ^ (0 % 8) } (write P 0xF0 0 (reset P s).2) = T at b2 b3 ⊢
    by_cases hid : T.1.id_bit_number < 65
    · rw [if_neg (not_not.mpr hid), if_neg (not_not.mpr hid), search_finish_zero,
        search_finish_zero]
      exact ⟨rfl, fun h => absurd h Nat.zero_ne_one, r'', rfl⟩
    · rw [if_pos hid, if_pos hid]
      have hb : ∀ i < 8, r'' i = T.2.ROM_NO i :=
        rom_bytes_eq_of_bits r'' T.2.ROM_NO b1 b2 (fun j hj => b3 j (by omega))
      by_cases hz : T.1.last_zero = 0
      · rw [if_pos hz, if_pos hz]
        have key := search_finish_setRom 1 newAddr r''
          { T.2 with LastDiscrepancy := T.1.last_zero, LastDeviceFlag := true } hb
        exact ⟨congrArg (fun p => p.1) key, fun _ => congrArg (fun p => p.2.1) key, r'',
          congrArg (fun p => p.2.2) key⟩
      · rw [if_neg hz, if_neg hz]
        have key := search_finish_setRom 1 newAddr r''
          { T.2 with LastDiscrepancy := T.1.last_zero } hb
        exact ⟨congrArg (fun p => p.1) key, fun _ => congrArg (fun p => p.2.1) key, r'',
          congrArg (fun p => p.2.2) key⟩

/-- C21. Fresh start after failure: when a call of `search` returns 0, the next
call of `search`, made on the object and the bus as the failed call left them,
returns the same value, reports the same address when it returns 1, and leaves
the same `LastDiscrepancy`, `LastFamilyDiscrepancy` and `LastDeviceFlag` as
the call made after `reset_search` on that same object and bus, whatever bytes
the failed call left in `ROM_NO`. -/
theorem search_fresh_after_failure (P : Platform σ) (a b : Nat → Nat) (s : OneWire σ)
    (hbytes : ∀ i, s.ROM_NO i < 256) (hfail : (search P a s).1 = 0) :
    (search P b (search P a s).2.2).1 = (search P b (reset_search (search P a s).2.2)).1 ∧
    ((search P b (search P a s).2.2).1 = 1 →
      (search P b (search P a s).2.2).2.1 =
        (search P b (reset_search (search P a s).2.2)).2.1) ∧
    (search P b (search P a s).2.2).2.2.LastDiscrepancy =
      (search P b (reset_search (search P a s).2.2)).2.2.LastDiscrepancy ∧
    (search P b (search P a s).2.2).2.2.LastFamilyDiscrepancy =
      (search P b (reset_search (search P a s).2.2)).2.2.LastFamilyDiscrepancy ∧
    (search P b (search P a s).2.2).2.2.LastDeviceFlag =
      (search P b (reset_search (search P a s).2.2)).2.2.LastDeviceFlag := by
  obtain ⟨c1, c2, c3⟩ := search_failed_counters P a s hfail
  have hb1 := search_bytes P a s hbytes
  rw [reset_search_eq_setRom _ c1 c2 c3]
  generalize (search P a s).2.2 = s1 at c1 c2 c3 hb1 ⊢
  obtain ⟨e1, e2, r'', e3⟩ := search_setRom P b s1 (fun i => if i < 8 then 0 else s1.ROM_NO i)
    c1 c2 hb1 (fun i => by
      show (if i < 8 then 0 else s1.ROM_NO i) < 256
      split
      · exact Nat.zero_lt_succ _
      · exact hb1 i)
  rw [e3]
  exact ⟨e1.symm, fun h => (e2 h).symm, rfl, rfl, rfl⟩

set_option maxRecDepth 1000000 in
set_option maxHeartbeats 4000000 in
/-- Witness of C21: the bus with the one device `0x28`. The first search finds
it, the second fails (the enumeration is exhausted) and leaves `0x28` in
`ROM_NO`; the third finds the device again, as it does after `reset_search`. -/
theorem search_fresh_after_failure_witness :
    (search simPlatform (fun _ => 0)
      (search simPlatform (fun _ => 0) (construct simPlatform (simBus [0x28]))).2.2).1 = 0 ∧
    (search simPlatform (fun _ => 0)
      (search simPlatform (fun _ => 0)
        (search simPlatform (fun _ => 0)
          (construct simPlatform (simBus [0x28]))).2.2).2.2).1 =
    (search simPlatform (fun _ => 0)
      (reset_search (search simPlatform (fun _ => 0)
        (search simPlatform (fun _ => 0)
          (construct simPlatform (simBus [0x28]))).2.2).2.2)).1 ∧
    (search simPlatform (fun _ => 0)
      (search simPlatform (fun _ => 0)
        (search simPlatform (fun _ => 0)
          (construct simPlatform (simBus [0x28]))).2.2).2.2).1 = 1 :=
  ⟨by decide,
    (search_fresh_after_failure simPlatform (fun _ => 0) (fun _ => 0)
      (search simPlatform (fun _ => 0) (construct simPlatform (simBus [0x28]))).2.2
      (search_bytes simPlatform (fun _ => 0) (construct simPlatform (simBus [0x28]))
        (fun i => by
          show (if i < 8 then 0 else 0) < 256
          split <;> exact Nat.zero_lt_succ _))
      (by decide)).1,
    by decide⟩

end PolledOneWire
